import Mathlib

/-!
# Ray/scene intersection engine: BVH construction, BVH traversal, scene dispatcher

A shallow embedding of `src/assignment01/src/common/intersect.h` (and of the
sibling variants of that header), of the path tracer `04_pathtrace.cpp` of
`assignment04`, of the ray tracer `01_raytrace.cpp` of the final project, of
the stand-alone ray tracer of `YuanT_assignment01-3`, and of the functions of
`02_model.cpp` (normal smoothing, subdivision of Bezier splines) and of
`03_animate.cpp` (keyframe lookup) that the statements are about, together with
theorems about them.

Conventions of the embedding

* `float` values are rationals (`ℚ`).  The definitions without the prefix
  `rounded.` compute in exact arithmetic; the statements about them are about
  the comparisons and the control flow of the code on the values it has
  computed.  Where a statement depends on the rounding of the float
  operations (the slab test, the triangle solvers, the builder of the BVH, the
  traversal, the mesh loops of `intersect(scene, ray)`, the subdivision of
  Bezier splines) the code is embedded a second time with every arithmetic
  operation followed by a rounding function `fl : ℚ → ℚ`, under the prefix
  `rounded.`; the program is the instance `fl = round32` (binary32, round to
  nearest, ties to even).
* `int` indices are natural numbers; no index of the code is ever negative.
  An `int` that can be negative (a texel index before it is clamped or
  wrapped, a key time) is an integer.
* Where the code divides by a quantity that may be zero and then keeps
  computing with the result (the slab test `intersect_bbox`, the triangle
  solver of the final submission, the solvers of the stand-alone ray tracer,
  the quotient of `get_keyframe_details`) the IEEE-754 special values (`±inf`,
  `NaN`) are modelled explicitly through `xfloat`.  Everywhere else division
  is the exact division of `ℚ`; `intersect_cylinder` is embedded both ways.
* Mutable arguments (`vector<...>&`) are passed in and returned.
* `vmath.h`, `scene.h`, `<algorithm>` and `<cmath>` are not part of the sources;
  what the code uses from them is either modelled (linear algebra, ranges) or
  taken as a parameter (`std::sort`, `sqrt`, `atan2`, `acos`).
* A closure that writes a record it captured by reference is a function from
  that record to that record.
* The recursive renderers are written as a body whose recursive calls are a
  parameter, and a function that unfolds the body to a given nesting (`fuel`);
  what they write (the random generator, the globals `_min` and `_max`) is
  passed in and returned.  What they use of `montecarlo.h` and of the scene
  intersection of their own application is a parameter (`render_deps`).
-/

namespace CG

/-! ## Vectors -/

/-- Two floats (`vec2f`). -/
structure vec2f where
  x : ℚ
  y : ℚ
deriving DecidableEq

/-- Three floats (`vec3f`). -/
structure vec3f where
  x : ℚ
  y : ℚ
  z : ℚ
deriving DecidableEq

/-- Three ints (`vec3i`), the vertex indices of a triangle. -/
structure vec3i where
  x : Nat
  y : Nat
  z : Nat
deriving DecidableEq

/-- Four ints (`vec4i`), the vertex indices of a quad. -/
structure vec4i where
  x : Nat
  y : Nat
  z : Nat
  w : Nat
deriving DecidableEq

def zero2f : vec2f := ⟨0, 0⟩
def zero3f : vec3f := ⟨0, 0, 0⟩
def z3f : vec3f := ⟨0, 0, 1⟩

namespace vec3f

/-- Component access `v[i]`. -/
def get (v : vec3f) (i : Nat) : ℚ :=
  match i with
  | 0 => v.x
  | 1 => v.y
  | _ => v.z

def add (a b : vec3f) : vec3f := ⟨a.x + b.x, a.y + b.y, a.z + b.z⟩
def sub (a b : vec3f) : vec3f := ⟨a.x - b.x, a.y - b.y, a.z - b.z⟩
def neg (a : vec3f) : vec3f := ⟨-a.x, -a.y, -a.z⟩
def smul (a : vec3f) (s : ℚ) : vec3f := ⟨a.x * s, a.y * s, a.z * s⟩
def sdiv (a : vec3f) (s : ℚ) : vec3f := ⟨a.x / s, a.y / s, a.z / s⟩

instance : Add vec3f := ⟨add⟩
instance : Sub vec3f := ⟨sub⟩
instance : Neg vec3f := ⟨neg⟩

end vec3f

namespace vec2f

def add (a b : vec2f) : vec2f := ⟨a.x + b.x, a.y + b.y⟩
def smul (s : ℚ) (a : vec2f) : vec2f := ⟨s * a.x, s * a.y⟩

instance : Add vec2f := ⟨add⟩

end vec2f

def dot (a b : vec3f) : ℚ := a.x * b.x + a.y * b.y + a.z * b.z

def cross (a b : vec3f) : vec3f :=
  ⟨a.y * b.z - a.z * b.y, a.z * b.x - a.x * b.z, a.x * b.y - a.y * b.x⟩

def lengthSqr (a : vec3f) : ℚ := dot a a

/-- Componentwise minimum of two points. -/
def vmin (a b : vec3f) : vec3f := ⟨min a.x b.x, min a.y b.y, min a.z b.z⟩

/-- Componentwise maximum of two points. -/
def vmax (a b : vec3f) : vec3f := ⟨max a.x b.x, max a.y b.y, max a.z b.z⟩

/-- The functions of `<cmath>` (and the constant `pif` of `vmath.h`) that the
code calls and that have no exact rational counterpart.  They are parameters of
the embedding. -/
structure libm where
  sqrt : ℚ → ℚ
  atan2 : ℚ → ℚ → ℚ
  acos : ℚ → ℚ
  pif : ℚ

def length (m : libm) (a : vec3f) : ℚ := m.sqrt (lengthSqr a)

def normalize (m : libm) (a : vec3f) : vec3f := a.sdiv (length m a)

def fabs (a : ℚ) : ℚ := if a < 0 then -a else a

/-! ## Frames -/

/-- Modelled from the spec: `frame3f` of `vmath.h` (not among the sources), "a
local-to-world frame (orthonormal basis + origin)". -/
structure frame3f where
  o : vec3f
  x : vec3f
  y : vec3f
  z : vec3f
deriving DecidableEq

/-- Modelled from the spec: local-to-world transform of a point. -/
def transform_point (f : frame3f) (v : vec3f) : vec3f :=
  f.o + f.x.smul v.x + f.y.smul v.y + f.z.smul v.z

/-- Modelled from the spec: local-to-world transform of a direction. -/
def transform_vector (f : frame3f) (v : vec3f) : vec3f :=
  f.x.smul v.x + f.y.smul v.y + f.z.smul v.z

/-- Modelled from the spec: local-to-world transform of a normal (a unit
direction). -/
def transform_normal (m : libm) (f : frame3f) (v : vec3f) : vec3f :=
  normalize m (transform_vector f v)

/-- Modelled from the spec: world-to-local transform of a point "by the
frame's inverse". -/
def transform_point_inverse (f : frame3f) (v : vec3f) : vec3f :=
  ⟨dot (v - f.o) f.x, dot (v - f.o) f.y, dot (v - f.o) f.z⟩

/-- Modelled from the spec: world-to-local transform of a direction. -/
def transform_vector_inverse (f : frame3f) (v : vec3f) : vec3f :=
  ⟨dot v f.x, dot v f.y, dot v f.z⟩

/-! ## Bounding boxes -/

/-- Largest finite `float` (`FLT_MAX`). -/
def flt_max : ℚ := 340282346638528859811704183484516925440

/-- Modelled from the spec: `range3f` of `vmath.h`, an "axis-aligned min/max
corner pair". -/
structure range3f where
  min : vec3f
  max : vec3f
deriving DecidableEq

/-- Modelled from the spec: the default-constructed range `range3f()`, the
empty box, whose corners are inverted so that a union with it yields the other
operand. -/
def range3f.init : range3f :=
  ⟨⟨flt_max, flt_max, flt_max⟩, ⟨-flt_max, -flt_max, -flt_max⟩⟩

/-- Modelled from the spec: the union of two boxes. -/
def runion (a b : range3f) : range3f := ⟨vmin a.min b.min, vmax a.max b.max⟩

/-- Modelled from the spec: the centre of a box. -/
def center (a : range3f) : vec3f := (a.min + a.max).sdiv 2

/-- Modelled from the spec: the extent of a box. -/
def size (a : range3f) : vec3f := a.max - a.min

/-- Modelled from the spec: "inflate by epsilon", the box scaled about its
centre by the factor `s`. -/
def rscale (a : range3f) (s : ℚ) : range3f :=
  ⟨center a - (size a).smul (s / 2), center a + (size a).smul (s / 2)⟩

/-- Modelled from the spec: the bounding box of a list of points
(`make_range3f`). -/
def make_range3f (ps : List vec3f) : range3f :=
  ps.foldl (fun b p => ⟨vmin b.min p, vmax b.max p⟩) range3f.init

/-- A point lies inside a box (boundary included). -/
def range3f.contains (b : range3f) (p : vec3f) : Prop :=
  b.min.x ≤ p.x ∧ p.x ≤ b.max.x ∧ b.min.y ≤ p.y ∧ p.y ≤ b.max.y ∧
    b.min.z ≤ p.z ∧ p.z ≤ b.max.z

instance (b : range3f) (p : vec3f) : Decidable (b.contains p) := by
  unfold range3f.contains; infer_instance

/-- Box `a` lies inside box `b`: the corners of `a` are within those of `b`. -/
def range3f.subset (a b : range3f) : Prop :=
  b.min.x ≤ a.min.x ∧ a.max.x ≤ b.max.x ∧ b.min.y ≤ a.min.y ∧ a.max.y ≤ b.max.y ∧
    b.min.z ≤ a.min.z ∧ a.max.z ≤ b.max.z

instance (a b : range3f) : Decidable (a.subset b) := by
  unfold range3f.subset; infer_instance

/-! ## Rays and intersection records -/

def ray3f_epsilon : ℚ := 5 / 10000
def ray3f_rayinf : ℚ := 1000000

/-- The ray `ray3f`. -/
structure ray3f where
  e : vec3f
  d : vec3f
  tmin : ℚ
  tmax : ℚ
deriving DecidableEq

/-- The method `ray3f::eval`. -/
def ray3f.eval (r : ray3f) (t : ℚ) : vec3f := r.e + r.d.smul t

def transform_ray_inverse (f : frame3f) (v : ray3f) : ray3f :=
  ⟨transform_point_inverse f v.e, transform_vector_inverse f v.d, v.tmin, v.tmax⟩

/-- The record `intersection3f`.  `mat` is the `Material*` of the hit, an
address. -/
structure intersection3f where
  hit : Bool
  ray_t : ℚ
  pos : vec3f
  norm : vec3f
  texcoord : vec2f
  mat : Nat
deriving DecidableEq

/-- The constructor `intersection3f()`: only `hit` is set (to false); the
fields the constructor leaves uninitialised are zero here. -/
def intersection3f.init : intersection3f :=
  ⟨false, 0, zero3f, zero3f, zero2f, 0⟩

/-! ## The slab test -/

/-- A float that may be one of the IEEE-754 special values.  The slab test
divides by the components of the ray direction, which are zero for
axis-parallel rays; the quotient is then infinite and its product with a zero
difference is `NaN`.  Zero is unsigned here (`+0`). -/
inductive xfloat where
  | fin (q : ℚ)
  | pinf
  | ninf
  | nan
deriving DecidableEq

namespace xfloat

/-- The quotient `a / b` of two finite floats. -/
def div (a b : ℚ) : xfloat :=
  if b = 0 then (if a = 0 then nan else if 0 < a then pinf else ninf) else fin (a / b)

/-- The product of a finite float with a quotient. -/
def mul (a : ℚ) : xfloat → xfloat
  | fin q => fin (a * q)
  | pinf => if a = 0 then nan else if 0 < a then pinf else ninf
  | ninf => if a = 0 then nan else if 0 < a then ninf else pinf
  | nan => nan

/-- The comparison `a < b`; every comparison with `NaN` is false. -/
def lt : xfloat → xfloat → Bool
  | nan, _ => false
  | _, nan => false
  | fin a, fin b => decide (a < b)
  | ninf, ninf => false
  | ninf, _ => true
  | _, ninf => false
  | pinf, _ => false
  | fin _, pinf => true

/-- The comparison `a > b`. -/
def gt (a b : xfloat) : Bool := lt b a

end xfloat

/-- The body of the loop of `intersect_bbox` for the axis `i`, up to the test
`t0 > t1`: the updated `t0` and `t1`.  The quotient, the differences and the
products are exact here; `rounded.slab` is the body with their rounding. -/
def slab (ray : ray3f) (bbox : range3f) (i : Nat) (t0 t1 : xfloat) : xfloat × xfloat :=
  let invRayDir := xfloat.div 1 (ray.d.get i)
  let tNear := xfloat.mul (bbox.min.get i - ray.e.get i) invRayDir
  let tFar := xfloat.mul (bbox.max.get i - ray.e.get i) invRayDir
  let swapped := if tNear.gt tFar then (tFar, tNear) else (tNear, tFar)
  (if swapped.1.gt t0 then swapped.1 else t0, if swapped.2.lt t1 then swapped.2 else t1)

/-- The loop of `intersect_bbox` on the axes still to visit; the result is the
returned flag with `t0` and `t1` as they stand at the return. -/
def intersect_bbox_loop (ray : ray3f) (bbox : range3f) :
    List Nat → xfloat → xfloat → Bool × xfloat × xfloat
  | [], t0, t1 => (true, t0, t1)
  | i :: rest, t0, t1 =>
    let t := slab ray bbox i t0 t1
    if t.1.gt t.2 then (false, t.1, t.2) else intersect_bbox_loop ray bbox rest t.1 t.2

/-- The function `intersect_bbox(ray, bbox, t0, t1)` in exact arithmetic;
`rounded.intersect_bbox` is the function with the rounding of its float
operations. -/
def intersect_bbox (ray : ray3f) (bbox : range3f) : Bool × xfloat × xfloat :=
  intersect_bbox_loop ray bbox [0, 1, 2] (xfloat.fin ray.tmin) (xfloat.fin ray.tmax)

/-- The overload `intersect_bbox(ray, bbox)`, without the bounds. -/
def intersect_bbox_hit (ray : ray3f) (bbox : range3f) : Bool :=
  (intersect_bbox ray bbox).1

/-! ## The BVH -/

def BVHAccelerator_min_prims : Nat := 4
def BVHAccelerator_epsilon : ℚ := ray3f_epsilon
def BVHAccelerator_build_maxaxis : Bool := false

/-- The node `BVHNode`.  `start`/`n0` and `end`/`n1` share their storage (the
anonymous union of the non-Windows build): `start` doubles as `n0`, `end_` as
`n1`. -/
structure BVHNode where
  leaf : Bool
  bbox : range3f
  start : Nat
  end_ : Nat
deriving DecidableEq

/-- The left child of an internal node. -/
def BVHNode.n0 (n : BVHNode) : Nat := n.start

/-- The right child of an internal node. -/
def BVHNode.n1 (n : BVHNode) : Nat := n.end_

/-- The value-initialised node `BVHNode()`: zeroed members and an empty
box. -/
def BVHNode.init : BVHNode := ⟨false, range3f.init, 0, 0⟩

/-- A `std::vector` as the code uses `prims`: `size` is what `size()` returns,
`storage` is the allocated storage.  `reserve` allocates without changing
`size`, and `operator[]` reads and writes the storage without a bounds
check. -/
structure std_vector (α : Type) where
  size : Nat
  storage : List α

namespace std_vector

/-- A default-constructed vector. -/
def init {α : Type} : std_vector α := ⟨0, []⟩

/-- The call `v.reserve(n)`: storage for `n` elements, `size()` unchanged.  The
fresh slots hold `fill`. -/
def reserve {α : Type} (v : std_vector α) (n : Nat) (fill : α) : std_vector α :=
  ⟨v.size, v.storage ++ List.replicate (n - v.storage.length) fill⟩

/-- The assignment `v[i] = a`. -/
def write {α : Type} (v : std_vector α) (i : Nat) (a : α) : std_vector α :=
  ⟨v.size, v.storage.set i a⟩

/-- The read `v[i]`; `none` outside the allocated storage. -/
def read {α : Type} (v : std_vector α) (i : Nat) : Option α := v.storage[i]?

end std_vector

/-- The accelerator `BVHAccelerator`. -/
structure BVHAccelerator where
  prims : std_vector Nat
  nodes : List BVHNode

/-- An element of `boxed_prims`: a box and the index of its primitive. -/
abbrev boxed_prim := range3f × Nat

/-- The signature of `std::sort` on a range of `boxed_prims` with a
comparison. -/
abbrev Sorter := (boxed_prim → boxed_prim → Bool) → List boxed_prim → List boxed_prim

/-- The comparison `center(i.first)[axis] < center(j.first)[axis]`. -/
def center_less (axis : Nat) (i j : boxed_prim) : Bool :=
  decide ((center i.1).get axis < (center j.1).get axis)

/-- What the proofs use of the contract of `std::sort`: called with one of the
comparisons the code passes, it returns a rearrangement of its input. -/
def Sorter.permutes (sort : Sorter) : Prop :=
  ∀ (axis : Nat) (l : List boxed_prim), List.Perm (sort (center_less axis) l) l

/-- A concrete `std::sort`: insertion sort. -/
def insertion_sort : Sorter := fun lt l =>
  l.foldr (fun a acc => acc.takeWhile (fun b => lt b a) ++ a :: acc.dropWhile (fun b => lt b a)) []

/-- The elements of `l` at the positions `[s, e)`. -/
def slice {α : Type} (l : List α) (s e : Nat) : List α := (l.drop s).take (e - s)

/-- The call `std::sort(v.begin()+start, v.begin()+end, lt)`. -/
def sort_range (sort : Sorter) (lt : boxed_prim → boxed_prim → Bool)
    (v : List boxed_prim) (start end_ : Nat) : List boxed_prim :=
  v.take start ++ sort lt (slice v start end_) ++ v.drop end_

/-- The loop `for(auto i : range(start,end)) bbox = runion(bbox, boxed_prims[i].first)`
started from `range3f()`. -/
def union_range (boxed_prims : List boxed_prim) (start end_ : Nat) : range3f :=
  (slice boxed_prims start end_).foldl (fun b p => runion b p.1) range3f.init

/-- The function `make_accelerator_split_kd_tree`: the sorted `boxed_prims` and
the returned `mid`. -/
def make_accelerator_split_kd_tree (sort : Sorter) (boxed_prims : List boxed_prim)
    (start end_ depth : Nat) : List boxed_prim × Nat :=
  let axis := depth % 3
  let mid := (start + end_) / 2
  (sort_range sort (center_less axis) boxed_prims start end_, mid)

/-- One round of the trial loop of `make_accelerator_split`: sort along `a`,
and the summed extents of the two halves. -/
def split_trial (sort : Sorter) (boxed_prims : List boxed_prim) (start end_ a : Nat) :
    List boxed_prim × ℚ :=
  let mid := (start + end_) / 2
  let sorted := sort_range sort (center_less a) boxed_prims start end_
  let bbox0 := union_range sorted start mid
  let bbox1 := union_range sorted mid end_
  let s0 := size bbox0
  let s1 := size bbox1
  (sorted, s0.x + s0.y + s0.z + s1.x + s1.y + s1.z)

/-- The function `make_accelerator_split`: the sorted `boxed_prims` and the
returned `mid`. -/
def make_accelerator_split (sort : Sorter) (boxed_prims : List boxed_prim)
    (start end_ : Nat) (bbox : range3f) (maxaxis : Bool) : List boxed_prim × Nat :=
  if maxaxis then
    let s := size bbox
    let axis := if s.x ≥ s.y ∧ s.x ≥ s.z then 0 else if s.y ≥ s.x ∧ s.y ≥ s.z then 1 else 2
    (sort_range sort (center_less axis) boxed_prims start end_, (start + end_) / 2)
  else
    let r0 := split_trial sort boxed_prims start end_ 0
    let r1 := split_trial sort r0.1 start end_ 1
    let r2 := split_trial sort r1.1 start end_ 2
    let dx := r0.2
    let dy := r1.2
    let dz := r2.2
    let axis := if dx ≤ dy ∧ dx ≤ dz then 0 else if dy ≤ dx ∧ dy ≤ dz then 1 else 2
    (sort_range sort (center_less axis) r2.1 start end_, (start + end_) / 2)

/-- The function `make_accelerator_node`: `boxed_prims` and `nodes` after the
call. -/
def make_accelerator_node (sort : Sorter) (nodeid : Nat) (boxed_prims : List boxed_prim)
    (nodes : List BVHNode) (start end_ : Nat) : List boxed_prim × List BVHNode :=
  let bbox := union_range boxed_prims start end_
  if end_ - start ≤ BVHAccelerator_min_prims then
    (boxed_prims, nodes.set nodeid ⟨true, bbox, start, end_⟩)
  else
    let split := make_accelerator_split sort boxed_prims start end_ bbox BVHAccelerator_build_maxaxis
    let middle := split.2
    let nodes1 := nodes ++ [BVHNode.init]
    let n0 := nodes1.length
    let nodes2 := nodes1 ++ [BVHNode.init]
    let n1 := nodes2.length
    let nodes3 := nodes2 ++ [BVHNode.init]
    let left := make_accelerator_node sort n0 split.1 nodes3 start middle
    let right := make_accelerator_node sort n1 left.1 left.2 middle end_
    (right.1, right.2.set nodeid ⟨false, bbox, n0, n1⟩)
termination_by end_ - start
decreasing_by
  all_goals simp_wf
  all_goals simp only [make_accelerator_split, BVHAccelerator_build_maxaxis]
  all_goals simp only [BVHAccelerator_min_prims] at *
  all_goals simp
  all_goals omega

/-- The function `make_accelerator_node_kd_tree`. -/
def make_accelerator_node_kd_tree (sort : Sorter) (nodeid : Nat)
    (boxed_prims : List boxed_prim) (nodes : List BVHNode) (start end_ depth : Nat) :
    List boxed_prim × List BVHNode :=
  let bbox := union_range boxed_prims start end_
  if end_ - start ≤ BVHAccelerator_min_prims then
    (boxed_prims, nodes.set nodeid ⟨true, bbox, start, end_⟩)
  else
    let split := make_accelerator_split_kd_tree sort boxed_prims start end_ depth
    let middle := split.2
    let nodes1 := nodes ++ [BVHNode.init]
    let n0 := nodes1.length
    let nodes2 := nodes1 ++ [BVHNode.init]
    let n1 := nodes2.length
    let nodes3 := nodes2 ++ [BVHNode.init]
    let left := make_accelerator_node_kd_tree sort n0 split.1 nodes3 start middle (depth + 1)
    let right := make_accelerator_node_kd_tree sort n1 left.1 left.2 middle end_ (depth + 1)
    (right.1, right.2.set nodeid ⟨false, bbox, n0, n1⟩)
termination_by end_ - start
decreasing_by
  all_goals simp_wf
  all_goals simp only [make_accelerator_split_kd_tree]
  all_goals simp only [BVHAccelerator_min_prims] at *
  all_goals omega

/-- The loop of `make_accelerator` that fills `boxed_prims`. -/
def make_boxed_prims (bboxes : List range3f) : List boxed_prim :=
  (List.range bboxes.length).map
    (fun i => (rscale (bboxes.getD i range3f.init) (1 + BVHAccelerator_epsilon), i))

/-- The loop `for(auto i : range(boxed_prims.size())) bvh->prims[i] = boxed_prims[i].second`. -/
def copy_prims (boxed_prims : List boxed_prim) (prims : std_vector Nat) : std_vector Nat :=
  (List.range boxed_prims.length).foldl
    (fun v i => v.write i (boxed_prims.getD i (range3f.init, 0)).2) prims

/-- The function `make_accelerator`. -/
def make_accelerator (sort : Sorter) (bboxes : List range3f) : BVHAccelerator :=
  let boxed_prims := make_boxed_prims bboxes
  let nodes := [BVHNode.init]
  let built := make_accelerator_node sort 0 boxed_prims nodes 0 bboxes.length
  let prims := (std_vector.init : std_vector Nat).reserve bboxes.length 0
  ⟨copy_prims built.1 prims, built.2⟩

/-! ## BVH traversal -/

/-- The body shared by the two loops of the nearest-hit traversal, after the
candidate `sintersection` has been computed: keep the running `intersection`
and the shortened ray `sray`, or replace them. -/
def closest_step (state : intersection3f × ray3f) (sintersection : intersection3f) :
    intersection3f × ray3f :=
  if !sintersection.hit then state
  else if decide (sintersection.ray_t > state.1.ray_t) && state.1.hit then state
  else (sintersection, { state.2 with tmax := sintersection.ray_t })

/-- The leaf loop of the nearest-hit traversal over the positions `idxs` of
`prims`; `none` when a position lies outside the storage of `prims`. -/
def intersect_leaf (prims : std_vector Nat) (intersect_elem : Nat → ray3f → intersection3f) :
    List Nat → intersection3f × ray3f → Option (intersection3f × ray3f)
  | [], state => some state
  | idx :: rest, state =>
    match prims.read idx with
    | none => none
    | some i => intersect_leaf prims intersect_elem rest
        (closest_step state (intersect_elem i state.2))

/-- The leaf loop of the any-hit traversal. -/
def intersect_shadow_leaf (prims : std_vector Nat) (intersect_elem_shadow : Nat → ray3f → Bool)
    (ray : ray3f) : List Nat → Option Bool
  | [] => some false
  | idx :: rest =>
    match prims.read idx with
    | none => none
    | some i =>
      if intersect_elem_shadow i ray then some true
      else intersect_shadow_leaf prims intersect_elem_shadow ray rest

/-- The template `intersect(bvh, nodeid, ray, intersect_elem)`.  The recursion
of the code follows the child indices stored in the node array; `fuel` bounds
its depth, and the result is `none` when the fuel runs out or an index lies
outside its array. -/
def BVHAccelerator.intersect (bvh : BVHAccelerator)
    (intersect_elem : Nat → ray3f → intersection3f) :
    Nat → Nat → ray3f → Option intersection3f
  | 0, _, _ => none
  | fuel + 1, nodeid, ray =>
    match bvh.nodes[nodeid]? with
    | none => none
    | some node =>
      if !intersect_bbox_hit ray node.bbox then some intersection3f.init
      else if node.leaf then
        (intersect_leaf bvh.prims intersect_elem
          (List.range' node.start (node.end_ - node.start)) (intersection3f.init, ray)).map
          Prod.fst
      else
        match BVHAccelerator.intersect bvh intersect_elem fuel node.n0 ray with
        | none => none
        | some s0 =>
          let state := closest_step (intersection3f.init, ray) s0
          match BVHAccelerator.intersect bvh intersect_elem fuel node.n1 state.2 with
          | none => none
          | some s1 => some (closest_step state s1).1

/-- The template `intersect_shadow(bvh, nodeid, ray, intersect_elem_shadow)`,
with `fuel` as in `BVHAccelerator.intersect`. -/
def BVHAccelerator.intersect_shadow (bvh : BVHAccelerator)
    (intersect_elem_shadow : Nat → ray3f → Bool) :
    Nat → Nat → ray3f → Option Bool
  | 0, _, _ => none
  | fuel + 1, nodeid, ray =>
    match bvh.nodes[nodeid]? with
    | none => none
    | some node =>
      if !intersect_bbox_hit ray node.bbox then some false
      else if node.leaf then
        intersect_shadow_leaf bvh.prims intersect_elem_shadow ray
          (List.range' node.start (node.end_ - node.start))
      else
        match BVHAccelerator.intersect_shadow bvh intersect_elem_shadow fuel node.n0 ray with
        | none => none
        | some true => some true
        | some false =>
          BVHAccelerator.intersect_shadow bvh intersect_elem_shadow fuel node.n1 ray

/-- The fuel of a traversal from the root: the number of nodes.  In a node
array whose child indices exceed their parent's index no path is longer. -/
def BVHAccelerator.depth_bound (bvh : BVHAccelerator) : Nat := bvh.nodes.length

/-- The function `intersect_triangle(ray, v0, v1, v2, t, u, v)` in exact
arithmetic; `rounded.intersect_triangle` is the function with the rounding of
its float operations. -/
def intersect_triangle (ray : ray3f) (v0 v1 v2 : vec3f) : Option (ℚ × ℚ × ℚ) :=
  let a := v0 - v2
  let b := v1 - v2
  let d := ray.d
  let e := ray.e - v2
  let denominator := dot (cross d b) a
  if denominator = 0 then none
  else
    let t := dot (cross e a) b / denominator
    let u := dot (cross d b) e / denominator
    let v := dot (cross e a) d / denominator
    if t > ray.tmax ∨ t < ray.tmin then none
    else if u < 0 ∨ v < 0 ∨ u + v > 1 then none
    else some (t, u, v)

/-- The function `intersect_sphere(ray, radius, t)`. -/
def intersect_sphere (m : libm) (ray : ray3f) (radius : ℚ) : Option ℚ :=
  let a := lengthSqr ray.d
  let b := 2 * dot ray.d ray.e
  let c := lengthSqr ray.e - radius * radius
  let d := b * b - 4 * a * c
  if d < 0 then none
  else
    let tm := (-b - m.sqrt d) / (2 * a)
    let tM := (-b + m.sqrt d) / (2 * a)
    let hitm : Bool := decide (tm ≥ ray.tmin ∧ tm ≤ ray.tmax)
    let hitM : Bool := decide (tM ≥ ray.tmin ∧ tM ≤ ray.tmax)
    if !hitm && !hitM then none
    else some (if hitm then tm else tM)

/-- The function `intersect_quad(ray, radius, t, p)`. -/
def intersect_quad (ray : ray3f) (radius : ℚ) : Option (ℚ × vec3f) :=
  if ray.d.z = 0 then none
  else
    let t := -ray.e.z / ray.d.z
    let p := ray.eval t
    if radius < p.x ∨ -radius > p.x ∨ radius < p.y ∨ -radius > p.y then none
    else if t < ray.tmin ∨ t > ray.tmax then none
    else some (t, p)

/-- The lateral part of `intersect_cylinder`: the pair `(t, norm)` after the
block `if(d>=0)`. -/
def cylinder_side (m : libm) (ray : ray3f) (radius height : ℚ) (state : ℚ × vec3f) :
    ℚ × vec3f :=
  let a := ray.d.x * ray.d.x + ray.d.y * ray.d.y
  let b := 2 * ray.e.x * ray.d.x + 2 * ray.e.y * ray.d.y
  let c := ray.e.x * ray.e.x + ray.e.y * ray.e.y - radius * radius
  let d := b * b - 4 * a * c
  if d ≥ 0 then
    let t1 := (-b - m.sqrt d) / (2 * a)
    let z1 := ray.e.z + t1 * ray.d.z
    if t1 > ray.tmin ∧ t1 < ray.tmax ∧ z1 ≤ height ∧ z1 ≥ -height then
      if t1 < state.1 then (t1, normalize m (ray.eval t1 - ⟨0, 0, z1⟩)) else state
    else
      let t2 := (-b + m.sqrt d) / (2 * a)
      let z2 := ray.e.z + t2 * ray.d.z
      if t2 > ray.tmin ∧ t2 < ray.tmax ∧ z2 ≤ height ∧ z2 ≥ -height then
        if t2 < state.1 then (t2, normalize m (ray.eval t2 - ⟨0, 0, z2⟩)) else state
      else state
  else state

/-- The block "intersect with top cap" of `intersect_cylinder`. -/
def cylinder_top (m : libm) (ray : ray3f) (radius height : ℚ) (state : ℚ × vec3f) :
    ℚ × vec3f :=
  let top_o : vec3f := ⟨0, 0, height⟩
  let top_t := dot (top_o - ray.e) ⟨0, 0, 1⟩ / dot ray.d ⟨0, 0, 1⟩
  if top_t > ray.tmin ∧ top_t < ray.tmax then
    let sur_point := ray.eval top_t
    let tmp_radius := length m (sur_point - top_o)
    if tmp_radius ≤ radius ∧ fabs (sur_point.z - height) < 1 / 1000000 then
      if top_t < state.1 then (top_t, ⟨0, 0, 1⟩) else state
    else state
  else state

/-- The block "intersect with bottom cap" of `intersect_cylinder`. -/
def cylinder_bottom (m : libm) (ray : ray3f) (radius height : ℚ) (state : ℚ × vec3f) :
    ℚ × vec3f :=
  let bot_o : vec3f := ⟨0, 0, height⟩
  let bot_t := dot (bot_o - ray.e) ⟨0, 0, -1⟩ / dot ray.d ⟨0, 0, -1⟩
  if bot_t > ray.tmin ∧ bot_t < ray.tmax then
    let sur_point := ray.eval bot_t
    let tmp_radius := length m (sur_point - bot_o)
    if tmp_radius ≤ radius ∧ fabs (sur_point.z + height) < 1 / 1000000 then
      if bot_t < state.1 then (bot_t, -(⟨0, 0, 1⟩ : vec3f)) else state
    else state
  else state

/-- The function `intersect_cylinder(ray, radius, height, t, norm)`; `norm0` is
the value the caller's `norm` holds on entry. -/
def intersect_cylinder (m : libm) (ray : ray3f) (radius height : ℚ) (norm0 : vec3f) :
    Option (ℚ × vec3f) :=
  let state := cylinder_bottom m ray radius height
    (cylinder_top m ray radius height
      (cylinder_side m ray radius height (ray.tmax, norm0)))
  if state.1 < ray.tmax then some state else none

/-! ## The scene -/

/-- The fields of `Surface` (of `scene.h`) that the code reads. -/
structure Surface where
  frame : frame3f
  radius : ℚ
  height : ℚ
  isquad : Bool
  iscylinder : Bool
  mat : Nat

/-- The fields of `Mesh` (of `scene.h`) that the code reads.  `bvh` is `none`
for the null pointer. -/
structure Mesh where
  frame : frame3f
  pos : List vec3f
  texcoord : List vec2f
  triangle : List vec3i
  quad : List vec4i
  mat : Nat
  bvh : Option BVHAccelerator

/-- The fields of `Scene` (of `scene.h`) that the code reads. -/
structure Scene where
  surfaces : List Surface
  meshes : List Mesh
  accelerate_bvh : Bool

/-- How a call ends. -/
inductive Outcome (α : Type) where
  /-- The call returns a value. -/
  | value (a : α)
  /-- The call stops the program through `error_if_not` with a message. -/
  | fatal (msg : String)
  /-- The call has no result: a BVH traversal does not come back within its
  fuel or reads outside an array. -/
  | stuck

/-- The body of the surface loop of `intersect(scene, ray)`: the running
`intersection` after `surface`. -/
def intersect_surface (m : libm) (ray : ray3f) (intersection : intersection3f)
    (surface : Surface) : intersection3f :=
  if surface.isquad then
    let tray := transform_ray_inverse surface.frame ray
    match intersect_quad tray surface.radius with
    | none => intersection
    | some (t, p) =>
      if decide (t > intersection.ray_t) && intersection.hit then intersection
      else
        { hit := true
          ray_t := t
          pos := transform_point surface.frame p
          norm := transform_normal m surface.frame z3f
          texcoord := ⟨(1 / 2) * p.x / surface.radius + 1 / 2,
                       (1 / 2) * p.y / surface.radius + 1 / 2⟩
          mat := surface.mat }
  else if surface.iscylinder then
    let tray := transform_ray_inverse surface.frame ray
    match intersect_cylinder m tray surface.radius surface.height zero3f with
    | none => intersection
    | some (t, norm) =>
      if decide (t > intersection.ray_t) && intersection.hit then intersection
      else
        let p := tray.eval t
        { intersection with
          hit := true
          ray_t := t
          pos := transform_point surface.frame p
          norm := transform_normal m surface.frame norm
          mat := surface.mat }
  else
    let tray := transform_ray_inverse surface.frame ray
    match intersect_sphere m tray surface.radius with
    | none => intersection
    | some t =>
      if decide (t > intersection.ray_t) && intersection.hit then intersection
      else
        let p := tray.eval t
        let n := normalize m p
        { hit := true
          ray_t := t
          pos := transform_point surface.frame p
          norm := transform_normal m surface.frame n
          texcoord := ⟨(m.pif + m.atan2 n.y n.x) / (2 * m.pif), m.acos n.z / m.pif⟩
          mat := surface.mat }

/-- The record a triangle hit yields in mesh-local space, as both the BVH
closure and the linear scan of `intersect(scene, ray)` set it up. -/
def triangle_record (m : libm) (mesh : Mesh) (triangle : vec3i) (tray : ray3f)
    (t u v : ℚ) : intersection3f :=
  let v0 := mesh.pos.getD triangle.x zero3f
  let v1 := mesh.pos.getD triangle.y zero3f
  let v2 := mesh.pos.getD triangle.z zero3f
  { hit := true
    ray_t := t
    pos := tray.eval t
    norm := normalize m (cross (v1 - v0) (v2 - v1))
    texcoord :=
      if mesh.texcoord.isEmpty then zero2f
      else vec2f.smul u (mesh.texcoord.getD triangle.x zero2f) +
        vec2f.smul v (mesh.texcoord.getD triangle.y zero2f) +
        vec2f.smul (1 - u - v) (mesh.texcoord.getD triangle.z zero2f)
    mat := mesh.mat }

/-- The closure `[mesh](int tid, ray3f tray)` that `intersect(scene, ray)`
hands to the BVH.  Vertex and triangle indices are read with `getD`: the code
reads them unchecked and a mesh keeps them in range. -/
def triangle_elem (m : libm) (mesh : Mesh) (tid : Nat) (tray : ray3f) : intersection3f :=
  let triangle := mesh.triangle.getD tid ⟨0, 0, 0⟩
  let v0 := mesh.pos.getD triangle.x zero3f
  let v1 := mesh.pos.getD triangle.y zero3f
  let v2 := mesh.pos.getD triangle.z zero3f
  match intersect_triangle tray v0 v1 v2 with
  | none => intersection3f.init
  | some (t, u, v) => triangle_record m mesh triangle tray t u v

/-- The closure that `intersect_shadow(scene, ray)` hands to the BVH. -/
def triangle_elem_shadow (mesh : Mesh) (tid : Nat) (tray : ray3f) : Bool :=
  let triangle := mesh.triangle.getD tid ⟨0, 0, 0⟩
  let v0 := mesh.pos.getD triangle.x zero3f
  let v1 := mesh.pos.getD triangle.y zero3f
  let v2 := mesh.pos.getD triangle.z zero3f
  (intersect_triangle tray v0 v1 v2).isSome

/-- The body of the linear triangle scan of `intersect(scene, ray)`. -/
def scan_triangle (m : libm) (mesh : Mesh) (tray : ray3f) (sintersection : intersection3f)
    (tri : vec3i) : intersection3f :=
  let v0 := mesh.pos.getD tri.x zero3f
  let v1 := mesh.pos.getD tri.y zero3f
  let v2 := mesh.pos.getD tri.z zero3f
  match intersect_triangle tray v0 v1 v2 with
  | none => sintersection
  | some (t, u, v) =>
    if decide (t > sintersection.ray_t) && sintersection.hit then sintersection
    else triangle_record m mesh tri tray t u v

/-- The mesh-local intersection `sintersection` of `intersect(scene, ray)`:
through the BVH when the mesh has one, by the linear scan otherwise. -/
def intersect_mesh (m : libm) (mesh : Mesh) (tray : ray3f) : Option intersection3f :=
  match mesh.bvh with
  | some bvh => bvh.intersect (triangle_elem m mesh) bvh.depth_bound 0 tray
  | none => some (mesh.triangle.foldl (scan_triangle m mesh tray) intersection3f.init)

/-- The mesh loop of `intersect(scene, ray)`. -/
def intersect_meshes (m : libm) (ray : ray3f) :
    List Mesh → intersection3f → Outcome intersection3f
  | [], intersection => Outcome.value intersection
  | mesh :: rest, intersection =>
    if !mesh.quad.isEmpty then Outcome.fatal "quad intersection is not supported"
    else
      let tray := transform_ray_inverse mesh.frame ray
      match intersect_mesh m mesh tray with
      | none => Outcome.stuck
      | some sintersection =>
        if !sintersection.hit then intersect_meshes m ray rest intersection
        else if decide (sintersection.ray_t > intersection.ray_t) && intersection.hit then
          intersect_meshes m ray rest intersection
        else
          intersect_meshes m ray rest
            { sintersection with
              pos := transform_point mesh.frame sintersection.pos
              norm := transform_normal m mesh.frame sintersection.norm
              mat := sintersection.mat }

/-- The function `intersect(scene, ray)`. -/
def Scene.intersect (m : libm) (scene : Scene) (ray : ray3f) : Outcome intersection3f :=
  intersect_meshes m ray scene.meshes
    (scene.surfaces.foldl (intersect_surface m ray) intersection3f.init)

/-- The body of the surface loop of `intersect_shadow(scene, ray)`: whether
`surface` makes the function return true. -/
def intersect_shadow_surface (m : libm) (ray : ray3f) (surface : Surface) : Bool :=
  if surface.isquad then
    let tray := transform_ray_inverse surface.frame ray
    (intersect_quad tray surface.radius).isSome
  else if surface.iscylinder then
    let tray := transform_ray_inverse surface.frame ray
    (intersect_cylinder m tray surface.radius surface.height zero3f).isSome
  else
    let tray := transform_ray_inverse surface.frame ray
    (intersect_sphere m tray surface.radius).isSome

/-- Whether the mesh makes `intersect_shadow(scene, ray)` return true. -/
def intersect_shadow_mesh (mesh : Mesh) (tray : ray3f) : Option Bool :=
  match mesh.bvh with
  | some bvh => bvh.intersect_shadow (triangle_elem_shadow mesh) bvh.depth_bound 0 tray
  | none =>
    some (mesh.triangle.any (fun triangle =>
      (intersect_triangle tray (mesh.pos.getD triangle.x zero3f)
        (mesh.pos.getD triangle.y zero3f) (mesh.pos.getD triangle.z zero3f)).isSome))

/-- The mesh loop of `intersect_shadow(scene, ray)`. -/
def intersect_shadow_meshes (ray : ray3f) : List Mesh → Outcome Bool
  | [] => Outcome.value false
  | mesh :: rest =>
    if !mesh.quad.isEmpty then Outcome.fatal "quad intersection is not supported"
    else
      let tray := transform_ray_inverse mesh.frame ray
      match intersect_shadow_mesh mesh tray with
      | none => Outcome.stuck
      | some true => Outcome.value true
      | some false => intersect_shadow_meshes ray rest

/-- The function `intersect_shadow(scene, ray)`. -/
def Scene.intersect_shadow (m : libm) (scene : Scene) (ray : ray3f) : Outcome Bool :=
  if scene.surfaces.any (intersect_shadow_surface m ray) then Outcome.value true
  else intersect_shadow_meshes ray scene.meshes

/-- The boxes `accelerate` hands to `make_accelerator` for a mesh: one per
triangle, around its three vertices. -/
def mesh_bboxes (mesh : Mesh) : List range3f :=
  mesh.triangle.map (fun f =>
    make_range3f [mesh.pos.getD f.x zero3f, mesh.pos.getD f.y zero3f, mesh.pos.getD f.z zero3f])

/-- The state `accelerate` leaves a mesh in: no BVH, or the BVH of its
triangles. -/
def Mesh.accelerated (sort : Sorter) (mesh : Mesh) : Prop :=
  mesh.bvh = none ∨ mesh.bvh = some (make_accelerator sort (mesh_bboxes mesh))

/-! ## Vocabulary of the statements -/

/-- The list `l2` is `l1` with the positions `[s, e)` rearranged among
themselves. -/
def RangePerm {α : Type} (s e : Nat) (l1 l2 : List α) : Prop :=
  l2.length = l1.length ∧ (∀ i, i < s ∨ e ≤ i → l2[i]? = l1[i]?) ∧
    List.Perm (slice l2 s e) (slice l1 s e)

/-- The union of a list of boxes, as the code accumulates it. -/
def union_boxes (bs : List range3f) : range3f := bs.foldl runion range3f.init

/-- In the node array `nodes`, node `k` is the root of a subtree over the
positions `[s, e)` of `boxed_prims`, built the way `make_accelerator_node`
builds it; the descendants of `k` have their indices in `[lo, hi)`. -/
inductive IsTree (nodes : List BVHNode) (boxed_prims : List boxed_prim) :
    Nat → Nat → Nat → Nat → Nat → Prop
  | leaf (lo hi k s e : Nat) :
      nodes[k]? = some ⟨true, union_range boxed_prims s e, s, e⟩ →
      e - s ≤ BVHAccelerator_min_prims →
      IsTree nodes boxed_prims lo hi k s e
  | node (lo hi k s e n0 n1 lo0 hi0 lo1 hi1 : Nat) :
      nodes[k]? = some ⟨false, union_range boxed_prims s e, n0, n1⟩ →
      BVHAccelerator_min_prims < e - s →
      k < lo → lo ≤ n0 → n0 < n1 → n1 < hi →
      lo ≤ lo0 → hi0 ≤ hi → lo ≤ lo1 → hi1 ≤ hi →
      IsTree nodes boxed_prims lo0 hi0 n0 s ((s + e) / 2) →
      IsTree nodes boxed_prims lo1 hi1 n1 ((s + e) / 2) e →
      IsTree nodes boxed_prims lo hi k s e

/-- The record `r` is a closest hit among the primitives in `P` for the
parameters in `[tmin, tmax]`, where `tHit p` is the hit parameter of the
primitive `p` (if it has one): no hit when no primitive has its parameter in
the interval, and otherwise a hit at the least such parameter. -/
def Closest (tHit : Nat → Option ℚ) (tmin tmax : ℚ) (P : Nat → Prop)
    (r : intersection3f) : Prop :=
  (r.hit = false → ∀ p, P p → ∀ t, tHit p = some t → ¬ (tmin ≤ t ∧ t ≤ tmax)) ∧
  (r.hit = true → tmin ≤ r.ray_t ∧ r.ray_t ≤ tmax ∧ (∃ p, P p ∧ tHit p = some r.ray_t) ∧
    ∀ p, P p → ∀ t, tHit p = some t → tmin ≤ t → t ≤ tmax → r.ray_t ≤ t)

/-- The box `make_accelerator` stores for the primitive `i`. -/
def stored_box (bboxes : List range3f) (i : Nat) : range3f :=
  rscale (bboxes.getD i range3f.init) (1 + BVHAccelerator_epsilon)

/-- A callback that reports a hit for the primitive `i` exactly when `tHit i`
lies in the interval of the ray it is handed. -/
def window_callback (tHit : Nat → Option ℚ) (i : Nat) (r : ray3f) : intersection3f :=
  match tHit i with
  | none => intersection3f.init
  | some t =>
    if r.tmin ≤ t ∧ t ≤ r.tmax then ⟨true, t, r.eval t, zero3f, zero2f, i⟩
    else intersection3f.init

/-! ## Sample data -/

/-- Six unit boxes in a row along the x axis. -/
def demo_bboxes : List range3f :=
  [⟨⟨0, 0, 0⟩, ⟨1, 1, 1⟩⟩, ⟨⟨1, 0, 0⟩, ⟨2, 1, 1⟩⟩, ⟨⟨2, 0, 0⟩, ⟨3, 1, 1⟩⟩,
   ⟨⟨3, 0, 0⟩, ⟨4, 1, 1⟩⟩, ⟨⟨4, 0, 0⟩, ⟨5, 1, 1⟩⟩, ⟨⟨5, 0, 0⟩, ⟨6, 1, 1⟩⟩]

/-- A hand-built accelerator: an internal root over two leaves with one
primitive each. -/
def two_leaf_bvh : BVHAccelerator :=
  ⟨⟨2, [0, 1]⟩,
   [⟨false, ⟨⟨0, 0, 0⟩, ⟨2, 1, 1⟩⟩, 1, 2⟩,
    ⟨true, ⟨⟨1, 0, 0⟩, ⟨2, 1, 1⟩⟩, 0, 1⟩,
    ⟨true, ⟨⟨0, 0, 0⟩, ⟨1, 1, 1⟩⟩, 1, 2⟩]⟩

/-- A ray along the x axis through both leaves of `two_leaf_bvh`. -/
def axis_ray : ray3f := ⟨⟨-1, 1 / 2, 1 / 2⟩, ⟨1, 0, 0⟩, 0, 10⟩

/-- Hit parameters for `axis_ray`: primitive 0 far, primitive 1 near. -/
def axis_tHit (i : Nat) : Option ℚ := if i = 0 then some (5 / 2) else some (3 / 2)

/-- A box list with one box. -/
def one_box : List range3f := [⟨⟨0, 0, 0⟩, ⟨1, 1, 1⟩⟩]

/-- The function `make_accelerator` of the final submission
(`finalsubmission-1/part2`), which builds through
`make_accelerator_node_kd_tree`. -/
def make_accelerator_kd_tree (sort : Sorter) (bboxes : List range3f) : BVHAccelerator :=
  let boxed_prims := make_boxed_prims bboxes
  let nodes := [BVHNode.init]
  let built := make_accelerator_node_kd_tree sort 0 boxed_prims nodes 0 bboxes.length 0
  let prims := (std_vector.init : std_vector Nat).reserve bboxes.length 0
  ⟨copy_prims built.1 prims, built.2⟩

/-- Node `k` is reached from node 0 by following child indices of internal
nodes. -/
inductive InTree (nodes : List BVHNode) : Nat → Prop
  | root : InTree nodes 0
  | left (k : Nat) (n : BVHNode) :
      InTree nodes k → nodes[k]? = some n → n.leaf = false → InTree nodes n.n0
  | right (k : Nat) (n : BVHNode) :
      InTree nodes k → nodes[k]? = some n → n.leaf = false → InTree nodes n.n1

/-- The subtree of node `k` covers the positions `[s, e)`: a leaf covers its
stored range, an internal node covers `[s, e)` when its children cover `[s, m)`
and `[m, e)`. -/
inductive Covers (nodes : List BVHNode) : Nat → Nat → Nat → Prop
  | leaf (k : Nat) (n : BVHNode) :
      nodes[k]? = some n → n.leaf = true → Covers nodes k n.start n.end_
  | node (k : Nat) (n : BVHNode) (s m e : Nat) :
      nodes[k]? = some n → n.leaf = false →
      Covers nodes n.n0 s m → Covers nodes n.n1 m e → Covers nodes k s e

/-- The ranges `(start, end)` of the leaves below node `k`, left to right;
`fuel` bounds the depth. -/
def leaf_ranges (nodes : List BVHNode) : Nat → Nat → Option (List (Nat × Nat))
  | 0, _ => none
  | fuel + 1, k =>
    match nodes[k]? with
    | none => none
    | some n =>
      if n.leaf then some [(n.start, n.end_)]
      else
        match leaf_ranges nodes fuel n.n0, leaf_ranges nodes fuel n.n1 with
        | some a, some b => some (a ++ b)
        | _, _ => none

/-- The ranges of the list follow one another without gap or overlap from `a`
to `b`. -/
def Tiles : List (Nat × Nat) → Nat → Nat → Prop
  | [], a, b => a = b
  | r :: rest, a, b => r.1 = a ∧ r.1 ≤ r.2 ∧ Tiles rest r.2 b

/-- Every entry of the node array that is not a leaf has the boxes of the two
entries it names as children inside its own box. -/
def ChildrenNested (nodes : List BVHNode) : Prop :=
  ∀ (k : Nat) (n c : BVHNode), nodes[k]? = some n → n.leaf = false →
    (nodes[n.n0]? = some c ∨ nodes[n.n1]? = some c) → c.bbox.subset n.bbox

/-- The hit parameter that the solver of `surface` returns for `ray`, `none`
when the solver reports no hit. -/
def surface_t (m : libm) (ray : ray3f) (surface : Surface) : Option ℚ :=
  if surface.isquad then
    (intersect_quad (transform_ray_inverse surface.frame ray) surface.radius).map Prod.fst
  else if surface.iscylinder then
    (intersect_cylinder m (transform_ray_inverse surface.frame ray) surface.radius
      surface.height zero3f).map Prod.fst
  else intersect_sphere m (transform_ray_inverse surface.frame ray) surface.radius

/-- The hit parameter that `intersect_triangle` returns for the triangle `tri`
of `mesh` and `ray`, `none` when it reports no hit. -/
def triangle_t (mesh : Mesh) (ray : ray3f) (tri : vec3i) : Option ℚ :=
  (intersect_triangle (transform_ray_inverse mesh.frame ray) (mesh.pos.getD tri.x zero3f)
    (mesh.pos.getD tri.y zero3f) (mesh.pos.getD tri.z zero3f)).map Prod.fst

/-- The identity frame. -/
def identity_frame3f : frame3f := ⟨⟨0, 0, 0⟩, ⟨1, 0, 0⟩, ⟨0, 1, 0⟩, ⟨0, 0, 1⟩⟩

/-- Stand-ins for the functions of `<cmath>` in sample computations (the
square root is only taken of 1). -/
def sample_libm : libm := ⟨fun x => x, fun _ _ => 0, fun _ => 0, 3⟩

/-- Two coinciding unit quads with different materials (1 and 2). -/
def tie_scene : Scene :=
  ⟨[⟨identity_frame3f, 1, 0, true, false, 1⟩, ⟨identity_frame3f, 1, 0, true, false, 2⟩], [],
    false⟩

/-- The ray from `(0,0,5)` straight down onto the quads of `tie_scene`. -/
def tie_ray : ray3f := ⟨⟨0, 0, 5⟩, ⟨0, 0, -1⟩, ray3f_epsilon, ray3f_rayinf⟩

/-- The hit parameter of a triangle for a ray of unbounded interval: what
`intersect_triangle` computes as `t` when the denominator is not zero and the
barycentric coordinates lie in the triangle, whatever `tmin` and `tmax`. -/
def triangle_param (ray : ray3f) (v0 v1 v2 : vec3f) : Option ℚ :=
  let a := v0 - v2
  let b := v1 - v2
  let d := ray.d
  let e := ray.e - v2
  let denominator := dot (cross d b) a
  if denominator = 0 then none
  else
    let t := dot (cross e a) b / denominator
    let u := dot (cross d b) e / denominator
    let v := dot (cross e a) d / denominator
    if u < 0 ∨ v < 0 ∨ u + v > 1 then none
    else some t

/-- The record `r` is a closest hit for the set `T` of hit parameters: no hit
when `T` is empty, and otherwise a hit at the least parameter of `T`. -/
def Best (T : ℚ → Prop) (r : intersection3f) : Prop :=
  (r.hit = false → ∀ t, ¬ T t) ∧ (r.hit = true → T r.ray_t ∧ ∀ t, T t → r.ray_t ≤ t)

/-- Six triangles in the plane `z = 0`, side by side along the x axis, without
a BVH. -/
def strip_mesh : Mesh :=
  { frame := identity_frame3f
    pos := [⟨0, 0, 0⟩, ⟨1, 0, 0⟩, ⟨2, 0, 0⟩, ⟨3, 0, 0⟩, ⟨4, 0, 0⟩, ⟨5, 0, 0⟩, ⟨6, 0, 0⟩,
            ⟨0, 1, 0⟩, ⟨1, 1, 0⟩, ⟨2, 1, 0⟩, ⟨3, 1, 0⟩, ⟨4, 1, 0⟩, ⟨5, 1, 0⟩]
    texcoord := []
    triangle := [⟨0, 1, 7⟩, ⟨1, 2, 8⟩, ⟨2, 3, 9⟩, ⟨3, 4, 10⟩, ⟨4, 5, 11⟩, ⟨5, 6, 12⟩]
    quad := []
    mat := 7
    bvh := none }

/-- The mesh `strip_mesh` with the BVH that `accelerate` builds for it. -/
def strip_mesh_bvh : Mesh :=
  { strip_mesh with bvh := some (make_accelerator insertion_sort (mesh_bboxes strip_mesh)) }

/-- A scene with a unit quad, the strip of triangles with a BVH, and the same
strip without one. -/
def strip_scene : Scene :=
  ⟨[⟨identity_frame3f, 1, 0, true, false, 1⟩], [strip_mesh_bvh, strip_mesh], true⟩

/-- The BVH of the mesh, when it has one, came out of `make_accelerator`. -/
def Mesh.has_built_bvh (sort : Sorter) (mesh : Mesh) : Prop :=
  mesh.bvh = none ∨ ∃ bboxes, mesh.bvh = some (make_accelerator sort bboxes)

/-- The height of the subtree below node `k`: the number of edges on the
longest path from `k` down to a leaf (a lone leaf has height 0); `fuel` bounds
the depth. -/
def tree_height (nodes : List BVHNode) : Nat → Nat → Option Nat
  | 0, _ => none
  | fuel + 1, k =>
    match nodes[k]? with
    | none => none
    | some n =>
      if n.leaf then some 0
      else
        match tree_height nodes fuel n.n0, tree_height nodes fuel n.n1 with
        | some a, some b => some (max a b + 1)
        | _, _ => none

/-- The slab interval `(tNear, tFar)` of the axis `i`, as the loop body of
`intersect_bbox` has it after the swap, for a direction component that is not
zero (the quotient `1.f / ray.d[i]` is then an ordinary float). -/
def slab_interval (ray : ray3f) (bbox : range3f) (i : Nat) : ℚ × ℚ :=
  let invRayDir := 1 / ray.d.get i
  let tNear := (bbox.min.get i - ray.e.get i) * invRayDir
  let tFar := (bbox.max.get i - ray.e.get i) * invRayDir
  if tNear > tFar then (tFar, tNear) else (tNear, tFar)

/-- Two closed intervals, given by their end points, overlap: they have a
parameter in common. -/
def overlaps (a b : ℚ × ℚ) : Prop := ∃ t, a.1 ≤ t ∧ t ≤ a.2 ∧ b.1 ≤ t ∧ t ≤ b.2

/-- No direction component of the ray is zero. -/
def ray3f.nonzero_components (ray : ray3f) : Prop :=
  ray.d.x ≠ 0 ∧ ray.d.y ≠ 0 ∧ ray.d.z ≠ 0

/-- The box is not empty: on every axis its lower corner is not above its
upper corner. -/
def range3f.nonempty (b : range3f) : Prop :=
  b.min.x ≤ b.max.x ∧ b.min.y ≤ b.max.y ∧ b.min.z ≤ b.max.z

/-- A ray along the diagonal of the first octant. -/
def diagonal_ray : ray3f := ⟨⟨0, 0, 0⟩, ⟨1, 1, 1⟩, 0, 10⟩

/-- The cube from `(1,1,1)` to `(2,2,2)`. -/
def unit_cube_at_one : range3f := ⟨⟨1, 1, 1⟩, ⟨2, 2, 2⟩⟩

/-- A box whose x slab and y slab both meet the interval of `diagonal_ray`
without meeting one another. -/
def offset_box : range3f := ⟨⟨1, 3, 0⟩, ⟨2, 4, 10⟩⟩

/-- A square root on the rationals: exact on the square of a rational, and
elsewhere the quotient of the integer square roots of numerator and
denominator. -/
def rat_sqrt (q : ℚ) : ℚ := (Nat.sqrt q.num.toNat : ℚ) / (Nat.sqrt q.den : ℚ)

/-- Stand-ins for the functions of `<cmath>` in sample computations whose
square roots are taken of squares of rationals. -/
def rational_libm : libm := ⟨rat_sqrt, fun _ _ => 0, fun _ => 0, 3⟩

/-- A unit quad in the world `z = 0` plane (identity frame), material 1. -/
def unit_quad : Surface := ⟨identity_frame3f, 1, 0, true, false, 1⟩

/-- A ray that starts below a cylinder of radius 1 and height 1 and climbs
through it, slightly tilted: it enters through the bottom cap at `t = 4` and
leaves through the top cap at `t = 6`. -/
def upward_ray : ray3f := ⟨⟨0, 0, -5⟩, ⟨1 / 10, 0, 1⟩, ray3f_epsilon, ray3f_rayinf⟩

/-- The denominator `dot(cross(d, v1-v2), v0-v2)` that `intersect_triangle`
computes. -/
def triangle_denominator (ray : ray3f) (v0 v1 v2 : vec3f) : ℚ :=
  dot (cross ray.d (v1 - v2)) (v0 - v2)

/-- The triple `(t, u, v)` solves `e + t d = u v0 + v v1 + (1-u-v) v2`: the
point of the ray at `t` is the point of the plane of the triangle with the
barycentric weights `(u, v, 1-u-v)`. -/
def triangle_solution (ray : ray3f) (v0 v1 v2 : vec3f) (t u v : ℚ) : Prop :=
  ray.eval t = v0.smul u + v1.smul v + v2.smul (1 - u - v)

/-- A triangle in the plane `z = 0` with its right angle at the origin. -/
def corner_v0 : vec3f := ⟨1, 0, 0⟩

/-- The second vertex of the corner triangle. -/
def corner_v1 : vec3f := ⟨0, 1, 0⟩

/-- The third vertex of the corner triangle, the origin. -/
def corner_v2 : vec3f := ⟨0, 0, 0⟩

/-- A ray straight down onto the corner triangle, through the point
`(1/4, 1/4, 0)`. -/
def drop_ray : ray3f := ⟨⟨1 / 4, 1 / 4, 5⟩, ⟨0, 0, -1⟩, ray3f_epsilon, ray3f_rayinf⟩

/-- The sum of two floats that may be special values. -/
def xfloat.add : xfloat → xfloat → xfloat
  | xfloat.nan, _ => xfloat.nan
  | _, xfloat.nan => xfloat.nan
  | xfloat.fin a, xfloat.fin b => xfloat.fin (a + b)
  | xfloat.pinf, xfloat.ninf => xfloat.nan
  | xfloat.ninf, xfloat.pinf => xfloat.nan
  | xfloat.pinf, _ => xfloat.pinf
  | _, xfloat.pinf => xfloat.pinf
  | xfloat.ninf, _ => xfloat.ninf
  | _, xfloat.ninf => xfloat.ninf

/-- The function
`intersect_triangle(ray, v0, v1, v2, hit_t, bary_u, bary_v)` of the final
submission (`finalsubmission-1/part2`).  It multiplies by `1.0f / denom`
without a test of `denom`, so the quotient and the three products are floats
that may be infinite or `NaN`.  The result holds `hit_t`, `bary_u` and
`bary_v`. -/
def finalsubmission.intersect_triangle (ray : ray3f) (v0 v1 v2 : vec3f) :
    Option (xfloat × xfloat × xfloat) :=
  let comp_a := v0 - v2
  let comp_b := v1 - v2
  let comp_d := ray.d
  let comp_e := ray.e - v2
  let denom := dot (cross comp_d comp_b) comp_a
  let inv_denom := xfloat.div 1 denom
  let alpha := xfloat.mul (dot (cross comp_d comp_b) comp_e) inv_denom
  if alpha.lt (xfloat.fin 0) || alpha.gt (xfloat.fin 1) then none
  else
    let beta := xfloat.mul (dot (cross comp_e comp_a) comp_d) inv_denom
    if beta.lt (xfloat.fin 0) || beta.gt (xfloat.fin 1) ||
        (alpha.add beta).gt (xfloat.fin 1) then none
    else
      let hit_t := xfloat.mul (dot (cross comp_e comp_a) comp_b) inv_denom
      if hit_t.lt (xfloat.fin ray.tmin) || hit_t.gt (xfloat.fin ray.tmax) then none
      else some (hit_t, alpha, beta)

/-- A ray that starts at the vertex `v2` of the corner triangle and runs in the
plane of the triangle, along its edge towards `v0`. -/
def in_plane_ray : ray3f := ⟨⟨0, 0, 0⟩, ⟨1, 0, 0⟩, ray3f_epsilon, ray3f_rayinf⟩

/-- A mesh that still holds a quad: four vertices in the plane `z = -1` and
one un-triangulated quad over them, no triangles, no BVH. -/
def quad_mesh : Mesh :=
  { frame := identity_frame3f
    pos := [⟨0, 0, -1⟩, ⟨1, 0, -1⟩, ⟨1, 1, -1⟩, ⟨0, 1, -1⟩]
    texcoord := []
    triangle := []
    quad := [⟨0, 1, 2, 3⟩]
    mat := 3
    bvh := none }

/-- A scene with the unit quad as its only surface and a mesh that still holds
a quad. -/
def quad_mesh_scene : Scene := ⟨[unit_quad], [quad_mesh], false⟩

/-- The loop `for(auto f : mesh->quad)` of `accelerate`: the triangle list
after the two `push_back` calls for every quad. -/
def triangulate_quads (triangle : List vec3i) (quad : List vec4i) : List vec3i :=
  quad.foldl (fun tri f => (tri ++ [⟨f.x, f.y, f.z⟩]) ++ [⟨f.x, f.z, f.w⟩]) triangle

/-- The body of the second loop of `accelerate` for one mesh: triangulate the
quads, clear them, and build the BVH when there are more than
`BVHAccelerator_min_prims` triangles. -/
def accelerate_mesh (sort : Sorter) (mesh : Mesh) : Mesh :=
  let mesh1 := { mesh with triangle := triangulate_quads mesh.triangle mesh.quad }
  let mesh2 := { mesh1 with quad := [] }
  if mesh2.triangle.length + mesh2.quad.length > BVHAccelerator_min_prims then
    { mesh2 with bvh := some (make_accelerator sort (mesh_bboxes mesh2)) }
  else mesh2

/-- The function `accelerate(scene)`: the scene it leaves behind.  The meshes
of a scene are taken to be distinct objects. -/
def accelerate (sort : Sorter) (scene : Scene) : Scene :=
  let scene1 := { scene with meshes := scene.meshes.map (fun (mesh : Mesh) => { mesh with bvh := none }) }
  if scene1.accelerate_bvh then
    { scene1 with meshes := scene1.meshes.map (accelerate_mesh sort) }
  else scene1

/-- The two triangles `(x,y,z)` and `(x,z,w)` of a quad `(x,y,z,w)`. -/
def quad_triangles (f : vec4i) : List vec3i := [⟨f.x, f.y, f.z⟩, ⟨f.x, f.z, f.w⟩]

/-- The scene `quad_mesh_scene` is not to be accelerated
(`accelerate_bvh` is false); this is the same scene with the flag set. -/
def quad_mesh_scene_bvh : Scene := { quad_mesh_scene with accelerate_bvh := true }

/-- The rows that the outer loop
`for(auto j = offset_row; j < scene->image_height; j += skip_row)` of the worker
`pathtrace(scene, image, rngs, offset_row, skip_row, verbose)` visits from `j`
on, in order; `fuel` bounds the number of rounds, and the result is `none` when
the loop is still running after that many. -/
def pathtrace_rows (image_height skip_row : Nat) : Nat → Nat → Option (List Nat)
  | fuel, j =>
    if j < image_height then
      match fuel with
      | 0 => none
      | fuel + 1 => (pathtrace_rows image_height skip_row fuel (j + skip_row)).map (fun rows => j :: rows)
    else some []

/-- The body of the surface loop of `intersect(scene, ray)` in the header of
the final project (`finalProject/src/common/intersect.h`): quads and spheres,
each with its own texture mapping. -/
def finalProject.intersect_surface (m : libm) (ray : ray3f) (intersection : intersection3f)
    (surface : Surface) : intersection3f :=
  if surface.isquad then
    let tray := transform_ray_inverse surface.frame ray
    match intersect_quad tray surface.radius with
    | none => intersection
    | some (t, p) =>
      if decide (t > intersection.ray_t) && intersection.hit then intersection
      else
        let range : ℚ := 285 / 100
        { hit := true
          ray_t := t
          pos := transform_point surface.frame p
          norm := transform_normal m surface.frame z3f
          texcoord := ⟨range * p.x / surface.radius + range, range * p.y / surface.radius + range⟩
          mat := surface.mat }
  else
    let tray := transform_ray_inverse surface.frame ray
    match intersect_sphere m tray surface.radius with
    | none => intersection
    | some t =>
      if decide (t > intersection.ray_t) && intersection.hit then intersection
      else
        let p := tray.eval t
        let n := normalize m p
        let phi0 := m.atan2 n.z n.x
        let h : ℚ := 4
        let phi := if phi0 < 0 then phi0 + 2 * m.pif else phi0
        let u := phi / (2 * m.pif)
        let v := n.y / h
        { hit := true
          ray_t := t
          pos := transform_point surface.frame p
          norm := transform_normal m surface.frame n
          texcoord := ⟨u, v⟩
          mat := surface.mat }

/-- The mesh loop of `intersect(scene, ray)` in the header of the final
project, with the meshes as the loop leaves them: `done` holds the meshes
already visited.  The loop body assigns `mesh->bvh=nullptr` before it tests
`mesh->bvh`; the triangle test of both branches is a `put_your_code_here`
placeholder, which prints a warning and leaves `sintersection` without a hit. -/
def finalProject.intersect_meshes (m : libm) (ray : ray3f) :
    List Mesh → List Mesh → intersection3f → Outcome (intersection3f × List Mesh)
  | done, [], intersection => Outcome.value (intersection, done)
  | done, mesh :: rest, intersection =>
    if !mesh.quad.isEmpty then Outcome.fatal "quad intersection is not supported"
    else
      let tray := transform_ray_inverse mesh.frame ray
      let mesh1 : Mesh := { mesh with bvh := none }
      let found : Option intersection3f :=
        match mesh1.bvh with
        | some bvh => bvh.intersect (fun _ _ => intersection3f.init) bvh.depth_bound 0 tray
        | none => some intersection3f.init
      match found with
      | none => Outcome.stuck
      | some sintersection =>
        if !sintersection.hit then
          finalProject.intersect_meshes m ray (done ++ [mesh1]) rest intersection
        else if decide (sintersection.ray_t > intersection.ray_t) && intersection.hit then
          finalProject.intersect_meshes m ray (done ++ [mesh1]) rest intersection
        else
          finalProject.intersect_meshes m ray (done ++ [mesh1]) rest
            { sintersection with
              pos := transform_point mesh.frame sintersection.pos
              norm := transform_normal m mesh.frame sintersection.norm
              mat := sintersection.mat }

/-- The function `intersect(scene, ray)` in the header of the final project:
the returned record and the scene as the call leaves it. -/
def finalProject.intersect (m : libm) (scene : Scene) (ray : ray3f) :
    Outcome (intersection3f × Scene) :=
  match finalProject.intersect_meshes m ray [] scene.meshes
      (scene.surfaces.foldl (finalProject.intersect_surface m ray) intersection3f.init) with
  | Outcome.value (intersection, meshes) =>
    Outcome.value (intersection, { scene with meshes := meshes })
  | Outcome.fatal msg => Outcome.fatal msg
  | Outcome.stuck => Outcome.stuck

/-! ## The path tracer -/

/-- Componentwise product of two colours (`vec3f * vec3f`). -/
def vec3f.mul (a b : vec3f) : vec3f := ⟨a.x * b.x, a.y * b.y, a.z * b.z⟩

def one3f : vec3f := ⟨1, 1, 1⟩

/-- The conversion of a float to `int`: the fraction is dropped. -/
def trunc (q : ℚ) : Int := if 0 ≤ q then Rat.floor q else Rat.ceil q

/-- Modelled from the spec: `clamp` of `vmath.h`, the value brought into
`[lo, hi]`. -/
def clamp (x lo hi : Int) : Int := max lo (min hi x)

/-- Modelled from the spec: `image3f` (of `image.h`, not among the sources), a
"2D array of floating-point RGB pixels" with its size and the accessor
`at(i, j)`. -/
structure image3f where
  width : Int
  height : Int
  at_ : Int → Int → vec3f

/-- The fields of `Material` (of `scene.h`) that the renderers read. -/
structure Material where
  ke : vec3f
  kd : vec3f
  ks : vec3f
  kr : vec3f
  n : ℚ
  microfacet : Bool
  ke_txt : Option image3f
  kd_txt : Option image3f
  ks_txt : Option image3f

/-- The fields of `Light` (of `scene.h`) that the renderers read. -/
structure Light where
  frame : frame3f
  intensity : vec3f

/-- The state of a random generator `Rng` (of `montecarlo.h`, not among the
sources). -/
structure Rng where
  state : Nat
deriving DecidableEq

/-- What the renderers use of the headers that are not among the sources, for
the scene at hand: the scene intersection of the application's `intersect.h`,
the methods of `Rng`, the samplers of `montecarlo.h`, `reflect` of `vmath.h`,
`pow` of `<cmath>`, and the images that `04_pathtrace.cpp` reads from
`level_0.png`, `level_1.png` and `level_2.png` at start-up.
`intersect_shadow_unbounded e d tmin` is `intersect_shadow` for the ray
`ray3f(e, d, tmin, INFINITY)`, whose `tmax` is not a number of `ray3f`. -/
structure render_deps where
  intersect : ray3f → intersection3f
  intersect_shadow : ray3f → Bool
  intersect_shadow_unbounded : vec3f → vec3f → ℚ → Bool
  next_float : Rng → ℚ × Rng
  next_vec2f : Rng → vec2f × Rng
  next_int : Rng → Int → Int → Int × Rng
  sample_brdf : vec3f → vec3f → ℚ → vec3f → vec3f → vec2f → ℚ → vec3f × ℚ
  sample_direction_spherical_uniform : vec2f → vec3f
  sample_direction_hemispherical_cosine : vec2f → vec3f
  sample_direction_hemispherical_cosine_pdf : vec3f → ℚ
  sample_point : Surface → vec2f → vec3f
  reflect : vec3f → vec3f → vec3f
  pow : ℚ → ℚ → ℚ
  level_0 : image3f
  level_1 : image3f
  level_2 : image3f

/-- The fields of `Scene` (of `scene.h`) that `pathtrace_ray` reads; `material`
gives the `Material` behind a `mat` pointer. -/
structure PathScene where
  background : vec3f
  background_txt : Option image3f
  ambient : vec3f
  lights : List Light
  surfaces : List Surface
  path_max_depth : Int
  path_shadows : Bool
  russianRoulette : Bool
  blurryReflection : Bool
  mipmapping : Bool
  material : Nat → Material

/-- What a call of `pathtrace_ray` can write: the generator it is passed and
the globals `_min` and `_max` of `04_pathtrace.cpp`.  `deepest` is not program
state: it records the largest `depth` argument of the calls made so far. -/
structure PathState where
  rng : Rng
  _min : ℚ
  _max : ℚ
  deepest : Nat

/-- The index `i % width`, moved into `[0, width)` when negative, of the tiled
mode of `lookup_scaled_texture`. -/
def tile_index (i width : Int) : Int :=
  let r := Int.tmod i width
  if r < 0 then r + width else r

/-- The function `lookup_scaled_texture(value, texture, uv, tile)` of
`04_pathtrace.cpp`. -/
def lookup_scaled_texture (value : vec3f) (texture : Option image3f) (uv : vec2f)
    (tile : Bool) : vec3f :=
  match texture with
  | none => value
  | some texture =>
    let i0 := trunc (uv.x * texture.width)
    let s := uv.x * texture.width - i0
    let j0 := trunc (uv.y * texture.height)
    let t := uv.y * texture.height - j0
    let i := if !tile then clamp i0 0 (texture.width - 1) else tile_index i0 texture.width
    let i1 := if !tile then clamp (i0 + 1) 0 (texture.width - 1)
      else tile_index (i0 + 1) texture.width
    let j := if !tile then clamp j0 0 (texture.height - 1) else tile_index j0 texture.height
    let j1 := if !tile then clamp (j0 + 1) 0 (texture.height - 1)
      else tile_index (j0 + 1) texture.height
    value.mul ((((texture.at_ i j).smul (1 - s)).smul (1 - t) +
      ((texture.at_ i j1).smul (1 - s)).smul t) +
      ((texture.at_ i1 j).smul s).smul (1 - t) +
      ((texture.at_ i1 j1).smul s).smul t)

/-- The function `eval_brdf` of `04_pathtrace.cpp`. -/
def eval_brdf (m : libm) (deps : render_deps) (kd ks : vec3f) (n : ℚ) (v l norm : vec3f)
    (microfacet : Bool) : vec3f :=
  if !microfacet then
    let h := normalize m (v + l)
    kd.sdiv m.pif + ((ks.smul (n + 8)).sdiv (8 * m.pif)).smul (deps.pow (max 0 (dot norm h)) n)
  else
    let h := normalize m (v + l)
    let d := (n + 2) / (2 * m.pif) * deps.pow (max 0 (dot norm h)) n
    let f := ks + (one3f - ks).smul (deps.pow (1 - dot h l) 5)
    let g0 := min 1 (2 * dot h norm * dot v norm / dot v h)
    let g := min g0 (2 * dot h norm * dot l norm / dot l h)
    (f.smul (d * g)).sdiv (4 * dot l norm * dot v norm)

/-- The function `eval_env` of `04_pathtrace.cpp`. -/
def eval_env (m : libm) (ke : vec3f) (ke_txt : Option image3f) (dir : vec3f) : vec3f :=
  match ke_txt with
  | none => ke
  | some txt =>
    let u := m.atan2 dir.x dir.z / (2 * m.pif)
    let v := 1 - m.acos dir.y / m.pif
    lookup_scaled_texture ke (some txt) ⟨u, v⟩ true

/-- The function `ray3f::make_segment(a, b)`. -/
def make_segment (m : libm) (a b : vec3f) : ray3f :=
  ⟨a, normalize m (b - a), ray3f_epsilon, length m (a - b) - 2 * ray3f_epsilon⟩

/-- The constructor `ray3f(e, d)`. -/
def ray3f.mk2 (e d : vec3f) : ray3f := ⟨e, d, ray3f_epsilon, ray3f_rayinf⟩

/-- The block of `pathtrace_ray` that sets `kd`: with `scene->mipmapping` the
distance of the hit is recorded in the globals `_max` and `_min` and `kd` is
blended from the three levels; otherwise `kd` is looked up in the texture of
the material.  The result is `kd` with the state after the block. -/
def pathtrace_kd (m : libm) (deps : render_deps) (scene : PathScene) (ray : ray3f)
    (intersection : intersection3f) (st : PathState) : vec3f × PathState :=
  let mat := scene.material intersection.mat
  if scene.mipmapping then
    let distance := length m (intersection.pos - ray.e)
    let st1 := if distance > st._max then { st with _max := distance } else st
    let st2 := if distance < st1._min then { st1 with _min := distance } else st1
    let kd0 : vec3f := zero3f
    let kd :=
      if distance < 18 / 10 then
        kd0 + lookup_scaled_texture mat.kd (some deps.level_0) intersection.texcoord false
      else if distance < 26 / 10 then
        let scale := (26 / 10 - distance) / (8 / 10)
        kd0 + ((lookup_scaled_texture mat.kd (some deps.level_0) intersection.texcoord
            false).smul scale +
          (lookup_scaled_texture mat.kd (some deps.level_1) intersection.texcoord false).smul
            (1 - scale))
      else if distance < 34 / 10 then
        kd0 + lookup_scaled_texture mat.kd (some deps.level_1) intersection.texcoord false
      else if distance < 42 / 10 then
        let scale := (42 / 10 - distance) / (8 / 10)
        kd0 + ((lookup_scaled_texture mat.kd (some deps.level_1) intersection.texcoord
            false).smul scale +
          (lookup_scaled_texture mat.kd (some deps.level_2) intersection.texcoord false).smul
            (1 - scale))
      else if distance ≥ 42 / 10 then
        kd0 + lookup_scaled_texture mat.kd (some deps.level_2) intersection.texcoord false
      else kd0
    (kd, st2)
  else
    (lookup_scaled_texture mat.kd mat.kd_txt intersection.texcoord false, st)

/-- The loop `for(auto light : scene->lights)` of `pathtrace_ray`: the colour
`c` after it. -/
def pathtrace_lights (m : libm) (deps : render_deps) (scene : PathScene) (pos norm v : vec3f)
    (kd ks : vec3f) (n : ℚ) (mf : Bool) (c : vec3f) : vec3f :=
  scene.lights.foldl
    (fun c light =>
      let cl := light.intensity.sdiv (lengthSqr (light.frame.o - pos))
      let l := normalize m (light.frame.o - pos)
      let brdfcos := (eval_brdf m deps kd ks n v l norm mf).smul (max (dot norm l) 0)
      let shade := cl.mul brdfcos
      if shade = zero3f then c
      else if scene.path_shadows then
        if !deps.intersect_shadow (make_segment m pos light.frame.o) then c + shade else c
      else c + shade)
    c

/-- The body of the loop `for (Surface* surface : scene->surfaces)` of
`pathtrace_ray`: the colour `c`, the generator and the local copy of the
intersection record after one surface. -/
def pathtrace_surface (m : libm) (deps : render_deps) (scene : PathScene) (pos norm v : vec3f)
    (kd ks : vec3f) (n : ℚ) (mf : Bool) (acc : vec3f × Rng × intersection3f)
    (surface : Surface) : vec3f × Rng × intersection3f :=
  let c := acc.1
  let rng := acc.2.1
  let intersection := acc.2.2
  let smat := scene.material surface.mat
  if smat.ke = zero3f then acc
  else
    let drawn := deps.next_vec2f rng
    let r := drawn.1
    let rng1 := drawn.2
    let lightPosition : vec3f :=
      if surface.isquad then
        transform_point surface.frame
          ⟨(r.x - 1 / 2) * 2 * surface.radius, (r.y - 1 / 2) * 2 * surface.radius, 0⟩
      else
        transform_point surface.frame
          ((deps.sample_direction_spherical_uniform r).smul surface.radius)
    let area : ℚ :=
      if surface.isquad then 4 * surface.radius * surface.radius
      else 4 * m.pif * surface.radius * surface.radius
    let normal : vec3f :=
      if surface.isquad then transform_normal m surface.frame ⟨0, 0, 1⟩
      else transform_normal m surface.frame (deps.sample_direction_spherical_uniform r)
    let intersection1 := { intersection with texcoord := ⟨r.x, r.y⟩ }
    let emission := lookup_scaled_texture smat.ke smat.ke_txt r false
    let direction := normalize m (lightPosition - pos)
    let response := ((emission.smul area).smul (max (-1 * dot direction normal) 0)).sdiv
      (lengthSqr (pos - lightPosition))
    let brdfcos := (eval_brdf m deps kd ks n v direction norm mf).smul (max (dot norm direction) 0)
    let shade := response.mul brdfcos
    if shade = zero3f then (c, rng1, intersection1)
    else if scene.path_shadows then
      if !deps.intersect_shadow (make_segment m pos lightPosition) then
        (c + shade, rng1, intersection1)
      else (c, rng1, intersection1)
    else (c + shade, rng1, intersection1)

/-- The block of `pathtrace_ray` that samples the environment when
`scene->background` is not zero: the colour `c` and the generator after it.
The two random arguments of `sample_brdf` are drawn from left to right. -/
def pathtrace_environment (m : libm) (deps : render_deps) (scene : PathScene)
    (pos norm v : vec3f) (kd ks : vec3f) (n : ℚ) (mf : Bool) (c : vec3f) (rng : Rng) :
    vec3f × Rng :=
  if scene.background ≠ zero3f then
    let d2 := deps.next_vec2f rng
    let d1 := deps.next_float d2.2
    let res := deps.sample_brdf kd ks n v norm d2.1 d1.1
    let Lenv := (eval_env m scene.background scene.background_txt res.1).sdiv res.2
    let brdfcos := (eval_brdf m deps kd ks n v res.1 norm mf).smul (max (dot norm res.1) 0)
    let response := brdfcos.mul Lenv
    if response ≠ zero3f then
      if scene.path_shadows then
        if !deps.intersect_shadow (ray3f.mk2 pos res.1) then (c + response, d1.2)
        else (c, d1.2)
      else (c + response, d1.2)
    else (c, d1.2)
  else (c, rng)

/-- The block "sample the brdf for indirect illumination" of `pathtrace_ray`:
the colour `c` and the state after it, `none` when the recursive call does not
come back.  `call` stands for the recursive calls of `pathtrace_ray`, and `st`
holds the generator as the blocks before left it. -/
def pathtrace_indirect (m : libm) (deps : render_deps) (scene : PathScene)
    (call : ray3f → PathState → Nat → Option (vec3f × PathState)) (depth : Nat)
    (pos norm v : vec3f) (kd ks : vec3f) (n : ℚ) (mf : Bool) (c : vec3f) (st : PathState) :
    Option (vec3f × PathState) :=
  if scene.russianRoulette then
    let d2 := deps.next_vec2f st.rng
    let d1 := deps.next_float d2.2
    let res := deps.sample_brdf kd ks n v norm d2.1 d1.1
    let brdfcos := (eval_brdf m deps kd ks n v res.1 norm mf).smul (max (dot norm res.1) 0)
    if res.2 > 1 / 10 then
      match call (ray3f.mk2 pos res.1) { st with rng := d1.2 } (depth + 1) with
      | none => none
      | some (li, st1) => some (c + ((li.mul (brdfcos.sdiv res.2)).sdiv (1 - res.2)), st1)
    else some (c, { st with rng := d1.2 })
  else
    if (depth : Int) < scene.path_max_depth ∧ (kd ≠ zero3f ∨ ks ≠ zero3f) then
      let d2 := deps.next_vec2f st.rng
      let d1 := deps.next_float d2.2
      let res := deps.sample_brdf kd ks n v norm d2.1 d1.1
      let brdfcos := (eval_brdf m deps kd ks n v res.1 norm mf).smul (max (dot norm res.1) 0)
      match call (ray3f.mk2 pos res.1) { st with rng := d1.2 } (depth + 1) with
      | none => none
      | some (li, st1) => some (c + li.mul (brdfcos.sdiv res.2), st1)
    else some (c, st)

/-- One round of the loop `for(int k = 0; k < num; k++)` of the blurry
reflection: the sum and the state after it. -/
def pathtrace_blurry_step (deps : render_deps)
    (call : ray3f → PathState → Nat → Option (vec3f × PathState)) (depth : Nat) (ray : ray3f)
    (intersection : intersection3f) (kr : vec3f) (acc : Option (vec3f × PathState)) :
    Option (vec3f × PathState) :=
  match acc with
  | none => none
  | some (sum, st) =>
    let reflection0 := deps.reflect ray.d intersection.norm
    let d1 := deps.next_float st.rng
    let reflection := reflection0.smul (1 - (2 / 10) * d1.1)
    let rr := ray3f.mk2 intersection.pos reflection
    match call rr { st with rng := d1.2 } (depth + 1) with
    | none => none
    | some (lr, st1) => some (sum + kr.mul lr, st1)

/-- The block "if the material has reflections" of `pathtrace_ray`. -/
def pathtrace_reflections (deps : render_deps) (scene : PathScene)
    (call : ray3f → PathState → Nat → Option (vec3f × PathState)) (depth : Nat) (ray : ray3f)
    (intersection : intersection3f) (kr : vec3f) (c : vec3f) (st : PathState) :
    Option (vec3f × PathState) :=
  if kr ≠ zero3f then
    if scene.blurryReflection then
      let num : Nat := 10
      match (List.range num).foldl
          (fun acc _ => pathtrace_blurry_step deps call depth ray intersection kr acc)
          (some (zero3f, st)) with
      | none => none
      | some (sum, st1) => some (c + sum.sdiv num, st1)
    else
      let rr := ray3f.mk2 intersection.pos (deps.reflect ray.d intersection.norm)
      match call rr st (depth + 1) with
      | none => none
      | some (lr, st1) => some (c + kr.mul lr, st1)
  else some (c, st)

/-- The body of `pathtrace_ray(scene, ray, rng, depth)`, with `call` standing
for its recursive calls: the returned colour and the state after the call. -/
def pathtrace_call (m : libm) (deps : render_deps) (scene : PathScene)
    (call : ray3f → PathState → Nat → Option (vec3f × PathState)) (ray : ray3f)
    (st0 : PathState) (depth : Nat) : Option (vec3f × PathState) :=
  let st := { st0 with deepest := max st0.deepest depth }
  let intersection := deps.intersect ray
  if !intersection.hit then
    some (eval_env m scene.background scene.background_txt ray.d, st)
  else
    let pos := intersection.pos
    let norm := intersection.norm
    let v := -ray.d
    let mat := scene.material intersection.mat
    let kdst := pathtrace_kd m deps scene ray intersection st
    let kd := kdst.1
    let ke := lookup_scaled_texture mat.ke mat.ke_txt intersection.texcoord false
    let ks := lookup_scaled_texture mat.ks mat.ks_txt intersection.texcoord false
    let n := mat.n
    let mf := mat.microfacet
    let c0 := scene.ambient.mul kd
    let c1 := if depth = 0 ∧ dot v norm > 0 then c0 + ke else c0
    let c2 := pathtrace_lights m deps scene pos norm v kd ks n mf c1
    let surf := scene.surfaces.foldl (pathtrace_surface m deps scene pos norm v kd ks n mf)
      (c2, kdst.2.rng, intersection)
    let env := pathtrace_environment m deps scene pos norm v kd ks n mf surf.1 surf.2.1
    match pathtrace_indirect m deps scene call depth pos norm v kd ks n mf env.1
        { kdst.2 with rng := env.2 } with
    | none => none
    | some (c5, st5) => pathtrace_reflections deps scene call depth ray intersection mat.kr c5 st5

/-- The function `pathtrace_ray(scene, ray, rng, depth)`: the returned colour
and the state after the call.  A call nested `k` levels below the first runs
with `depth + k`; `fuel` bounds the nesting, and the result is `none` when the
recursion goes deeper than that. -/
def pathtrace_ray (m : libm) (deps : render_deps) (scene : PathScene) :
    Nat → ray3f → PathState → Nat → Option (vec3f × PathState)
  | 0, _, _, _ => none
  | fuel + 1, ray, st, depth =>
    pathtrace_call m deps scene (pathtrace_ray m deps scene fuel) ray st depth

/-! ## Sample data for the path tracer -/

/-- Modelled from the spec: `reflect(d, n)` of `vmath.h`, the mirror-reflected
direction. -/
def mirror_reflect (d n : vec3f) : vec3f := d - n.smul (2 * dot d n)

/-- Sample data: the unit quad moved one unit up the z axis, facing
`unit_quad`. -/
def far_quad : Surface := ⟨⟨⟨0, 0, 1⟩, ⟨1, 0, 0⟩, ⟨0, 1, 0⟩, ⟨0, 0, 1⟩⟩, 1, 0, true, false, 1⟩

/-- Sample data: the surface loop of `intersect(scene, ray)` over the two
facing quads. -/
def hall_intersect (m : libm) (ray : ray3f) : intersection3f :=
  [unit_quad, far_quad].foldl (intersect_surface m ray) intersection3f.init

/-- Sample data: a one-pixel white image. -/
def white_image : image3f := ⟨1, 1, fun _ _ => one3f⟩

/-- Sample data: the headers that are not among the sources, for the two
facing quads: a generator that counts its draws and returns one half, and a
sampler that returns the normal with density one. -/
def hall_deps (m : libm) : render_deps where
  intersect := hall_intersect m
  intersect_shadow := fun _ => false
  intersect_shadow_unbounded := fun _ _ _ => false
  next_float := fun rng => (1 / 2, ⟨rng.state + 1⟩)
  next_vec2f := fun rng => (⟨1 / 2, 1 / 2⟩, ⟨rng.state + 1⟩)
  next_int := fun rng lo _ => (lo, ⟨rng.state + 1⟩)
  sample_brdf := fun _ _ _ _ norm _ _ => (norm, 1)
  sample_direction_spherical_uniform := fun _ => z3f
  sample_direction_hemispherical_cosine := fun _ => z3f
  sample_direction_hemispherical_cosine_pdf := fun _ => 1
  sample_point := fun surface _ => surface.frame.o
  reflect := mirror_reflect
  pow := fun _ _ => 1
  level_0 := white_image
  level_1 := white_image
  level_2 := white_image

/-- Sample data: a perfect mirror that neither emits nor scatters. -/
def mirror_material : Material := ⟨zero3f, zero3f, zero3f, one3f, 0, false, none, none, none⟩

/-- Sample data: a white diffuse material without reflection. -/
def matte_material : Material := ⟨zero3f, one3f, zero3f, zero3f, 0, false, none, none, none⟩

/-- Sample data: the two facing quads, both of material `mat`, without lights,
with a black background, `path_max_depth` 2 and Russian roulette and blurry
reflections off. -/
def hall_scene (mat : Material) (mipmapping : Bool) : PathScene :=
  ⟨zero3f, none, zero3f, [], [unit_quad, far_quad], 2, false, false, false, mipmapping,
    fun _ => mat⟩

/-- Sample data: the ray from the centre of `unit_quad` straight up. -/
def up_ray : ray3f := ray3f.mk2 ⟨0, 0, 0⟩ ⟨0, 0, 1⟩

/-- Sample data: the ray from the centre of `far_quad` straight down. -/
def down_ray : ray3f := ray3f.mk2 ⟨0, 0, 1⟩ ⟨0, 0, -1⟩

/-- Sample data: the state before the first call: the globals as
`04_pathtrace.cpp` initialises them. -/
def first_state : PathState := ⟨⟨0⟩, 10000, 0, 0⟩

/-- Sample data: a scene without geometry whose ambient colour is white and
whose background is grey. -/
def void_scene : PathScene :=
  ⟨⟨1 / 2, 1 / 2, 1 / 2⟩, none, one3f, [], [], 2, false, false, false, false,
    fun _ => matte_material⟩

/-- Sample data: the headers that are not among the sources, for a scene
without geometry. -/
def void_deps : render_deps :=
  { hall_deps sample_libm with intersect := fun _ => intersection3f.init }

/-! ## The ray tracer of the final project -/

/-- The constant `MAX_DEPTH` of `finalProject/Archive/part2/src/apps/01_raytrace.cpp`. -/
def MAX_DEPTH : Nat := 1

/-- The constant `MAX_LIGHTING_SAMPLES` of the same file. -/
def MAX_LIGHTING_SAMPLES : Nat := 1

/-- The function `compute_reflection_vector(normal, vector)`. -/
def compute_reflection_vector (normal vector : vec3f) : vec3f :=
  normal.smul (2 * dot normal vector) - vector

/-- The function `fmodf(x, 1.0f)`: `x` without its integer part. -/
def fmodf_one (x : ℚ) : ℚ := x - trunc x

/-- The function `lookup_scaled_texture(value, texture, uv)` of the final
project: the texel at the truncated coordinates. -/
def finalProject.lookup_scaled_texture (value : vec3f) (texture : Option image3f) (uv : vec2f) :
    vec3f :=
  match texture with
  | none => value
  | some texture =>
    let u := fmodf_one uv.x
    let v := fmodf_one uv.y
    value.mul (texture.at_ (trunc (u * (texture.width - 1))) (trunc (v * (texture.height - 1))))

/-- The function `eval_brdf` of the final project; in the microfacet branch
`put_your_code_here` prints a warning and the placeholder is returned. -/
def finalProject.eval_brdf (m : libm) (deps : render_deps) (kd ks : vec3f) (n : ℚ)
    (v l norm : vec3f) (microfacet : Bool) : vec3f :=
  if !microfacet then
    let h := normalize m (v + l)
    kd.sdiv m.pif + ((ks.smul (n + 8)).sdiv (8 * m.pif)).smul (deps.pow (max 0 (dot norm h)) n)
  else one3f

/-- The function `eval_env` of the final project. -/
def finalProject.eval_env (m : libm) (ke : vec3f) (ke_txt : Option image3f) (dir : vec3f) :
    vec3f :=
  let u := m.atan2 dir.x dir.z / (2 * m.pif)
  let v := 1 - m.acos dir.y / m.pif
  finalProject.lookup_scaled_texture ke ke_txt ⟨u, v⟩

/-- The environment-mapping block of `raytrace_ray`, entered when
`scene->background_txt` is set: the colour `c` and the generator after it. -/
def raytrace_environment (m : libm) (deps : render_deps) (scene : PathScene)
    (txt : image3f) (pos norm v : vec3f) (kd ks : vec3f) (n : ℚ) (mf : Bool) (c : vec3f)
    (rng : Rng) : vec3f × Rng :=
  let d2 := deps.next_vec2f rng
  let sampled_dir := normalize m (deps.sample_direction_hemispherical_cosine d2.1)
  let sampled_pdf := deps.sample_direction_hemispherical_cosine_pdf sampled_dir
  let cl := finalProject.eval_env m ⟨1, 1, 1⟩ (some txt) sampled_dir
  let brdfcos := (finalProject.eval_brdf m deps kd ks n v sampled_dir norm mf).smul
    (max (dot norm sampled_dir) 0)
  let shade := if sampled_pdf ≠ 0 then (cl.mul brdfcos).sdiv sampled_pdf else zero3f
  if scene.path_shadows ∧ shade ≠ zero3f ∧ sampled_pdf ≠ 0 then
    if !deps.intersect_shadow_unbounded pos sampled_dir ray3f_epsilon then (c + shade, d2.2)
    else (c, d2.2)
  else (c + shade, d2.2)

/-- The loop `for(auto light : scene->lights)` of `raytrace_ray`: the colour
`c` after it. -/
def raytrace_lights (m : libm) (deps : render_deps) (scene : PathScene) (pos norm v : vec3f)
    (kd ks : vec3f) (n : ℚ) (mf : Bool) (c : vec3f) : vec3f :=
  scene.lights.foldl
    (fun c light =>
      let cl := light.intensity.sdiv (lengthSqr (light.frame.o - pos))
      let l := normalize m (light.frame.o - pos)
      let brdfcos := (finalProject.eval_brdf m deps kd ks n v l norm mf).smul
        (max (dot norm l) 0)
      let shade := cl.mul brdfcos
      if shade = zero3f then c
      else if scene.path_shadows then
        if !deps.intersect_shadow (make_segment m pos light.frame.o) then c + shade else c
      else c + shade)
    c

/-- The vector `light_list` of `raytrace_ray` after the loop over the
surfaces: one entry for every surface whose material emits, and every entry
is the value of `index`, which the loop leaves at 0. -/
def raytrace_light_list (scene : PathScene) : List Nat :=
  let index : Nat := 0
  (scene.surfaces.filter (fun surf => decide ((scene.material surf.mat).ke ≠ zero3f))).map
    (fun _ => index)

/-- The position in `scene->surfaces` of the surface `surf` that one round of
the sampling loop of `raytrace_ray` picks, with the generator after the draw
of `random_light`; `none` when `light_list` is read outside its bounds. -/
def raytrace_pick_light (deps : render_deps) (scene : PathScene) (rng : Rng) :
    Option (Nat × Rng) :=
  let light_list := raytrace_light_list scene
  let num_lights : Int := light_list.length
  let drawn := deps.next_int rng 0 (num_lights - 1)
  let random_light := drawn.1
  if random_light < 0 then none
  else
    match light_list[random_light.toNat]? with
    | none => none
    | some i => some (i, drawn.2)

/-- One round of the loop `for(int samples = 0; samples < MAX_LIGHTING_SAMPLES;
samples++)` of `raytrace_ray`: `lighting` and the generator after it; `none`
when a vector is read outside its bounds. -/
def raytrace_light_sample (m : libm) (deps : render_deps) (scene : PathScene)
    (pos norm v : vec3f) (kd ks : vec3f) (n : ℚ) (mf : Bool) (acc : Option (vec3f × Rng)) :
    Option (vec3f × Rng) :=
  match acc with
  | none => none
  | some (lighting, rng) =>
    match raytrace_pick_light deps scene rng with
    | none => none
    | some (i, rng1) =>
      match scene.surfaces[i]? with
      | none => none
      | some surf =>
        let drawn := deps.next_vec2f rng1
        let rand_pos := drawn.1
        let sampled_location := deps.sample_point surf rand_pos
        let cl0 := (scene.material surf.mat).ke.sdiv (lengthSqr (sampled_location - pos))
        let l := normalize m (sampled_location - pos)
        let dotp := dot (-l) surf.frame.z
        let cl := if dotp < 0 then zero3f else cl0
        if cl ≠ zero3f then
          let side := surf.radius * 2
          let area := side * side
          let brdfcos := (((finalProject.eval_brdf m deps kd ks n v l norm mf).smul
            (max (dot norm l) 0)).smul dotp).smul area
          if scene.path_shadows then
            if !deps.intersect_shadow (make_segment m pos sampled_location) then
              some (lighting + cl.mul brdfcos, drawn.2)
            else some (lighting, drawn.2)
          else some (lighting + cl.mul brdfcos, drawn.2)
        else some (lighting, drawn.2)

/-- The direct lighting of `raytrace_ray`: the environment when a background
texture is set, else the point lights when there are any, else a sample of
the emissive surfaces.  The result is the colour `c` and the generator after
the block. -/
def raytrace_direct (m : libm) (deps : render_deps) (scene : PathScene) (pos norm v : vec3f)
    (kd ks : vec3f) (n : ℚ) (mf : Bool) (c : vec3f) (rng : Rng) : Option (vec3f × Rng) :=
  match scene.background_txt with
  | some txt => some (raytrace_environment m deps scene txt pos norm v kd ks n mf c rng)
  | none =>
    if scene.lights.length ≠ 0 then
      some (raytrace_lights m deps scene pos norm v kd ks n mf c, rng)
    else
      let num_lights := (raytrace_light_list scene).length
      if num_lights ≠ 0 then
        match (List.range MAX_LIGHTING_SAMPLES).foldl
            (fun acc _ => raytrace_light_sample m deps scene pos norm v kd ks n mf acc)
            (some (zero3f, rng)) with
        | none => none
        | some (lighting, rng1) => some (c + lighting.sdiv MAX_LIGHTING_SAMPLES, rng1)
      else some (c, rng)

/-- The block of `raytrace_ray` for the indirect bounce: the colour `c`, the
generator and the local variable `depth` after it (`++depth` raises it before
the call). -/
def raytrace_bounce (m : libm) (deps : render_deps)
    (call : ray3f → Rng → Nat → Option (vec3f × Rng)) (depth : Nat) (pos norm v : vec3f)
    (kd ks : vec3f) (n : ℚ) (mf : Bool) (c : vec3f) (rng : Rng) : Option (vec3f × Rng × Nat) :=
  if (kd ≠ zero3f ∨ ks ≠ zero3f) ∧ depth < MAX_DEPTH then
    let d2 := deps.next_vec2f rng
    let sampled_dir := normalize m (deps.sample_direction_hemispherical_cosine d2.1)
    let sampled_pdf := deps.sample_direction_hemispherical_cosine_pdf sampled_dir
    let brdfcos := ((finalProject.eval_brdf m deps kd ks n v sampled_dir norm mf).smul
      (max (dot norm sampled_dir) 0)).sdiv sampled_pdf
    match call ⟨pos, sampled_dir, ray3f_epsilon, ray3f_rayinf⟩ d2.2 (depth + 1) with
    | none => none
    | some (li, rng1) => some (c + brdfcos.mul li, rng1, depth + 1)
  else some (c, rng, depth)

/-- The block of `raytrace_ray` for the reflection: the colour `c` and the
generator after it; `depth` is the local variable as the bounce left it. -/
def raytrace_reflection (m : libm)
    (call : ray3f → Rng → Nat → Option (vec3f × Rng)) (depth : Nat)
    (intersection : intersection3f) (v kr : vec3f) (c : vec3f) (rng : Rng) :
    Option (vec3f × Rng) :=
  if ¬ (kr = zero3f) then
    let reflection_direction := normalize m (compute_reflection_vector intersection.norm v)
    let refl_ray : ray3f := ⟨intersection.pos + reflection_direction.smul ray3f_epsilon,
      reflection_direction, ray3f_epsilon, ray3f_rayinf⟩
    match call refl_ray rng (depth + 1) with
    | none => none
    | some (refl_component, rng1) => some (c + kr.mul refl_component, rng1)
  else some (c, rng)

/-- The body of `raytrace_ray(scene, ray, rng, depth)`, with `call` standing
for its recursive calls: the returned colour and the generator after the
call. -/
def raytrace_call (m : libm) (deps : render_deps) (scene : PathScene)
    (call : ray3f → Rng → Nat → Option (vec3f × Rng)) (ray : ray3f) (rng : Rng) (depth : Nat) :
    Option (vec3f × Rng) :=
  if depth ≥ MAX_DEPTH then some (zero3f, rng)
  else
    let intersection := deps.intersect ray
    if !intersection.hit then
      some (finalProject.eval_env m scene.background scene.background_txt ray.d, rng)
    else
      let pos := intersection.pos
      let norm := intersection.norm
      let v := -ray.d
      let mat := scene.material intersection.mat
      let ke := finalProject.lookup_scaled_texture mat.ke mat.ke_txt intersection.texcoord
      let kd := finalProject.lookup_scaled_texture mat.kd mat.kd_txt intersection.texcoord
      let ks := finalProject.lookup_scaled_texture mat.ks mat.ks_txt intersection.texcoord
      let n := mat.n
      let mf := mat.microfacet
      let c0 := scene.ambient.mul kd
      let c1 := if depth = 0 ∧ dot v norm > 0 then c0 + ke else c0
      match raytrace_direct m deps scene pos norm v kd ks n mf c1 rng with
      | none => none
      | some (c2, rng2) =>
        match raytrace_bounce m deps call depth pos norm v kd ks n mf c2 rng2 with
        | none => none
        | some (c3, rng3, depth3) =>
          raytrace_reflection m call depth3 intersection v mat.kr c3 rng3

/-- The function `raytrace_ray(scene, ray, rng, depth)` of the final project:
the returned colour and the generator after the call.  The renderer calls it
with `depth` 0.  `fuel` bounds the nesting of the calls; the result is `none`
when the recursion goes deeper than that or a vector is read outside its
bounds. -/
def raytrace_ray (m : libm) (deps : render_deps) (scene : PathScene) :
    Nat → ray3f → Rng → Nat → Option (vec3f × Rng)
  | 0, _, _, _ => none
  | fuel + 1, ray, rng, depth =>
    raytrace_call m deps scene (raytrace_ray m deps scene fuel) ray rng depth

/-- Modelled from the spec: the contract of `Rng::next_int(vec2i(lo, hi))` of
`montecarlo.h`, an integer between `lo` and `hi`. -/
def render_deps.next_int_in_range (deps : render_deps) : Prop :=
  ∀ (rng : Rng) (lo hi : Int), lo ≤ hi →
    lo ≤ (deps.next_int rng lo hi).1 ∧ (deps.next_int rng lo hi).1 ≤ hi

/-! ## The scene intersection of the final submission -/

/-- The constructor `intersection3f()` of the final submission
(`finalsubmission-1/part2`): `hit` is false and `ray_t` is `FLT_MAX`; the
fields the constructor leaves uninitialised are zero here. -/
def finalsubmission.intersection3f_init : intersection3f :=
  ⟨false, flt_max, zero3f, zero3f, zero2f, 0⟩

/-- The number a finite float stands for (0 for the special values, which
the code never stores: see `finalsubmission.intersect_triangle_below`). -/
def xfloat.value : xfloat → ℚ
  | xfloat.fin q => q
  | _ => 0

/-- The leaf loop of the template `intersect(bvh, nodeid, ray, intersect_elem)`
for a closure that writes a record it captured by reference: the closure is
a function from the captured record to the captured record, it returns a copy
of it, and the loop threads it along with the running `intersection` and the
shortened ray. -/
def intersect_leaf_st (prims : std_vector Nat)
    (intersect_elem : Nat → ray3f → intersection3f → intersection3f) :
    List Nat → (intersection3f × ray3f) × intersection3f →
      Option ((intersection3f × ray3f) × intersection3f)
  | [], state => some state
  | idx :: rest, state =>
    match prims.read idx with
    | none => none
    | some i =>
      let captured := intersect_elem i state.1.2 state.2
      intersect_leaf_st prims intersect_elem rest (closest_step state.1 captured, captured)

/-- The template `intersect(bvh, nodeid, ray, intersect_elem)` of the final
submission, for a closure that writes a record it captured by reference
(`captured` is that record before the call; the result holds the returned
record and the captured record after the call).  A fresh `intersection3f()`
has `ray_t = FLT_MAX` here.  `fuel` is as in `BVHAccelerator.intersect`. -/
def BVHAccelerator.intersect_st (bvh : BVHAccelerator)
    (intersect_elem : Nat → ray3f → intersection3f → intersection3f) :
    Nat → Nat → ray3f → intersection3f → Option (intersection3f × intersection3f)
  | 0, _, _, _ => none
  | fuel + 1, nodeid, ray, captured =>
    match bvh.nodes[nodeid]? with
    | none => none
    | some node =>
      if !intersect_bbox_hit ray node.bbox then
        some (finalsubmission.intersection3f_init, captured)
      else if node.leaf then
        (intersect_leaf_st bvh.prims intersect_elem
          (List.range' node.start (node.end_ - node.start))
          ((finalsubmission.intersection3f_init, ray), captured)).map
          (fun out => (out.1.1, out.2))
      else
        match BVHAccelerator.intersect_st bvh intersect_elem fuel node.n0 ray captured with
        | none => none
        | some (s0, captured0) =>
          let state := closest_step (finalsubmission.intersection3f_init, ray) s0
          match BVHAccelerator.intersect_st bvh intersect_elem fuel node.n1 state.2
              captured0 with
          | none => none
          | some (s1, captured1) => some ((closest_step state s1).1, captured1)

/-- The closure `[mesh, &sintersection](int tid, ray3f tray)` that
`intersect(scene, ray)` of the final submission hands to the BVH: the captured
`sintersection` after the call, which is also what the call returns.  Vertex
and triangle indices are read with `getD`, as in `triangle_elem`. -/
def finalsubmission.triangle_closure (m : libm) (mesh : Mesh) (tid : Nat) (tray : ray3f)
    (sintersection : intersection3f) : intersection3f :=
  let triangle := mesh.triangle.getD tid ⟨0, 0, 0⟩
  let v0 := mesh.pos.getD triangle.x zero3f
  let v1 := mesh.pos.getD triangle.y zero3f
  let v2 := mesh.pos.getD triangle.z zero3f
  match finalsubmission.intersect_triangle tray v0 v1 v2 with
  | none => sintersection
  | some (hit_t, bary_u, bary_v) =>
    if hit_t.lt (xfloat.fin sintersection.ray_t) then
      { hit := true
        ray_t := hit_t.value
        pos := tray.eval hit_t.value
        norm := normalize m (cross (v1 - v0) (v2 - v0))
        texcoord :=
          if mesh.texcoord.length = 0 then zero2f
          else
            let tv0 := mesh.texcoord.getD triangle.x zero2f
            let tv1 := mesh.texcoord.getD triangle.y zero2f
            let tv2 := mesh.texcoord.getD triangle.z zero2f
            vec2f.smul (1 - bary_u.value - bary_v.value) tv0 + vec2f.smul bary_u.value tv1 +
              vec2f.smul bary_v.value tv2
        mat := mesh.mat }
    else sintersection

/-- The body of the linear triangle scan of `intersect(scene, ray)` of the
final submission. -/
def finalsubmission.scan_triangle (m : libm) (mesh : Mesh) (tray : ray3f)
    (sintersection : intersection3f) (tri_idx : vec3i) : intersection3f :=
  let v0 := mesh.pos.getD tri_idx.x zero3f
  let v1 := mesh.pos.getD tri_idx.y zero3f
  let v2 := mesh.pos.getD tri_idx.z zero3f
  match finalsubmission.intersect_triangle tray v0 v1 v2 with
  | none => sintersection
  | some (hit_t, _, _) =>
    if hit_t.lt (xfloat.fin sintersection.ray_t) then
      { hit := true
        ray_t := hit_t.value
        pos := transform_point mesh.frame (tray.eval hit_t.value)
        norm := transform_normal m mesh.frame (normalize m (cross (v1 - v0) (v2 - v0)))
        texcoord := zero2f
        mat := mesh.mat }
    else sintersection

/-- The mesh-local record `sintersection` of `intersect(scene, ray)` of the
final submission: what the BVH traversal returns when the mesh has a BVH, and
the outcome of the linear scan otherwise. -/
def finalsubmission.intersect_mesh (m : libm) (mesh : Mesh) (tray : ray3f) :
    Option intersection3f :=
  match mesh.bvh with
  | some bvh =>
    (bvh.intersect_st (finalsubmission.triangle_closure m mesh) bvh.depth_bound 0 tray
      finalsubmission.intersection3f_init).map Prod.fst
  | none =>
    some (mesh.triangle.foldl (finalsubmission.scan_triangle m mesh tray)
      finalsubmission.intersection3f_init)

/-- The mesh loop of `intersect(scene, ray)` of the final submission. -/
def finalsubmission.intersect_meshes (m : libm) (ray : ray3f) :
    List Mesh → intersection3f → Outcome intersection3f
  | [], intersection => Outcome.value intersection
  | mesh :: rest, intersection =>
    if !mesh.quad.isEmpty then Outcome.fatal "quad intersection is not supported"
    else
      let tray := transform_ray_inverse mesh.frame ray
      match finalsubmission.intersect_mesh m mesh tray with
      | none => Outcome.stuck
      | some sintersection =>
        if !sintersection.hit then finalsubmission.intersect_meshes m ray rest intersection
        else if decide (sintersection.ray_t > intersection.ray_t) && intersection.hit then
          finalsubmission.intersect_meshes m ray rest intersection
        else
          finalsubmission.intersect_meshes m ray rest
            { sintersection with
              pos := transform_point mesh.frame sintersection.pos
              norm := normalize m (transform_normal m mesh.frame sintersection.norm)
              mat := sintersection.mat }

/-- The body of the surface loop of `intersect(scene, ray)` of the final
submission: a quad or a sphere (the values `u` and `v` that the sphere branch
computes from `projection` are not used). -/
def finalsubmission.intersect_surface (m : libm) (ray : ray3f) (intersection : intersection3f)
    (surface : Surface) : intersection3f :=
  if surface.isquad then
    let tray := transform_ray_inverse surface.frame ray
    match intersect_quad tray surface.radius with
    | none => intersection
    | some (t, p) =>
      if decide (t > intersection.ray_t) && intersection.hit then intersection
      else
        { hit := true
          ray_t := t
          pos := transform_point surface.frame p
          norm := transform_normal m surface.frame z3f
          texcoord := ⟨(1 / 2) * p.x / surface.radius + 1 / 2,
                       (1 / 2) * p.y / surface.radius + 1 / 2⟩
          mat := surface.mat }
  else
    let tray := transform_ray_inverse surface.frame ray
    match intersect_sphere m tray surface.radius with
    | none => intersection
    | some t =>
      if decide (t > intersection.ray_t) && intersection.hit then intersection
      else
        let p := tray.eval t
        let n := normalize m p
        { hit := true
          ray_t := t
          pos := transform_point surface.frame p
          norm := transform_normal m surface.frame n
          texcoord := ⟨(m.pif + m.atan2 n.y n.x) / (2 * m.pif), m.acos n.z / m.pif⟩
          mat := surface.mat }

/-- The function `intersect(scene, ray)` of the final submission. -/
def finalsubmission.intersect (m : libm) (scene : Scene) (ray : ray3f) :
    Outcome intersection3f :=
  finalsubmission.intersect_meshes m ray scene.meshes
    (scene.surfaces.foldl (finalsubmission.intersect_surface m ray)
      finalsubmission.intersection3f_init)

/-- Sample data: the corner triangle as a mesh whose texture coordinates are
the x and y of its vertices, with the BVH that the final submission builds
for it. -/
def corner_mesh : Mesh :=
  { frame := identity_frame3f
    pos := [corner_v0, corner_v1, corner_v2]
    texcoord := [⟨1, 0⟩, ⟨0, 1⟩, ⟨0, 0⟩]
    triangle := [⟨0, 1, 2⟩]
    quad := []
    mat := 3
    bvh := some (make_accelerator_kd_tree insertion_sort
      [make_range3f [corner_v0, corner_v1, corner_v2]]) }

/-- The record `intersection3f` of the stand-alone ray tracer: it has no
texture coordinate. -/
structure YuanT.intersection3f where
  hit : Bool
  ray_t : ℚ
  pos : vec3f
  norm : vec3f
  mat : Nat
deriving DecidableEq

/-- The constructor `intersection3f()` of the stand-alone ray tracer: only
`hit` is set; the members it leaves uninitialised are zero here. -/
def YuanT.intersection3f_init : YuanT.intersection3f := ⟨false, 0, zero3f, zero3f, 0⟩

/-- The body of the loop `while(i>=0)` of `intersect(scene, ray)` of the
stand-alone ray tracer for the surface `s`: the record `intersection` and the
variable `t_cl` after it.  Each branch computes `t` as a quotient whose divisor
it does not test; an infinite or `NaN` quotient fails `t>ray.tmin&&t<ray.tmax`
(or an earlier test) and the branch ends in `continue`. -/
def YuanT.intersect_surface (m : libm) (ray : ray3f) (state : YuanT.intersection3f × ℚ)
    (s : Surface) : YuanT.intersection3f × ℚ :=
  let t_cl := state.2
  if s.isquad then
    match xfloat.div (dot (s.frame.o - ray.e) s.frame.z) (dot ray.d s.frame.z) with
    | xfloat.fin t =>
      let p := ray.e + ray.d.smul t
      let distance_x := fabs (p.x - s.frame.o.x)
      let distance_y := fabs (p.y - s.frame.o.y)
      if distance_x > s.radius ∨ distance_y > s.radius then state
      else if t > ray.tmin ∧ t < ray.tmax then
        if t ≤ t_cl then
          (⟨true, t, ray.eval t, normalize m s.frame.z, s.mat⟩, t)
        else state
      else state
    | _ => state
  else if s.iscylinder then
    let a := ray.d.z * ray.d.z + ray.d.x * ray.d.x
    let b := 2 * (ray.e.z * ray.d.z + ray.e.x * ray.d.x)
    let c := ray.e.z * ray.e.z + ray.e.x * ray.e.x - s.radius * s.radius
    let dt := b * b - 4 * a * c
    if dt < 0 then state
    else
      match xfloat.div (-b - m.sqrt dt) (2 * a) with
      | xfloat.fin t =>
        let p := ray.e + ray.d.smul t
        let distance_y := p.y
        if distance_y > s.height / 2 then state
        else if t > ray.tmin ∧ t < ray.tmax then
          if t ≤ t_cl then
            (⟨true, t, ray.eval t,
              normalize m (ray.eval t - s.frame.o - ⟨0, (ray.eval t).y, 0⟩), s.mat⟩, t)
          else state
        else state
      | _ => state
  else
    let a := dot ray.d ray.d
    let b := 2 * dot ray.d (ray.e - s.frame.o)
    let c := dot (ray.e - s.frame.o) (ray.e - s.frame.o) - s.radius * s.radius
    let dt := b * b - 4 * a * c
    if dt < 0 then state
    else
      match xfloat.div (-b - m.sqrt dt) (2 * a) with
      | xfloat.fin t =>
        if t > ray.tmin ∧ t < ray.tmax then
          if t ≤ t_cl then
            (⟨true, t, ray.eval t, normalize m (ray.eval t - s.frame.o), s.mat⟩, t)
          else state
        else state
      | _ => state

/-- The function `intersect(scene, ray)` of the stand-alone ray tracer: the
loop runs from the last surface to the first, with `t_cl` starting at
`ray.tmax`. -/
def YuanT.intersect (m : libm) (scene : Scene) (ray : ray3f) : YuanT.intersection3f :=
  (scene.surfaces.reverse.foldl (YuanT.intersect_surface m ray)
    (YuanT.intersection3f_init, ray.tmax)).1

/-- The comparison `a <= b`; every comparison with `NaN` is false. -/
def xfloat.le : xfloat → xfloat → Bool
  | xfloat.nan, _ => false
  | _, xfloat.nan => false
  | xfloat.fin a, xfloat.fin b => decide (a ≤ b)
  | xfloat.ninf, _ => true
  | _, xfloat.pinf => true
  | xfloat.pinf, _ => false
  | xfloat.fin _, xfloat.ninf => false

/-- The comparison `a >= b`. -/
def xfloat.ge (a b : xfloat) : Bool := xfloat.le b a

/-- The lateral part of `intersect_cylinder`, the block `if(d>=0)`, with `t1`,
`z1`, `t2` and `z2` as floats that may be special values.  A value that passes
`t>ray.tmin && t<ray.tmax` is finite. -/
def ieee.cylinder_side (m : libm) (ray : ray3f) (radius height : ℚ) (state : ℚ × vec3f) :
    ℚ × vec3f :=
  let a := ray.d.x * ray.d.x + ray.d.y * ray.d.y
  let b := 2 * ray.e.x * ray.d.x + 2 * ray.e.y * ray.d.y
  let c := ray.e.x * ray.e.x + ray.e.y * ray.e.y - radius * radius
  let d := b * b - 4 * a * c
  if d ≥ 0 then
    let t1 := xfloat.div (-b - m.sqrt d) (2 * a)
    let z1 := (xfloat.fin ray.e.z).add (xfloat.mul ray.d.z t1)
    if t1.gt (xfloat.fin ray.tmin) && t1.lt (xfloat.fin ray.tmax) &&
        z1.le (xfloat.fin height) && z1.ge (xfloat.fin (-height)) then
      if t1.lt (xfloat.fin state.1) then
        (t1.value, normalize m (ray.eval t1.value - ⟨0, 0, z1.value⟩))
      else state
    else
      let t2 := xfloat.div (-b + m.sqrt d) (2 * a)
      let z2 := (xfloat.fin ray.e.z).add (xfloat.mul ray.d.z t2)
      if t2.gt (xfloat.fin ray.tmin) && t2.lt (xfloat.fin ray.tmax) &&
          z2.le (xfloat.fin height) && z2.ge (xfloat.fin (-height)) then
        if t2.lt (xfloat.fin state.1) then
          (t2.value, normalize m (ray.eval t2.value - ⟨0, 0, z2.value⟩))
        else state
      else state
  else state

/-- The block "intersect with top cap" of `intersect_cylinder`, with `top_t` as
a float that may be a special value. -/
def ieee.cylinder_top (m : libm) (ray : ray3f) (radius height : ℚ) (state : ℚ × vec3f) :
    ℚ × vec3f :=
  let top_o : vec3f := ⟨0, 0, height⟩
  let top_t := xfloat.div (dot (top_o - ray.e) ⟨0, 0, 1⟩) (dot ray.d ⟨0, 0, 1⟩)
  if top_t.gt (xfloat.fin ray.tmin) && top_t.lt (xfloat.fin ray.tmax) then
    let sur_point := ray.eval top_t.value
    let tmp_radius := length m (sur_point - top_o)
    if tmp_radius ≤ radius ∧ fabs (sur_point.z - height) < 1 / 1000000 then
      if top_t.lt (xfloat.fin state.1) then (top_t.value, ⟨0, 0, 1⟩) else state
    else state
  else state

/-- The block "intersect with bottom cap" of `intersect_cylinder`, with `bot_t`
as a float that may be a special value. -/
def ieee.cylinder_bottom (m : libm) (ray : ray3f) (radius height : ℚ) (state : ℚ × vec3f) :
    ℚ × vec3f :=
  let bot_o : vec3f := ⟨0, 0, height⟩
  let bot_t := xfloat.div (dot (bot_o - ray.e) ⟨0, 0, -1⟩) (dot ray.d ⟨0, 0, -1⟩)
  if bot_t.gt (xfloat.fin ray.tmin) && bot_t.lt (xfloat.fin ray.tmax) then
    let sur_point := ray.eval bot_t.value
    let tmp_radius := length m (sur_point - bot_o)
    if tmp_radius ≤ radius ∧ fabs (sur_point.z + height) < 1 / 1000000 then
      if bot_t.lt (xfloat.fin state.1) then (bot_t.value, -(⟨0, 0, 1⟩ : vec3f)) else state
    else state
  else state

/-- The function `intersect_cylinder(ray, radius, height, t, norm)` with the
quotients of IEEE-754; `norm0` is the value the caller's `norm` holds on
entry. -/
def ieee.intersect_cylinder (m : libm) (ray : ray3f) (radius height : ℚ) (norm0 : vec3f) :
    Option (ℚ × vec3f) :=
  let state := ieee.cylinder_bottom m ray radius height
    (ieee.cylinder_top m ray radius height
      (ieee.cylinder_side m ray radius height (ray.tmax, norm0)))
  if state.1 < ray.tmax then some state else none

/-- In the node array `nodes` the subtree of node `k` is laid out the way
`make_accelerator_node` appends it.  A leaf has nothing below it.  An internal
node whose call found the array at length `lo` has at `lo` the slot that the
call appends first and never writes, its children at `lo + 1` and `lo + 2`,
the rest of the left subtree in `[lo + 3, mid)` and the rest of the right
subtree in `[mid, hi)`. -/
inductive Laid (nodes : List BVHNode) : Nat → Nat → Nat → Prop
  | leaf (k lo : Nat) (n : BVHNode) :
      nodes[k]? = some n → n.leaf = true → Laid nodes k lo lo
  | node (k lo mid hi : Nat) (n : BVHNode) :
      nodes[k]? = some n → n.leaf = false → n.n0 = lo + 1 → n.n1 = lo + 2 →
      lo + 3 ≤ mid → mid ≤ hi → hi ≤ nodes.length →
      Laid nodes (lo + 1) (lo + 3) mid → Laid nodes (lo + 2) mid hi →
      Laid nodes k lo hi

/-- Node `j` is node `k` or is reached from it by following child indices of
internal nodes. -/
inductive Below (nodes : List BVHNode) : Nat → Nat → Prop
  | self (k : Nat) : Below nodes k k
  | left (k j : Nat) (n : BVHNode) :
      nodes[k]? = some n → n.leaf = false → Below nodes n.n0 j → Below nodes k j
  | right (k j : Nat) (n : BVHNode) :
      nodes[k]? = some n → n.leaf = false → Below nodes n.n1 j → Below nodes k j

/-- Sample data: a white emitter that does not scatter. -/
def lamp_material : Material := ⟨one3f, zero3f, zero3f, zero3f, 0, false, none, none, none⟩

/-- Sample data: the quad `far_quad` with the material address 2. -/
def lamp_quad : Surface := { far_quad with mat := 2 }

/-- Sample data: a diffuse quad followed by an emissive quad, without lights
and without environment texture; the material at address 2 emits, every other
is diffuse. -/
def lamp_scene : PathScene :=
  ⟨zero3f, none, zero3f, [], [unit_quad, lamp_quad], 2, false, false, false, false,
    fun i => if i = 2 then lamp_material else matte_material⟩

/-- Sample data: the stand-ins of `hall_deps` with a generator whose
`next_int` returns the upper end of its range. -/
def last_deps : render_deps :=
  { hall_deps sample_libm with next_int := fun rng _ hi => (hi, ⟨rng.state + 1⟩) }

/-- Sample data: a cylinder of radius 1 and height 1 about the world `z` axis
(identity frame), material 2. -/
def unit_cylinder : Surface := ⟨identity_frame3f, 1, 1, false, true, 2⟩

/-- Sample data: the quad of radius `r` in the world `z = 0` plane (identity
frame), material 1. -/
def flat_quad (r : ℚ) : Surface := ⟨identity_frame3f, r, 0, true, false, 1⟩

/-- Sample data: a ray that comes down on `unit_cylinder` from `(0,0,5)`,
slightly tilted: it meets the top cap at `t = 4` in `(2/5, 0, 1)` and the plane
`z = 0` at `t = 5` in `(1/2, 0, 0)`. -/
def tilted_down_ray : ray3f := ⟨⟨0, 0, 5⟩, ⟨1 / 10, 0, -1⟩, ray3f_epsilon, ray3f_rayinf⟩

/-- Sample data: an image two texels wide and one high, black at `(0, 0)` and
white everywhere else. -/
def stripe_image : image3f := ⟨2, 1, fun i _ => if i = 0 then zero3f else one3f⟩

/-! ## Keyframes (`YuanTian_assignment03`) -/

/-- Component access `f[i]` of a `vec3i`. -/
def vec3i.get (f : vec3i) (i : Nat) : Nat :=
  match i with
  | 0 => f.x
  | 1 => f.y
  | _ => f.z

/-- Component access `f[i]` of a `vec4i`. -/
def vec4i.get (f : vec4i) (i : Nat) : Nat :=
  match i with
  | 0 => f.x
  | 1 => f.y
  | 2 => f.z
  | _ => f.w

/-- The statement `mesh->norm[idx] += fn`; `none` when `idx` lies outside the
array. -/
def smooth_normals_add (fn : vec3f) (norm : Option (List vec3f)) (idx : Nat) :
    Option (List vec3f) :=
  match norm with
  | none => none
  | some norm =>
    match norm[idx]? with
    | none => none
    | some v => some (norm.set idx (v + fn))

/-- The body of the loop `for(auto f : mesh->triangle)` of `smooth_normals`:
the array `mesh->norm` after the triangle `f`.  Modelled from the spec: `range(n)`
of `common.h` (not among the sources) runs over `0, ..., n-1`. -/
def smooth_normals_triangle (m : libm) (pos : List vec3f) (norm : Option (List vec3f))
    (f : vec3i) : Option (List vec3f) :=
  match pos[f.x]?, pos[f.y]?, pos[f.z]? with
  | some px, some py, some pz =>
    let fn := normalize m (cross (py - px) (pz - px))
    (List.range 2).foldl (fun acc i => smooth_normals_add fn acc (f.get i)) norm
  | _, _, _ => none

/-- The body of the loop `for(auto f : mesh->quad)` of `smooth_normals`. -/
def smooth_normals_quad (m : libm) (pos : List vec3f) (norm : Option (List vec3f))
    (f : vec4i) : Option (List vec3f) :=
  match pos[f.x]?, pos[f.y]?, pos[f.z]?, pos[f.w]? with
  | some px, some py, some pz, some pw =>
    let fn := normalize m (normalize m (cross (py - px) (pz - px)) +
      normalize m (cross (pz - px) (pw - px)))
    (List.range 3).foldl (fun acc i => smooth_normals_add fn acc (f.get i)) norm
  | _, _, _, _ => none

/-- The function `smooth_normals(mesh)` of `02_model.cpp`: the array
`mesh->norm` after the call; `none` when a face names a vertex outside
`mesh->pos`.  The last loop is `f += normalize(f)`.  For a vertex whose sum is
the zero vector `normalize` divides zero by zero: the code stores `NaN`s there,
and no statement below depends on the value it has here. -/
def smooth_normals (m : libm) (mesh : Mesh) : Option (List vec3f) :=
  let norm0 : Option (List vec3f) := some (List.replicate mesh.pos.length zero3f)
  let norm1 := mesh.triangle.foldl (smooth_normals_triangle m mesh.pos) norm0
  let norm2 := mesh.quad.foldl (smooth_normals_quad m mesh.pos) norm1
  norm2.map (fun norm => norm.map (fun f => f + normalize m f))

/-- The face normal that `smooth_normals` computes for the triangle with the
corners `px`, `py` and `pz`. -/
def triangle_normal (m : libm) (px py pz : vec3f) : vec3f :=
  normalize m (cross (py - px) (pz - px))

/-- Sample data: the corner triangle as a mesh of three vertices and one
face. -/
def corner_face_mesh : Mesh :=
  ⟨identity_frame3f, [corner_v0, corner_v1, corner_v2], [], [⟨0, 1, 2⟩], [], 0, none⟩

/-! ## Subdivision of Bezier splines (`assignment02`) -/

/-- Two ints (`vec2i`): the ends of a line segment. -/
structure vec2i where
  x : Nat
  y : Nat
deriving DecidableEq

/-- The fields of `Mesh` (of `scene.h`) that the subdivision of splines reads
and writes.  The tangents that `smooth_tangents` stores in `norm` at the end of
both functions are not part of it. -/
structure SplineMesh where
  pos : List vec3f
  spline : List vec4i
  line : List vec2i
  subdivision_bezier_level : Nat

/-- Modelled from the spec: `bernstein(t, i, n)` of `vmath.h` (not among the
sources), the Bernstein polynomial `C(n,i) t^i (1-t)^(n-i)` whose values are
the blending weights of a Bezier curve. -/
def bernstein (t : ℚ) (i n : Nat) : ℚ := (n.choose i : ℚ) * t ^ i * (1 - t) ^ (n - i)

/-- The body of the loop over the segments in `subdivide_bezier_decasteljau`:
`new_pos` and `new_splines` after the segment `s`; `none` when the segment
names a vertex outside `pos`.  The sums and the divisions by `2.0f` are exact
here; `rounded.decasteljau_segment` is the body with their rounding. -/
def decasteljau_segment (pos : List vec3f) (acc : Option (List vec3f × List vec4i))
    (s : vec4i) : Option (List vec3f × List vec4i) :=
  match acc with
  | none => none
  | some (new_pos, new_splines) =>
    match pos[s.x]?, pos[s.y]?, pos[s.z]?, pos[s.w]? with
    | some v0, some v1, some v2, some v3 =>
      let size := new_pos.length
      let vm0 := (v0 + v1).sdiv 2
      let vm1 := (v1 + v2).sdiv 2
      let vm2 := (v2 + v3).sdiv 2
      let vmm0 := (vm0 + vm1).sdiv 2
      let vmm1 := (vm1 + vm2).sdiv 2
      let vmmm := (vmm0 + vmm1).sdiv 2
      some (new_pos ++ [v0, vm0, vmm0, vmmm, vmm1, vm2, v3],
        new_splines ++ [⟨size, size + 1, size + 2, size + 3⟩,
          ⟨size + 3, size + 4, size + 5, size + 6⟩])
    | _, _, _, _ => none

/-- The body of the loop over the levels in `subdivide_bezier_decasteljau`:
`pos` and `splines` after one level. -/
def decasteljau_level (state : Option (List vec3f × List vec4i)) :
    Option (List vec3f × List vec4i) :=
  match state with
  | none => none
  | some (pos, splines) => splines.foldl (decasteljau_segment pos) (some ([], []))

/-- The function `subdivide_bezier_decasteljau(bezier)` of `02_model.cpp` in
exact arithmetic: the mesh after the call.
`rounded.subdivide_bezier_decasteljau` is the function with the rounding of
its float operations. -/
def subdivide_bezier_decasteljau (bezier : SplineMesh) : Option SplineMesh :=
  (Nat.iterate decasteljau_level bezier.subdivision_bezier_level
    (some (bezier.pos, bezier.spline))).map
    (fun st => ⟨st.1, [], st.2.map (fun spline => ⟨spline.x, spline.w⟩), 0⟩)

/-- The body of the loop over the segments in `subdivide_bezier_uniform`: `pos`
and `line` after the segment `s`. -/
def uniform_segment (bezier_pos : List vec3f) (steps : Nat)
    (acc : Option (List vec3f × List vec2i)) (s : vec4i) : Option (List vec3f × List vec2i) :=
  match acc with
  | none => none
  | some (pos, line) =>
    match bezier_pos[s.x]?, bezier_pos[s.y]?, bezier_pos[s.z]?, bezier_pos[s.w]? with
    | some v0, some v1, some v2, some v3 =>
      let line_pos := pos.length
      some (pos ++ (List.range (steps + 1)).map (fun (j : Nat) =>
          let t := (j : ℚ) * (1 / (steps : ℚ))
          v0.smul (bernstein t 0 3) + v1.smul (bernstein t 1 3) + v2.smul (bernstein t 2 3) +
            v3.smul (bernstein t 3 3)),
        line ++ (List.range steps).map (fun (k : Nat) => ⟨line_pos + k, line_pos + k + 1⟩))
    | _, _, _, _ => none

/-- The function `subdivide_bezier_uniform(bezier)` of `02_model.cpp`: the mesh
after the call.  `steps` is `1 << subdivision_bezier_level`. -/
def subdivide_bezier_uniform (bezier : SplineMesh) : Option SplineMesh :=
  let steps := 2 ^ bezier.subdivision_bezier_level
  (bezier.spline.foldl (uniform_segment bezier.pos steps) (some ([], []))).map
    (fun st => ⟨st.1, [], st.2, 0⟩)

/-- The point at parameter `t` of the cubic Bezier curve with the control
points `c`. -/
def bezier_point (c : vec3f × vec3f × vec3f × vec3f) (t : ℚ) : vec3f :=
  c.1.smul (bernstein t 0 3) + c.2.1.smul (bernstein t 1 3) + c.2.2.1.smul (bernstein t 2 3) +
    c.2.2.2.smul (bernstein t 3 3)

/-- The control points of the first half of a cubic Bezier curve, as
`subdivide_bezier_decasteljau` computes them. -/
def decasteljau_left (c : vec3f × vec3f × vec3f × vec3f) : vec3f × vec3f × vec3f × vec3f :=
  let vm0 := (c.1 + c.2.1).sdiv 2
  let vm1 := (c.2.1 + c.2.2.1).sdiv 2
  let vm2 := (c.2.2.1 + c.2.2.2).sdiv 2
  let vmm0 := (vm0 + vm1).sdiv 2
  let vmm1 := (vm1 + vm2).sdiv 2
  (c.1, vm0, vmm0, (vmm0 + vmm1).sdiv 2)

/-- The control points of the second half. -/
def decasteljau_right (c : vec3f × vec3f × vec3f × vec3f) : vec3f × vec3f × vec3f × vec3f :=
  let vm0 := (c.1 + c.2.1).sdiv 2
  let vm1 := (c.2.1 + c.2.2.1).sdiv 2
  let vm2 := (c.2.2.1 + c.2.2.2).sdiv 2
  let vmm0 := (vm0 + vm1).sdiv 2
  let vmm1 := (vm1 + vm2).sdiv 2
  ((vmm0 + vmm1).sdiv 2, vmm1, vm2, c.2.2.2)

/-- The segments `splines` have, in `pos`, the control points `ctrl 0`, ...,
`ctrl (n-1)`. -/
def HasControls (pos : List vec3f) (splines : List vec4i) (n : Nat)
    (ctrl : Nat → vec3f × vec3f × vec3f × vec3f) : Prop :=
  splines.length = n ∧ ∀ j, j < n → ∃ s, splines[j]? = some s ∧
    pos[s.x]? = some (ctrl j).1 ∧ pos[s.y]? = some (ctrl j).2.1 ∧
    pos[s.z]? = some (ctrl j).2.2.1 ∧ pos[s.w]? = some (ctrl j).2.2.2

/-- Sample data: one Bezier segment in the plane `z = 0`, to be subdivided
once. -/
def arch_mesh : SplineMesh :=
  ⟨[⟨0, 0, 0⟩, ⟨0, 1, 0⟩, ⟨1, 1, 0⟩, ⟨1, 0, 0⟩], [⟨0, 1, 2, 3⟩], [], 1⟩

/-- The control points after one level of subdivision: segment `q` is the
first or the second half of the segment `q / 2` before it. -/
def split_controls (ctrl : Nat → vec3f × vec3f × vec3f × vec3f) (q : Nat) :
    vec3f × vec3f × vec3f × vec3f :=
  if q % 2 = 0 then decasteljau_left (ctrl (q / 2)) else decasteljau_right (ctrl (q / 2))

/-! ## Binary32 arithmetic

The values of `float` are the rationals of the form `m * 2^e` with `|m| < 2^24`.
`round32` is what an arithmetic operation of IEEE-754 binary32 returns for the
exact result `x` (round to nearest, ties to even), and `sqrt32` what `sqrt`
returns; the range of the exponent is not bounded here, so overflow to an
infinity and the loss of precision of subnormal numbers are not modelled. -/

/-- Rounding of a rational to the nearest integer, ties to the even one. -/
def round_half_even (q : ℚ) : ℤ :=
  let f := Rat.floor q
  let r := q - f
  if r < 1 / 2 then f else if 1 / 2 < r then f + 1 else if f % 2 = 0 then f else f + 1

/-- The loop of `ilog2`. -/
def ilog2_loop : Nat → Nat → Nat
  | 0, _ => 0
  | fuel + 1, n => if n < 2 then 0 else ilog2_loop fuel (n / 2) + 1

/-- The position of the leading bit of a natural number (0 for 0). -/
def ilog2 (n : Nat) : Nat := ilog2_loop n n

/-- The binary exponent of a rational that is not zero: the `e` with
`2^e ≤ |x| < 2^(e+1)`. -/
def binary_exponent (x : ℚ) : ℤ :=
  let g : ℤ := (ilog2 x.num.natAbs : ℤ) - (ilog2 x.den : ℤ)
  if (2 : ℚ) ^ g ≤ |x| then g else g - 1

/-- The binary32 value nearest to a rational: 24 significant bits, round to
nearest, ties to even. -/
def round32 (x : ℚ) : ℚ :=
  if x = 0 then 0
  else
    let ulp : ℚ := (2 : ℚ) ^ (binary_exponent x - 23)
    (round_half_even (x / ulp) : ℚ) * ulp

/-- The function `intersect_sphere(ray, radius, t)` with the quotients of
IEEE-754: for a ray of zero direction `2*a` is zero, `tm` and `tM` are infinite
or `NaN` and fail the tests of the interval. -/
def ieee.intersect_sphere (m : libm) (ray : ray3f) (radius : ℚ) : Option ℚ :=
  let a := lengthSqr ray.d
  let b := 2 * dot ray.d ray.e
  let c := lengthSqr ray.e - radius * radius
  let d := b * b - 4 * a * c
  if d < 0 then none
  else
    let tm := xfloat.div (-b - m.sqrt d) (2 * a)
    let tM := xfloat.div (-b + m.sqrt d) (2 * a)
    let hitm : Bool := tm.ge (xfloat.fin ray.tmin) && tm.le (xfloat.fin ray.tmax)
    let hitM : Bool := tM.ge (xfloat.fin ray.tmin) && tM.le (xfloat.fin ray.tmax)
    if !hitm && !hitM then none
    else some (if hitm then tm.value else tM.value)

/-- A float operation whose operands may be special values returns the rounded
result, or the special value. -/
def xfloat.round (fl : ℚ → ℚ) : xfloat → xfloat
  | xfloat.fin q => xfloat.fin (fl q)
  | x => x

/-- Modelled from the spec: `operator+` on `vec3f`, rounded. -/
def rounded.add (fl : ℚ → ℚ) (a b : vec3f) : vec3f :=
  ⟨fl (a.x + b.x), fl (a.y + b.y), fl (a.z + b.z)⟩

/-- Modelled from the spec: `operator-` on `vec3f`, rounded. -/
def rounded.sub (fl : ℚ → ℚ) (a b : vec3f) : vec3f :=
  ⟨fl (a.x - b.x), fl (a.y - b.y), fl (a.z - b.z)⟩

/-- Modelled from the spec: the product of a `vec3f` with a float, rounded. -/
def rounded.smul (fl : ℚ → ℚ) (a : vec3f) (s : ℚ) : vec3f :=
  ⟨fl (a.x * s), fl (a.y * s), fl (a.z * s)⟩

/-- Modelled from the spec: the quotient of a `vec3f` by a float, rounded. -/
def rounded.sdiv (fl : ℚ → ℚ) (a : vec3f) (s : ℚ) : vec3f :=
  ⟨fl (a.x / s), fl (a.y / s), fl (a.z / s)⟩

/-- Modelled from the spec: `dot`, rounded after every product and sum. -/
def rounded.dot (fl : ℚ → ℚ) (a b : vec3f) : ℚ :=
  fl (fl (fl (a.x * b.x) + fl (a.y * b.y)) + fl (a.z * b.z))

/-- Modelled from the spec: `cross`, rounded after every product and
difference. -/
def rounded.cross (fl : ℚ → ℚ) (a b : vec3f) : vec3f :=
  ⟨fl (fl (a.y * b.z) - fl (a.z * b.y)), fl (fl (a.z * b.x) - fl (a.x * b.z)),
    fl (fl (a.x * b.y) - fl (a.y * b.x))⟩

/-- The body of the loop of `intersect_bbox` for the axis `i`, with rounding:
`1.f / ray.d[i]` is rounded, and so are the two differences and the two
products. -/
def rounded.slab (fl : ℚ → ℚ) (ray : ray3f) (bbox : range3f) (i : Nat) (t0 t1 : xfloat) :
    xfloat × xfloat :=
  let invRayDir := (xfloat.div 1 (ray.d.get i)).round fl
  let tNear := (xfloat.mul (fl (bbox.min.get i - ray.e.get i)) invRayDir).round fl
  let tFar := (xfloat.mul (fl (bbox.max.get i - ray.e.get i)) invRayDir).round fl
  let swapped := if tNear.gt tFar then (tFar, tNear) else (tNear, tFar)
  (if swapped.1.gt t0 then swapped.1 else t0, if swapped.2.lt t1 then swapped.2 else t1)

/-- The loop of `intersect_bbox`, with rounding. -/
def rounded.intersect_bbox_loop (fl : ℚ → ℚ) (ray : ray3f) (bbox : range3f) :
    List Nat → xfloat → xfloat → Bool × xfloat × xfloat
  | [], t0, t1 => (true, t0, t1)
  | i :: rest, t0, t1 =>
    let t := rounded.slab fl ray bbox i t0 t1
    if t.1.gt t.2 then (false, t.1, t.2)
    else rounded.intersect_bbox_loop fl ray bbox rest t.1 t.2

/-- The function `intersect_bbox(ray, bbox, t0, t1)`, with rounding. -/
def rounded.intersect_bbox (fl : ℚ → ℚ) (ray : ray3f) (bbox : range3f) :
    Bool × xfloat × xfloat :=
  rounded.intersect_bbox_loop fl ray bbox [0, 1, 2] (xfloat.fin ray.tmin) (xfloat.fin ray.tmax)

/-- The overload `intersect_bbox(ray, bbox)`, with rounding. -/
def rounded.intersect_bbox_hit (fl : ℚ → ℚ) (ray : ray3f) (bbox : range3f) : Bool :=
  (rounded.intersect_bbox fl ray bbox).1

/-- The slab interval `[tNear, tFar]` (after the swap) that `intersect_bbox`
computes on the axis `i` when `ray.d[i]` is not zero, with rounding. -/
def rounded.slab_interval (fl : ℚ → ℚ) (ray : ray3f) (bbox : range3f) (i : Nat) : ℚ × ℚ :=
  let invRayDir := fl (1 / ray.d.get i)
  let tNear := fl (fl (bbox.min.get i - ray.e.get i) * invRayDir)
  let tFar := fl (fl (bbox.max.get i - ray.e.get i) * invRayDir)
  if tNear > tFar then (tFar, tNear) else (tNear, tFar)

/-- On the axis `i` the five operations of `intersect_bbox` (the reciprocal,
the two differences, the two products) are exact: rounding changes none of
their results. -/
def rounded.slab_exact (fl : ℚ → ℚ) (ray : ray3f) (bbox : range3f) (i : Nat) : Prop :=
  fl (1 / ray.d.get i) = 1 / ray.d.get i ∧
    fl (bbox.min.get i - ray.e.get i) = bbox.min.get i - ray.e.get i ∧
    fl (bbox.max.get i - ray.e.get i) = bbox.max.get i - ray.e.get i ∧
    fl ((bbox.min.get i - ray.e.get i) * (1 / ray.d.get i)) =
      (bbox.min.get i - ray.e.get i) * (1 / ray.d.get i) ∧
    fl ((bbox.max.get i - ray.e.get i) * (1 / ray.d.get i)) =
      (bbox.max.get i - ray.e.get i) * (1 / ray.d.get i)

instance (fl : ℚ → ℚ) (ray : ray3f) (bbox : range3f) (i : Nat) :
    Decidable (rounded.slab_exact fl ray bbox i) := by
  unfold rounded.slab_exact; infer_instance

/-- Sample data: a ray from the origin along `(1,7,1)`. -/
def seven_ray : ray3f := ⟨⟨0, 0, 0⟩, ⟨1, 7, 1⟩, 0, 1000⟩

/-- Sample data: the box that holds the single point `(3,21,3)`, which
`seven_ray` reaches at `t = 3`. -/
def point_box : range3f := ⟨⟨3, 21, 3⟩, ⟨3, 21, 3⟩⟩

/-! ## The triangle solver with rounding -/

/-- The denominator that `intersect_triangle` computes, with rounding. -/
def rounded.triangle_denominator (fl : ℚ → ℚ) (ray : ray3f) (v0 v1 v2 : vec3f) : ℚ :=
  rounded.dot fl (rounded.cross fl ray.d (rounded.sub fl v1 v2)) (rounded.sub fl v0 v2)

/-- The three quotients `t`, `u`, `v` that `intersect_triangle` computes, with
rounding. -/
def rounded.triangle_quotients (fl : ℚ → ℚ) (ray : ray3f) (v0 v1 v2 : vec3f) : ℚ × ℚ × ℚ :=
  let a := rounded.sub fl v0 v2
  let b := rounded.sub fl v1 v2
  let d := ray.d
  let e := rounded.sub fl ray.e v2
  let denominator := rounded.dot fl (rounded.cross fl d b) a
  (fl (rounded.dot fl (rounded.cross fl e a) b / denominator),
    fl (rounded.dot fl (rounded.cross fl d b) e / denominator),
    fl (rounded.dot fl (rounded.cross fl e a) d / denominator))

/-- The function `intersect_triangle(ray, v0, v1, v2, t, u, v)`, with rounding:
the differences, the products and sums of `cross` and `dot`, the three
quotients and the sum `u+v` are rounded. -/
def rounded.intersect_triangle (fl : ℚ → ℚ) (ray : ray3f) (v0 v1 v2 : vec3f) :
    Option (ℚ × ℚ × ℚ) :=
  let a := rounded.sub fl v0 v2
  let b := rounded.sub fl v1 v2
  let d := ray.d
  let e := rounded.sub fl ray.e v2
  let denominator := rounded.dot fl (rounded.cross fl d b) a
  if denominator = 0 then none
  else
    let t := fl (rounded.dot fl (rounded.cross fl e a) b / denominator)
    let u := fl (rounded.dot fl (rounded.cross fl d b) e / denominator)
    let v := fl (rounded.dot fl (rounded.cross fl e a) d / denominator)
    if t > ray.tmax ∨ t < ray.tmin then none
    else if u < 0 ∨ v < 0 ∨ fl (u + v) > 1 then none
    else some (t, u, v)

/-- The three quotients `t`, `u`, `v` of `intersect_triangle` in exact
arithmetic. -/
def triangle_quotients (ray : ray3f) (v0 v1 v2 : vec3f) : ℚ × ℚ × ℚ :=
  (dot (cross (ray.e - v2) (v0 - v2)) (v1 - v2) / triangle_denominator ray v0 v1 v2,
    dot (cross ray.d (v1 - v2)) (ray.e - v2) / triangle_denominator ray v0 v1 v2,
    dot (cross (ray.e - v2) (v0 - v2)) ray.d / triangle_denominator ray v0 v1 v2)

/-- Rounding changes neither the denominator, nor the three quotients, nor
the sum `u+v` that `intersect_triangle` computes. -/
def rounded.triangle_exact (fl : ℚ → ℚ) (ray : ray3f) (v0 v1 v2 : vec3f) : Prop :=
  rounded.triangle_denominator fl ray v0 v1 v2 = CG.triangle_denominator ray v0 v1 v2 ∧
    rounded.triangle_quotients fl ray v0 v1 v2 = CG.triangle_quotients ray v0 v1 v2 ∧
    fl ((CG.triangle_quotients ray v0 v1 v2).2.1 + (CG.triangle_quotients ray v0 v1 v2).2.2) =
      (CG.triangle_quotients ray v0 v1 v2).2.1 + (CG.triangle_quotients ray v0 v1 v2).2.2

instance (fl : ℚ → ℚ) (ray : ray3f) (v0 v1 v2 : vec3f) :
    Decidable (rounded.triangle_exact fl ray v0 v1 v2) := by
  unfold rounded.triangle_exact; infer_instance

/-- Sample data: a triangle in the plane `z = 0` whose edge from `(1,0,0)` to
`(-1,0,0)` has the origin as its midpoint. -/
def edge_v0 : vec3f := ⟨1, 0, 0⟩

/-- The second vertex of the triangle of `edge_v0`. -/
def edge_v1 : vec3f := ⟨-1, 0, 0⟩

/-- The third vertex of the triangle of `edge_v0`. -/
def edge_v2 : vec3f := ⟨0, 1, 0⟩

/-- Sample data: the ray with the direction `(0.1f, 0.2f, 0.1f)` of binary32
values that starts at the opposite point, so that it reaches the origin at
`t = 1`. -/
def midpoint_ray : ray3f :=
  ⟨⟨-(13421773 / 134217728), -(13421773 / 67108864), -(13421773 / 134217728)⟩,
    ⟨13421773 / 134217728, 13421773 / 67108864, 13421773 / 134217728⟩, 0, 1000⟩

/-! ## Subdivision of Bezier splines with rounding -/

/-- The body of the loop over the segments in `subdivide_bezier_decasteljau`,
with rounding: every sum of two points and every division by `2.0f` is
rounded. -/
def rounded.decasteljau_segment (fl : ℚ → ℚ) (pos : List vec3f)
    (acc : Option (List vec3f × List vec4i)) (s : vec4i) : Option (List vec3f × List vec4i) :=
  match acc with
  | none => none
  | some (new_pos, new_splines) =>
    match pos[s.x]?, pos[s.y]?, pos[s.z]?, pos[s.w]? with
    | some v0, some v1, some v2, some v3 =>
      let size := new_pos.length
      let vm0 := rounded.sdiv fl (rounded.add fl v0 v1) 2
      let vm1 := rounded.sdiv fl (rounded.add fl v1 v2) 2
      let vm2 := rounded.sdiv fl (rounded.add fl v2 v3) 2
      let vmm0 := rounded.sdiv fl (rounded.add fl vm0 vm1) 2
      let vmm1 := rounded.sdiv fl (rounded.add fl vm1 vm2) 2
      let vmmm := rounded.sdiv fl (rounded.add fl vmm0 vmm1) 2
      some (new_pos ++ [v0, vm0, vmm0, vmmm, vmm1, vm2, v3],
        new_splines ++ [⟨size, size + 1, size + 2, size + 3⟩,
          ⟨size + 3, size + 4, size + 5, size + 6⟩])
    | _, _, _, _ => none

/-- The body of the loop over the levels in `subdivide_bezier_decasteljau`,
with rounding. -/
def rounded.decasteljau_level (fl : ℚ → ℚ) (state : Option (List vec3f × List vec4i)) :
    Option (List vec3f × List vec4i) :=
  match state with
  | none => none
  | some (pos, splines) => splines.foldl (rounded.decasteljau_segment fl pos) (some ([], []))

/-- The function `subdivide_bezier_decasteljau(bezier)`, with rounding. -/
def rounded.subdivide_bezier_decasteljau (fl : ℚ → ℚ) (bezier : SplineMesh) :
    Option SplineMesh :=
  (Nat.iterate (rounded.decasteljau_level fl) bezier.subdivision_bezier_level
    (some (bezier.pos, bezier.spline))).map
    (fun st => ⟨st.1, [], st.2.map (fun spline => ⟨spline.x, spline.w⟩), 0⟩)

/-- The point `v_new` that `subdivide_bezier_uniform` computes at the step `j`
of `steps` for a segment with the control points `c`, with rounding: the
conversions of `j` and `steps` to float, the quotient and the product that give
`t`, the four weights, the products of the weights with the control points and
the three sums are rounded.  Modelled from the spec: `bernstein` is of a header
that is not among the sources; its result is taken to be the rounded value of
the Bernstein polynomial. -/
def rounded.bezier_sample (fl : ℚ → ℚ) (c : vec3f × vec3f × vec3f × vec3f) (j steps : Nat) :
    vec3f :=
  let t := fl (fl (j : ℚ) * fl (1 / fl (steps : ℚ)))
  rounded.add fl
    (rounded.add fl
      (rounded.add fl (rounded.smul fl c.1 (fl (bernstein t 0 3)))
        (rounded.smul fl c.2.1 (fl (bernstein t 1 3))))
      (rounded.smul fl c.2.2.1 (fl (bernstein t 2 3))))
    (rounded.smul fl c.2.2.2 (fl (bernstein t 3 3)))

/-- The body of the loop over the segments in `subdivide_bezier_uniform`, with
rounding. -/
def rounded.uniform_segment (fl : ℚ → ℚ) (bezier_pos : List vec3f) (steps : Nat)
    (acc : Option (List vec3f × List vec2i)) (s : vec4i) : Option (List vec3f × List vec2i) :=
  match acc with
  | none => none
  | some (pos, line) =>
    match bezier_pos[s.x]?, bezier_pos[s.y]?, bezier_pos[s.z]?, bezier_pos[s.w]? with
    | some v0, some v1, some v2, some v3 =>
      let line_pos := pos.length
      some (pos ++ (List.range (steps + 1)).map (fun (j : Nat) =>
          rounded.bezier_sample fl (v0, v1, v2, v3) j steps),
        line ++ (List.range steps).map (fun (k : Nat) => ⟨line_pos + k, line_pos + k + 1⟩))
    | _, _, _, _ => none

/-- The function `subdivide_bezier_uniform(bezier)`, with rounding. -/
def rounded.subdivide_bezier_uniform (fl : ℚ → ℚ) (bezier : SplineMesh) : Option SplineMesh :=
  let steps := 2 ^ bezier.subdivision_bezier_level
  (bezier.spline.foldl (rounded.uniform_segment fl bezier.pos steps) (some ([], []))).map
    (fun st => ⟨st.1, [], st.2, 0⟩)

/-- The control points of the first half of a segment, as
`subdivide_bezier_decasteljau` computes them with rounding. -/
def rounded.decasteljau_left (fl : ℚ → ℚ) (c : vec3f × vec3f × vec3f × vec3f) :
    vec3f × vec3f × vec3f × vec3f :=
  let vm0 := rounded.sdiv fl (rounded.add fl c.1 c.2.1) 2
  let vm1 := rounded.sdiv fl (rounded.add fl c.2.1 c.2.2.1) 2
  let vm2 := rounded.sdiv fl (rounded.add fl c.2.2.1 c.2.2.2) 2
  let vmm0 := rounded.sdiv fl (rounded.add fl vm0 vm1) 2
  let vmm1 := rounded.sdiv fl (rounded.add fl vm1 vm2) 2
  (c.1, vm0, vmm0, rounded.sdiv fl (rounded.add fl vmm0 vmm1) 2)

/-- The control points of the second half, with rounding. -/
def rounded.decasteljau_right (fl : ℚ → ℚ) (c : vec3f × vec3f × vec3f × vec3f) :
    vec3f × vec3f × vec3f × vec3f :=
  let vm0 := rounded.sdiv fl (rounded.add fl c.1 c.2.1) 2
  let vm1 := rounded.sdiv fl (rounded.add fl c.2.1 c.2.2.1) 2
  let vm2 := rounded.sdiv fl (rounded.add fl c.2.2.1 c.2.2.2) 2
  let vmm0 := rounded.sdiv fl (rounded.add fl vm0 vm1) 2
  let vmm1 := rounded.sdiv fl (rounded.add fl vm1 vm2) 2
  (rounded.sdiv fl (rounded.add fl vmm0 vmm1) 2, vmm1, vm2, c.2.2.2)

/-- The control points after one level of subdivision with rounding: segment
`q` is the first or the second half of the segment `q / 2` before it. -/
def rounded.split_controls (fl : ℚ → ℚ) (ctrl : Nat → vec3f × vec3f × vec3f × vec3f)
    (q : Nat) : vec3f × vec3f × vec3f × vec3f :=
  if q % 2 = 0 then rounded.decasteljau_left fl (ctrl (q / 2))
  else rounded.decasteljau_right fl (ctrl (q / 2))

/-- Rounding changes none of the control points of the two halves of the
segment with the control points `c`. -/
def rounded.halves_exact (fl : ℚ → ℚ) (c : vec3f × vec3f × vec3f × vec3f) : Prop :=
  rounded.decasteljau_left fl c = CG.decasteljau_left c ∧
    rounded.decasteljau_right fl c = CG.decasteljau_right c

instance (fl : ℚ → ℚ) (c : vec3f × vec3f × vec3f × vec3f) :
    Decidable (rounded.halves_exact fl c) := by
  unfold rounded.halves_exact; infer_instance

/-- Sample data: one Bezier segment along the x axis whose control points have
the binary32 coordinates `0.1f`, `0.2f`, `0.3f` and `0.7f`, to be subdivided
once. -/
def decimal_mesh : SplineMesh :=
  ⟨[⟨13421773 / 134217728, 0, 0⟩, ⟨13421773 / 67108864, 0, 0⟩, ⟨5033165 / 16777216, 0, 0⟩,
    ⟨11744051 / 16777216, 0, 0⟩], [⟨0, 1, 2, 3⟩], [], 1⟩

/-! ## The builder and the traversal with rounding -/

/-- Modelled from the spec: the centre of a box, rounded. -/
def rounded.center (fl : ℚ → ℚ) (a : range3f) : vec3f :=
  rounded.sdiv fl (rounded.add fl a.min a.max) 2

/-- Modelled from the spec: the extent of a box, rounded. -/
def rounded.size (fl : ℚ → ℚ) (a : range3f) : vec3f := rounded.sub fl a.max a.min

/-- Modelled from the spec: the box scaled about its centre by the factor `s`,
rounded after every operation. -/
def rounded.rscale (fl : ℚ → ℚ) (a : range3f) (s : ℚ) : range3f :=
  ⟨rounded.sub fl (rounded.center fl a) (rounded.smul fl (rounded.size fl a) (fl (s / 2))),
    rounded.add fl (rounded.center fl a) (rounded.smul fl (rounded.size fl a) (fl (s / 2)))⟩

/-- The comparison `center(i.first)[axis] < center(j.first)[axis]`, with
rounded centres. -/
def rounded.center_less (fl : ℚ → ℚ) (axis : Nat) (i j : boxed_prim) : Bool :=
  decide ((rounded.center fl i.1).get axis < (rounded.center fl j.1).get axis)

/-- What the proofs use of the contract of `std::sort`: called with one of the
comparisons the code passes, here with rounded centres, it returns a
rearrangement of its input. -/
def rounded.permutes (fl : ℚ → ℚ) (sort : Sorter) : Prop :=
  ∀ (axis : Nat) (l : List boxed_prim), List.Perm (sort (rounded.center_less fl axis) l) l

/-- The function `make_accelerator_split_kd_tree`, with rounding. -/
def rounded.make_accelerator_split_kd_tree (fl : ℚ → ℚ) (sort : Sorter)
    (boxed_prims : List boxed_prim) (start end_ depth : Nat) : List boxed_prim × Nat :=
  let axis := depth % 3
  let mid := (start + end_) / 2
  (sort_range sort (rounded.center_less fl axis) boxed_prims start end_, mid)

/-- One round of the trial loop of `make_accelerator_split`, with rounding:
the extents and each of the five sums are rounded. -/
def rounded.split_trial (fl : ℚ → ℚ) (sort : Sorter) (boxed_prims : List boxed_prim)
    (start end_ a : Nat) : List boxed_prim × ℚ :=
  let mid := (start + end_) / 2
  let sorted := sort_range sort (rounded.center_less fl a) boxed_prims start end_
  let bbox0 := union_range sorted start mid
  let bbox1 := union_range sorted mid end_
  let s0 := rounded.size fl bbox0
  let s1 := rounded.size fl bbox1
  (sorted, fl (fl (fl (fl (fl (s0.x + s0.y) + s0.z) + s1.x) + s1.y) + s1.z))

/-- The function `make_accelerator_split`, with rounding. -/
def rounded.make_accelerator_split (fl : ℚ → ℚ) (sort : Sorter) (boxed_prims : List boxed_prim)
    (start end_ : Nat) (bbox : range3f) (maxaxis : Bool) : List boxed_prim × Nat :=
  if maxaxis then
    let s := rounded.size fl bbox
    let axis := if s.x ≥ s.y ∧ s.x ≥ s.z then 0 else if s.y ≥ s.x ∧ s.y ≥ s.z then 1 else 2
    (sort_range sort (rounded.center_less fl axis) boxed_prims start end_, (start + end_) / 2)
  else
    let r0 := rounded.split_trial fl sort boxed_prims start end_ 0
    let r1 := rounded.split_trial fl sort r0.1 start end_ 1
    let r2 := rounded.split_trial fl sort r1.1 start end_ 2
    let dx := r0.2
    let dy := r1.2
    let dz := r2.2
    let axis := if dx ≤ dy ∧ dx ≤ dz then 0 else if dy ≤ dx ∧ dy ≤ dz then 1 else 2
    (sort_range sort (rounded.center_less fl axis) r2.1 start end_, (start + end_) / 2)

/-- The function `make_accelerator_node`, with rounding: the node boxes are
unions, taken with exact minima and maxima; rounding enters through the
comparisons of the split. -/
def rounded.make_accelerator_node (fl : ℚ → ℚ) (sort : Sorter) (nodeid : Nat)
    (boxed_prims : List boxed_prim) (nodes : List BVHNode) (start end_ : Nat) :
    List boxed_prim × List BVHNode :=
  let bbox := union_range boxed_prims start end_
  if end_ - start ≤ BVHAccelerator_min_prims then
    (boxed_prims, nodes.set nodeid ⟨true, bbox, start, end_⟩)
  else
    let split := rounded.make_accelerator_split fl sort boxed_prims start end_ bbox
      BVHAccelerator_build_maxaxis
    let middle := split.2
    let nodes1 := nodes ++ [BVHNode.init]
    let n0 := nodes1.length
    let nodes2 := nodes1 ++ [BVHNode.init]
    let n1 := nodes2.length
    let nodes3 := nodes2 ++ [BVHNode.init]
    let left := rounded.make_accelerator_node fl sort n0 split.1 nodes3 start middle
    let right := rounded.make_accelerator_node fl sort n1 left.1 left.2 middle end_
    (right.1, right.2.set nodeid ⟨false, bbox, n0, n1⟩)
termination_by end_ - start
decreasing_by
  all_goals simp_wf
  all_goals simp only [rounded.make_accelerator_split, BVHAccelerator_build_maxaxis]
  all_goals simp only [BVHAccelerator_min_prims] at *
  all_goals simp
  all_goals omega

/-- The function `make_accelerator_node_kd_tree`, with rounding. -/
def rounded.make_accelerator_node_kd_tree (fl : ℚ → ℚ) (sort : Sorter) (nodeid : Nat)
    (boxed_prims : List boxed_prim) (nodes : List BVHNode) (start end_ depth : Nat) :
    List boxed_prim × List BVHNode :=
  let bbox := union_range boxed_prims start end_
  if end_ - start ≤ BVHAccelerator_min_prims then
    (boxed_prims, nodes.set nodeid ⟨true, bbox, start, end_⟩)
  else
    let split := rounded.make_accelerator_split_kd_tree fl sort boxed_prims start end_ depth
    let middle := split.2
    let nodes1 := nodes ++ [BVHNode.init]
    let n0 := nodes1.length
    let nodes2 := nodes1 ++ [BVHNode.init]
    let n1 := nodes2.length
    let nodes3 := nodes2 ++ [BVHNode.init]
    let left := rounded.make_accelerator_node_kd_tree fl sort n0 split.1 nodes3 start middle
      (depth + 1)
    let right := rounded.make_accelerator_node_kd_tree fl sort n1 left.1 left.2 middle end_
      (depth + 1)
    (right.1, right.2.set nodeid ⟨false, bbox, n0, n1⟩)
termination_by end_ - start
decreasing_by
  all_goals simp_wf
  all_goals simp only [rounded.make_accelerator_split_kd_tree]
  all_goals simp only [BVHAccelerator_min_prims] at *
  all_goals omega

/-- The box `make_accelerator` stores for the primitive `i`, with rounding:
the float constant `BVHAccelerator_epsilon`, the sum `1 + BVHAccelerator_epsilon`
and the operations of `rscale` are rounded. -/
def rounded.stored_box (fl : ℚ → ℚ) (bboxes : List range3f) (i : Nat) : range3f :=
  rounded.rscale fl (bboxes.getD i range3f.init) (fl (1 + fl BVHAccelerator_epsilon))

/-- The loop of `make_accelerator` that fills `boxed_prims`, with rounding. -/
def rounded.make_boxed_prims (fl : ℚ → ℚ) (bboxes : List range3f) : List boxed_prim :=
  (List.range bboxes.length).map (fun i => (rounded.stored_box fl bboxes i, i))

/-- The function `make_accelerator`, with rounding. -/
def rounded.make_accelerator (fl : ℚ → ℚ) (sort : Sorter) (bboxes : List range3f) :
    BVHAccelerator :=
  let boxed_prims := rounded.make_boxed_prims fl bboxes
  let nodes := [BVHNode.init]
  let built := rounded.make_accelerator_node fl sort 0 boxed_prims nodes 0 bboxes.length
  let prims := (std_vector.init : std_vector Nat).reserve bboxes.length 0
  ⟨copy_prims built.1 prims, built.2⟩

/-- The function `make_accelerator` of the final submission, with rounding. -/
def rounded.make_accelerator_kd_tree (fl : ℚ → ℚ) (sort : Sorter) (bboxes : List range3f) :
    BVHAccelerator :=
  let boxed_prims := rounded.make_boxed_prims fl bboxes
  let nodes := [BVHNode.init]
  let built := rounded.make_accelerator_node_kd_tree fl sort 0 boxed_prims nodes 0
    bboxes.length 0
  let prims := (std_vector.init : std_vector Nat).reserve bboxes.length 0
  ⟨copy_prims built.1 prims, built.2⟩

/-- The template `intersect(bvh, nodeid, ray, intersect_elem)`, with the
rounded slab test; `fuel` is as in `BVHAccelerator.intersect`. -/
def rounded.BVHAccelerator.intersect (fl : ℚ → ℚ) (bvh : BVHAccelerator)
    (intersect_elem : Nat → ray3f → intersection3f) :
    Nat → Nat → ray3f → Option intersection3f
  | 0, _, _ => none
  | fuel + 1, nodeid, ray =>
    match bvh.nodes[nodeid]? with
    | none => none
    | some node =>
      if !rounded.intersect_bbox_hit fl ray node.bbox then some intersection3f.init
      else if node.leaf then
        (intersect_leaf bvh.prims intersect_elem
          (List.range' node.start (node.end_ - node.start)) (intersection3f.init, ray)).map
          Prod.fst
      else
        match rounded.BVHAccelerator.intersect fl bvh intersect_elem fuel node.n0 ray with
        | none => none
        | some s0 =>
          let state := closest_step (intersection3f.init, ray) s0
          match rounded.BVHAccelerator.intersect fl bvh intersect_elem fuel node.n1 state.2 with
          | none => none
          | some s1 => some (closest_step state s1).1

/-- Modelled from the spec: world-to-local transform of a point, rounded. -/
def rounded.transform_point_inverse (fl : ℚ → ℚ) (f : frame3f) (v : vec3f) : vec3f :=
  ⟨rounded.dot fl (rounded.sub fl v f.o) f.x, rounded.dot fl (rounded.sub fl v f.o) f.y,
    rounded.dot fl (rounded.sub fl v f.o) f.z⟩

/-- Modelled from the spec: world-to-local transform of a direction, rounded. -/
def rounded.transform_vector_inverse (fl : ℚ → ℚ) (f : frame3f) (v : vec3f) : vec3f :=
  ⟨rounded.dot fl v f.x, rounded.dot fl v f.y, rounded.dot fl v f.z⟩

/-- Modelled from the spec: world-to-local transform of a ray, rounded. -/
def rounded.transform_ray_inverse (fl : ℚ → ℚ) (f : frame3f) (v : ray3f) : ray3f :=
  ⟨rounded.transform_point_inverse fl f v.e, rounded.transform_vector_inverse fl f v.d, v.tmin,
    v.tmax⟩

/-- Modelled from the spec: local-to-world transform of a direction, rounded. -/
def rounded.transform_vector (fl : ℚ → ℚ) (f : frame3f) (v : vec3f) : vec3f :=
  rounded.add fl (rounded.add fl (rounded.smul fl f.x v.x) (rounded.smul fl f.y v.y))
    (rounded.smul fl f.z v.z)

/-- Modelled from the spec: local-to-world transform of a point, rounded. -/
def rounded.transform_point (fl : ℚ → ℚ) (f : frame3f) (v : vec3f) : vec3f :=
  rounded.add fl
    (rounded.add fl (rounded.add fl f.o (rounded.smul fl f.x v.x)) (rounded.smul fl f.y v.y))
    (rounded.smul fl f.z v.z)

/-- Modelled from the spec: `normalize`, rounded; the square root is the one
of `m`. -/
def rounded.normalize (fl : ℚ → ℚ) (m : libm) (a : vec3f) : vec3f :=
  rounded.sdiv fl a (m.sqrt (rounded.dot fl a a))

/-- Modelled from the spec: local-to-world transform of a normal, rounded. -/
def rounded.transform_normal (fl : ℚ → ℚ) (m : libm) (f : frame3f) (v : vec3f) : vec3f :=
  rounded.normalize fl m (rounded.transform_vector fl f v)

/-- The method `ray3f::eval`, rounded. -/
def rounded.eval (fl : ℚ → ℚ) (r : ray3f) (t : ℚ) : vec3f :=
  rounded.add fl r.e (rounded.smul fl r.d t)

/-- The blend `u*a + v*b + w*c` of three texture coordinates, rounded after
every product and sum. -/
def rounded.blend (fl : ℚ → ℚ) (u v w : ℚ) (a b c : vec2f) : vec2f :=
  ⟨fl (fl (fl (u * a.x) + fl (v * b.x)) + fl (w * c.x)),
    fl (fl (fl (u * a.y) + fl (v * b.y)) + fl (w * c.y))⟩

/-- The record a triangle hit yields in mesh-local space, with rounding. -/
def rounded.triangle_record (fl : ℚ → ℚ) (m : libm) (mesh : Mesh) (triangle : vec3i)
    (tray : ray3f) (t u v : ℚ) : intersection3f :=
  let v0 := mesh.pos.getD triangle.x zero3f
  let v1 := mesh.pos.getD triangle.y zero3f
  let v2 := mesh.pos.getD triangle.z zero3f
  { hit := true
    ray_t := t
    pos := rounded.eval fl tray t
    norm := rounded.normalize fl m (rounded.cross fl (rounded.sub fl v1 v0) (rounded.sub fl v2 v1))
    texcoord :=
      if mesh.texcoord.isEmpty then zero2f
      else rounded.blend fl u v (fl (fl (1 - u) - v)) (mesh.texcoord.getD triangle.x zero2f)
        (mesh.texcoord.getD triangle.y zero2f) (mesh.texcoord.getD triangle.z zero2f)
    mat := mesh.mat }

/-- The closure `[mesh](int tid, ray3f tray)` that `intersect(scene, ray)`
hands to the BVH, with rounding. -/
def rounded.triangle_elem (fl : ℚ → ℚ) (m : libm) (mesh : Mesh) (tid : Nat) (tray : ray3f) :
    intersection3f :=
  let triangle := mesh.triangle.getD tid ⟨0, 0, 0⟩
  let v0 := mesh.pos.getD triangle.x zero3f
  let v1 := mesh.pos.getD triangle.y zero3f
  let v2 := mesh.pos.getD triangle.z zero3f
  match rounded.intersect_triangle fl tray v0 v1 v2 with
  | none => intersection3f.init
  | some (t, u, v) => rounded.triangle_record fl m mesh triangle tray t u v

/-- The body of the linear triangle scan of `intersect(scene, ray)`, with
rounding. -/
def rounded.scan_triangle (fl : ℚ → ℚ) (m : libm) (mesh : Mesh) (tray : ray3f)
    (sintersection : intersection3f) (tri : vec3i) : intersection3f :=
  let v0 := mesh.pos.getD tri.x zero3f
  let v1 := mesh.pos.getD tri.y zero3f
  let v2 := mesh.pos.getD tri.z zero3f
  match rounded.intersect_triangle fl tray v0 v1 v2 with
  | none => sintersection
  | some (t, u, v) =>
    if decide (t > sintersection.ray_t) && sintersection.hit then sintersection
    else rounded.triangle_record fl m mesh tri tray t u v

/-- The mesh-local intersection `sintersection` of `intersect(scene, ray)`,
with rounding: through the BVH, with the rounded slab test, when the mesh has
one, by the linear scan otherwise. -/
def rounded.intersect_mesh (fl : ℚ → ℚ) (m : libm) (mesh : Mesh) (tray : ray3f) :
    Option intersection3f :=
  match mesh.bvh with
  | some bvh =>
    rounded.BVHAccelerator.intersect fl bvh (rounded.triangle_elem fl m mesh) bvh.depth_bound 0
      tray
  | none => some (mesh.triangle.foldl (rounded.scan_triangle fl m mesh tray) intersection3f.init)

/-- The mesh loop of `intersect(scene, ray)`, with rounding. -/
def rounded.intersect_meshes (fl : ℚ → ℚ) (m : libm) (ray : ray3f) :
    List Mesh → intersection3f → Outcome intersection3f
  | [], intersection => Outcome.value intersection
  | mesh :: rest, intersection =>
    if !mesh.quad.isEmpty then Outcome.fatal "quad intersection is not supported"
    else
      let tray := rounded.transform_ray_inverse fl mesh.frame ray
      match rounded.intersect_mesh fl m mesh tray with
      | none => Outcome.stuck
      | some sintersection =>
        if !sintersection.hit then rounded.intersect_meshes fl m ray rest intersection
        else if decide (sintersection.ray_t > intersection.ray_t) && intersection.hit then
          rounded.intersect_meshes fl m ray rest intersection
        else
          rounded.intersect_meshes fl m ray rest
            { sintersection with
              pos := rounded.transform_point fl mesh.frame sintersection.pos
              norm := rounded.transform_normal fl m mesh.frame sintersection.norm
              mat := sintersection.mat }

/-- The function `intersect(scene, ray)`, with the rounded mesh loop.  The
surface loop is the one embedded above: the statements speak of its solvers
only through the hit parameters they return. -/
def rounded.Scene.intersect (fl : ℚ → ℚ) (m : libm) (scene : Scene) (ray : ray3f) :
    Outcome intersection3f :=
  rounded.intersect_meshes fl m ray scene.meshes
    (scene.surfaces.foldl (intersect_surface m ray) intersection3f.init)

/-- The state `accelerate` leaves a mesh in, with rounding: no BVH, or the BVH
of its triangles. -/
def rounded.Mesh.accelerated (fl : ℚ → ℚ) (sort : Sorter) (mesh : Mesh) : Prop :=
  mesh.bvh = none ∨ mesh.bvh = some (rounded.make_accelerator fl sort (mesh_bboxes mesh))

/-- The hit parameter that `intersect_triangle` returns with rounding for the
triangle `tri` of `mesh` and `ray`, `none` when it reports no hit. -/
def rounded.triangle_t (fl : ℚ → ℚ) (mesh : Mesh) (ray : ray3f) (tri : vec3i) : Option ℚ :=
  (rounded.intersect_triangle fl (rounded.transform_ray_inverse fl mesh.frame ray)
    (mesh.pos.getD tri.x zero3f) (mesh.pos.getD tri.y zero3f)
    (mesh.pos.getD tri.z zero3f)).map Prod.fst

/-- The hit parameter of a triangle for a ray of unbounded interval, with
rounding: what `intersect_triangle` computes as `t` when the denominator is not
zero and the barycentric coordinates pass its tests, whatever `tmin` and
`tmax`. -/
def rounded.triangle_param (fl : ℚ → ℚ) (ray : ray3f) (v0 v1 v2 : vec3f) : Option ℚ :=
  let a := rounded.sub fl v0 v2
  let b := rounded.sub fl v1 v2
  let d := ray.d
  let e := rounded.sub fl ray.e v2
  let denominator := rounded.dot fl (rounded.cross fl d b) a
  if denominator = 0 then none
  else
    let t := fl (rounded.dot fl (rounded.cross fl e a) b / denominator)
    let u := fl (rounded.dot fl (rounded.cross fl d b) e / denominator)
    let v := fl (rounded.dot fl (rounded.cross fl e a) d / denominator)
    if u < 0 ∨ v < 0 ∨ fl (u + v) > 1 then none
    else some t

/-- The function
`intersect_triangle(ray, v0, v1, v2, hit_t, bary_u, bary_v)` of the final
submission, with rounding: the differences, the products and sums of `cross`
and `dot`, the quotient `1.0f / denom`, the three products with it and the sum
`alpha + beta` are rounded.  The quotient and the products may be infinite or
`NaN`. -/
def rounded.finalsubmission.intersect_triangle (fl : ℚ → ℚ) (ray : ray3f) (v0 v1 v2 : vec3f) :
    Option (xfloat × xfloat × xfloat) :=
  let comp_a := rounded.sub fl v0 v2
  let comp_b := rounded.sub fl v1 v2
  let comp_d := ray.d
  let comp_e := rounded.sub fl ray.e v2
  let denom := rounded.dot fl (rounded.cross fl comp_d comp_b) comp_a
  let inv_denom := (xfloat.div 1 denom).round fl
  let alpha := (xfloat.mul (rounded.dot fl (rounded.cross fl comp_d comp_b) comp_e)
    inv_denom).round fl
  if alpha.lt (xfloat.fin 0) || alpha.gt (xfloat.fin 1) then none
  else
    let beta := (xfloat.mul (rounded.dot fl (rounded.cross fl comp_e comp_a) comp_d)
      inv_denom).round fl
    if beta.lt (xfloat.fin 0) || beta.gt (xfloat.fin 1) ||
        ((alpha.add beta).round fl).gt (xfloat.fin 1) then none
    else
      let hit_t := (xfloat.mul (rounded.dot fl (rounded.cross fl comp_e comp_a) comp_b)
        inv_denom).round fl
      if hit_t.lt (xfloat.fin ray.tmin) || hit_t.gt (xfloat.fin ray.tmax) then none
      else some (hit_t, alpha, beta)

/-- The hit parameter of a triangle for a ray of unbounded interval, as the
solver of the final submission computes it with rounding: the finite `hit_t`,
when `alpha` and `beta` pass the tests of the solver, whatever `tmin` and
`tmax`. -/
def rounded.finalsubmission.triangle_param (fl : ℚ → ℚ) (ray : ray3f) (v0 v1 v2 : vec3f) :
    Option ℚ :=
  let comp_a := rounded.sub fl v0 v2
  let comp_b := rounded.sub fl v1 v2
  let comp_d := ray.d
  let comp_e := rounded.sub fl ray.e v2
  let denom := rounded.dot fl (rounded.cross fl comp_d comp_b) comp_a
  let inv_denom := (xfloat.div 1 denom).round fl
  let alpha := (xfloat.mul (rounded.dot fl (rounded.cross fl comp_d comp_b) comp_e)
    inv_denom).round fl
  if alpha.lt (xfloat.fin 0) || alpha.gt (xfloat.fin 1) then none
  else
    let beta := (xfloat.mul (rounded.dot fl (rounded.cross fl comp_e comp_a) comp_d)
      inv_denom).round fl
    if beta.lt (xfloat.fin 0) || beta.gt (xfloat.fin 1) ||
        ((alpha.add beta).round fl).gt (xfloat.fin 1) then none
    else
      match (xfloat.mul (rounded.dot fl (rounded.cross fl comp_e comp_a) comp_b)
        inv_denom).round fl with
      | xfloat.fin t => some t
      | _ => none

/-- The template `intersect(bvh, nodeid, ray, intersect_elem)` of the final
submission for a closure that writes a record it captured by reference, with
the rounded slab test; as `BVHAccelerator.intersect_st` otherwise. -/
def rounded.BVHAccelerator.intersect_st (fl : ℚ → ℚ) (bvh : BVHAccelerator)
    (intersect_elem : Nat → ray3f → intersection3f → intersection3f) :
    Nat → Nat → ray3f → intersection3f → Option (intersection3f × intersection3f)
  | 0, _, _, _ => none
  | fuel + 1, nodeid, ray, captured =>
    match bvh.nodes[nodeid]? with
    | none => none
    | some node =>
      if !rounded.intersect_bbox_hit fl ray node.bbox then
        some (finalsubmission.intersection3f_init, captured)
      else if node.leaf then
        (intersect_leaf_st bvh.prims intersect_elem
          (List.range' node.start (node.end_ - node.start))
          ((finalsubmission.intersection3f_init, ray), captured)).map
          (fun out => (out.1.1, out.2))
      else
        match rounded.BVHAccelerator.intersect_st fl bvh intersect_elem fuel node.n0 ray
            captured with
        | none => none
        | some (s0, captured0) =>
          let state := closest_step (finalsubmission.intersection3f_init, ray) s0
          match rounded.BVHAccelerator.intersect_st fl bvh intersect_elem fuel node.n1 state.2
              captured0 with
          | none => none
          | some (s1, captured1) => some ((closest_step state s1).1, captured1)

/-- The closure `[mesh, &sintersection](int tid, ray3f tray)` that
`intersect(scene, ray)` of the final submission hands to the BVH, with
rounding. -/
def rounded.finalsubmission.triangle_closure (fl : ℚ → ℚ) (m : libm) (mesh : Mesh) (tid : Nat)
    (tray : ray3f) (sintersection : intersection3f) : intersection3f :=
  let triangle := mesh.triangle.getD tid ⟨0, 0, 0⟩
  let v0 := mesh.pos.getD triangle.x zero3f
  let v1 := mesh.pos.getD triangle.y zero3f
  let v2 := mesh.pos.getD triangle.z zero3f
  match rounded.finalsubmission.intersect_triangle fl tray v0 v1 v2 with
  | none => sintersection
  | some (hit_t, bary_u, bary_v) =>
    if hit_t.lt (xfloat.fin sintersection.ray_t) then
      { hit := true
        ray_t := hit_t.value
        pos := rounded.eval fl tray hit_t.value
        norm := rounded.normalize fl m
          (rounded.cross fl (rounded.sub fl v1 v0) (rounded.sub fl v2 v0))
        texcoord :=
          if mesh.texcoord.length = 0 then zero2f
          else
            rounded.blend fl (fl (fl (1 - bary_u.value) - bary_v.value)) bary_u.value
              bary_v.value (mesh.texcoord.getD triangle.x zero2f)
              (mesh.texcoord.getD triangle.y zero2f) (mesh.texcoord.getD triangle.z zero2f)
        mat := mesh.mat }
    else sintersection

/-- The body of the linear triangle scan of `intersect(scene, ray)` of the
final submission, with rounding. -/
def rounded.finalsubmission.scan_triangle (fl : ℚ → ℚ) (m : libm) (mesh : Mesh) (tray : ray3f)
    (sintersection : intersection3f) (tri_idx : vec3i) : intersection3f :=
  let v0 := mesh.pos.getD tri_idx.x zero3f
  let v1 := mesh.pos.getD tri_idx.y zero3f
  let v2 := mesh.pos.getD tri_idx.z zero3f
  match rounded.finalsubmission.intersect_triangle fl tray v0 v1 v2 with
  | none => sintersection
  | some (hit_t, _, _) =>
    if hit_t.lt (xfloat.fin sintersection.ray_t) then
      { hit := true
        ray_t := hit_t.value
        pos := rounded.transform_point fl mesh.frame (rounded.eval fl tray hit_t.value)
        norm := rounded.transform_normal fl m mesh.frame
          (rounded.normalize fl m (rounded.cross fl (rounded.sub fl v1 v0) (rounded.sub fl v2 v0)))
        texcoord := zero2f
        mat := mesh.mat }
    else sintersection

/-- The mesh-local record `sintersection` of `intersect(scene, ray)` of the
final submission, with rounding. -/
def rounded.finalsubmission.intersect_mesh (fl : ℚ → ℚ) (m : libm) (mesh : Mesh)
    (tray : ray3f) : Option intersection3f :=
  match mesh.bvh with
  | some bvh =>
    (rounded.BVHAccelerator.intersect_st fl bvh (rounded.finalsubmission.triangle_closure fl m mesh)
      bvh.depth_bound 0 tray finalsubmission.intersection3f_init).map Prod.fst
  | none =>
    some (mesh.triangle.foldl (rounded.finalsubmission.scan_triangle fl m mesh tray)
      finalsubmission.intersection3f_init)

/-- The mesh loop of `intersect(scene, ray)` of the final submission, with
rounding. -/
def rounded.finalsubmission.intersect_meshes (fl : ℚ → ℚ) (m : libm) (ray : ray3f) :
    List Mesh → intersection3f → Outcome intersection3f
  | [], intersection => Outcome.value intersection
  | mesh :: rest, intersection =>
    if !mesh.quad.isEmpty then Outcome.fatal "quad intersection is not supported"
    else
      let tray := rounded.transform_ray_inverse fl mesh.frame ray
      match rounded.finalsubmission.intersect_mesh fl m mesh tray with
      | none => Outcome.stuck
      | some sintersection =>
        if !sintersection.hit then rounded.finalsubmission.intersect_meshes fl m ray rest
          intersection
        else if decide (sintersection.ray_t > intersection.ray_t) && intersection.hit then
          rounded.finalsubmission.intersect_meshes fl m ray rest intersection
        else
          rounded.finalsubmission.intersect_meshes fl m ray rest
            { sintersection with
              pos := rounded.transform_point fl mesh.frame sintersection.pos
              norm := rounded.normalize fl m
                (rounded.transform_normal fl m mesh.frame sintersection.norm)
              mat := sintersection.mat }

/-- The function `intersect(scene, ray)` of the final submission, with the
rounded mesh loop; the surface loop is the one embedded above. -/
def rounded.finalsubmission.intersect (fl : ℚ → ℚ) (m : libm) (scene : Scene) (ray : ray3f) :
    Outcome intersection3f :=
  rounded.finalsubmission.intersect_meshes fl m ray scene.meshes
    (scene.surfaces.foldl (finalsubmission.intersect_surface m ray)
      finalsubmission.intersection3f_init)

theorem getElem?_slice {α : Type} (l : List α) (s e i : Nat) :
    (slice l s e)[i]? = if i < e - s then l[s + i]? else none := by
  unfold slice
  rw [List.getElem?_take]
  split
  · rw [List.getElem?_drop]
  · rfl

theorem length_slice {α : Type} (l : List α) (s e : Nat) (h : e ≤ l.length) :
    (slice l s e).length = e - s := by
  unfold slice
  simp only [List.length_take, List.length_drop]
  omega

theorem slice_congr {α : Type} (l1 l2 : List α) (s e : Nat)
    (h : ∀ i, s ≤ i → i < e → l2[i]? = l1[i]?) : slice l2 s e = slice l1 s e := by
  apply List.ext_getElem?
  intro i
  rw [getElem?_slice, getElem?_slice]
  split
  · apply h <;> omega
  · rfl

theorem slice_append {α : Type} (l : List α) (s m e : Nat) (h1 : s ≤ m) (h2 : m ≤ e) :
    slice l s e = slice l s m ++ slice l m e := by
  by_cases hl : m ≤ l.length
  · apply List.ext_getElem?
    intro i
    rw [List.getElem?_append, length_slice l s m hl]
    simp only [getElem?_slice]
    by_cases hi : i < m - s
    · rw [if_pos hi, if_pos hi, if_pos (by omega)]
    · rw [if_neg hi]
      by_cases hi2 : i < e - s
      · rw [if_pos hi2, if_pos (by omega)]
        congr 1; omega
      · rw [if_neg hi2, if_neg (by omega)]
  · have hm : slice l m e = [] := by
      unfold slice; rw [List.drop_eq_nil_of_le (by omega)]; simp
    rw [hm, List.append_nil]
    apply List.ext_getElem?
    intro j
    simp only [getElem?_slice]
    by_cases hj : j < m - s
    · rw [if_pos hj, if_pos (by omega)]
    · rw [if_neg hj]
      split
      · apply List.getElem?_eq_none; omega
      · rfl

theorem RangePerm.refl {α : Type} (s e : Nat) (l : List α) : RangePerm s e l l :=
  ⟨rfl, fun _ _ => rfl, List.Perm.refl _⟩

theorem RangePerm.trans {α : Type} {s e : Nat} {l1 l2 l3 : List α}
    (h12 : RangePerm s e l1 l2) (h23 : RangePerm s e l2 l3) : RangePerm s e l1 l3 :=
  ⟨h23.1.trans h12.1, fun i hi => (h23.2.1 i hi).trans (h12.2.1 i hi), h23.2.2.trans h12.2.2⟩

theorem RangePerm.mono {α : Type} {a b s e : Nat} {l1 l2 : List α}
    (h : RangePerm a b l1 l2) (hs : s ≤ a) (hab : a ≤ b) (he : b ≤ e) :
    RangePerm s e l1 l2 := by
  refine ⟨h.1, fun i hi => h.2.1 i (by omega), ?_⟩
  rw [slice_append l2 s a e hs (by omega), slice_append l2 a b e hab he,
    slice_append l1 s a e hs (by omega), slice_append l1 a b e hab he]
  rw [slice_congr l1 l2 s a (fun i _ hi => h.2.1 i (Or.inl hi)),
    slice_congr l1 l2 b e (fun i hi _ => h.2.1 i (Or.inr hi))]
  exact List.Perm.append_left _ (List.Perm.append_right _ h.2.2)

theorem sort_range_rangePerm (sort : Sorter) (hsort : sort.permutes)
    (axis : Nat) (v : List boxed_prim) (s e : Nat)
    (hse : s ≤ e) (he : e ≤ v.length) :
    RangePerm s e v (sort_range sort (center_less axis) v s e) := by
  have hp := hsort axis (slice v s e)
  have hlen : (sort (center_less axis) (slice v s e)).length = e - s := by
    rw [hp.length_eq, length_slice v s e he]
  have htake : (v.take s).length = s := by
    rw [List.length_take]; omega
  unfold sort_range
  refine ⟨?_, ?_, ?_⟩
  · simp only [List.length_append, htake, hlen, List.length_drop]; omega
  · intro i hi
    rcases hi with hi | hi
    · rw [List.append_assoc, List.getElem?_append_left (by omega), List.getElem?_take]
      rw [if_pos hi]
    · rw [List.getElem?_append_right (by simp only [List.length_append, htake, hlen]; omega)]
      simp only [List.length_append, htake, hlen]
      rw [List.getElem?_drop]
      congr 1; omega
  · have key : ∀ B : List boxed_prim, B.length = e - s →
        slice (v.take s ++ B ++ v.drop e) s e = B := by
      intro B hB
      unfold slice
      rw [List.append_assoc, List.drop_left' htake, List.take_left' hB]
    rw [key _ hlen]
    exact hp

theorem split_trial_rangePerm (sort : Sorter) (hsort : sort.permutes) (v : List boxed_prim)
    (s e a : Nat) (hse : s ≤ e) (he : e ≤ v.length) :
    RangePerm s e v (split_trial sort v s e a).1 :=
  sort_range_rangePerm sort hsort _ v s e hse he

theorem make_accelerator_split_rangePerm (sort : Sorter) (hsort : sort.permutes)
    (v : List boxed_prim) (s e : Nat) (bbox : range3f) (maxaxis : Bool)
    (hse : s ≤ e) (he : e ≤ v.length) :
    RangePerm s e v (make_accelerator_split sort v s e bbox maxaxis).1 := by
  unfold make_accelerator_split
  split
  · exact sort_range_rangePerm sort hsort _ v s e hse he
  · have h0 := split_trial_rangePerm sort hsort v s e 0 hse he
    have h1 := split_trial_rangePerm sort hsort (split_trial sort v s e 0).1 s e 1 hse
      (by rw [h0.1]; exact he)
    have h2 := split_trial_rangePerm sort hsort
      (split_trial sort (split_trial sort v s e 0).1 s e 1).1 s e 2 hse
      (by rw [h1.1, h0.1]; exact he)
    have h3 := sort_range_rangePerm sort hsort
      (if (split_trial sort v s e 0).2 ≤
          (split_trial sort (split_trial sort v s e 0).1 s e 1).2 ∧
        (split_trial sort v s e 0).2 ≤
          (split_trial sort (split_trial sort (split_trial sort v s e 0).1 s e 1).1 s e 2).2
        then 0
        else if (split_trial sort (split_trial sort v s e 0).1 s e 1).2 ≤
            (split_trial sort v s e 0).2 ∧
          (split_trial sort (split_trial sort v s e 0).1 s e 1).2 ≤
            (split_trial sort (split_trial sort (split_trial sort v s e 0).1 s e 1).1 s e 2).2
        then 1 else 2)
      (split_trial sort (split_trial sort (split_trial sort v s e 0).1 s e 1).1 s e 2).1 s e hse
      (by rw [h2.1, h1.1, h0.1]; exact he)
    exact ((h0.trans h1).trans h2).trans h3

theorem make_accelerator_split_mid (sort : Sorter) (v : List boxed_prim) (s e : Nat)
    (bbox : range3f) (maxaxis : Bool) :
    (make_accelerator_split sort v s e bbox maxaxis).2 = (s + e) / 2 := by
  unfold make_accelerator_split; split <;> rfl

/-! ## Boxes -/

theorem runion_right_comm (z x y : range3f) :
    runion (runion z x) y = runion (runion z y) x := by
  unfold runion vmin vmax
  simp only [range3f.mk.injEq, vec3f.mk.injEq]
  refine ⟨⟨?_, ?_, ?_⟩, ⟨?_, ?_, ?_⟩⟩ <;>
    first
    | apply min_right_comm
    | (simp only [max_assoc]; congr 1; apply max_comm)

theorem union_range_congr (bp bp2 : List boxed_prim) (s e : Nat)
    (h : List.Perm (slice bp2 s e) (slice bp s e)) :
    union_range bp2 s e = union_range bp s e := by
  unfold union_range
  exact h.foldl_eq' (fun x _ y _ z => runion_right_comm z x.1 y.1) _

/-! ## The builder -/

theorem make_accelerator_node_leaf (sort : Sorter) (k : Nat) (bp : List boxed_prim)
    (nodes : List BVHNode) (s e : Nat) (h : e - s ≤ BVHAccelerator_min_prims) :
    make_accelerator_node sort k bp nodes s e =
      (bp, nodes.set k ⟨true, union_range bp s e, s, e⟩) := by
  rw [make_accelerator_node]
  simp only [h, if_true]

theorem make_accelerator_node_inner (sort : Sorter) (k : Nat) (bp : List boxed_prim)
    (nodes : List BVHNode) (s e : Nat) (h : ¬ e - s ≤ BVHAccelerator_min_prims) :
    make_accelerator_node sort k bp nodes s e =
      ((make_accelerator_node sort (nodes.length + 2)
          (make_accelerator_node sort (nodes.length + 1)
            (make_accelerator_split sort bp s e (union_range bp s e)
              BVHAccelerator_build_maxaxis).1
            (nodes ++ [BVHNode.init] ++ [BVHNode.init] ++ [BVHNode.init]) s ((s + e) / 2)).1
          (make_accelerator_node sort (nodes.length + 1)
            (make_accelerator_split sort bp s e (union_range bp s e)
              BVHAccelerator_build_maxaxis).1
            (nodes ++ [BVHNode.init] ++ [BVHNode.init] ++ [BVHNode.init]) s ((s + e) / 2)).2
          ((s + e) / 2) e).1,
       (make_accelerator_node sort (nodes.length + 2)
          (make_accelerator_node sort (nodes.length + 1)
            (make_accelerator_split sort bp s e (union_range bp s e)
              BVHAccelerator_build_maxaxis).1
            (nodes ++ [BVHNode.init] ++ [BVHNode.init] ++ [BVHNode.init]) s ((s + e) / 2)).1
          (make_accelerator_node sort (nodes.length + 1)
            (make_accelerator_split sort bp s e (union_range bp s e)
              BVHAccelerator_build_maxaxis).1
            (nodes ++ [BVHNode.init] ++ [BVHNode.init] ++ [BVHNode.init]) s ((s + e) / 2)).2
          ((s + e) / 2) e).2.set k
        ⟨false, union_range bp s e, nodes.length + 1, nodes.length + 2⟩) := by
  rw [make_accelerator_node]
  simp only [h, if_false, make_accelerator_split_mid, List.length_append, List.length_singleton]

theorem IsTree.frame {nodes nodes2 : List BVHNode} {bp bp2 : List boxed_prim}
    {lo hi k s e : Nat} (h : IsTree nodes bp lo hi k s e)
    (hk : nodes2[k]? = nodes[k]?)
    (hn : ∀ j, lo ≤ j → j < hi → nodes2[j]? = nodes[j]?)
    (hb : ∀ i, s ≤ i → i < e → bp2[i]? = bp[i]?) :
    IsTree nodes2 bp2 lo hi k s e := by
  induction h with
  | leaf lo hi k s e hnode hsz =>
    refine IsTree.leaf lo hi k s e ?_ hsz
    rw [hk, hnode]
    unfold union_range
    rw [slice_congr bp bp2 s e hb]
  | node lo hi k s e n0 n1 lo0 hi0 lo1 hi1 hnode hsz hklo hlon0 hn01 hn1hi hlo0 hhi0 hlo1 hhi1
      _ _ ih0 ih1 =>
    refine IsTree.node lo hi k s e n0 n1 lo0 hi0 lo1 hi1 ?_ hsz hklo hlon0 hn01 hn1hi
      hlo0 hhi0 hlo1 hhi1 ?_ ?_
    · rw [hk, hnode]
      unfold union_range
      rw [slice_congr bp bp2 s e hb]
    · exact ih0 (hn n0 hlon0 (by omega)) (fun j h1 h2 => hn j (by omega) (by omega))
        (fun i h1 h2 => hb i h1 (by omega))
    · exact ih1 (hn n1 (by omega) hn1hi) (fun j h1 h2 => hn j (by omega) (by omega))
        (fun i h1 h2 => hb i (by omega) h2)

/-- What a call of `make_accelerator_node` does to its two arrays. -/
theorem make_accelerator_node_spec (sort : Sorter) (hsort : sort.permutes) :
    ∀ (n k : Nat) (bp : List boxed_prim) (nodes : List BVHNode) (s e : Nat),
      e - s = n → k < nodes.length → s ≤ e → e ≤ bp.length →
      RangePerm s e bp (make_accelerator_node sort k bp nodes s e).1 ∧
      nodes.length ≤ (make_accelerator_node sort k bp nodes s e).2.length ∧
      (∀ j, j < nodes.length → j ≠ k →
        (make_accelerator_node sort k bp nodes s e).2[j]? = nodes[j]?) ∧
      IsTree (make_accelerator_node sort k bp nodes s e).2
        (make_accelerator_node sort k bp nodes s e).1 nodes.length
        (make_accelerator_node sort k bp nodes s e).2.length k s e := by
  intro n
  induction n using Nat.strong_induction_on with
  | _ n ih =>
    intro k bp nodes s e hn hk hse he
    by_cases hleaf : e - s ≤ BVHAccelerator_min_prims
    · rw [make_accelerator_node_leaf sort k bp nodes s e hleaf]
      refine ⟨RangePerm.refl _ _ _, by simp, ?_, ?_⟩
      · intro j _ hjk
        exact List.getElem?_set_ne (Ne.symm hjk)
      · refine IsTree.leaf _ _ k s e ?_ hleaf
        simp only [List.getElem?_set_self hk]
    · rw [make_accelerator_node_inner sort k bp nodes s e hleaf]
      have hmp : BVHAccelerator_min_prims = 4 := rfl
      have hsplit := make_accelerator_split_rangePerm sort hsort bp s e (union_range bp s e)
        BVHAccelerator_build_maxaxis hse he
      generalize (make_accelerator_split sort bp s e (union_range bp s e)
        BVHAccelerator_build_maxaxis).1 = bp1 at hsplit ⊢
      have hl3 : (nodes ++ [BVHNode.init] ++ [BVHNode.init] ++ [BVHNode.init]).length =
          nodes.length + 3 := by simp
      have hleft := ih ((s + e) / 2 - s) (by omega) (nodes.length + 1) bp1
        (nodes ++ [BVHNode.init] ++ [BVHNode.init] ++ [BVHNode.init]) s ((s + e) / 2) rfl
        (by omega) (by omega) (by rw [hsplit.1]; omega)
      have hnodes3 : ∀ j, j < nodes.length →
          (nodes ++ [BVHNode.init] ++ [BVHNode.init] ++ [BVHNode.init])[j]? = nodes[j]? := by
        intro j hj
        rw [List.append_assoc, List.append_assoc, List.getElem?_append_left hj]
      generalize (nodes ++ [BVHNode.init] ++ [BVHNode.init] ++ [BVHNode.init]) = nodes3
        at hl3 hleft hnodes3 ⊢
      obtain ⟨hLp, hLlen, hLframe, hLtree⟩ := hleft
      generalize make_accelerator_node sort (nodes.length + 1) bp1 nodes3 s ((s + e) / 2) = L
        at hLp hLlen hLframe hLtree ⊢
      have hright := ih (e - (s + e) / 2) (by omega) (nodes.length + 2) L.1 L.2
        ((s + e) / 2) e rfl (by omega) (by omega) (by rw [hLp.1, hsplit.1]; exact he)
      obtain ⟨hRp, hRlen, hRframe, hRtree⟩ := hright
      generalize make_accelerator_node sort (nodes.length + 2) L.1 L.2 ((s + e) / 2) e = R
        at hRp hRlen hRframe hRtree ⊢
      have hperm : RangePerm s e bp R.1 :=
        (hsplit.trans (hLp.mono (le_refl _) (by omega) (by omega))).trans
          (hRp.mono (by omega) (by omega) (le_refl _))
      refine ⟨hperm, by simp only [List.length_set]; omega, ?_, ?_⟩
      · intro j hj hjk
        rw [List.getElem?_set_ne (Ne.symm hjk), hRframe j (by omega) (by omega),
          hLframe j (by omega) (by omega), hnodes3 j hj]
      · refine IsTree.node _ _ k s e (nodes.length + 1) (nodes.length + 2) (nodes.length + 3)
          L.2.length L.2.length R.2.length ?_ (by omega) hk (by omega) (by omega)
          (by simp only [List.length_set]; omega) (by omega)
          (by simp only [List.length_set]; omega) (by omega)
          (by simp only [List.length_set]; omega) ?_ ?_
        · rw [List.getElem?_set_self (by omega), union_range_congr bp R.1 s e hperm.2.2]
        · rw [hl3] at hLtree
          refine hLtree.frame ?_ ?_ ?_
          · rw [List.getElem?_set_ne (by omega), hRframe _ (by omega) (by omega)]
          · intro j h1 h2
            rw [List.getElem?_set_ne (by omega), hRframe j h2 (by omega)]
          · intro i _ h2
            exact hRp.2.1 i (Or.inl h2)
        · refine hRtree.frame ?_ ?_ ?_
          · rw [List.getElem?_set_ne (by omega)]
          · intro j h1 _
            rw [List.getElem?_set_ne (by omega)]
          · intro i _ _
            rfl

/-! ## Traversal: the interval of the ray -/

theorem closest_step_hit_mono (state : intersection3f × ray3f) (s : intersection3f)
    (h : state.1.hit = true) : (closest_step state s).1.hit = true := by
  unfold closest_step
  split
  · exact h
  · split
    · exact h
    · rename_i hs _
      simpa using hs

theorem closest_step_of_not_hit (state : intersection3f × ray3f) (s : intersection3f)
    (h : s.hit = false) : closest_step state s = state := by
  unfold closest_step
  simp [h]

theorem closest_step_first_hit (state : intersection3f × ray3f) (s : intersection3f)
    (h : s.hit = true) (h0 : state.1.hit = false) :
    closest_step state s = (s, { state.2 with tmax := s.ray_t }) := by
  unfold closest_step
  simp [h, h0]

/-- The invariant of the two loops of the nearest-hit traversal with respect to
the interval of the ray `ray` the traversal was called with. -/
theorem closest_step_within (ray : ray3f) (state : intersection3f × ray3f)
    (s : intersection3f)
    (hstate : state.2.tmin = ray.tmin ∧ state.2.tmax ≤ ray.tmax ∧
      (state.1.hit = true → ray.tmin ≤ state.1.ray_t ∧ state.1.ray_t ≤ ray.tmax))
    (hs : s.hit = true → state.2.tmin ≤ s.ray_t ∧ s.ray_t ≤ state.2.tmax) :
    (closest_step state s).2.tmin = ray.tmin ∧ (closest_step state s).2.tmax ≤ ray.tmax ∧
      ((closest_step state s).1.hit = true →
        ray.tmin ≤ (closest_step state s).1.ray_t ∧
          (closest_step state s).1.ray_t ≤ ray.tmax) := by
  unfold closest_step
  split
  · exact hstate
  · split
    · exact hstate
    · rename_i hhit _
      have hh : s.hit = true := by simpa using hhit
      have := hs hh
      refine ⟨hstate.1, ?_, fun _ => ⟨?_, ?_⟩⟩
      · exact le_trans this.2 hstate.2.1
      · rw [← hstate.1]; exact this.1
      · exact le_trans this.2 hstate.2.1

theorem intersect_leaf_within (prims : std_vector Nat) (f : Nat → ray3f → intersection3f)
    (hf : ∀ i r, (f i r).hit = true → r.tmin ≤ (f i r).ray_t ∧ (f i r).ray_t ≤ r.tmax)
    (ray : ray3f) :
    ∀ (idxs : List Nat) (state out : intersection3f × ray3f),
      (state.2.tmin = ray.tmin ∧ state.2.tmax ≤ ray.tmax ∧
        (state.1.hit = true → ray.tmin ≤ state.1.ray_t ∧ state.1.ray_t ≤ ray.tmax)) →
      intersect_leaf prims f idxs state = some out →
      (out.1.hit = true → ray.tmin ≤ out.1.ray_t ∧ out.1.ray_t ≤ ray.tmax) := by
  intro idxs
  induction idxs with
  | nil =>
    intro state out hstate h
    simp only [intersect_leaf, Option.some.injEq] at h
    subst h
    exact hstate.2.2
  | cons idx rest ih =>
    intro state out hstate h
    simp only [intersect_leaf] at h
    cases hr : prims.read idx with
    | none => simp [hr] at h
    | some i =>
      simp only [hr] at h
      exact ih _ out (closest_step_within ray state _ hstate (hf i state.2)) h

theorem bvh_intersect_within (bvh : BVHAccelerator) (f : Nat → ray3f → intersection3f)
    (hf : ∀ i r, (f i r).hit = true → r.tmin ≤ (f i r).ray_t ∧ (f i r).ray_t ≤ r.tmax) :
    ∀ (fuel nodeid : Nat) (ray : ray3f) (r : intersection3f),
      bvh.intersect f fuel nodeid ray = some r →
      r.hit = true → ray.tmin ≤ r.ray_t ∧ r.ray_t ≤ ray.tmax := by
  intro fuel
  induction fuel with
  | zero => intro nodeid ray r h; simp [BVHAccelerator.intersect] at h
  | succ fuel ih =>
    intro nodeid ray r h hit
    rw [BVHAccelerator.intersect] at h
    cases hn : bvh.nodes[nodeid]? with
    | none => simp [hn] at h
    | some node =>
      simp only [hn] at h
      by_cases hb : intersect_bbox_hit ray node.bbox = true
      · simp only [hb, Bool.not_true, Bool.false_eq_true, if_false] at h
        by_cases hl : node.leaf = true
        · simp only [hl, if_true] at h
          cases hleaf : intersect_leaf bvh.prims f
              (List.range' node.start (node.end_ - node.start)) (intersection3f.init, ray) with
          | none => simp [hleaf] at h
          | some out =>
            simp only [hleaf, Option.map_some', Option.some.injEq] at h
            subst h
            exact intersect_leaf_within bvh.prims f hf ray _ _ out
              ⟨rfl, le_refl _, fun hh => by simp [intersection3f.init] at hh⟩ hleaf hit
        · simp only [hl, Bool.false_eq_true, if_false] at h
          cases h0 : bvh.intersect f fuel node.n0 ray with
          | none => simp [h0] at h
          | some s0 =>
            simp only [h0] at h
            cases h1 : bvh.intersect f fuel node.n1
                (closest_step (intersection3f.init, ray) s0).2 with
            | none => simp [h1] at h
            | some s1 =>
              simp only [h1, Option.some.injEq] at h
              subst h
              have st0 := closest_step_within ray (intersection3f.init, ray) s0
                ⟨rfl, le_refl _, fun hh => by simp [intersection3f.init] at hh⟩
                (ih node.n0 ray s0 h0)
              exact (closest_step_within ray _ s1 st0 (ih node.n1 _ s1 h1)).2.2 hit
      · simp only [hb, Bool.not_false, if_true, Option.some.injEq] at h
        subst h
        simp [intersection3f.init] at hit

/-! ## Traversal: any-hit against nearest-hit -/

theorem intersect_leaf_hit_mono (prims : std_vector Nat) (f : Nat → ray3f → intersection3f) :
    ∀ (idxs : List Nat) (state out : intersection3f × ray3f),
      intersect_leaf prims f idxs state = some out → state.1.hit = true →
      out.1.hit = true := by
  intro idxs
  induction idxs with
  | nil =>
    intro state out h hh
    simp only [intersect_leaf, Option.some.injEq] at h
    subst h; exact hh
  | cons idx rest ih =>
    intro state out h hh
    simp only [intersect_leaf] at h
    cases hr : prims.read idx with
    | none => simp [hr] at h
    | some i =>
      simp only [hr] at h
      exact ih _ out h (closest_step_hit_mono state _ hh)

theorem intersect_shadow_leaf_of_intersect_leaf (prims : std_vector Nat)
    (f : Nat → ray3f → intersection3f) (fs : Nat → ray3f → Bool)
    (hfs : ∀ i r, fs i r = (f i r).hit) (ray : ray3f) :
    ∀ (idxs : List Nat) (acc : intersection3f) (out : intersection3f × ray3f),
      acc.hit = false → intersect_leaf prims f idxs (acc, ray) = some out →
      intersect_shadow_leaf prims fs ray idxs = some out.1.hit := by
  intro idxs
  induction idxs with
  | nil =>
    intro acc out hacc h
    simp only [intersect_leaf, Option.some.injEq] at h
    subst h
    simp [intersect_shadow_leaf, hacc]
  | cons idx rest ih =>
    intro acc out hacc h
    simp only [intersect_leaf] at h
    simp only [intersect_shadow_leaf]
    cases hr : prims.read idx with
    | none => simp [hr] at h
    | some i =>
      simp only [hr] at h ⊢
      by_cases hh : (f i ray).hit = true
      · rw [closest_step_first_hit _ _ hh hacc] at h
        have := intersect_leaf_hit_mono prims f rest _ out h hh
        simp [hfs, hh, this]
      · have hh2 : (f i ray).hit = false := by simpa using hh
        rw [closest_step_of_not_hit _ _ hh2] at h
        simp only [hfs, hh2, Bool.false_eq_true, if_false]
        exact ih acc out hacc h

/-- On every node array, where the nearest-hit traversal returns a record the
any-hit traversal returns the `hit` flag of that record. -/
theorem bvh_intersect_shadow_of_intersect (bvh : BVHAccelerator)
    (f : Nat → ray3f → intersection3f) (fs : Nat → ray3f → Bool)
    (hfs : ∀ i r, fs i r = (f i r).hit) :
    ∀ (fuel nodeid : Nat) (ray : ray3f) (r : intersection3f),
      bvh.intersect f fuel nodeid ray = some r →
      bvh.intersect_shadow fs fuel nodeid ray = some r.hit := by
  intro fuel
  induction fuel with
  | zero => intro nodeid ray r h; simp [BVHAccelerator.intersect] at h
  | succ fuel ih =>
    intro nodeid ray r h
    rw [BVHAccelerator.intersect] at h
    rw [BVHAccelerator.intersect_shadow]
    cases hn : bvh.nodes[nodeid]? with
    | none => simp [hn] at h
    | some node =>
      simp only [hn] at h ⊢
      by_cases hb : intersect_bbox_hit ray node.bbox = true
      · simp only [hb, Bool.not_true, Bool.false_eq_true, if_false] at h ⊢
        by_cases hl : node.leaf = true
        · simp only [hl, if_true] at h ⊢
          cases hleaf : intersect_leaf bvh.prims f
              (List.range' node.start (node.end_ - node.start)) (intersection3f.init, ray) with
          | none => simp [hleaf] at h
          | some out =>
            simp only [hleaf, Option.map_some', Option.some.injEq] at h
            subst h
            exact intersect_shadow_leaf_of_intersect_leaf bvh.prims f fs hfs ray _ _ out rfl hleaf
        · simp only [hl, Bool.false_eq_true, if_false] at h ⊢
          cases h0 : bvh.intersect f fuel node.n0 ray with
          | none => simp [h0] at h
          | some s0 =>
            simp only [h0] at h
            cases h1 : bvh.intersect f fuel node.n1
                (closest_step (intersection3f.init, ray) s0).2 with
            | none => simp [h1] at h
            | some s1 =>
              simp only [h1, Option.some.injEq] at h
              subst h
              rw [ih node.n0 ray s0 h0]
              by_cases hh0 : s0.hit = true
              · have := closest_step_hit_mono
                  (closest_step (intersection3f.init, ray) s0) s1
                  (by rw [closest_step_first_hit _ _ hh0 rfl]; exact hh0)
                simp [hh0, this]
              · have hh2 : s0.hit = false := by simpa using hh0
                rw [closest_step_of_not_hit _ _ hh2] at h1 ⊢
                simp only [hh2]
                rw [ih node.n1 ray s1 h1]
                by_cases hh1 : s1.hit = true
                · rw [closest_step_first_hit _ _ hh1 rfl]
                · have hh3 : s1.hit = false := by simpa using hh1
                  rw [closest_step_of_not_hit _ _ hh3]; simp [hh3, intersection3f.init]
      · simp only [hb, Bool.not_false, if_true, Option.some.injEq] at h ⊢
        subst h
        rfl

/-! ## The slab test is conservative -/

theorem vec3f_get_eval (ray : ray3f) (t : ℚ) (i : Nat) :
    (ray.eval t).get i = ray.e.get i + ray.d.get i * t := by
  unfold ray3f.eval vec3f.smul vec3f.get
  show (vec3f.add _ _).get i = _
  unfold vec3f.add vec3f.get
  split <;> rfl

theorem range3f.contains_get {b : range3f} {p : vec3f} (h : b.contains p) (i : Nat) :
    b.min.get i ≤ p.get i ∧ p.get i ≤ b.max.get i := by
  unfold range3f.contains at h
  unfold vec3f.get
  split
  · exact ⟨h.1, h.2.1⟩
  · exact ⟨h.2.2.1, h.2.2.2.1⟩
  · exact ⟨h.2.2.2.2.1, h.2.2.2.2.2⟩

theorem Closest.congr {tHit : Nat → Option ℚ} {tmin tmax : ℚ} {P Q : Nat → Prop}
    {r : intersection3f} (h : Closest tHit tmin tmax P r) (hPQ : ∀ p, P p ↔ Q p) :
    Closest tHit tmin tmax Q r := by
  refine ⟨fun hr p hp => h.1 hr p ((hPQ p).2 hp), fun hr => ?_⟩
  obtain ⟨h1, h2, ⟨p, hp, hpt⟩, h4⟩ := h.2 hr
  exact ⟨h1, h2, ⟨p, (hPQ p).1 hp, hpt⟩, fun q hq => h4 q ((hPQ q).2 hq)⟩

theorem Closest.init (tHit : Nat → Option ℚ) (tmin tmax : ℚ) :
    Closest tHit tmin tmax (fun _ => False) intersection3f.init :=
  ⟨fun _ _ hp => False.elim hp, fun h => by simp [intersection3f.init] at h⟩

theorem mem_slice_of_getElem? {α : Type} (l : List α) (s e idx : Nat) (a : α)
    (h1 : s ≤ idx) (h2 : idx < e) (h : l[idx]? = some a) : a ∈ slice l s e := by
  apply List.getElem?_mem (n := idx - s)
  rw [getElem?_slice, if_pos (by omega)]
  rw [← h]; congr 1; omega

theorem slice_all {α : Type} (l : List α) : slice l 0 l.length = l := by
  unfold slice; simp

theorem length_make_boxed_prims (bboxes : List range3f) :
    (make_boxed_prims bboxes).length = bboxes.length := by
  simp [make_boxed_prims]

theorem mem_make_boxed_prims (bboxes : List range3f) (x : boxed_prim)
    (h : x ∈ make_boxed_prims bboxes) :
    x.1 = stored_box bboxes x.2 ∧ x.2 < bboxes.length := by
  unfold make_boxed_prims at h
  rw [List.mem_map] at h
  obtain ⟨i, hi, rfl⟩ := h
  exact ⟨rfl, List.mem_range.mp hi⟩

theorem map_snd_make_boxed_prims (bboxes : List range3f) :
    (make_boxed_prims bboxes).map Prod.snd = List.range bboxes.length := by
  unfold make_boxed_prims
  rw [List.map_map]
  exact List.map_id _

theorem RangePerm.perm_all {α : Type} {n : Nat} {l1 l2 : List α} (h : RangePerm 0 n l1 l2)
    (hn : l1.length = n) : List.Perm l2 l1 := by
  subst hn
  have h3 := h.2.2
  rw [slice_all] at h3
  rw [← h.1, slice_all] at h3
  exact h3

/-- The arrays of `make_accelerator` after `make_accelerator_node` has run. -/
theorem make_accelerator_built (sort : Sorter) (hsort : sort.permutes) (bboxes : List range3f) :
    List.Perm (make_accelerator_node sort 0 (make_boxed_prims bboxes) [BVHNode.init] 0
        bboxes.length).1 (make_boxed_prims bboxes) ∧
      IsTree (make_accelerator_node sort 0 (make_boxed_prims bboxes) [BVHNode.init] 0
          bboxes.length).2
        (make_accelerator_node sort 0 (make_boxed_prims bboxes) [BVHNode.init] 0
          bboxes.length).1 1
        (make_accelerator_node sort 0 (make_boxed_prims bboxes) [BVHNode.init] 0
          bboxes.length).2.length 0 0 bboxes.length := by
  have h := make_accelerator_node_spec sort hsort bboxes.length 0 (make_boxed_prims bboxes)
    [BVHNode.init] 0 bboxes.length rfl (by simp) (Nat.zero_le _)
    (by rw [length_make_boxed_prims])
  obtain ⟨hp, _, _, ht⟩ := h
  exact ⟨hp.perm_all (length_make_boxed_prims bboxes), ht⟩

theorem copy_prims_aux (bp : List boxed_prim) (v : std_vector Nat) :
    ∀ m : Nat,
      ((List.range m).foldl
          (fun v i => v.write i (bp.getD i (range3f.init, 0)).2) v).size = v.size ∧
      ((List.range m).foldl
          (fun v i => v.write i (bp.getD i (range3f.init, 0)).2) v).storage.length =
        v.storage.length ∧
      ∀ j, ((List.range m).foldl
          (fun v i => v.write i (bp.getD i (range3f.init, 0)).2) v).storage[j]? =
        if j < m ∧ j < v.storage.length then some (bp.getD j (range3f.init, 0)).2
        else v.storage[j]? := by
  intro m
  induction m with
  | zero => simp
  | succ m ih =>
    rw [List.range_succ, List.foldl_append]
    simp only [List.foldl_cons, List.foldl_nil]
    obtain ⟨h1, h2, h3⟩ := ih
    generalize (List.range m).foldl
      (fun v i => v.write i (bp.getD i (range3f.init, 0)).2) v = w at h1 h2 h3 ⊢
    refine ⟨h1, by simp only [std_vector.write, List.length_set]; exact h2, ?_⟩
    intro j
    simp only [std_vector.write]
    rw [List.getElem?_set, h2, h3]
    by_cases hj : m = j
    · subst hj
      by_cases hl : m < v.storage.length
      · simp [hl]
      · simp only [hl, if_false, and_false]
        rw [List.getElem?_eq_none (by omega)]
        simp
    · rw [if_neg hj]
      by_cases hjm : j < m
      · have : j < m + 1 := by omega
        simp [hjm, this]
      · have : ¬ j < m + 1 := by omega
        simp [hjm, this]

/-- The storage of `prims` after `make_accelerator` holds the primitive indices
of `boxed_prims` in order, while `prims.size()` is still zero. -/
theorem copy_prims_reserve (bp : List boxed_prim) :
    (copy_prims bp ((std_vector.init : std_vector Nat).reserve bp.length 0)).storage =
        bp.map Prod.snd ∧
      (copy_prims bp ((std_vector.init : std_vector Nat).reserve bp.length 0)).size = 0 := by
  obtain ⟨h1, _, h3⟩ := copy_prims_aux bp
    ((std_vector.init : std_vector Nat).reserve bp.length 0) bp.length
  refine ⟨?_, h1⟩
  apply List.ext_getElem?
  intro j
  unfold copy_prims
  rw [h3]
  have hres : ((std_vector.init : std_vector Nat).reserve bp.length 0).storage =
      List.replicate bp.length 0 := by
    simp [std_vector.reserve, std_vector.init]
  rw [hres, List.length_replicate, List.getElem?_map]
  by_cases hj : j < bp.length
  · rw [if_pos ⟨hj, hj⟩, List.getElem?_eq_getElem hj, List.getD_eq_getElem _ _ hj]
    rfl
  · rw [if_neg (fun h => hj h.1), List.getElem?_eq_none (by simp; omega),
      List.getElem?_eq_none (by omega)]
    rfl

/-! ## Brute force -/

theorem insertion_sort_permutes : insertion_sort.permutes := by
  intro axis l
  unfold insertion_sort
  induction l with
  | nil => exact List.Perm.refl _
  | cons a rest ih =>
    simp only [List.foldr_cons]
    refine List.Perm.trans ?_ (List.Perm.cons a ih)
    refine List.Perm.trans List.perm_middle ?_
    rw [List.takeWhile_append_dropWhile]

theorem vec3f_add_eq (a b : vec3f) : a + b = ⟨a.x + b.x, a.y + b.y, a.z + b.z⟩ := rfl

theorem vec3f_sub_eq (a b : vec3f) : a - b = ⟨a.x - b.x, a.y - b.y, a.z - b.z⟩ := rfl

theorem vec2f_add_eq (a b : vec2f) : a + b = ⟨a.x + b.x, a.y + b.y⟩ := rfl

theorem window_callback_within (tHit : Nat → Option ℚ) (i : Nat) (r : ray3f)
    (h : (window_callback tHit i r).hit = true) :
    r.tmin ≤ (window_callback tHit i r).ray_t ∧ (window_callback tHit i r).ray_t ≤ r.tmax := by
  unfold window_callback at *
  cases ht : tHit i with
  | none => simp [ht, intersection3f.init] at h
  | some t =>
    simp only [ht] at h ⊢
    by_cases hw : r.tmin ≤ t ∧ t ≤ r.tmax
    · simp only [hw, and_self, if_true]
    · simp [hw, intersection3f.init] at h

theorem two_leaf_bvh_intersect :
    two_leaf_bvh.intersect (window_callback axis_tHit) 2 0 axis_ray =
      some ⟨true, 3 / 2, ⟨1 / 2, 1 / 2, 1 / 2⟩, zero3f, zero2f, 1⟩ := by
  simp [BVHAccelerator.intersect, two_leaf_bvh, axis_ray, intersect_bbox_hit, intersect_bbox,
    intersect_bbox_loop, slab, xfloat.div, xfloat.mul, xfloat.gt, xfloat.lt, vec3f.get,
    intersect_leaf, std_vector.read, closest_step, window_callback, intersection3f.init,
    ray3f.eval, vec3f.smul, vec3f_add_eq, List.range', axis_tHit, BVHNode.n0, BVHNode.n1]
  norm_num

/-- C5: for every BVH, every ray and every callback that only reports hits
whose `t` lies inside the `[tmin, tmax]` of the ray it is given, a hit returned
by the nearest-hit traversal from node 0 has its `ray_t` inside the
`[tmin, tmax]` of the ray the traversal was called with, although the
traversal hands shortened copies of the ray down. -/
theorem C5_hit_inside_original_interval (bvh : BVHAccelerator)
    (f : Nat → ray3f → intersection3f)
    (hf : ∀ i r, (f i r).hit = true → r.tmin ≤ (f i r).ray_t ∧ (f i r).ray_t ≤ r.tmax)
    (ray : ray3f) (fuel : Nat) (r : intersection3f)
    (h : bvh.intersect f fuel 0 ray = some r) (hit : r.hit = true) :
    ray.tmin ≤ r.ray_t ∧ r.ray_t ≤ ray.tmax :=
  bvh_intersect_within bvh f hf fuel 0 ray r h hit

theorem C5_witness : axis_ray.tmin ≤ (3 / 2 : ℚ) ∧ (3 / 2 : ℚ) ≤ axis_ray.tmax :=
  C5_hit_inside_original_interval two_leaf_bvh (window_callback axis_tHit)
    (window_callback_within axis_tHit) axis_ray 2
    ⟨true, 3 / 2, ⟨1 / 2, 1 / 2, 1 / 2⟩, zero3f, zero2f, 1⟩ two_leaf_bvh_intersect rfl

theorem union_range_nil (s e : Nat) : union_range [] s e = range3f.init := by
  simp [union_range, slice]

theorem make_accelerator_nil_nodes (sort : Sorter) :
    (make_accelerator sort []).nodes = [⟨true, range3f.init, 0, 0⟩] := by
  unfold make_accelerator
  simp only [List.length_nil]
  rw [make_accelerator_node_leaf sort 0 _ _ 0 0 (Nat.zero_le _)]
  simp [make_boxed_prims, union_range_nil]

/-- C10: `make_accelerator` applied to an empty box list returns a node array
that holds exactly one node, a leaf with `start = end = 0`, and both the
nearest-hit and the any-hit traversal of that tree return and report no
intersection, for every ray and every callback. -/
theorem C10_empty_input_single_empty_leaf (sort : Sorter)
    (f : Nat → ray3f → intersection3f) (fs : Nat → ray3f → Bool) (ray : ray3f) (fuel : Nat) :
    (make_accelerator sort []).nodes = [⟨true, range3f.init, 0, 0⟩] ∧
      (∃ r, (make_accelerator sort []).intersect f (fuel + 1) 0 ray = some r ∧ r.hit = false) ∧
      (make_accelerator sort []).intersect_shadow fs (fuel + 1) 0 ray = some false := by
  have hn := make_accelerator_nil_nodes sort
  refine ⟨hn, ?_, ?_⟩
  · rw [BVHAccelerator.intersect, hn]
    simp only [List.getElem?_cons_zero]
    by_cases hb : intersect_bbox_hit ray range3f.init = true
    · simp [hb, intersect_leaf, intersection3f.init]
    · simp [hb, intersection3f.init]
  · rw [BVHAccelerator.intersect_shadow, hn]
    simp only [List.getElem?_cons_zero]
    by_cases hb : intersect_bbox_hit ray range3f.init = true
    · simp [hb, intersect_shadow_leaf]
    · simp [hb]

/-- The array `prims` of `make_accelerator`: `size()` is zero, and the
storage holds a rearrangement of `0 .. N-1`. -/
theorem make_accelerator_prims (sort : Sorter) (hsort : sort.permutes) (bboxes : List range3f) :
    (make_accelerator sort bboxes).prims.size = 0 ∧
      List.Perm (make_accelerator sort bboxes).prims.storage (List.range bboxes.length) := by
  obtain ⟨hperm, _⟩ := make_accelerator_built sort hsort bboxes
  unfold make_accelerator
  simp only
  generalize make_accelerator_node sort 0 (make_boxed_prims bboxes) [BVHNode.init] 0
    bboxes.length = built at hperm ⊢
  have hblen : built.1.length = bboxes.length := by
    rw [hperm.length_eq, length_make_boxed_prims]
  have hcopy := copy_prims_reserve built.1
  rw [hblen] at hcopy
  refine ⟨hcopy.2, ?_⟩
  rw [hcopy.1, ← map_snd_make_boxed_prims]
  exact hperm.map _

/-- C8 (at the failing input, a list of one box): the array `prims` that
`make_accelerator` returns has `size() = 0`, not `N = 1`; the index written by
`prims[0] = ...` sits in storage that `reserve` allocated beyond the size. -/
theorem C8_prims_size_stays_zero :
    (make_accelerator insertion_sort one_box).prims.size = 0 ∧ one_box.length = 1 ∧
      (make_accelerator insertion_sort one_box).prims.storage = [0] := by
  obtain ⟨h1, h2⟩ := make_accelerator_prims insertion_sort insertion_sort_permutes one_box
  refine ⟨h1, rfl, ?_⟩
  have : List.Perm (make_accelerator insertion_sort one_box).prims.storage [0] := h2
  exact List.perm_singleton.mp this

/-! ## The shape of the tree -/

theorem IsTree.covers {nodes : List BVHNode} {bp : List boxed_prim} {lo hi k s e : Nat}
    (h : IsTree nodes bp lo hi k s e) : Covers nodes k s e := by
  induction h with
  | leaf lo hi k s e hnode _ => exact Covers.leaf k _ hnode rfl
  | node lo hi k s e n0 n1 _ _ _ _ hnode _ _ _ _ _ _ _ _ _ _ _ ih0 ih1 =>
    exact Covers.node k _ s ((s + e) / 2) e hnode rfl ih0 ih1

theorem IsTree.lt_length {nodes : List BVHNode} {bp : List boxed_prim} {lo hi k s e : Nat}
    (h : IsTree nodes bp lo hi k s e) : k < nodes.length := by
  cases h with
  | leaf _ _ _ _ _ hnode _ =>
    by_contra hc
    rw [List.getElem?_eq_none (by omega)] at hnode
    cases hnode
  | node _ _ _ _ _ _ _ _ _ _ _ hnode =>
    by_contra hc
    rw [List.getElem?_eq_none (by omega)] at hnode
    cases hnode

/-- Below a node of a built tree, both children are roots of built trees over
the two halves of the range. -/
theorem IsTree.children {nodes : List BVHNode} {bp : List boxed_prim} {lo hi k s e : Nat}
    (h : IsTree nodes bp lo hi k s e) (n : BVHNode) (hn : nodes[k]? = some n)
    (hl : n.leaf = false) :
    BVHAccelerator_min_prims < e - s ∧ k < n.n0 ∧ k < n.n1 ∧
      (∃ lo0 hi0, IsTree nodes bp lo0 hi0 n.n0 s ((s + e) / 2)) ∧
      (∃ lo1 hi1, IsTree nodes bp lo1 hi1 n.n1 ((s + e) / 2) e) := by
  cases h with
  | leaf _ _ _ _ _ hnode _ =>
    rw [hn] at hnode
    have := Option.some.inj hnode
    rw [this] at hl
    cases hl
  | node _ _ _ _ _ n0 n1 lo0 hi0 lo1 hi1 hnode hsz hklo hlon0 hn01 _ _ _ _ _ h0 h1 =>
    rw [hn] at hnode
    have := Option.some.inj hnode
    subst this
    exact ⟨hsz, by simp only [BVHNode.n0]; omega, by simp only [BVHNode.n1]; omega,
      ⟨lo0, hi0, h0⟩, ⟨lo1, hi1, h1⟩⟩

theorem IsTree.node_eq {nodes : List BVHNode} {bp : List boxed_prim} {lo hi k s e : Nat}
    (h : IsTree nodes bp lo hi k s e) :
    ∃ n, nodes[k]? = some n ∧ n.bbox = union_range bp s e ∧
      (n.leaf = true ↔ e - s ≤ BVHAccelerator_min_prims) ∧
      (n.leaf = true → n.start = s ∧ n.end_ = e) := by
  cases h with
  | leaf _ _ _ _ _ hnode hsz => exact ⟨_, hnode, rfl, by simp [hsz], fun _ => ⟨rfl, rfl⟩⟩
  | node _ _ _ _ _ n0 n1 _ _ _ _ hnode hsz =>
    refine ⟨_, hnode, rfl, ?_, ?_⟩
    · simp only [Bool.false_eq_true, false_iff, not_le]; exact hsz
    · intro h; cases h

/-- Every node reached from the root of a built tree is itself the root of a
built tree over a range within that of the root. -/
theorem InTree.isTree {nodes : List BVHNode} {bp : List boxed_prim} {lo hi N : Nat}
    (hroot : IsTree nodes bp lo hi 0 0 N) {k : Nat} (h : InTree nodes k) :
    ∃ lo2 hi2 s e, s ≤ e ∧ e ≤ N ∧ IsTree nodes bp lo2 hi2 k s e := by
  induction h with
  | root => exact ⟨lo, hi, 0, N, Nat.zero_le _, le_refl _, hroot⟩
  | left k n _ hn hl ih =>
    obtain ⟨lo2, hi2, s, e, hse, he, ht⟩ := ih
    obtain ⟨_, _, _, ⟨lo0, hi0, h0⟩, _⟩ := ht.children n hn hl
    exact ⟨lo0, hi0, s, (s + e) / 2, by omega, by omega, h0⟩
  | right k n _ hn hl ih =>
    obtain ⟨lo2, hi2, s, e, hse, he, ht⟩ := ih
    obtain ⟨_, _, _, _, ⟨lo1, hi1, h1⟩⟩ := ht.children n hn hl
    exact ⟨lo1, hi1, (s + e) / 2, e, by omega, by omega, h1⟩

theorem Tiles.le : ∀ (L : List (Nat × Nat)) (a b : Nat), Tiles L a b → a ≤ b := by
  intro L
  induction L with
  | nil => intro a b h; exact le_of_eq h
  | cons r rest ih =>
    intro a b h
    obtain ⟨h1, h2, h3⟩ := h
    have := ih _ _ h3
    omega

theorem Tiles.append : ∀ (A B : List (Nat × Nat)) (a m b : Nat),
    Tiles A a m → Tiles B m b → Tiles (A ++ B) a b := by
  intro A
  induction A with
  | nil => intro B a m b hA hB; simp only [Tiles] at hA; subst hA; exact hB
  | cons r rest ih =>
    intro B a m b hA hB
    obtain ⟨h1, h2, h3⟩ := hA
    exact ⟨h1, h2, ih B _ m b h3 hB⟩

theorem Tiles.count : ∀ (L : List (Nat × Nat)) (a b : Nat), Tiles L a b → ∀ i : Nat,
    L.countP (fun r => decide (r.1 ≤ i ∧ i < r.2)) = if a ≤ i ∧ i < b then 1 else 0 := by
  intro L
  induction L with
  | nil =>
    intro a b h i
    simp only [Tiles] at h
    subst h
    simp only [List.countP_nil]
    rw [if_neg (by omega)]
  | cons r rest ih =>
    intro a b h i
    obtain ⟨h1, h2, h3⟩ := h
    have hle := Tiles.le _ _ _ h3
    rw [List.countP_cons, ih _ _ h3 i]
    subst h1
    simp only [decide_eq_true_eq]
    split_ifs <;> omega

theorem IsTree.tiles {nodes : List BVHNode} {bp : List boxed_prim} {lo hi k s e : Nat}
    (h : IsTree nodes bp lo hi k s e) :
    s ≤ e → ∀ fuel, nodes.length ≤ fuel + k →
      ∃ L, CG.leaf_ranges nodes fuel k = some L ∧ Tiles L s e := by
  induction h with
  | leaf lo hi k s e hnode hsz =>
    intro hse fuel hfuel
    have hk : k < nodes.length := (IsTree.leaf lo hi k s e hnode hsz).lt_length
    obtain ⟨fuel, rfl⟩ : ∃ m, fuel = m + 1 := ⟨fuel - 1, by omega⟩
    refine ⟨[(s, e)], ?_, rfl, hse, rfl⟩
    rw [CG.leaf_ranges]
    simp [hnode]
  | node lo hi k s e n0 n1 lo0 hi0 lo1 hi1 hnode hsz hklo hlon0 hn01 hn1hi hlo0 hhi0 hlo1 hhi1
      h0 h1 ih0 ih1 =>
    intro hse fuel hfuel
    have hk : k < nodes.length :=
      (IsTree.node lo hi k s e n0 n1 lo0 hi0 lo1 hi1 hnode hsz hklo hlon0 hn01 hn1hi hlo0 hhi0
        hlo1 hhi1 h0 h1).lt_length
    obtain ⟨fuel, rfl⟩ : ∃ m, fuel = m + 1 := ⟨fuel - 1, by omega⟩
    obtain ⟨A, hA, tA⟩ := ih0 (by omega) fuel (by omega)
    obtain ⟨B, hB, tB⟩ := ih1 (by omega) fuel (by omega)
    refine ⟨A ++ B, ?_, Tiles.append A B _ _ _ tA tB⟩
    rw [CG.leaf_ranges]
    simp [hnode, BVHNode.n0, BVHNode.n1, hA, hB]

/-! ## The builder of the final submission -/

theorem make_accelerator_node_kd_tree_leaf (sort : Sorter) (k : Nat) (bp : List boxed_prim)
    (nodes : List BVHNode) (s e depth : Nat) (h : e - s ≤ BVHAccelerator_min_prims) :
    make_accelerator_node_kd_tree sort k bp nodes s e depth =
      (bp, nodes.set k ⟨true, union_range bp s e, s, e⟩) := by
  rw [make_accelerator_node_kd_tree]
  simp only [h, if_true]

theorem make_accelerator_node_kd_tree_inner (sort : Sorter) (k : Nat) (bp : List boxed_prim)
    (nodes : List BVHNode) (s e depth : Nat) (h : ¬ e - s ≤ BVHAccelerator_min_prims) :
    make_accelerator_node_kd_tree sort k bp nodes s e depth =
      ((make_accelerator_node_kd_tree sort (nodes.length + 2)
          (make_accelerator_node_kd_tree sort (nodes.length + 1)
            (make_accelerator_split_kd_tree sort bp s e depth).1
            (nodes ++ [BVHNode.init] ++ [BVHNode.init] ++ [BVHNode.init]) s ((s + e) / 2)
            (depth + 1)).1
          (make_accelerator_node_kd_tree sort (nodes.length + 1)
            (make_accelerator_split_kd_tree sort bp s e depth).1
            (nodes ++ [BVHNode.init] ++ [BVHNode.init] ++ [BVHNode.init]) s ((s + e) / 2)
            (depth + 1)).2
          ((s + e) / 2) e (depth + 1)).1,
       (make_accelerator_node_kd_tree sort (nodes.length + 2)
          (make_accelerator_node_kd_tree sort (nodes.length + 1)
            (make_accelerator_split_kd_tree sort bp s e depth).1
            (nodes ++ [BVHNode.init] ++ [BVHNode.init] ++ [BVHNode.init]) s ((s + e) / 2)
            (depth + 1)).1
          (make_accelerator_node_kd_tree sort (nodes.length + 1)
            (make_accelerator_split_kd_tree sort bp s e depth).1
            (nodes ++ [BVHNode.init] ++ [BVHNode.init] ++ [BVHNode.init]) s ((s + e) / 2)
            (depth + 1)).2
          ((s + e) / 2) e (depth + 1)).2.set k
        ⟨false, union_range bp s e, nodes.length + 1, nodes.length + 2⟩) := by
  rw [make_accelerator_node_kd_tree]
  simp only [h, if_false, make_accelerator_split_kd_tree, List.length_append,
    List.length_singleton]

/-- What a call of `make_accelerator_node_kd_tree` does to its two arrays. -/
theorem make_accelerator_node_kd_tree_spec (sort : Sorter) (hsort : sort.permutes) :
    ∀ (n k : Nat) (bp : List boxed_prim) (nodes : List BVHNode) (s e depth : Nat),
      e - s = n → k < nodes.length → s ≤ e → e ≤ bp.length →
      RangePerm s e bp (make_accelerator_node_kd_tree sort k bp nodes s e depth).1 ∧
      nodes.length ≤ (make_accelerator_node_kd_tree sort k bp nodes s e depth).2.length ∧
      (∀ j, j < nodes.length → j ≠ k →
        (make_accelerator_node_kd_tree sort k bp nodes s e depth).2[j]? = nodes[j]?) ∧
      IsTree (make_accelerator_node_kd_tree sort k bp nodes s e depth).2
        (make_accelerator_node_kd_tree sort k bp nodes s e depth).1 nodes.length
        (make_accelerator_node_kd_tree sort k bp nodes s e depth).2.length k s e := by
  intro n
  induction n using Nat.strong_induction_on with
  | _ n ih =>
    intro k bp nodes s e depth hn hk hse he
    by_cases hleaf : e - s ≤ BVHAccelerator_min_prims
    · rw [make_accelerator_node_kd_tree_leaf sort k bp nodes s e depth hleaf]
      refine ⟨RangePerm.refl _ _ _, by simp, ?_, ?_⟩
      · intro j _ hjk
        exact List.getElem?_set_ne (Ne.symm hjk)
      · refine IsTree.leaf _ _ k s e ?_ hleaf
        simp only [List.getElem?_set_self hk]
    · rw [make_accelerator_node_kd_tree_inner sort k bp nodes s e depth hleaf]
      have hmp : BVHAccelerator_min_prims = 4 := rfl
      have hsplit : RangePerm s e bp (make_accelerator_split_kd_tree sort bp s e depth).1 :=
        sort_range_rangePerm sort hsort _ bp s e hse he
      generalize (make_accelerator_split_kd_tree sort bp s e depth).1 = bp1 at hsplit ⊢
      have hl3 : (nodes ++ [BVHNode.init] ++ [BVHNode.init] ++ [BVHNode.init]).length =
          nodes.length + 3 := by simp
      have hleft := ih ((s + e) / 2 - s) (by omega) (nodes.length + 1) bp1
        (nodes ++ [BVHNode.init] ++ [BVHNode.init] ++ [BVHNode.init]) s ((s + e) / 2) (depth + 1) rfl
        (by omega) (by omega) (by rw [hsplit.1]; omega)
      have hnodes3 : ∀ j, j < nodes.length →
          (nodes ++ [BVHNode.init] ++ [BVHNode.init] ++ [BVHNode.init])[j]? = nodes[j]? := by
        intro j hj
        rw [List.append_assoc, List.append_assoc, List.getElem?_append_left hj]
      generalize (nodes ++ [BVHNode.init] ++ [BVHNode.init] ++ [BVHNode.init]) = nodes3
        at hl3 hleft hnodes3 ⊢
      obtain ⟨hLp, hLlen, hLframe, hLtree⟩ := hleft
      generalize make_accelerator_node_kd_tree sort (nodes.length + 1) bp1 nodes3 s ((s + e) / 2)
        (depth + 1) = L
        at hLp hLlen hLframe hLtree ⊢
      have hright := ih (e - (s + e) / 2) (by omega) (nodes.length + 2) L.1 L.2
        ((s + e) / 2) e (depth + 1) rfl (by omega) (by omega) (by rw [hLp.1, hsplit.1]; exact he)
      obtain ⟨hRp, hRlen, hRframe, hRtree⟩ := hright
      generalize make_accelerator_node_kd_tree sort (nodes.length + 2) L.1 L.2 ((s + e) / 2) e
        (depth + 1) = R
        at hRp hRlen hRframe hRtree ⊢
      have hperm : RangePerm s e bp R.1 :=
        (hsplit.trans (hLp.mono (le_refl _) (by omega) (by omega))).trans
          (hRp.mono (by omega) (by omega) (le_refl _))
      refine ⟨hperm, by simp only [List.length_set]; omega, ?_, ?_⟩
      · intro j hj hjk
        rw [List.getElem?_set_ne (Ne.symm hjk), hRframe j (by omega) (by omega),
          hLframe j (by omega) (by omega), hnodes3 j hj]
      · refine IsTree.node _ _ k s e (nodes.length + 1) (nodes.length + 2) (nodes.length + 3)
          L.2.length L.2.length R.2.length ?_ (by omega) hk (by omega) (by omega)
          (by simp only [List.length_set]; omega) (by omega)
          (by simp only [List.length_set]; omega) (by omega)
          (by simp only [List.length_set]; omega) ?_ ?_
        · rw [List.getElem?_set_self (by omega), union_range_congr bp R.1 s e hperm.2.2]
        · rw [hl3] at hLtree
          refine hLtree.frame ?_ ?_ ?_
          · rw [List.getElem?_set_ne (by omega), hRframe _ (by omega) (by omega)]
          · intro j h1 h2
            rw [List.getElem?_set_ne (by omega), hRframe j h2 (by omega)]
          · intro i _ h2
            exact hRp.2.1 i (Or.inl h2)
        · refine hRtree.frame ?_ ?_ ?_
          · rw [List.getElem?_set_ne (by omega)]
          · intro j h1 _
            rw [List.getElem?_set_ne (by omega)]
          · intro i _ _
            rfl

/-- The arrays of the final submission's `make_accelerator` after
`make_accelerator_node_kd_tree` has run. -/
theorem make_accelerator_kd_tree_built (sort : Sorter) (hsort : sort.permutes)
    (bboxes : List range3f) :
    List.Perm (make_accelerator_node_kd_tree sort 0 (make_boxed_prims bboxes) [BVHNode.init] 0
        bboxes.length 0).1 (make_boxed_prims bboxes) ∧
      IsTree (make_accelerator_node_kd_tree sort 0 (make_boxed_prims bboxes) [BVHNode.init] 0
          bboxes.length 0).2
        (make_accelerator_node_kd_tree sort 0 (make_boxed_prims bboxes) [BVHNode.init] 0
          bboxes.length 0).1 1
        (make_accelerator_node_kd_tree sort 0 (make_boxed_prims bboxes) [BVHNode.init] 0
          bboxes.length 0).2.length 0 0 bboxes.length := by
  have h := make_accelerator_node_kd_tree_spec sort hsort bboxes.length 0
    (make_boxed_prims bboxes) [BVHNode.init] 0 bboxes.length 0 rfl (by simp) (Nat.zero_le _)
    (by rw [length_make_boxed_prims])
  obtain ⟨hp, _, _, ht⟩ := h
  exact ⟨hp.perm_all (length_make_boxed_prims bboxes), ht⟩

/-! ## Nested boxes -/

theorem range3f_subset_refl (a : range3f) : a.subset a := by
  unfold range3f.subset
  exact ⟨le_refl _, le_refl _, le_refl _, le_refl _, le_refl _, le_refl _⟩

theorem range3f_subset_trans {a b c : range3f} (h1 : a.subset b) (h2 : b.subset c) :
    a.subset c := by
  unfold range3f.subset at *
  obtain ⟨a1, a2, a3, a4, a5, a6⟩ := h1
  obtain ⟨b1, b2, b3, b4, b5, b6⟩ := h2
  exact ⟨le_trans b1 a1, le_trans a2 b2, le_trans b3 a3, le_trans a4 b4, le_trans b5 a5,
    le_trans a6 b6⟩

theorem runion_subset_left (a b : range3f) : a.subset (runion a b) := by
  unfold range3f.subset runion vmin vmax
  exact ⟨min_le_left _ _, le_max_left _ _, min_le_left _ _, le_max_left _ _, min_le_left _ _,
    le_max_left _ _⟩

theorem runion_subset_right (a b : range3f) : b.subset (runion a b) := by
  unfold range3f.subset runion vmin vmax
  exact ⟨min_le_right _ _, le_max_right _ _, min_le_right _ _, le_max_right _ _,
    min_le_right _ _, le_max_right _ _⟩

theorem runion_least {a b c : range3f} (h1 : a.subset c) (h2 : b.subset c) :
    (runion a b).subset c := by
  unfold range3f.subset runion vmin vmax at *
  obtain ⟨a1, a2, a3, a4, a5, a6⟩ := h1
  obtain ⟨b1, b2, b3, b4, b5, b6⟩ := h2
  exact ⟨le_min a1 b1, max_le a2 b2, le_min a3 b3, max_le a4 b4, le_min a5 b5, max_le a6 b6⟩

theorem foldl_runion_least (c : range3f) :
    ∀ (l : List boxed_prim) (acc : range3f), acc.subset c → (∀ x ∈ l, x.1.subset c) →
      (l.foldl (fun b x => runion b x.1) acc).subset c := by
  intro l
  induction l with
  | nil => intro acc h _; exact h
  | cons y rest ih =>
    intro acc h hl
    simp only [List.foldl_cons]
    exact ih _ (runion_least h (hl y (List.mem_cons_self _ _)))
      (fun x hx => hl x (List.mem_cons_of_mem _ hx))

theorem foldl_runion_upper :
    ∀ (l : List boxed_prim) (acc : range3f),
      acc.subset (l.foldl (fun b x => runion b x.1) acc) ∧
        ∀ x ∈ l, x.1.subset (l.foldl (fun b x => runion b x.1) acc) := by
  intro l
  induction l with
  | nil => intro acc; exact ⟨range3f_subset_refl _, fun x hx => by simp at hx⟩
  | cons y rest ih =>
    intro acc
    simp only [List.foldl_cons]
    obtain ⟨h1, h2⟩ := ih (runion acc y.1)
    refine ⟨range3f_subset_trans (runion_subset_left _ _) h1, ?_⟩
    intro x hx
    rcases List.mem_cons.mp hx with hx | hx
    · subst hx; exact range3f_subset_trans (runion_subset_right _ _) h1
    · exact h2 x hx

theorem mem_slice_mono {α : Type} (l : List α) (s a b e : Nat) (x : α) (h1 : s ≤ a)
    (h2 : b ≤ e) (hx : x ∈ slice l a b) : x ∈ slice l s e := by
  obtain ⟨i, hi⟩ := List.mem_iff_getElem?.mp hx
  rw [getElem?_slice] at hi
  by_cases hlt : i < b - a
  · rw [if_pos hlt] at hi
    exact mem_slice_of_getElem? l s e (a + i) x (by omega) (by omega) hi
  · rw [if_neg hlt] at hi
    cases hi

theorem mem_of_mem_slice {α : Type} (l : List α) (s e : Nat) (x : α) (hx : x ∈ slice l s e) :
    x ∈ l := by
  unfold slice at hx
  exact List.mem_of_mem_drop (List.mem_of_mem_take hx)

/-- The box of a sub-range lies inside the box of the range. -/
theorem union_range_mono (bp : List boxed_prim) (s a b e : Nat) (h1 : s ≤ a) (h2 : b ≤ e) :
    (union_range bp a b).subset (union_range bp s e) := by
  unfold union_range
  apply foldl_runion_least
  · exact (foldl_runion_upper (slice bp s e) range3f.init).1
  · intro x hx
    exact (foldl_runion_upper (slice bp s e) range3f.init).2 x
      (mem_slice_mono bp s a b e x h1 h2 hx)

theorem union_range_upper (bp : List boxed_prim) (s e : Nat) (x : boxed_prim)
    (hx : x ∈ slice bp s e) : x.1.subset (union_range bp s e) :=
  (foldl_runion_upper (slice bp s e) range3f.init).2 x hx

theorem map_slice {α β : Type} (f : α → β) (l : List α) (s e : Nat) :
    (slice l s e).map f = slice (l.map f) s e := by
  unfold slice
  rw [List.map_take, List.map_drop]

/-- The box of a range is the union of the boxes stored for its primitives. -/
theorem union_range_eq_union_boxes (bboxes : List range3f) (bp : List boxed_prim)
    (hbp : ∀ x ∈ bp, x.1 = stored_box bboxes x.2) (s e : Nat) :
    union_range bp s e =
      union_boxes ((slice (bp.map Prod.snd) s e).map (stored_box bboxes)) := by
  unfold union_range union_boxes
  rw [← map_slice, List.map_map, List.foldl_map]
  have : ∀ (l : List boxed_prim) (acc : range3f), (∀ x ∈ l, x.1 = stored_box bboxes x.2) →
      l.foldl (fun b p => runion b p.1) acc =
        l.foldl (fun b p => runion b ((stored_box bboxes ∘ Prod.snd) p)) acc := by
    intro l
    induction l with
    | nil => intro acc _; rfl
    | cons y rest ih =>
      intro acc hl
      simp only [List.foldl_cons, Function.comp]
      rw [← hl y (List.mem_cons_self _ _)]
      exact ih _ (fun x hx => hl x (List.mem_cons_of_mem _ hx))
  exact this _ _ (fun x hx => hbp x (mem_of_mem_slice bp s e x hx))

/-! ## The result of `make_accelerator` as a tree -/

theorem make_accelerator_tree (sort : Sorter) (hsort : sort.permutes) (bboxes : List range3f) :
    ∃ bp hi, List.Perm bp (make_boxed_prims bboxes) ∧
      (make_accelerator sort bboxes).prims.storage = bp.map Prod.snd ∧
      IsTree (make_accelerator sort bboxes).nodes bp 1 hi 0 0 bboxes.length := by
  obtain ⟨hperm, htree⟩ := make_accelerator_built sort hsort bboxes
  refine ⟨_, _, hperm, ?_, htree⟩
  have hblen : (make_accelerator_node sort 0 (make_boxed_prims bboxes) [BVHNode.init] 0
      bboxes.length).1.length = bboxes.length := by
    rw [hperm.length_eq, length_make_boxed_prims]
  have hcopy := copy_prims_reserve (make_accelerator_node sort 0 (make_boxed_prims bboxes)
    [BVHNode.init] 0 bboxes.length).1
  rw [hblen] at hcopy
  exact hcopy.1

theorem make_accelerator_kd_tree_tree (sort : Sorter) (hsort : sort.permutes)
    (bboxes : List range3f) :
    ∃ bp hi, List.Perm bp (make_boxed_prims bboxes) ∧
      (make_accelerator_kd_tree sort bboxes).prims.storage = bp.map Prod.snd ∧
      IsTree (make_accelerator_kd_tree sort bboxes).nodes bp 1 hi 0 0 bboxes.length := by
  obtain ⟨hperm, htree⟩ := make_accelerator_kd_tree_built sort hsort bboxes
  refine ⟨_, _, hperm, ?_, htree⟩
  have hblen : (make_accelerator_node_kd_tree sort 0 (make_boxed_prims bboxes) [BVHNode.init] 0
      bboxes.length 0).1.length = bboxes.length := by
    rw [hperm.length_eq, length_make_boxed_prims]
  have hcopy := copy_prims_reserve (make_accelerator_node_kd_tree sort 0
    (make_boxed_prims bboxes) [BVHNode.init] 0 bboxes.length 0).1
  rw [hblen] at hcopy
  exact hcopy.1

/-- The slot that `make_accelerator_node` appends first when it splits is never
written again: it keeps the value `BVHNode()`. -/
theorem make_accelerator_node_padding (sort : Sorter) (hsort : sort.permutes) (k : Nat)
    (bp : List boxed_prim) (nodes : List BVHNode) (s e : Nat)
    (hsplit : ¬ e - s ≤ BVHAccelerator_min_prims) (hk : k < nodes.length) (hse : s ≤ e)
    (he : e ≤ bp.length) :
    (make_accelerator_node sort k bp nodes s e).2[nodes.length]? = some BVHNode.init := by
  rw [make_accelerator_node_inner sort k bp nodes s e hsplit]
  have hmp : BVHAccelerator_min_prims = 4 := rfl
  have hsp := make_accelerator_split_rangePerm sort hsort bp s e (union_range bp s e)
    BVHAccelerator_build_maxaxis hse he
  generalize (make_accelerator_split sort bp s e (union_range bp s e)
    BVHAccelerator_build_maxaxis).1 = bp1 at hsp ⊢
  have hl3 : (nodes ++ [BVHNode.init] ++ [BVHNode.init] ++ [BVHNode.init]).length =
      nodes.length + 3 := by simp
  have hpad : (nodes ++ [BVHNode.init] ++ [BVHNode.init] ++ [BVHNode.init])[nodes.length]? =
      some BVHNode.init := by
    rw [List.append_assoc, List.append_assoc, List.getElem?_append_right (le_refl _)]
    simp
  have hleft := make_accelerator_node_spec sort hsort ((s + e) / 2 - s) (nodes.length + 1) bp1
    (nodes ++ [BVHNode.init] ++ [BVHNode.init] ++ [BVHNode.init]) s ((s + e) / 2) rfl
    (by omega) (by omega) (by rw [hsp.1]; omega)
  generalize (nodes ++ [BVHNode.init] ++ [BVHNode.init] ++ [BVHNode.init]) = nodes3
    at hl3 hleft hpad ⊢
  obtain ⟨hLp, hLlen, hLframe, _⟩ := hleft
  generalize make_accelerator_node sort (nodes.length + 1) bp1 nodes3 s ((s + e) / 2) = L
    at hLp hLlen hLframe ⊢
  have hright := make_accelerator_node_spec sort hsort (e - (s + e) / 2) (nodes.length + 2)
    L.1 L.2 ((s + e) / 2) e rfl (by omega) (by omega) (by rw [hLp.1, hsp.1]; exact he)
  obtain ⟨_, _, hRframe, _⟩ := hright
  rw [List.getElem?_set_ne (by omega), hRframe _ (by omega) (by omega),
    hLframe _ (by omega) (by omega), hpad]

/-! ## Claims about the tree -/

/-- What holds at every node reached from the root of a built tree. -/
theorem tree_node_facts (bboxes : List range3f) (nodes : List BVHNode) (bp : List boxed_prim)
    (hperm : List.Perm bp (make_boxed_prims bboxes)) {hi : Nat}
    (hroot : IsTree nodes bp 1 hi 0 0 bboxes.length) (k : Nat) (hk : InTree nodes k) :
    ∃ n s e, nodes[k]? = some n ∧ s ≤ e ∧ e ≤ bboxes.length ∧ Covers nodes k s e ∧
      (n.leaf = true ↔ e - s ≤ BVHAccelerator_min_prims) ∧
      (n.leaf = true → n.start = s ∧ n.end_ = e) ∧
      n.bbox = union_boxes ((slice (bp.map Prod.snd) s e).map (stored_box bboxes)) ∧
      (∀ p ∈ slice (bp.map Prod.snd) s e, (stored_box bboxes p).subset n.bbox) ∧
      (n.leaf = false →
        Covers nodes n.n0 s ((s + e) / 2) ∧ Covers nodes n.n1 ((s + e) / 2) e ∧
        ∃ c0 c1, nodes[n.n0]? = some c0 ∧ nodes[n.n1]? = some c1 ∧
          c0.bbox.subset n.bbox ∧ c1.bbox.subset n.bbox) := by
  have hbp : ∀ x ∈ bp, x.1 = stored_box bboxes x.2 :=
    fun x hx => (mem_make_boxed_prims bboxes x (hperm.mem_iff.mp hx)).1
  obtain ⟨lo2, hi2, s, e, hse, he, ht⟩ := InTree.isTree hroot hk
  obtain ⟨n, hn, hbox, hleaf, hrange⟩ := ht.node_eq
  refine ⟨n, s, e, hn, hse, he, ht.covers, hleaf, hrange, ?_, ?_, ?_⟩
  · rw [hbox]; exact union_range_eq_union_boxes bboxes bp hbp s e
  · intro p hp
    rw [← map_slice, List.mem_map] at hp
    obtain ⟨x, hx, rfl⟩ := hp
    rw [hbox, ← hbp x (mem_of_mem_slice bp s e x hx)]
    exact union_range_upper bp s e x hx
  · intro hl
    obtain ⟨_, _, _, ⟨lo0, hi0, h0⟩, ⟨lo1, hi1, h1⟩⟩ := ht.children n hn hl
    obtain ⟨c0, hc0, hb0, _, _⟩ := h0.node_eq
    obtain ⟨c1, hc1, hb1, _, _⟩ := h1.node_eq
    refine ⟨h0.covers, h1.covers, c0, c1, hc0, hc1, ?_, ?_⟩
    · rw [hb0, hbox]; exact union_range_mono bp s s _ e (le_refl _) (by omega)
    · rw [hb1, hbox]; exact union_range_mono bp s _ e e (by omega) (le_refl _)

/-- C6 (as amended): in the node array built by `make_accelerator`, every node
reached from the root has as its bounding box the union of the boxes stored
for the primitives in the index range `[s, e)` of its subtree, hence a box that
contains each of them, and for every such internal node the bounding boxes of
both children lie inside the box of the parent; the sorting of sub-ranges that
happens after a box was computed does not break this. -/
theorem C6_reachable_node_boxes (sort : Sorter) (hsort : sort.permutes)
    (bboxes : List range3f) (k : Nat) (hk : InTree (make_accelerator sort bboxes).nodes k) :
    ∃ n s e, (make_accelerator sort bboxes).nodes[k]? = some n ∧
      Covers (make_accelerator sort bboxes).nodes k s e ∧
      n.bbox = union_boxes
        ((slice (make_accelerator sort bboxes).prims.storage s e).map (stored_box bboxes)) ∧
      (∀ p ∈ slice (make_accelerator sort bboxes).prims.storage s e,
        (stored_box bboxes p).subset n.bbox) ∧
      (n.leaf = false →
        ∃ c0 c1, (make_accelerator sort bboxes).nodes[n.n0]? = some c0 ∧
          (make_accelerator sort bboxes).nodes[n.n1]? = some c1 ∧
          c0.bbox.subset n.bbox ∧ c1.bbox.subset n.bbox) := by
  obtain ⟨bp, hi, hperm, hst, hroot⟩ := make_accelerator_tree sort hsort bboxes
  obtain ⟨n, s, e, hn, _, _, hcov, _, _, hbox, hsub, hch⟩ :=
    tree_node_facts bboxes _ bp hperm hroot k hk
  rw [hst]
  exact ⟨n, s, e, hn, hcov, hbox, hsub, fun hl => (hch hl).2.2⟩

theorem C6_witness :
    ∃ n s e, (make_accelerator insertion_sort demo_bboxes).nodes[0]? = some n ∧
      Covers (make_accelerator insertion_sort demo_bboxes).nodes 0 s e ∧
      n.bbox = union_boxes
        ((slice (make_accelerator insertion_sort demo_bboxes).prims.storage s e).map
          (stored_box demo_bboxes)) ∧
      (∀ p ∈ slice (make_accelerator insertion_sort demo_bboxes).prims.storage s e,
        (stored_box demo_bboxes p).subset n.bbox) ∧
      (n.leaf = false →
        ∃ c0 c1, (make_accelerator insertion_sort demo_bboxes).nodes[n.n0]? = some c0 ∧
          (make_accelerator insertion_sort demo_bboxes).nodes[n.n1]? = some c1 ∧
          c0.bbox.subset n.bbox ∧ c1.bbox.subset n.bbox) :=
  C6_reachable_node_boxes insertion_sort insertion_sort_permutes demo_bboxes 0 InTree.root

theorem stored_box_demo_min (i : Nat) (hi : i < 6) : (stored_box demo_bboxes i).min.x < flt_max := by
  interval_cases i <;>
    norm_num [stored_box, demo_bboxes, rscale, center, size, vec3f.smul, vec3f.sdiv,
      BVHAccelerator_epsilon, ray3f_epsilon, vec3f_add_eq, vec3f_sub_eq, flt_max]

/-- C6 (counterexample): for the six boxes of `demo_bboxes` the node array has
at index 1 the slot `BVHNode()` that the root call appended and never wrote: an
entry that is not a leaf, names node 0 as its child, and has an empty box in
which the box of node 0 does not lie. -/
theorem C6_counterexample :
    (make_accelerator insertion_sort demo_bboxes).nodes[1]? = some BVHNode.init ∧
      ¬ ChildrenNested (make_accelerator insertion_sort demo_bboxes).nodes := by
  have hpad : (make_accelerator insertion_sort demo_bboxes).nodes[1]? = some BVHNode.init :=
    make_accelerator_node_padding insertion_sort insertion_sort_permutes 0
      (make_boxed_prims demo_bboxes) [BVHNode.init] 0 demo_bboxes.length
      (by simp [demo_bboxes, BVHAccelerator_min_prims]) (by simp) (Nat.zero_le _)
      (by rw [length_make_boxed_prims])
  refine ⟨hpad, ?_⟩
  intro hnest
  obtain ⟨bp, hi, hperm, _, hroot⟩ :=
    make_accelerator_tree insertion_sort insertion_sort_permutes demo_bboxes
  obtain ⟨root, hr, hbox, _, _⟩ := hroot.node_eq
  have hsub := hnest 1 BVHNode.init root hpad rfl (Or.inl hr)
  have hlen : bp.length = 6 := by rw [hperm.length_eq, length_make_boxed_prims]; rfl
  obtain ⟨x, hx⟩ : ∃ x, bp[0]? = some x := ⟨bp[0], List.getElem?_eq_getElem (by omega)⟩
  have hxm : x ∈ bp := List.getElem?_mem hx
  obtain ⟨e1, e2⟩ := mem_make_boxed_prims demo_bboxes x (hperm.mem_iff.mp hxm)
  have hup := union_range_upper bp 0 demo_bboxes.length x
    (mem_slice_of_getElem? bp 0 _ 0 x (le_refl _) (by simp [demo_bboxes]) hx)
  rw [← hbox] at hup
  have h1 := hup.1
  have h2 := hsub.1
  have h3 := stored_box_demo_min x.2 e2
  rw [e1] at h1
  have h4 : (BVHNode.init).bbox.min.x = flt_max := rfl
  rw [h4] at h2
  linarith

/-- C7: in the tree built by `make_accelerator_node`, and in the tree built by
`make_accelerator_node_kd_tree`, a node is a leaf exactly when its range
`[s, e)` holds at most `BVHAccelerator_min_prims = 4` primitives, so a leaf
never holds more than 4 primitives, whatever the boxes (coinciding centres
included). -/
theorem C7_leaf_iff_at_most_min_prims (sort : Sorter) (hsort : sort.permutes)
    (bboxes : List range3f) :
    (∀ k, InTree (make_accelerator sort bboxes).nodes k →
      ∃ n s e, (make_accelerator sort bboxes).nodes[k]? = some n ∧
        Covers (make_accelerator sort bboxes).nodes k s e ∧
        (n.leaf = true ↔ e - s ≤ BVHAccelerator_min_prims) ∧
        (n.leaf = true → n.start = s ∧ n.end_ = e ∧ n.end_ - n.start ≤ 4)) ∧
    (∀ k, InTree (make_accelerator_kd_tree sort bboxes).nodes k →
      ∃ n s e, (make_accelerator_kd_tree sort bboxes).nodes[k]? = some n ∧
        Covers (make_accelerator_kd_tree sort bboxes).nodes k s e ∧
        (n.leaf = true ↔ e - s ≤ BVHAccelerator_min_prims) ∧
        (n.leaf = true → n.start = s ∧ n.end_ = e ∧ n.end_ - n.start ≤ 4)) := by
  constructor
  · intro k hk
    obtain ⟨bp, hi, hperm, _, hroot⟩ := make_accelerator_tree sort hsort bboxes
    obtain ⟨n, s, e, hn, _, _, hcov, hleaf, hrange, _⟩ :=
      tree_node_facts bboxes _ bp hperm hroot k hk
    refine ⟨n, s, e, hn, hcov, hleaf, fun hl => ?_⟩
    obtain ⟨r1, r2⟩ := hrange hl
    have := hleaf.mp hl
    rw [r1, r2]
    exact ⟨rfl, rfl, this⟩
  · intro k hk
    obtain ⟨bp, hi, hperm, _, hroot⟩ := make_accelerator_kd_tree_tree sort hsort bboxes
    obtain ⟨n, s, e, hn, _, _, hcov, hleaf, hrange, _⟩ :=
      tree_node_facts bboxes _ bp hperm hroot k hk
    refine ⟨n, s, e, hn, hcov, hleaf, fun hl => ?_⟩
    obtain ⟨r1, r2⟩ := hrange hl
    have := hleaf.mp hl
    rw [r1, r2]
    exact ⟨rfl, rfl, this⟩

theorem C7_witness :
    (∃ n s e, (make_accelerator insertion_sort demo_bboxes).nodes[0]? = some n ∧
        Covers (make_accelerator insertion_sort demo_bboxes).nodes 0 s e ∧
        (n.leaf = true ↔ e - s ≤ BVHAccelerator_min_prims) ∧
        (n.leaf = true → n.start = s ∧ n.end_ = e ∧ n.end_ - n.start ≤ 4)) ∧
    (∃ n s e, (make_accelerator_kd_tree insertion_sort demo_bboxes).nodes[0]? = some n ∧
        Covers (make_accelerator_kd_tree insertion_sort demo_bboxes).nodes 0 s e ∧
        (n.leaf = true ↔ e - s ≤ BVHAccelerator_min_prims) ∧
        (n.leaf = true → n.start = s ∧ n.end_ = e ∧ n.end_ - n.start ≤ 4)) :=
  ⟨(C7_leaf_iff_at_most_min_prims insertion_sort insertion_sort_permutes demo_bboxes).1 0
      InTree.root,
    (C7_leaf_iff_at_most_min_prims insertion_sort insertion_sort_permutes demo_bboxes).2 0
      InTree.root⟩

/-- C9: in the tree built by `make_accelerator` over `N` primitives the root
covers `[0, N)`, every internal node that covers `[s, e)` has children that
cover exactly `[s, mid)` and `[mid, e)`, and the leaf ranges, read left to
right, follow one another from 0 to `N` without gap or overlap, so that every
position of `[0, N)` lies in exactly one leaf range. -/
theorem C9_leaf_ranges_tile_the_index_range (sort : Sorter) (hsort : sort.permutes)
    (bboxes : List range3f) :
    Covers (make_accelerator sort bboxes).nodes 0 0 bboxes.length ∧
    (∀ k, InTree (make_accelerator sort bboxes).nodes k →
      ∃ n s e, (make_accelerator sort bboxes).nodes[k]? = some n ∧
        Covers (make_accelerator sort bboxes).nodes k s e ∧
        (n.leaf = false →
          Covers (make_accelerator sort bboxes).nodes n.n0 s ((s + e) / 2) ∧
          Covers (make_accelerator sort bboxes).nodes n.n1 ((s + e) / 2) e)) ∧
    ∃ L, leaf_ranges (make_accelerator sort bboxes).nodes
        (make_accelerator sort bboxes).depth_bound 0 = some L ∧
      Tiles L 0 bboxes.length ∧
      ∀ i, i < bboxes.length → L.countP (fun r => decide (r.1 ≤ i ∧ i < r.2)) = 1 := by
  obtain ⟨bp, hi, hperm, _, hroot⟩ := make_accelerator_tree sort hsort bboxes
  refine ⟨hroot.covers, ?_, ?_⟩
  · intro k hk
    obtain ⟨n, s, e, hn, _, _, hcov, _, _, _, _, hch⟩ :=
      tree_node_facts bboxes _ bp hperm hroot k hk
    exact ⟨n, s, e, hn, hcov, fun hl => ⟨(hch hl).1, (hch hl).2.1⟩⟩
  · obtain ⟨L, hL, hT⟩ := hroot.tiles (Nat.zero_le _)
      (make_accelerator sort bboxes).depth_bound (by simp [BVHAccelerator.depth_bound])
    refine ⟨L, hL, hT, fun i hi => ?_⟩
    rw [Tiles.count L 0 bboxes.length hT i, if_pos ⟨Nat.zero_le _, hi⟩]

theorem C9_witness :
    Covers (make_accelerator insertion_sort demo_bboxes).nodes 0 0 demo_bboxes.length ∧
    (∃ L, leaf_ranges (make_accelerator insertion_sort demo_bboxes).nodes
        (make_accelerator insertion_sort demo_bboxes).depth_bound 0 = some L ∧
      Tiles L 0 demo_bboxes.length ∧
      ∀ i, i < demo_bboxes.length → L.countP (fun r => decide (r.1 ≤ i ∧ i < r.2)) = 1) :=
  ⟨(C9_leaf_ranges_tile_the_index_range insertion_sort insertion_sort_permutes demo_bboxes).1,
    (C9_leaf_ranges_tile_the_index_range insertion_sort insertion_sort_permutes
      demo_bboxes).2.2⟩

/-! ## The surface loop -/

theorem intersect_surface_of_none (m : libm) (ray : ray3f) (acc : intersection3f)
    (s : Surface) (h : surface_t m ray s = none) : intersect_surface m ray acc s = acc := by
  unfold surface_t at h
  unfold intersect_surface
  by_cases hq : s.isquad = true
  · simp only [hq, if_true] at h ⊢
    cases hs : intersect_quad (transform_ray_inverse s.frame ray) s.radius with
    | none => rfl
    | some v => simp [hs] at h
  · simp only [hq, Bool.false_eq_true, if_false] at h ⊢
    by_cases hc : s.iscylinder = true
    · simp only [hc, if_true] at h ⊢
      cases hs : intersect_cylinder m (transform_ray_inverse s.frame ray) s.radius s.height
          zero3f with
      | none => rfl
      | some v => simp [hs] at h
    · simp only [hc, Bool.false_eq_true, if_false] at h ⊢
      rw [h]

theorem intersect_surface_of_farther (m : libm) (ray : ray3f) (acc : intersection3f)
    (s : Surface) (t : ℚ) (h : surface_t m ray s = some t) (hfar : t > acc.ray_t)
    (hacc : acc.hit = true) : intersect_surface m ray acc s = acc := by
  unfold surface_t at h
  unfold intersect_surface
  by_cases hq : s.isquad = true
  · simp only [hq, if_true] at h ⊢
    cases hs : intersect_quad (transform_ray_inverse s.frame ray) s.radius with
    | none => rfl
    | some v =>
      simp only [hs, Option.map_some', Option.some.injEq] at h
      simp [h, hfar, hacc]
  · simp only [hq, Bool.false_eq_true, if_false] at h ⊢
    by_cases hc : s.iscylinder = true
    · simp only [hc, if_true] at h ⊢
      cases hs : intersect_cylinder m (transform_ray_inverse s.frame ray) s.radius s.height
          zero3f with
      | none => rfl
      | some v =>
        simp only [hs, Option.map_some', Option.some.injEq] at h
        simp [h, hfar, hacc]
    · simp only [hc, Bool.false_eq_true, if_false] at h ⊢
      simp [h, hfar, hacc]

theorem intersect_surface_of_closer (m : libm) (ray : ray3f) (acc : intersection3f)
    (s : Surface) (t : ℚ) (h : surface_t m ray s = some t)
    (hnear : ¬ (t > acc.ray_t ∧ acc.hit = true)) :
    (intersect_surface m ray acc s).hit = true ∧ (intersect_surface m ray acc s).ray_t = t ∧
      (intersect_surface m ray acc s).mat = s.mat ∧
      (intersect_surface m ray acc s).norm =
        (intersect_surface m ray intersection3f.init s).norm ∧
      (intersect_surface m ray acc s).pos =
        (intersect_surface m ray intersection3f.init s).pos := by
  have hdec : (decide (t > acc.ray_t) && acc.hit) = false := by
    by_cases h1 : t > acc.ray_t
    · cases h2 : acc.hit
      · simp
      · exact absurd ⟨h1, h2⟩ hnear
    · simp [h1]
  have hinit : ∀ x : ℚ, (decide (x > intersection3f.init.ray_t) && intersection3f.init.hit) =
      false := by intro x; simp [intersection3f.init]
  unfold surface_t at h
  unfold intersect_surface
  by_cases hq : s.isquad = true
  · simp only [hq, if_true] at h ⊢
    cases hs : intersect_quad (transform_ray_inverse s.frame ray) s.radius with
    | none => simp [hs] at h
    | some v =>
      simp only [hs, Option.map_some', Option.some.injEq] at h
      subst h
      simp only [hdec, hinit, Bool.false_eq_true, if_false, and_self]
  · simp only [hq, Bool.false_eq_true, if_false] at h ⊢
    by_cases hc : s.iscylinder = true
    · simp only [hc, if_true] at h ⊢
      cases hs : intersect_cylinder m (transform_ray_inverse s.frame ray) s.radius s.height
          zero3f with
      | none => simp [hs] at h
      | some v =>
        simp only [hs, Option.map_some', Option.some.injEq] at h
        subst h
        simp only [hdec, hinit, Bool.false_eq_true, if_false, and_self]
    · simp only [hc, Bool.false_eq_true, if_false] at h ⊢
      simp only [h, hdec, hinit, Bool.false_eq_true, if_false, and_self]

/-- The record the surface loop holds after the surfaces `l`: no hit when no
surface of `l` is hit; otherwise the hit of the last surface of `l` among
those hit at the least parameter. -/
theorem surface_loop_last_closest (m : libm) (ray : ray3f) (l : List Surface) :
    ((l.foldl (intersect_surface m ray) intersection3f.init).hit = false →
      ∀ s ∈ l, surface_t m ray s = none) ∧
    ((l.foldl (intersect_surface m ray) intersection3f.init).hit = true →
      ∃ (k : Nat) (s : Surface), l[k]? = some s ∧
        surface_t m ray s = some (l.foldl (intersect_surface m ray) intersection3f.init).ray_t ∧
        (l.foldl (intersect_surface m ray) intersection3f.init).mat = s.mat ∧
        (l.foldl (intersect_surface m ray) intersection3f.init).norm =
          (intersect_surface m ray intersection3f.init s).norm ∧
        (l.foldl (intersect_surface m ray) intersection3f.init).pos =
          (intersect_surface m ray intersection3f.init s).pos ∧
        ∀ (j : Nat) (s2 : Surface) (t : ℚ), l[j]? = some s2 → surface_t m ray s2 = some t →
          (l.foldl (intersect_surface m ray) intersection3f.init).ray_t ≤ t ∧
          (k < j → (l.foldl (intersect_surface m ray) intersection3f.init).ray_t < t)) := by
  induction l using List.reverseRecOn with
  | nil =>
    refine ⟨fun _ s hs => by simp at hs, fun h => ?_⟩
    simp [intersection3f.init] at h
  | append_singleton l x ih =>
    rw [List.foldl_append]
    simp only [List.foldl_cons, List.foldl_nil]
    generalize l.foldl (intersect_surface m ray) intersection3f.init = acc at ih ⊢
    obtain ⟨ih0, ih1⟩ := ih
    have hget : ∀ j (s2 : Surface), (l ++ [x])[j]? = some s2 →
        (j < l.length ∧ l[j]? = some s2) ∨ (j = l.length ∧ s2 = x) := by
      intro j s2 hj
      by_cases hlt : j < l.length
      · rw [List.getElem?_append_left hlt] at hj
        exact Or.inl ⟨hlt, hj⟩
      · rw [List.getElem?_append_right (by omega)] at hj
        by_cases hz : j - l.length = 0
        · rw [hz] at hj
          simp only [List.getElem?_cons_zero, Option.some.injEq] at hj
          exact Or.inr ⟨by omega, hj.symm⟩
        · obtain ⟨i, hi⟩ : ∃ i, j - l.length = i + 1 := ⟨j - l.length - 1, by omega⟩
          rw [hi] at hj
          simp at hj
    have hlast : (l ++ [x])[l.length]? = some x := by
      rw [List.getElem?_append_right (le_refl _)]
      simp
    cases hx : surface_t m ray x with
    | none =>
      rw [intersect_surface_of_none m ray acc x hx]
      refine ⟨fun h s hs => ?_, fun h => ?_⟩
      · rcases List.mem_append.mp hs with hs | hs
        · exact ih0 h s hs
        · rw [List.mem_singleton.mp hs]; exact hx
      · obtain ⟨k, s, hk, ht, hm, hn, hp, hall⟩ := ih1 h
        have hkl : k < l.length := by
          by_contra hc
          rw [List.getElem?_eq_none (by omega)] at hk
          cases hk
        refine ⟨k, s, by rw [List.getElem?_append_left hkl]; exact hk, ht, hm, hn, hp, ?_⟩
        intro j s2 t hj hs2
        rcases hget j s2 hj with ⟨_, hj2⟩ | ⟨_, hj2⟩
        · exact hall j s2 t hj2 hs2
        · rw [hj2, hx] at hs2
          cases hs2
    | some t =>
      by_cases hfar : t > acc.ray_t ∧ acc.hit = true
      · rw [intersect_surface_of_farther m ray acc x t hx hfar.1 hfar.2]
        refine ⟨fun h => (by rw [hfar.2] at h; cases h), fun h => ?_⟩
        obtain ⟨k, s, hk, ht, hm, hn, hp, hall⟩ := ih1 h
        have hkl : k < l.length := by
          by_contra hc
          rw [List.getElem?_eq_none (by omega)] at hk
          cases hk
        refine ⟨k, s, by rw [List.getElem?_append_left hkl]; exact hk, ht, hm, hn, hp, ?_⟩
        intro j s2 t2 hj hs2
        rcases hget j s2 hj with ⟨_, hj2⟩ | ⟨_, hj2⟩
        · exact hall j s2 t2 hj2 hs2
        · rw [hj2, hx] at hs2
          have : t = t2 := Option.some.inj hs2
          subst this
          exact ⟨le_of_lt hfar.1, fun _ => hfar.1⟩
      · obtain ⟨r1, r2, r3, r4, r5⟩ := intersect_surface_of_closer m ray acc x t hx hfar
        refine ⟨fun h => (by rw [r1] at h; cases h), fun _ => ?_⟩
        refine ⟨l.length, x, hlast, by rw [r2]; exact hx, r3, r4, r5, ?_⟩
        intro j s2 t2 hj hs2
        rw [r2]
        rcases hget j s2 hj with ⟨hjl, hj2⟩ | ⟨hjl, hj2⟩
        · refine ⟨?_, fun hc => by omega⟩
          cases hacc : acc.hit
          · have := ih0 hacc s2 (List.getElem?_mem hj2)
            rw [this] at hs2
            cases hs2
          · obtain ⟨k, s, hk, ht, hm, hn, hp, hall⟩ := ih1 hacc
            have h1 := (hall j s2 t2 hj2 hs2).1
            have h2 : t ≤ acc.ray_t := by
              by_contra hc
              exact hfar ⟨not_le.mp hc, hacc⟩
            exact le_trans h2 h1
        · rw [hj2, hx] at hs2
          have : t = t2 := Option.some.inj hs2
          subst this
          exact ⟨le_refl _, fun hc => by omega⟩

/-- C4 (as amended): in `intersect(scene, ray)` a later candidate replaces the
current best hit unless its `t` is strictly larger.  For a scene without
meshes the returned record, when it is a hit, carries the parameter, the
material, the normal and the position of a surface `k` that is hit at the
least parameter, and every surface after `k` in the list is hit strictly
farther: of surfaces hit at exactly the same least `t` the one that comes last
in the list of surfaces is returned. -/
theorem C4_ties_go_to_the_later_surface (m : libm) (scene : Scene) (ray : ray3f)
    (hm : scene.meshes = []) :
    ∃ r, scene.intersect m ray = Outcome.value r ∧
      (r.hit = true →
        ∃ (k : Nat) (s : Surface), scene.surfaces[k]? = some s ∧ surface_t m ray s = some r.ray_t ∧
          r.mat = s.mat ∧ r.norm = (intersect_surface m ray intersection3f.init s).norm ∧
          r.pos = (intersect_surface m ray intersection3f.init s).pos ∧
          ∀ (j : Nat) (s2 : Surface) (t : ℚ), scene.surfaces[j]? = some s2 → surface_t m ray s2 = some t →
            r.ray_t ≤ t ∧ (k < j → r.ray_t < t)) := by
  refine ⟨scene.surfaces.foldl (intersect_surface m ray) intersection3f.init, ?_, ?_⟩
  · unfold Scene.intersect
    rw [hm]
    rfl
  · exact (surface_loop_last_closest m ray scene.surfaces).2

theorem C4_witness :
    ∃ r, tie_scene.intersect sample_libm tie_ray = Outcome.value r ∧
      (r.hit = true →
        ∃ (k : Nat) (s : Surface), tie_scene.surfaces[k]? = some s ∧ surface_t sample_libm tie_ray s = some r.ray_t ∧
          r.mat = s.mat ∧
          r.norm = (intersect_surface sample_libm tie_ray intersection3f.init s).norm ∧
          r.pos = (intersect_surface sample_libm tie_ray intersection3f.init s).pos ∧
          ∀ (j : Nat) (s2 : Surface) (t : ℚ), tie_scene.surfaces[j]? = some s2 → surface_t sample_libm tie_ray s2 = some t →
            r.ray_t ≤ t ∧ (k < j → r.ray_t < t)) :=
  C4_ties_go_to_the_later_surface sample_libm tie_scene tie_ray rfl

/-- C4 (counterexample): two coinciding unit quads with materials 1 and 2, in
this order, are both hit at `t = 5` by the ray from `(0,0,5)` straight down,
and the record `intersect` returns has the material, 2, of the second one. -/
theorem C4_counterexample :
    surface_t sample_libm tie_ray ⟨identity_frame3f, 1, 0, true, false, 1⟩ = some 5 ∧
    surface_t sample_libm tie_ray ⟨identity_frame3f, 1, 0, true, false, 2⟩ = some 5 ∧
    tie_scene.intersect sample_libm tie_ray =
      Outcome.value ⟨true, 5, ⟨0, 0, 0⟩, ⟨0, 0, 1⟩, ⟨1 / 2, 1 / 2⟩, 2⟩ := by
  refine ⟨?_, ?_, ?_⟩
  · norm_num [surface_t, intersect_quad, transform_ray_inverse, transform_point_inverse,
      transform_vector_inverse, identity_frame3f, tie_ray, dot, vec3f_sub_eq, vec3f_add_eq,
      ray3f.eval, vec3f.smul, ray3f_epsilon, ray3f_rayinf]
  · norm_num [surface_t, intersect_quad, transform_ray_inverse, transform_point_inverse,
      transform_vector_inverse, identity_frame3f, tie_ray, dot, vec3f_sub_eq, vec3f_add_eq,
      ray3f.eval, vec3f.smul, ray3f_epsilon, ray3f_rayinf]
  · norm_num [Scene.intersect, tie_scene, intersect_meshes, intersect_surface, intersect_quad,
      transform_ray_inverse, transform_point_inverse, transform_vector_inverse,
      identity_frame3f, tie_ray, dot, vec3f_sub_eq, vec3f_add_eq, ray3f.eval, vec3f.smul,
      ray3f_epsilon, ray3f_rayinf, intersection3f.init, transform_point, transform_normal,
      transform_vector, normalize, length, lengthSqr, sample_libm, z3f, vec3f.sdiv]

/-! ## Triangles -/

/-- Cramer's rule: the point of the ray at the parameter that
`intersect_triangle` computes is the point of the plane of the triangle with
the barycentric coordinates it computes. -/
theorem triangle_point (e d v0 v1 v2 : vec3f)
    (hden : dot (cross d (v1 - v2)) (v0 - v2) ≠ 0) (i : Nat) :
    e.get i + d.get i * (dot (cross (e - v2) (v0 - v2)) (v1 - v2) /
        dot (cross d (v1 - v2)) (v0 - v2)) =
      v2.get i +
        (v0.get i - v2.get i) * (dot (cross d (v1 - v2)) (e - v2) /
          dot (cross d (v1 - v2)) (v0 - v2)) +
        (v1.get i - v2.get i) * (dot (cross (e - v2) (v0 - v2)) d /
          dot (cross d (v1 - v2)) (v0 - v2)) := by
  simp only [dot, cross, vec3f_sub_eq] at hden ⊢
  unfold vec3f.get
  split <;> (field_simp; ring)

/-! ## The closest hit of a scene -/

theorem Best.of_iff {T U : ℚ → Prop} {r : intersection3f} (h : Best T r)
    (hTU : ∀ t, T t ↔ U t) : Best U r :=
  ⟨fun hr t ht => h.1 hr t ((hTU t).2 ht),
    fun hr => ⟨(hTU _).1 (h.2 hr).1, fun t ht => (h.2 hr).2 t ((hTU t).2 ht)⟩⟩

theorem Best.of_nothing : Best (fun _ => False) intersection3f.init :=
  ⟨fun _ _ h => h, fun h => by simp [intersection3f.init] at h⟩

/-- A loop that offers candidates one after the other and keeps the current
record unless the candidate is not farther, ends with a closest hit. -/
theorem fold_best {α : Type} (cand : α → Option ℚ)
    (step : intersection3f → α → intersection3f)
    (h_none : ∀ acc a, cand a = none → step acc a = acc)
    (h_far : ∀ acc a t, cand a = some t → t > acc.ray_t → acc.hit = true → step acc a = acc)
    (h_near : ∀ acc a t, cand a = some t → ¬ (t > acc.ray_t ∧ acc.hit = true) →
      (step acc a).hit = true ∧ (step acc a).ray_t = t) :
    ∀ (l : List α) (acc : intersection3f) (T : ℚ → Prop), Best T acc →
      Best (fun t => T t ∨ ∃ a ∈ l, cand a = some t) (l.foldl step acc) := by
  intro l
  induction l with
  | nil => intro acc T h; exact h.of_iff (fun t => by simp)
  | cons a rest ih =>
    intro acc T h
    simp only [List.foldl_cons]
    have key : Best (fun t => T t ∨ cand a = some t) (step acc a) := by
      cases hc : cand a with
      | none =>
        rw [h_none acc a hc]
        exact h.of_iff (fun t => by simp)
      | some t0 =>
        by_cases hfar : t0 > acc.ray_t ∧ acc.hit = true
        · rw [h_far acc a t0 hc hfar.1 hfar.2]
          refine ⟨fun hh => (by rw [hfar.2] at hh; cases hh), fun hh => ?_⟩
          obtain ⟨b1, b2⟩ := h.2 hh
          refine ⟨Or.inl b1, fun t ht => ?_⟩
          rcases ht with ht | ht
          · exact b2 t ht
          · have : t0 = t := Option.some.inj ht
            rw [← this]; exact le_of_lt hfar.1
        · obtain ⟨r1, r2⟩ := h_near acc a t0 hc hfar
          refine ⟨fun hh => (by rw [r1] at hh; cases hh), fun _ => ?_⟩
          rw [r2]
          refine ⟨Or.inr rfl, fun t ht => ?_⟩
          rcases ht with ht | ht
          · cases hacc : acc.hit
            · exact absurd ht (h.1 hacc t)
            · have h2 : t0 ≤ acc.ray_t := by
                by_contra hc2
                exact hfar ⟨not_le.mp hc2, hacc⟩
              exact le_trans h2 ((h.2 hacc).2 t ht)
          · have : t0 = t := Option.some.inj ht
            rw [← this]
    refine (ih (step acc a) _ key).of_iff ?_
    intro t
    simp only [List.mem_cons, exists_eq_or_imp]
    tauto

theorem surface_loop_best (m : libm) (ray : ray3f) (l : List Surface) :
    Best (fun t => ∃ s ∈ l, surface_t m ray s = some t)
      (l.foldl (intersect_surface m ray) intersection3f.init) := by
  refine (fold_best (surface_t m ray) (intersect_surface m ray)
    (fun acc a h => intersect_surface_of_none m ray acc a h)
    (fun acc a t h h1 h2 => intersect_surface_of_farther m ray acc a t h h1 h2)
    (fun acc a t h h1 =>
      ⟨(intersect_surface_of_closer m ray acc a t h h1).1,
        (intersect_surface_of_closer m ray acc a t h h1).2.1⟩)
    l intersection3f.init _ Best.of_nothing).of_iff ?_
  intro t
  simp

theorem scan_triangle_loop_best (m : libm) (mesh : Mesh) (ray : ray3f) (l : List vec3i) :
    Best (fun t => ∃ tri ∈ l, triangle_t mesh ray tri = some t)
      (l.foldl (scan_triangle m mesh (transform_ray_inverse mesh.frame ray))
        intersection3f.init) := by
  refine (fold_best (triangle_t mesh ray)
    (scan_triangle m mesh (transform_ray_inverse mesh.frame ray)) ?_ ?_ ?_
    l intersection3f.init _ Best.of_nothing).of_iff ?_
  · intro acc a h
    unfold triangle_t at h
    cases hs : intersect_triangle (transform_ray_inverse mesh.frame ray)
        (mesh.pos.getD a.x zero3f) (mesh.pos.getD a.y zero3f) (mesh.pos.getD a.z zero3f) with
    | none => simp only [scan_triangle, hs]
    | some v => rw [hs] at h; cases h
  · intro acc a t h h1 h2
    unfold triangle_t at h
    cases hs : intersect_triangle (transform_ray_inverse mesh.frame ray)
        (mesh.pos.getD a.x zero3f) (mesh.pos.getD a.y zero3f) (mesh.pos.getD a.z zero3f) with
    | none => simp only [scan_triangle, hs]
    | some v =>
      rw [hs] at h
      simp only [Option.map_some', Option.some.injEq] at h
      simp only [scan_triangle, hs, h, h1, h2, decide_True, Bool.and_self, if_true]
  · intro acc a t h h1
    have hdec : (decide (t > acc.ray_t) && acc.hit) = false := by
      by_cases c1 : t > acc.ray_t
      · cases c2 : acc.hit
        · simp
        · exact absurd ⟨c1, c2⟩ h1
      · simp [c1]
    unfold triangle_t at h
    cases hs : intersect_triangle (transform_ray_inverse mesh.frame ray)
        (mesh.pos.getD a.x zero3f) (mesh.pos.getD a.y zero3f) (mesh.pos.getD a.z zero3f) with
    | none => rw [hs] at h; cases h
    | some v =>
      rw [hs] at h
      simp only [Option.map_some', Option.some.injEq] at h
      subst h
      simp only [scan_triangle, hs, hdec, Bool.false_eq_true, if_false, triangle_record,
        and_self]
  · intro t
    simp

/-! ## Meshes -/

theorem triangle_elem_hit (m : libm) (mesh : Mesh) (i : Nat) (ray : ray3f) :
    (triangle_elem m mesh i ray).hit =
        (intersect_triangle ray (mesh.pos.getD (mesh.triangle.getD i ⟨0, 0, 0⟩).x zero3f)
          (mesh.pos.getD (mesh.triangle.getD i ⟨0, 0, 0⟩).y zero3f)
          (mesh.pos.getD (mesh.triangle.getD i ⟨0, 0, 0⟩).z zero3f)).isSome ∧
      ((triangle_elem m mesh i ray).hit = true →
        (intersect_triangle ray (mesh.pos.getD (mesh.triangle.getD i ⟨0, 0, 0⟩).x zero3f)
          (mesh.pos.getD (mesh.triangle.getD i ⟨0, 0, 0⟩).y zero3f)
          (mesh.pos.getD (mesh.triangle.getD i ⟨0, 0, 0⟩).z zero3f)).map Prod.fst =
        some (triangle_elem m mesh i ray).ray_t) := by
  cases hs : intersect_triangle ray (mesh.pos.getD (mesh.triangle.getD i ⟨0, 0, 0⟩).x zero3f)
      (mesh.pos.getD (mesh.triangle.getD i ⟨0, 0, 0⟩).y zero3f)
      (mesh.pos.getD (mesh.triangle.getD i ⟨0, 0, 0⟩).z zero3f) with
  | none => simp only [triangle_elem, hs, intersection3f.init, Option.isSome_none, true_and,
      Bool.false_eq_true, false_implies]
  | some v => simp only [triangle_elem, hs, triangle_record, Option.isSome_some, true_and,
      Option.map_some', implies_true]

theorem triangle_elem_shadow_eq (m : libm) (mesh : Mesh) (i : Nat) (ray : ray3f) :
    triangle_elem_shadow mesh i ray = (triangle_elem m mesh i ray).hit := by
  rw [(triangle_elem_hit m mesh i ray).1]
  rfl

theorem intersect_meshes_cons (m : libm) (ray : ray3f) (mesh : Mesh) (rest : List Mesh)
    (acc s : intersection3f) (hq : mesh.quad = [])
    (hs : intersect_mesh m mesh (transform_ray_inverse mesh.frame ray) = some s) :
    intersect_meshes m ray (mesh :: rest) acc =
      intersect_meshes m ray rest
        (if !s.hit then acc
         else if decide (s.ray_t > acc.ray_t) && acc.hit then acc
         else
           { s with
             pos := transform_point mesh.frame s.pos
             norm := transform_normal m mesh.frame s.norm
             mat := s.mat }) := by
  simp only [intersect_meshes, hq, List.isEmpty_nil, Bool.not_true, Bool.false_eq_true, if_false,
    hs]
  split
  · rfl
  · split <;> rfl

theorem strip_scene_meshes :
    ∀ mesh ∈ strip_scene.meshes, mesh.quad = [] ∧ mesh.accelerated insertion_sort := by
  intro mesh hmesh
  simp only [strip_scene, List.mem_cons, List.mem_singleton, List.not_mem_nil, or_false] at hmesh
  rcases hmesh with h | h
  · subst h
    exact ⟨rfl, Or.inr rfl⟩
  · subst h
    exact ⟨rfl, Or.inl rfl⟩

/-! ## Any-hit against nearest-hit on a scene -/

theorem intersect_leaf_returns (prims : std_vector Nat) (f : Nat → ray3f → intersection3f) :
    ∀ (idxs : List Nat) (state : intersection3f × ray3f),
      (∀ idx ∈ idxs, idx < prims.storage.length) →
      ∃ out, intersect_leaf prims f idxs state = some out := by
  intro idxs
  induction idxs with
  | nil => intro state _; exact ⟨state, rfl⟩
  | cons idx rest ih =>
    intro state hidx
    have hlt := hidx idx (List.mem_cons_self _ _)
    have hread : prims.read idx = some (prims.storage[idx]) := by
      unfold std_vector.read
      exact List.getElem?_eq_getElem hlt
    simp only [intersect_leaf, hread]
    exact ih _ (fun j hj => hidx j (List.mem_cons_of_mem _ hj))

/-- On a tree built the way `make_accelerator_node` builds it the nearest-hit
traversal returns, whatever the callback. -/
theorem bvh_intersect_returns (nodes : List BVHNode) (bp : List boxed_prim)
    (prims : std_vector Nat) (hprims : prims.storage.length = bp.length)
    (f : Nat → ray3f → intersection3f) {lo hi k s e : Nat}
    (htree : IsTree nodes bp lo hi k s e) :
    s ≤ e → e ≤ bp.length → ∀ (ray : ray3f) (fuel : Nat), nodes.length ≤ fuel + k →
      ∃ r, BVHAccelerator.intersect ⟨prims, nodes⟩ f fuel k ray = some r := by
  induction htree with
  | leaf lo hi k s e hnode hsz =>
    intro hse he ray fuel hfuel
    have hk : k < nodes.length := (IsTree.leaf lo hi k s e hnode hsz).lt_length
    obtain ⟨fuel, rfl⟩ : ∃ m, fuel = m + 1 := ⟨fuel - 1, by omega⟩
    rw [BVHAccelerator.intersect]
    simp only [hnode]
    by_cases hb : intersect_bbox_hit ray (union_range bp s e) = true
    · simp only [hb, Bool.not_true, Bool.false_eq_true, if_false, if_true]
      obtain ⟨out, hout⟩ := intersect_leaf_returns prims f (List.range' s (e - s))
        (intersection3f.init, ray)
        (by
          intro idx hidx
          rw [List.mem_range'_1] at hidx
          omega)
      exact ⟨out.1, by rw [hout]; rfl⟩
    · have hb2 : intersect_bbox_hit ray (union_range bp s e) = false := by simpa using hb
      simp only [hb2, Bool.not_false, if_true]
      exact ⟨_, rfl⟩
  | node lo hi k s e n0 n1 lo0 hi0 lo1 hi1 hnode hsz hklo hlon0 hn01 hn1hi hlo0 hhi0 hlo1 hhi1
      h0 h1 ih0 ih1 =>
    intro hse he ray fuel hfuel
    have hk : k < nodes.length :=
      (IsTree.node lo hi k s e n0 n1 lo0 hi0 lo1 hi1 hnode hsz hklo hlon0 hn01 hn1hi hlo0 hhi0
        hlo1 hhi1 h0 h1).lt_length
    obtain ⟨fuel, rfl⟩ : ∃ m, fuel = m + 1 := ⟨fuel - 1, by omega⟩
    rw [BVHAccelerator.intersect]
    simp only [hnode]
    by_cases hb : intersect_bbox_hit ray (union_range bp s e) = true
    · simp only [hb, Bool.not_true, Bool.false_eq_true, if_false, BVHNode.n0, BVHNode.n1]
      obtain ⟨s0, hs0⟩ := ih0 (by omega) (by omega) ray fuel (by omega)
      simp only [hs0]
      obtain ⟨s1, hs1⟩ := ih1 (by omega) he (closest_step (intersection3f.init, ray) s0).2 fuel
        (by omega)
      simp only [hs1]
      exact ⟨_, rfl⟩
    · have hb2 : intersect_bbox_hit ray (union_range bp s e) = false := by simpa using hb
      simp only [hb2, Bool.not_false, if_true]
      exact ⟨_, rfl⟩

theorem make_accelerator_intersect_returns (sort : Sorter) (hsort : sort.permutes)
    (bboxes : List range3f) (f : Nat → ray3f → intersection3f) (ray : ray3f) :
    ∃ r, (make_accelerator sort bboxes).intersect f
      (make_accelerator sort bboxes).depth_bound 0 ray = some r := by
  obtain ⟨bp, hi, hperm, hst, htree⟩ := make_accelerator_tree sort hsort bboxes
  have hlen : bp.length = bboxes.length := by rw [hperm.length_eq, length_make_boxed_prims]
  exact bvh_intersect_returns (make_accelerator sort bboxes).nodes bp
    (make_accelerator sort bboxes).prims (by rw [hst, List.length_map]) f htree
    (Nat.zero_le _) (le_of_eq hlen.symm) ray _ (by simp [BVHAccelerator.depth_bound])

theorem intersect_shadow_surface_eq (m : libm) (ray : ray3f) (s : Surface) :
    intersect_shadow_surface m ray s = (surface_t m ray s).isSome := by
  unfold intersect_shadow_surface surface_t
  by_cases hq : s.isquad = true
  · simp only [hq, if_true, Option.isSome_map']
  · simp only [hq, Bool.false_eq_true, if_false]
    by_cases hc : s.iscylinder = true
    · simp only [hc, if_true, Option.isSome_map']
    · simp only [hc, Bool.false_eq_true, if_false]

theorem best_hit_eq_any {α : Type} (cand : α → Option ℚ) (l : List α) (r : intersection3f)
    (h : Best (fun t => ∃ a ∈ l, cand a = some t) r) :
    r.hit = l.any (fun a => (cand a).isSome) := by
  cases hh : r.hit
  · symm
    rw [List.any_eq_false]
    intro a ha hsome
    obtain ⟨t, ht⟩ := Option.isSome_iff_exists.mp hsome
    exact h.1 hh t ⟨a, ha, ht⟩
  · symm
    rw [List.any_eq_true]
    obtain ⟨a, ha, hat⟩ := (h.2 hh).1
    exact ⟨a, ha, by rw [hat]; rfl⟩

/-- For one mesh, the any-hit test of `intersect_shadow(scene, ray)` returns
the `hit` flag of the mesh-local record of `intersect(scene, ray)`. -/
theorem intersect_shadow_mesh_eq (sort : Sorter) (hsort : sort.permutes) (m : libm)
    (mesh : Mesh) (ray : ray3f) (hbvh : mesh.has_built_bvh sort) :
    ∃ s, intersect_mesh m mesh (transform_ray_inverse mesh.frame ray) = some s ∧
      intersect_shadow_mesh mesh (transform_ray_inverse mesh.frame ray) = some s.hit := by
  rcases hbvh with hnone | ⟨bboxes, hsome⟩
  · refine ⟨mesh.triangle.foldl (scan_triangle m mesh (transform_ray_inverse mesh.frame ray))
      intersection3f.init, by simp only [intersect_mesh, hnone], ?_⟩
    simp only [intersect_shadow_mesh, hnone, Option.some.injEq]
    rw [best_hit_eq_any (triangle_t mesh ray) mesh.triangle _
      (scan_triangle_loop_best m mesh ray mesh.triangle)]
    congr 1
    funext tri
    simp only [triangle_t, Option.isSome_map']
  · obtain ⟨r, hr⟩ := make_accelerator_intersect_returns sort hsort bboxes
      (triangle_elem m mesh) (transform_ray_inverse mesh.frame ray)
    refine ⟨r, by simp only [intersect_mesh, hsome]; exact hr, ?_⟩
    simp only [intersect_shadow_mesh, hsome]
    exact bvh_intersect_shadow_of_intersect _ (triangle_elem m mesh) (triangle_elem_shadow mesh)
      (fun i r => triangle_elem_shadow_eq m mesh i r) _ 0 _ r hr

theorem intersect_shadow_meshes_cons (ray : ray3f) (mesh : Mesh) (rest : List Mesh) (b : Bool)
    (hq : mesh.quad = [])
    (hs : intersect_shadow_mesh mesh (transform_ray_inverse mesh.frame ray) = some b) :
    intersect_shadow_meshes ray (mesh :: rest) =
      if b then Outcome.value true else intersect_shadow_meshes ray rest := by
  simp only [intersect_shadow_meshes, hq, List.isEmpty_nil, Bool.not_true, Bool.false_eq_true,
    if_false, hs]
  cases b <;> rfl

theorem intersect_shadow_meshes_eq (sort : Sorter) (hsort : sort.permutes) (m : libm)
    (ray : ray3f) :
    ∀ (meshes : List Mesh) (acc : intersection3f),
      (∀ mesh ∈ meshes, mesh.quad = [] ∧ mesh.has_built_bvh sort) →
      ∃ r, intersect_meshes m ray meshes acc = Outcome.value r ∧
        (acc.hit = true → r.hit = true) ∧
        (acc.hit = false → intersect_shadow_meshes ray meshes = Outcome.value r.hit) := by
  intro meshes
  induction meshes with
  | nil =>
    intro acc _
    exact ⟨acc, rfl, fun h => h, fun h => by rw [h]; rfl⟩
  | cons mesh rest ih =>
    intro acc hall
    obtain ⟨hq, hbvh⟩ := hall mesh (List.mem_cons_self _ _)
    obtain ⟨s, hs, hsh⟩ := intersect_shadow_mesh_eq sort hsort m mesh ray hbvh
    rw [intersect_meshes_cons m ray mesh rest acc s hq hs,
      intersect_shadow_meshes_cons ray mesh rest s.hit hq hsh]
    have hrest := fun a => ih a (fun x hx => hall x (List.mem_cons_of_mem _ hx))
    by_cases hh : s.hit = true
    · by_cases hfar : (decide (s.ray_t > acc.ray_t) && acc.hit) = true
      · simp only [hh, Bool.not_true, Bool.false_eq_true, if_false, hfar, if_true]
        obtain ⟨r, hr, h1, _⟩ := hrest acc
        have hacc : acc.hit = true := by
          simp only [Bool.and_eq_true] at hfar
          exact hfar.2
        refine ⟨r, hr, h1, fun hc => ?_⟩
        rw [hacc] at hc; cases hc
      · simp only [hh, Bool.not_true, Bool.false_eq_true, if_false, hfar, if_true]
        obtain ⟨r, hr, h1, _⟩ := hrest
          ⟨true, s.ray_t, transform_point mesh.frame s.pos,
            transform_normal m mesh.frame s.norm, s.texcoord, s.mat⟩
        have hr1 := h1 rfl
        exact ⟨r, hr, fun _ => hr1, fun _ => by rw [hr1]⟩
    · have hh2 : s.hit = false := by simpa using hh
      simp only [hh2, Bool.not_false, if_true, Bool.false_eq_true, if_false]
      exact hrest acc

/-- C2: for every scene whose meshes are all triangulated, each mesh with no
BVH or with one built by `make_accelerator`, and every ray, both
`intersect(scene, ray)` and `intersect_shadow(scene, ray)` return, and
`intersect_shadow` returns true exactly when the record of `intersect` has
`hit = true`: for analytic surfaces, linearly scanned meshes and
BVH-accelerated meshes alike. -/
theorem C2_shadow_agrees_with_nearest_hit (sort : Sorter) (hsort : sort.permutes) (m : libm)
    (scene : Scene) (ray : ray3f)
    (hmesh : ∀ mesh ∈ scene.meshes, mesh.quad = [] ∧ mesh.has_built_bvh sort) :
    ∃ r, scene.intersect m ray = Outcome.value r ∧
      scene.intersect_shadow m ray = Outcome.value r.hit := by
  obtain ⟨r, hr, h1, h0⟩ := intersect_shadow_meshes_eq sort hsort m ray scene.meshes
    (scene.surfaces.foldl (intersect_surface m ray) intersection3f.init) hmesh
  refine ⟨r, hr, ?_⟩
  unfold Scene.intersect_shadow
  have hany : (scene.surfaces.foldl (intersect_surface m ray) intersection3f.init).hit =
      scene.surfaces.any (intersect_shadow_surface m ray) := by
    rw [best_hit_eq_any (surface_t m ray) scene.surfaces _
      (surface_loop_best m ray scene.surfaces)]
    congr 1
    funext s
    exact (intersect_shadow_surface_eq m ray s).symm
  rw [← hany]
  cases hh : (scene.surfaces.foldl (intersect_surface m ray) intersection3f.init).hit
  · simp only [Bool.false_eq_true, if_false]
    exact h0 hh
  · simp only [if_true]
    rw [h1 hh]

theorem strip_scene_built :
    ∀ mesh ∈ strip_scene.meshes, mesh.quad = [] ∧ mesh.has_built_bvh insertion_sort := by
  intro mesh hmesh
  simp only [strip_scene, List.mem_cons, List.mem_singleton, List.not_mem_nil, or_false] at hmesh
  rcases hmesh with h | h
  · subst h
    exact ⟨rfl, Or.inr ⟨_, rfl⟩⟩
  · subst h
    exact ⟨rfl, Or.inl rfl⟩

theorem C2_witness :
    ∃ r, strip_scene.intersect sample_libm tie_ray = Outcome.value r ∧
      strip_scene.intersect_shadow sample_libm tie_ray = Outcome.value r.hit :=
  C2_shadow_agrees_with_nearest_hit insertion_sort insertion_sort_permutes sample_libm
    strip_scene tie_ray strip_scene_built

/-! ## Balance and height -/

theorem make_accelerator_split_kd_tree_mid (sort : Sorter) (bp : List boxed_prim)
    (s e depth : Nat) :
    (make_accelerator_split_kd_tree sort bp s e depth).2 = (s + e) / 2 := rfl

theorem clog_halves (n : Nat) (hn : 2 ≤ n) (a b : Nat) (ha : a ≤ (n + 1) / 2)
    (hb : b ≤ (n + 1) / 2) (h0 h1 : Nat) (hh0 : h0 ≤ Nat.clog 2 a) (hh1 : h1 ≤ Nat.clog 2 b) :
    max h0 h1 + 1 ≤ Nat.clog 2 n := by
  rw [Nat.clog_of_two_le (by omega) hn]
  have e1 : (n + 2 - 1) / 2 = (n + 1) / 2 := by omega
  rw [e1]
  have m0 := Nat.clog_mono_right 2 ha
  have m1 := Nat.clog_mono_right 2 hb
  have : max h0 h1 ≤ Nat.clog 2 ((n + 1) / 2) := max_le (by omega) (by omega)
  omega

theorem IsTree.height {nodes : List BVHNode} {bp : List boxed_prim} {lo hi k s e : Nat}
    (h : IsTree nodes bp lo hi k s e) :
    ∀ fuel, nodes.length ≤ fuel + k →
      ∃ ht, tree_height nodes fuel k = some ht ∧ ht ≤ Nat.clog 2 (e - s) := by
  induction h with
  | leaf lo hi k s e hnode hsz =>
    intro fuel hfuel
    have hk : k < nodes.length := (IsTree.leaf lo hi k s e hnode hsz).lt_length
    obtain ⟨fuel, rfl⟩ : ∃ m, fuel = m + 1 := ⟨fuel - 1, by omega⟩
    refine ⟨0, ?_, Nat.zero_le _⟩
    rw [tree_height]
    simp [hnode]
  | node lo hi k s e n0 n1 lo0 hi0 lo1 hi1 hnode hsz hklo hlon0 hn01 hn1hi hlo0 hhi0 hlo1 hhi1
      h0 h1 ih0 ih1 =>
    intro fuel hfuel
    have hk : k < nodes.length :=
      (IsTree.node lo hi k s e n0 n1 lo0 hi0 lo1 hi1 hnode hsz hklo hlon0 hn01 hn1hi hlo0 hhi0
        hlo1 hhi1 h0 h1).lt_length
    obtain ⟨fuel, rfl⟩ : ∃ m, fuel = m + 1 := ⟨fuel - 1, by omega⟩
    obtain ⟨a, hA, tA⟩ := ih0 fuel (by omega)
    obtain ⟨b, hB, tB⟩ := ih1 fuel (by omega)
    have hmp : BVHAccelerator_min_prims = 4 := rfl
    refine ⟨max a b + 1, ?_, ?_⟩
    · rw [tree_height]
      simp [hnode, BVHNode.n0, BVHNode.n1, hA, hB]
    · exact clog_halves (e - s) (by omega) _ _ (by omega) (by omega) a b tA tB

/-- What the index-median split gives at every node reached from the root of
a built tree, and the height of the tree. -/
theorem tree_balance (bboxes : List range3f) (nodes : List BVHNode) (bp : List boxed_prim)
    (hperm : List.Perm bp (make_boxed_prims bboxes)) {hi : Nat}
    (hroot : IsTree nodes bp 1 hi 0 0 bboxes.length) :
    (∀ k, InTree nodes k →
      ∃ n s e, nodes[k]? = some n ∧ Covers nodes k s e ∧
        (n.leaf = false →
          Covers nodes n.n0 s ((s + e) / 2) ∧ Covers nodes n.n1 ((s + e) / 2) e ∧
          s < (s + e) / 2 ∧ (s + e) / 2 < e ∧
          (s + e) / 2 - s ≤ e - (s + e) / 2 ∧ e - (s + e) / 2 ≤ (s + e) / 2 - s + 1)) ∧
    ∃ ht, tree_height nodes nodes.length 0 = some ht ∧ ht ≤ Nat.clog 2 bboxes.length := by
  constructor
  · intro k hk
    obtain ⟨n, s, e, hn, hse, _, hcov, hleaf, _, _, _, hch⟩ :=
      tree_node_facts bboxes _ bp hperm hroot k hk
    refine ⟨n, s, e, hn, hcov, fun hl => ?_⟩
    have hsz : ¬ e - s ≤ BVHAccelerator_min_prims := by
      intro hc
      rw [hleaf.mpr hc] at hl
      cases hl
    have hmp : BVHAccelerator_min_prims = 4 := rfl
    exact ⟨(hch hl).1, (hch hl).2.1, by omega, by omega, by omega, by omega⟩
  · exact hroot.height nodes.length (by omega)

/-- C11: whichever axis policy is used, `make_accelerator_split` (with
`maxaxis` true or false) and `make_accelerator_split_kd_tree` return
`mid = (start+end)/2`; so in the trees built by `make_accelerator` and by the
kd-tree builder every internal node reached from the root, covering `[s, e)`,
has children covering `[s, mid)` and `[mid, e)`, both non-empty and differing
in size by at most one, and the height of the tree over `N` primitives (the
number of edges on its longest root-to-leaf path) is at most `ceil(log2 N)`. -/
theorem C11_median_split_balances_the_tree (sort : Sorter) (hsort : sort.permutes)
    (bboxes : List range3f) :
    (∀ (bp : List boxed_prim) (s e : Nat) (bbox : range3f) (maxaxis : Bool) (depth : Nat),
      (make_accelerator_split sort bp s e bbox maxaxis).2 = (s + e) / 2 ∧
      (make_accelerator_split_kd_tree sort bp s e depth).2 = (s + e) / 2) ∧
    (∀ nodes, nodes = (make_accelerator sort bboxes).nodes ∨
        nodes = (make_accelerator_kd_tree sort bboxes).nodes →
      (∀ k, InTree nodes k →
        ∃ n s e, nodes[k]? = some n ∧ Covers nodes k s e ∧
          (n.leaf = false →
            Covers nodes n.n0 s ((s + e) / 2) ∧ Covers nodes n.n1 ((s + e) / 2) e ∧
            s < (s + e) / 2 ∧ (s + e) / 2 < e ∧
            (s + e) / 2 - s ≤ e - (s + e) / 2 ∧ e - (s + e) / 2 ≤ (s + e) / 2 - s + 1)) ∧
      ∃ ht, tree_height nodes nodes.length 0 = some ht ∧ ht ≤ Nat.clog 2 bboxes.length) := by
  refine ⟨fun bp s e bbox maxaxis depth =>
    ⟨make_accelerator_split_mid sort bp s e bbox maxaxis,
      make_accelerator_split_kd_tree_mid sort bp s e depth⟩, ?_⟩
  rintro nodes (rfl | rfl)
  · obtain ⟨bp, hi, hperm, _, hroot⟩ := make_accelerator_tree sort hsort bboxes
    exact tree_balance bboxes _ bp hperm hroot
  · obtain ⟨bp, hi, hperm, _, hroot⟩ := make_accelerator_kd_tree_tree sort hsort bboxes
    exact tree_balance bboxes _ bp hperm hroot

theorem C11_witness :
    ∃ ht, tree_height (make_accelerator insertion_sort demo_bboxes).nodes
        (make_accelerator insertion_sort demo_bboxes).nodes.length 0 = some ht ∧
      ht ≤ Nat.clog 2 demo_bboxes.length :=
  ((C11_median_split_balances_the_tree insertion_sort insertion_sort_permutes demo_bboxes).2
    _ (Or.inl rfl)).2

/-! ## The slab test on rays without zero direction components -/

theorem slab_fin (ray : ray3f) (bbox : range3f) (i : Nat) (hd : ray.d.get i ≠ 0) (a b : ℚ) :
    slab ray bbox i (xfloat.fin a) (xfloat.fin b) =
      (xfloat.fin (max a (slab_interval ray bbox i).1),
        xfloat.fin (min b (slab_interval ray bbox i).2)) := by
  unfold slab slab_interval
  have hdiv : xfloat.div 1 (ray.d.get i) = xfloat.fin (1 / ray.d.get i) := by
    simp [xfloat.div, hd]
  rw [hdiv]
  simp only [xfloat.mul, xfloat.gt, xfloat.lt, gt_iff_lt]
  generalize (bbox.min.get i - ray.e.get i) * (1 / ray.d.get i) = tNear
  generalize (bbox.max.get i - ray.e.get i) * (1 / ray.d.get i) = tFar
  by_cases hsw : tFar < tNear
  · simp only [hsw, decide_True, if_true]
    by_cases h1 : a < tFar <;> by_cases h2 : tNear < b <;>
      simp [h1, h2, max_def, min_def, not_lt.mp, le_of_lt]
  · simp only [hsw, decide_False, if_false, Bool.false_eq_true]
    by_cases h1 : a < tNear <;> by_cases h2 : tFar < b <;>
      simp [h1, h2, max_def, min_def, not_lt.mp, le_of_lt]

theorem vec3f_get_zero (v : vec3f) : v.get 0 = v.x := rfl
theorem vec3f_get_one (v : vec3f) : v.get 1 = v.y := rfl
theorem vec3f_get_two (v : vec3f) : v.get 2 = v.z := rfl

theorem nonzero_components_get {ray : ray3f} (h : ray.nonzero_components) :
    ∀ i ∈ [0, 1, 2], ray.d.get i ≠ 0 := by
  intro i hi
  simp only [List.mem_cons, List.mem_singleton, List.not_mem_nil, or_false] at hi
  rcases hi with rfl | rfl | rfl
  · exact h.1
  · exact h.2.1
  · exact h.2.2

theorem forall_mem_axes (P : Nat → Prop) : (∀ i ∈ [0, 1, 2], P i) ↔ ∀ i, i < 3 → P i := by
  constructor
  · intro h i hi
    apply h
    interval_cases i <;> simp
  · intro h i hi
    apply h
    simp only [List.mem_cons, List.mem_singleton, List.not_mem_nil, or_false] at hi
    omega

/-- On the axes whose direction component is not zero the loop of
`intersect_bbox` succeeds exactly when the running interval and the slab
intervals of those axes have a parameter in common. -/
theorem intersect_bbox_loop_fin (ray : ray3f) (bbox : range3f) :
    ∀ (axes : List Nat), (∀ i ∈ axes, ray.d.get i ≠ 0) → ∀ a b : ℚ, a ≤ b ∨ axes ≠ [] →
      ((intersect_bbox_loop ray bbox axes (xfloat.fin a) (xfloat.fin b)).1 = true ↔
        ∃ t, a ≤ t ∧ t ≤ b ∧
          ∀ i ∈ axes, (slab_interval ray bbox i).1 ≤ t ∧ t ≤ (slab_interval ray bbox i).2) := by
  intro axes
  induction axes with
  | nil =>
    intro _ a b hab
    rcases hab with hab | hab
    · simp only [intersect_bbox_loop, true_iff]
      exact ⟨a, le_refl _, hab, by simp⟩
    · exact absurd rfl hab
  | cons i rest ih =>
    intro hd a b _
    have hdi := hd i (List.mem_cons_self _ _)
    have hdr : ∀ j ∈ rest, ray.d.get j ≠ 0 := fun j hj => hd j (List.mem_cons_of_mem _ hj)
    simp only [intersect_bbox_loop, slab_fin ray bbox i hdi, xfloat.gt, xfloat.lt]
    by_cases hgt : min b (slab_interval ray bbox i).2 < max a (slab_interval ray bbox i).1
    · simp only [hgt, decide_True, if_true, Bool.false_eq_true, false_iff, not_exists]
      rintro t ⟨h1, h2, h3⟩
      have h4 := h3 i (List.mem_cons_self _ _)
      have : max a (slab_interval ray bbox i).1 ≤ t := max_le h1 h4.1
      have : t ≤ min b (slab_interval ray bbox i).2 := le_min h2 h4.2
      linarith
    · simp only [hgt, decide_False, if_false, Bool.false_eq_true]
      rw [ih hdr _ _ (Or.inl (not_lt.mp hgt))]
      constructor
      · rintro ⟨t, h1, h2, h3⟩
        refine ⟨t, (max_le_iff.mp h1).1, (le_min_iff.mp h2).1, ?_⟩
        intro j hj
        rcases List.mem_cons.mp hj with rfl | hj
        · exact ⟨(max_le_iff.mp h1).2, (le_min_iff.mp h2).2⟩
        · exact h3 j hj
      · rintro ⟨t, h1, h2, h3⟩
        have h4 := h3 i (List.mem_cons_self _ _)
        exact ⟨t, max_le h1 h4.1, le_min h2 h4.2, fun j hj => h3 j (List.mem_cons_of_mem _ hj)⟩

/-- For a ray without zero direction components `intersect_bbox` succeeds
exactly when the interval of the ray and the three slab intervals have a
parameter in common. -/
theorem intersect_bbox_hit_iff_common (ray : ray3f) (bbox : range3f)
    (hd : ray.nonzero_components) :
    intersect_bbox_hit ray bbox = true ↔
      ∃ t, ray.tmin ≤ t ∧ t ≤ ray.tmax ∧
        ∀ i, i < 3 → (slab_interval ray bbox i).1 ≤ t ∧ t ≤ (slab_interval ray bbox i).2 := by
  unfold intersect_bbox_hit intersect_bbox
  rw [intersect_bbox_loop_fin ray bbox [0, 1, 2] (nonzero_components_get hd) _ _ (Or.inr (by simp))]
  simp only [forall_mem_axes (fun i =>
    (slab_interval ray bbox i).1 ≤ _ ∧ _ ≤ (slab_interval ray bbox i).2)]

/-- C12 (as amended): for every ray with non-zero direction components and
every bounding box, `intersect_bbox` returns false if and only if no parameter
lies at once in the interval `[tmin, tmax]` of the ray and in the slab
intervals `[tNear, tFar]` of all three axes; a slab interval that does not
overlap `[tmin, tmax]` on one axis is enough for that. -/
theorem C12_miss_iff_no_common_parameter (ray : ray3f) (bbox : range3f)
    (hd : ray.nonzero_components) :
    (intersect_bbox_hit ray bbox = false ↔
      ¬ ∃ t, ray.tmin ≤ t ∧ t ≤ ray.tmax ∧
        ∀ i, i < 3 → (slab_interval ray bbox i).1 ≤ t ∧ t ≤ (slab_interval ray bbox i).2) ∧
    ((∃ i, i < 3 ∧ ¬ overlaps (ray.tmin, ray.tmax) (slab_interval ray bbox i)) →
      intersect_bbox_hit ray bbox = false) := by
  have key := intersect_bbox_hit_iff_common ray bbox hd
  have h1 : intersect_bbox_hit ray bbox = false ↔
      ¬ ∃ t, ray.tmin ≤ t ∧ t ≤ ray.tmax ∧
        ∀ i, i < 3 → (slab_interval ray bbox i).1 ≤ t ∧ t ≤ (slab_interval ray bbox i).2 := by
    rw [← key]
    simp
  refine ⟨h1, ?_⟩
  rintro ⟨i, hi, hno⟩
  rw [h1]
  rintro ⟨t, ht0, ht1, hall⟩
  exact hno ⟨t, ht0, ht1, (hall i hi).1, (hall i hi).2⟩

theorem slab_interval_diagonal_offset :
    slab_interval diagonal_ray offset_box 0 = (1, 2) ∧
    slab_interval diagonal_ray offset_box 1 = (3, 4) ∧
    slab_interval diagonal_ray offset_box 2 = (0, 10) := by
  refine ⟨?_, ?_, ?_⟩ <;>
    norm_num [slab_interval, diagonal_ray, offset_box, vec3f.get]

theorem diagonal_ray_nonzero : diagonal_ray.nonzero_components := by
  norm_num [ray3f.nonzero_components, diagonal_ray]

theorem C12_witness :
    (intersect_bbox_hit diagonal_ray offset_box = false ↔
      ¬ ∃ t, diagonal_ray.tmin ≤ t ∧ t ≤ diagonal_ray.tmax ∧
        ∀ i, i < 3 → (slab_interval diagonal_ray offset_box i).1 ≤ t ∧
          t ≤ (slab_interval diagonal_ray offset_box i).2) ∧
    ((∃ i, i < 3 ∧ ¬ overlaps (diagonal_ray.tmin, diagonal_ray.tmax)
        (slab_interval diagonal_ray offset_box i)) →
      intersect_bbox_hit diagonal_ray offset_box = false) :=
  C12_miss_iff_no_common_parameter diagonal_ray offset_box diagonal_ray_nonzero

/-- C12 (counterexample): the ray from the origin along `(1,1,1)` with the
interval `[0, 10]` and the box from `(1,3,0)` to `(2,4,10)`.  The slab intervals
are `[1,2]`, `[3,4]` and `[0,10]`: each of them overlaps `[0, 10]`, but the
first two do not meet, and `intersect_bbox` returns false. -/
theorem C12_counterexample :
    diagonal_ray.nonzero_components ∧
    ¬ (intersect_bbox_hit diagonal_ray offset_box = false ↔
      ∃ i, i < 3 ∧ ¬ overlaps (diagonal_ray.tmin, diagonal_ray.tmax)
        (slab_interval diagonal_ray offset_box i)) := by
  refine ⟨diagonal_ray_nonzero, ?_⟩
  obtain ⟨s0, s1, s2⟩ := slab_interval_diagonal_offset
  have hmiss : intersect_bbox_hit diagonal_ray offset_box = false := by
    have key := intersect_bbox_hit_iff_common diagonal_ray offset_box diagonal_ray_nonzero
    cases hb : intersect_bbox_hit diagonal_ray offset_box with
    | false => rfl
    | true =>
      obtain ⟨t, _, _, hall⟩ := key.mp hb
      have h0 := hall 0 (by omega)
      have h1 := hall 1 (by omega)
      rw [s0] at h0
      rw [s1] at h1
      simp only at h0 h1
      linarith [h0.2, h1.1]
  intro hiff
  obtain ⟨i, hi, hno⟩ := hiff.mp hmiss
  apply hno
  have ht : diagonal_ray.tmin = 0 ∧ diagonal_ray.tmax = 10 := ⟨rfl, rfl⟩
  interval_cases i
  · rw [s0]; exact ⟨1, by norm_num [ht.1], by norm_num [ht.2], by norm_num, by norm_num⟩
  · rw [s1]; exact ⟨3, by norm_num [ht.1], by norm_num [ht.2], by norm_num, by norm_num⟩
  · rw [s2]; exact ⟨0, by norm_num [ht.1], by norm_num [ht.2], by norm_num, by norm_num⟩

/-! ## The slab test and the points of the ray -/

theorem slab_interval_mem (ray : ray3f) (bbox : range3f) (i : Nat) (hd : ray.d.get i ≠ 0)
    (hne : bbox.min.get i ≤ bbox.max.get i) (t : ℚ) :
    ((slab_interval ray bbox i).1 ≤ t ∧ t ≤ (slab_interval ray bbox i).2) ↔
      (bbox.min.get i ≤ ray.e.get i + ray.d.get i * t ∧
        ray.e.get i + ray.d.get i * t ≤ bbox.max.get i) := by
  unfold slab_interval
  generalize ray.d.get i = d at *
  generalize ray.e.get i = e at *
  generalize bbox.min.get i = lo at *
  generalize bbox.max.get i = hi at *
  simp only [gt_iff_lt]
  rcases lt_or_gt_of_ne hd with hneg | hpos
  · have hF : (hi - e) * (1 / d) ≤ t ↔ e + d * t ≤ hi := by
      rw [mul_one_div, div_le_iff_of_neg hneg]
      constructor <;> intro h <;> linarith
    have hN : t ≤ (lo - e) * (1 / d) ↔ lo ≤ e + d * t := by
      rw [mul_one_div, le_div_iff_of_neg hneg]
      constructor <;> intro h <;> linarith
    have hord : (hi - e) * (1 / d) ≤ (lo - e) * (1 / d) := by
      rw [mul_one_div, mul_one_div, div_le_div_right_of_neg hneg]
      linarith
    by_cases hsw : (hi - e) * (1 / d) < (lo - e) * (1 / d)
    · simp only [hsw, if_true]
      rw [hF, hN]
      exact and_comm
    · have heq : (lo - e) * (1 / d) = (hi - e) * (1 / d) := by linarith
      simp only [hsw, if_false]
      rw [← hN, ← hF, heq]
      exact and_comm
  · have hN : (lo - e) * (1 / d) ≤ t ↔ lo ≤ e + d * t := by
      rw [mul_one_div, div_le_iff₀ hpos]
      constructor <;> intro h <;> linarith
    have hF : t ≤ (hi - e) * (1 / d) ↔ e + d * t ≤ hi := by
      rw [mul_one_div, le_div_iff₀ hpos]
      constructor <;> intro h <;> linarith
    have hord : (lo - e) * (1 / d) ≤ (hi - e) * (1 / d) := by
      rw [mul_one_div, mul_one_div, div_le_div_iff_of_pos_right hpos]
      linarith
    have hsw : ¬ (hi - e) * (1 / d) < (lo - e) * (1 / d) := not_lt.mpr hord
    simp only [hsw, if_false]
    rw [hN, hF]

theorem range3f.contains_iff_get (b : range3f) (p : vec3f) :
    b.contains p ↔ ∀ i, i < 3 → b.min.get i ≤ p.get i ∧ p.get i ≤ b.max.get i := by
  constructor
  · intro h i _
    exact range3f.contains_get h i
  · intro h
    have h0 := h 0 (by omega)
    have h1 := h 1 (by omega)
    have h2 := h 2 (by omega)
    exact ⟨h0.1, h0.2, h1.1, h1.2, h2.1, h2.2⟩

/-! ## Shrinking the interval of the ray below the entry parameter -/

theorem xfloat.lt_trans {a b c : xfloat} (h1 : xfloat.lt a b = true)
    (h2 : xfloat.lt b c = true) : xfloat.lt a c = true := by
  cases a <;> cases b <;> cases c <;> simp_all [xfloat.lt]
  exact h1.trans h2

theorem xfloat.lt_raise (x t0 n : xfloat) (h : xfloat.lt x t0 = true) :
    xfloat.lt x (if n.gt t0 then n else t0) = true := by
  split_ifs with h1
  · exact xfloat.lt_trans h h1
  · exact h

theorem xfloat.lt_lower (t1 y f : xfloat) (h : xfloat.lt t1 y = true) :
    xfloat.lt (if f.lt t1 then f else t1) y = true := by
  split_ifs with h1
  · exact xfloat.lt_trans h1 h
  · exact h

theorem slab_ray_tmax (ray : ray3f) (bbox : range3f) (i : Nat) (t0 t1 : xfloat) (c : ℚ) :
    slab { ray with tmax := c } bbox i t0 t1 = slab ray bbox i t0 t1 := rfl

theorem slab_fst_indep (ray : ray3f) (bbox : range3f) (i : Nat) (t0 t1 t2 : xfloat) :
    (slab ray bbox i t0 t1).1 = (slab ray bbox i t0 t2).1 := rfl

theorem slab_fst_ge (ray : ray3f) (bbox : range3f) (i : Nat) (t0 t1 x : xfloat)
    (h : xfloat.lt x t0 = true) : xfloat.lt x (slab ray bbox i t0 t1).1 = true := by
  simp only [slab]
  exact xfloat.lt_raise _ _ _ h

theorem slab_snd_le (ray : ray3f) (bbox : range3f) (i : Nat) (t0 t1 y : xfloat)
    (h : xfloat.lt t1 y = true) : xfloat.lt (slab ray bbox i t0 t1).2 y = true := by
  simp only [slab]
  exact xfloat.lt_lower _ _ _ h

/-- A run of the loop of `intersect_bbox` that succeeds with the entry
parameter `r0` fails when it is restarted with an upper bound below `r0`,
unless that bound is already below the lower bound it starts with. -/
theorem intersect_bbox_loop_shrunk (ray : ray3f) (bbox : range3f) (c : ℚ) :
    ∀ (axes : List Nat) (t0 t1 t2 r0 r1 : xfloat),
      intersect_bbox_loop ray bbox axes t0 t1 = (true, r0, r1) → xfloat.lt t2 r0 = true →
      (intersect_bbox_loop { ray with tmax := c } bbox axes t0 t2).1 = false ∨
        xfloat.lt t2 t0 = true := by
  intro axes
  induction axes with
  | nil =>
    intro t0 t1 t2 r0 r1 hrun hlt
    simp only [intersect_bbox_loop, Prod.mk.injEq, true_and] at hrun
    rw [← hrun.1] at hlt
    exact Or.inr hlt
  | cons i rest ih =>
    intro t0 t1 t2 r0 r1 hrun hlt
    left
    simp only [intersect_bbox_loop] at hrun ⊢
    rw [slab_ray_tmax]
    by_cases hgt : (slab ray bbox i t0 t1).1.gt (slab ray bbox i t0 t1).2 = true
    · rw [if_pos hgt] at hrun
      simp at hrun
    · rw [if_neg hgt] at hrun
      by_cases hgt2 : (slab ray bbox i t0 t2).1.gt (slab ray bbox i t0 t2).2 = true
      · rw [if_pos hgt2]
      · rw [if_neg hgt2]
        rw [slab_fst_indep ray bbox i t0 t2 t1]
        rcases ih _ _ (slab ray bbox i t0 t2).2 r0 r1 hrun
          (slab_snd_le ray bbox i t0 t2 r0 hlt) with h | h
        · exact h
        · exfalso
          apply hgt2
          rw [slab_fst_indep ray bbox i t0 t2 t1]
          exact h

theorem intersect_bbox_loop_inverted (ray : ray3f) (bbox : range3f) (i : Nat) (rest : List Nat)
    (t0 t2 : xfloat) (h : xfloat.lt t2 t0 = true) :
    (intersect_bbox_loop ray bbox (i :: rest) t0 t2).1 = false := by
  simp only [intersect_bbox_loop]
  have hgt : (slab ray bbox i t0 t2).1.gt (slab ray bbox i t0 t2).2 = true :=
    slab_fst_ge ray bbox i t0 t2 _ (slab_snd_le ray bbox i t0 t2 t0 h)
  rw [if_pos hgt]

/-- C14: if `intersect_bbox(ray, box, t0, t1)` succeeds and reports the entry
parameter `t0`, then for the same ray with `tmax` replaced by any value smaller
than `t0`, `intersect_bbox` reports a miss. -/
theorem C14_shrinking_tmax_below_entry_misses (ray : ray3f) (bbox : range3f)
    (t0 t1 : xfloat) (tmax2 : ℚ) (hhit : intersect_bbox ray bbox = (true, t0, t1))
    (hlt : xfloat.lt (xfloat.fin tmax2) t0 = true) :
    (intersect_bbox { ray with tmax := tmax2 } bbox).1 = false := by
  unfold intersect_bbox at hhit ⊢
  rcases intersect_bbox_loop_shrunk ray bbox tmax2 [0, 1, 2] (xfloat.fin ray.tmin)
    (xfloat.fin ray.tmax) (xfloat.fin tmax2) t0 t1 hhit hlt with h | h
  · exact h
  · exact intersect_bbox_loop_inverted { ray with tmax := tmax2 } bbox 0 [1, 2] _ _ h

theorem intersect_bbox_diagonal_cube :
    intersect_bbox diagonal_ray unit_cube_at_one = (true, xfloat.fin 1, xfloat.fin 2) := by
  have hd := diagonal_ray_nonzero
  simp only [intersect_bbox, intersect_bbox_loop, slab_fin diagonal_ray unit_cube_at_one 0 hd.1,
    slab_fin diagonal_ray unit_cube_at_one 1 hd.2.1,
    slab_fin diagonal_ray unit_cube_at_one 2 hd.2.2]
  norm_num [slab_interval, diagonal_ray, unit_cube_at_one, vec3f.get, xfloat.gt, xfloat.lt]

theorem C14_witness :
    intersect_bbox diagonal_ray unit_cube_at_one = (true, xfloat.fin 1, xfloat.fin 2) ∧
    (intersect_bbox { diagonal_ray with tmax := 1 / 2 } unit_cube_at_one).1 = false :=
  ⟨intersect_bbox_diagonal_cube,
    C14_shrinking_tmax_below_entry_misses diagonal_ray unit_cube_at_one (xfloat.fin 1)
      (xfloat.fin 2) (1 / 2) intersect_bbox_diagonal_cube
      (by simp only [xfloat.lt, decide_eq_true_eq]; norm_num)⟩

/-! ## The sphere -/

theorem rat_sqrt_mul_self (q : ℚ) (hq : 0 ≤ q) : rat_sqrt (q * q) = q := by
  unfold rat_sqrt
  rw [Rat.mul_self_num, Rat.mul_self_den]
  have hn : 0 ≤ q.num := Rat.num_nonneg.mpr hq
  obtain ⟨n, hn2⟩ := Int.eq_ofNat_of_zero_le hn
  rw [hn2]
  have e1 : ((n : ℤ) * (n : ℤ)).toNat = n * n := by
    rw [← Int.natCast_mul, Int.toNat_natCast]
  rw [e1, Nat.sqrt_eq, Nat.sqrt_eq]
  have := Rat.num_div_den q
  rw [hn2, Int.cast_natCast] at this
  exact this

theorem intersect_quad_eq_some_iff (ray : ray3f) (radius t : ℚ) (p : vec3f) :
    intersect_quad ray radius = some (t, p) ↔
      ray.d.z ≠ 0 ∧ t = -ray.e.z / ray.d.z ∧ p = ray.eval t ∧
        ray.tmin ≤ t ∧ t ≤ ray.tmax ∧ |p.x| ≤ radius ∧ |p.y| ≤ radius := by
  unfold intersect_quad
  by_cases hz : ray.d.z = 0
  · simp [hz]
  · simp only [hz, if_false, gt_iff_lt]
    split_ifs with h1 h2
    · simp only [false_iff, not_and, ne_eq, not_false_eq_true, true_implies, reduceCtorEq]
      rintro _ rfl rfl _ _ hx hy
      rw [abs_le] at hx hy
      rcases h1 with h | h | h | h <;> linarith [hx.1, hx.2, hy.1, hy.2]
    · simp only [false_iff, not_and, ne_eq, not_false_eq_true, true_implies, reduceCtorEq]
      rintro _ rfl rfl h3 h4 _ hy
      rcases h2 with h | h <;> linarith
    · simp only [not_or, not_lt] at h1 h2
      simp only [Option.some.injEq, Prod.mk.injEq, ne_eq, hz, not_false_eq_true, true_and]
      constructor
      · rintro ⟨rfl, rfl⟩
        refine ⟨rfl, rfl, h2.1, h2.2, abs_le.mpr ⟨by linarith [h1.2.1], h1.1⟩,
          abs_le.mpr ⟨by linarith [h1.2.2.2], h1.2.2.1⟩⟩
      · rintro ⟨rfl, rfl, _⟩
        exact ⟨rfl, rfl⟩

theorem intersect_quad_tie_ray : intersect_quad tie_ray 1 = some (5, ⟨0, 0, 0⟩) := by
  rw [intersect_quad_eq_some_iff]
  norm_num [tie_ray, ray3f.eval, vec3f.smul, vec3f_add_eq, ray3f_epsilon, ray3f_rayinf]

theorem unit_quad_tie_ray : transform_ray_inverse unit_quad.frame tie_ray = tie_ray := by
  simp [transform_ray_inverse, transform_point_inverse, transform_vector_inverse, unit_quad,
    identity_frame3f, tie_ray, dot, vec3f_sub_eq]

theorem cylinder_side_upward (m : libm) (h1 : m.sqrt (1 / 25) = 1 / 5) (st : ℚ × vec3f) :
    cylinder_side m upward_ray 1 1 st = st := by
  unfold cylinder_side
  norm_num [upward_ray, h1, ray3f_epsilon, ray3f_rayinf]

theorem cylinder_top_upward (m : libm) (h2 : m.sqrt (9 / 25) = 3 / 5) (n : vec3f) :
    cylinder_top m upward_ray 1 1 (ray3f_rayinf, n) = (6, ⟨0, 0, 1⟩) := by
  unfold cylinder_top
  norm_num [upward_ray, h2, ray3f_epsilon, ray3f_rayinf, dot, length, lengthSqr, fabs,
    ray3f.eval, vec3f.smul, vec3f_add_eq, vec3f_sub_eq]

theorem cylinder_bottom_upward (m : libm) (st : ℚ × vec3f) :
    cylinder_bottom m upward_ray 1 1 st = st := by
  unfold cylinder_bottom
  norm_num [upward_ray, ray3f_epsilon, ray3f_rayinf, dot, length, lengthSqr, fabs,
    ray3f.eval, vec3f.smul, vec3f_add_eq, vec3f_sub_eq]

/-- The block for the bottom cap changes nothing when the ray is not horizontal
and the height is not tiny: its plane is the plane `z = height` of the top cap,
where `fabs(sur_point.z+height)` is `2*height`. -/
theorem cylinder_bottom_idle (m : libm) (ray : ray3f) (radius height : ℚ)
    (st : ℚ × vec3f) (hdz : ray.d.z ≠ 0) (hh : 1 / 1000000 ≤ 2 * height) :
    cylinder_bottom m ray radius height st = st := by
  unfold cylinder_bottom
  have hz : (ray.eval (dot ((⟨0, 0, height⟩ : vec3f) - ray.e) ⟨0, 0, -1⟩ /
      dot ray.d ⟨0, 0, -1⟩)).z = height := by
    simp only [ray3f.eval, vec3f.smul, vec3f_add_eq, vec3f_sub_eq, dot]
    have e1 : ray.d.x * 0 + ray.d.y * 0 + ray.d.z * -1 = -ray.d.z := by ring
    have e2 : (0 - ray.e.x) * 0 + (0 - ray.e.y) * 0 + (height - ray.e.z) * -1 =
        -(height - ray.e.z) := by ring
    rw [e1, e2, neg_div_neg_eq, mul_div_cancel₀ _ hdz]
    ring
  simp only [hz]
  have hf : ¬ fabs (height + height) < 1 / 1000000 := by
    unfold fabs
    split_ifs <;> linarith
  simp only [hf, and_false, if_false, ite_self]

/-- C18 (at the failing input): for the cylinder of radius 1 and height 1 and
the ray from `(0,0,-5)` along `(1/10, 0, 1)`, which first meets the cylinder on
the bottom cap, at `t = 4` in the point `(2/5, 0, -1)` of the plane
`z = -height` within the radius, `intersect_cylinder` returns `t = 6` with the
normal `(0,0,1)` of the top cap: the block for the bottom cap places its plane
at `bot_o = (0,0,height)` and then tests `fabs(sur_point.z+height)`, so it
leaves `t` and `norm` as they were. -/
theorem C18_bottom_cap_is_never_reported (m : libm) (h1 : m.sqrt (1 / 25) = 1 / 5)
    (h2 : m.sqrt (9 / 25) = 3 / 5) :
    intersect_cylinder m upward_ray 1 1 zero3f = some (6, ⟨0, 0, 1⟩) ∧
    (∀ st, cylinder_bottom m upward_ray 1 1 st = st) ∧
    upward_ray.tmin < 4 ∧ 4 < upward_ray.tmax ∧ upward_ray.eval 4 = ⟨2 / 5, 0, -1⟩ ∧
    lengthSqr (upward_ray.eval 4 - ⟨0, 0, -1⟩) ≤ 1 * 1 := by
  refine ⟨?_, cylinder_bottom_upward m, ?_, ?_, ?_, ?_⟩
  · unfold intersect_cylinder
    have e1 : upward_ray.tmax = ray3f_rayinf := rfl
    rw [cylinder_side_upward m h1, e1, cylinder_top_upward m h2, cylinder_bottom_upward m]
    norm_num [ray3f_rayinf]
  · norm_num [upward_ray, ray3f_epsilon]
  · norm_num [upward_ray, ray3f_rayinf]
  · norm_num [upward_ray, ray3f.eval, vec3f.smul, vec3f_add_eq]
  · norm_num [upward_ray, ray3f.eval, vec3f.smul, vec3f_add_eq, vec3f_sub_eq, lengthSqr, dot]

theorem C18_witness :
    intersect_cylinder rational_libm upward_ray 1 1 zero3f = some (6, ⟨0, 0, 1⟩) :=
  (C18_bottom_cap_is_never_reported rational_libm
    (by
      show rat_sqrt (1 / 25) = 1 / 5
      have := rat_sqrt_mul_self (1 / 5) (by norm_num)
      norm_num at this
      norm_num
      exact this)
    (by
      show rat_sqrt (9 / 25) = 3 / 5
      have := rat_sqrt_mul_self (3 / 5) (by norm_num)
      norm_num at this
      exact this)).1

/-! ## The triangle -/

/-- The values `intersect_triangle` computes solve the system. -/
theorem triangle_solution_code (ray : ray3f) (v0 v1 v2 : vec3f)
    (hden : triangle_denominator ray v0 v1 v2 ≠ 0) :
    triangle_solution ray v0 v1 v2
      (dot (cross (ray.e - v2) (v0 - v2)) (v1 - v2) / triangle_denominator ray v0 v1 v2)
      (dot (cross ray.d (v1 - v2)) (ray.e - v2) / triangle_denominator ray v0 v1 v2)
      (dot (cross (ray.e - v2) (v0 - v2)) ray.d / triangle_denominator ray v0 v1 v2) := by
  have hx := triangle_point ray.e ray.d v0 v1 v2 hden 0
  have hy := triangle_point ray.e ray.d v0 v1 v2 hden 1
  have hz := triangle_point ray.e ray.d v0 v1 v2 hden 2
  simp only [vec3f_get_zero, vec3f_get_one, vec3f_get_two] at hx hy hz
  unfold triangle_denominator
  simp only [triangle_solution, ray3f.eval, vec3f.smul, vec3f_add_eq, vec3f.mk.injEq]
  refine ⟨?_, ?_, ?_⟩
  · rw [hx]; ring
  · rw [hy]; ring
  · rw [hz]; ring

/-- A solution of the system is the one `intersect_triangle` computes. -/
theorem triangle_solution_unique (ray : ray3f) (v0 v1 v2 : vec3f) (t u v : ℚ)
    (hden : triangle_denominator ray v0 v1 v2 ≠ 0)
    (hsol : triangle_solution ray v0 v1 v2 t u v) :
    t = dot (cross (ray.e - v2) (v0 - v2)) (v1 - v2) / triangle_denominator ray v0 v1 v2 ∧
    u = dot (cross ray.d (v1 - v2)) (ray.e - v2) / triangle_denominator ray v0 v1 v2 ∧
    v = dot (cross (ray.e - v2) (v0 - v2)) ray.d / triangle_denominator ray v0 v1 v2 := by
  simp only [triangle_solution, ray3f.eval, vec3f.smul, vec3f_add_eq, vec3f.mk.injEq] at hsol
  obtain ⟨hx, hy, hz⟩ := hsol
  refine ⟨?_, ?_, ?_⟩
  · rw [eq_div_iff hden]
    simp only [triangle_denominator, dot, cross, vec3f_sub_eq]
    linear_combination
      (-((v0.y - v2.y) * (v1.z - v2.z) - (v0.z - v2.z) * (v1.y - v2.y))) * hx +
      (-((v0.z - v2.z) * (v1.x - v2.x) - (v0.x - v2.x) * (v1.z - v2.z))) * hy +
      (-((v0.x - v2.x) * (v1.y - v2.y) - (v0.y - v2.y) * (v1.x - v2.x))) * hz
  · rw [eq_div_iff hden]
    simp only [triangle_denominator, dot, cross, vec3f_sub_eq]
    linear_combination
      (-(ray.d.y * (v1.z - v2.z) - ray.d.z * (v1.y - v2.y))) * hx +
      (-(ray.d.z * (v1.x - v2.x) - ray.d.x * (v1.z - v2.z))) * hy +
      (-(ray.d.x * (v1.y - v2.y) - ray.d.y * (v1.x - v2.x))) * hz
  · rw [eq_div_iff hden]
    simp only [triangle_denominator, dot, cross, vec3f_sub_eq]
    linear_combination
      ((ray.d.y * (v0.z - v2.z) - ray.d.z * (v0.y - v2.y))) * hx +
      ((ray.d.z * (v0.x - v2.x) - ray.d.x * (v0.z - v2.z))) * hy +
      ((ray.d.x * (v0.y - v2.y) - ray.d.y * (v0.x - v2.x))) * hz

theorem intersect_triangle_eq_some_iff (ray : ray3f) (v0 v1 v2 : vec3f) (t u v : ℚ) :
    intersect_triangle ray v0 v1 v2 = some (t, u, v) ↔
      triangle_denominator ray v0 v1 v2 ≠ 0 ∧ triangle_solution ray v0 v1 v2 t u v ∧
        ray.tmin ≤ t ∧ t ≤ ray.tmax ∧ 0 ≤ u ∧ 0 ≤ v ∧ u + v ≤ 1 := by
  by_cases hden : triangle_denominator ray v0 v1 v2 = 0
  · have hnone : intersect_triangle ray v0 v1 v2 = none := by
      unfold triangle_denominator at hden
      simp [intersect_triangle, hden]
    rw [hnone]
    simp [hden]
  · have hcode := triangle_solution_code ray v0 v1 v2 hden
    have huniq := triangle_solution_unique ray v0 v1 v2 t u v hden
    have hden2 : ¬ dot (cross ray.d (v1 - v2)) (v0 - v2) = 0 := hden
    have hstep : intersect_triangle ray v0 v1 v2 =
        if dot (cross (ray.e - v2) (v0 - v2)) (v1 - v2) / triangle_denominator ray v0 v1 v2 >
              ray.tmax ∨
            dot (cross (ray.e - v2) (v0 - v2)) (v1 - v2) / triangle_denominator ray v0 v1 v2 <
              ray.tmin then none
        else if dot (cross ray.d (v1 - v2)) (ray.e - v2) / triangle_denominator ray v0 v1 v2 < 0 ∨
            dot (cross (ray.e - v2) (v0 - v2)) ray.d / triangle_denominator ray v0 v1 v2 < 0 ∨
            dot (cross ray.d (v1 - v2)) (ray.e - v2) / triangle_denominator ray v0 v1 v2 +
              dot (cross (ray.e - v2) (v0 - v2)) ray.d / triangle_denominator ray v0 v1 v2 > 1
          then none
        else some
          (dot (cross (ray.e - v2) (v0 - v2)) (v1 - v2) / triangle_denominator ray v0 v1 v2,
            dot (cross ray.d (v1 - v2)) (ray.e - v2) / triangle_denominator ray v0 v1 v2,
            dot (cross (ray.e - v2) (v0 - v2)) ray.d / triangle_denominator ray v0 v1 v2) := by
      unfold intersect_triangle triangle_denominator
      simp only [hden2, if_false]
    rw [hstep]
    generalize dot (cross (ray.e - v2) (v0 - v2)) (v1 - v2) /
      triangle_denominator ray v0 v1 v2 = T at hcode huniq ⊢
    generalize dot (cross ray.d (v1 - v2)) (ray.e - v2) /
      triangle_denominator ray v0 v1 v2 = U at hcode huniq ⊢
    generalize dot (cross (ray.e - v2) (v0 - v2)) ray.d /
      triangle_denominator ray v0 v1 v2 = V at hcode huniq ⊢
    constructor
    · intro h
      split_ifs at h with h1 h2
      simp only [Option.some.injEq, Prod.mk.injEq] at h
      obtain ⟨rfl, rfl, rfl⟩ := h
      simp only [not_or, not_lt, gt_iff_lt] at h1 h2
      exact ⟨hden, hcode, h1.2, h1.1, h2.1, h2.2.1, h2.2.2⟩
    · rintro ⟨_, hsol, h3, h4, h5, h6, h7⟩
      obtain ⟨rfl, rfl, rfl⟩ := huniq hsol
      have h1 : ¬ (t > ray.tmax ∨ t < ray.tmin) := by
        rintro (h | h) <;> linarith
      have h2 : ¬ (u < 0 ∨ v < 0 ∨ u + v > 1) := by
        rintro (h | h | h) <;> linarith
      rw [if_neg h1, if_neg h2]

/-! ## The triangle solver of the final submission -/

theorem xfloat.mul_pinf (a : ℚ) :
    xfloat.mul a xfloat.pinf =
      if a = 0 then xfloat.nan else if 0 < a then xfloat.pinf else xfloat.ninf := rfl

/-- With a zero denominator the solver of the final submission reports a hit
exactly when its three numerators are zero as well, and the outputs are then
`NaN`. -/
theorem finalsubmission.intersect_triangle_zero_denominator (ray : ray3f) (v0 v1 v2 : vec3f)
    (hden : triangle_denominator ray v0 v1 v2 = 0) :
    finalsubmission.intersect_triangle ray v0 v1 v2 =
      if dot (cross ray.d (v1 - v2)) (ray.e - v2) = 0 ∧
          dot (cross (ray.e - v2) (v0 - v2)) ray.d = 0 ∧
          dot (cross (ray.e - v2) (v0 - v2)) (v1 - v2) = 0 then
        some (xfloat.nan, xfloat.nan, xfloat.nan)
      else none := by
  unfold triangle_denominator at hden
  unfold finalsubmission.intersect_triangle
  simp only [hden]
  have hdiv : xfloat.div 1 0 = xfloat.pinf := by simp [xfloat.div]
  rw [hdiv]
  simp only [xfloat.mul_pinf]
  generalize dot (cross ray.d (v1 - v2)) (ray.e - v2) = nu
  generalize dot (cross (ray.e - v2) (v0 - v2)) ray.d = nv
  generalize dot (cross (ray.e - v2) (v0 - v2)) (v1 - v2) = nt
  by_cases hu : nu = 0
  · by_cases hv : nv = 0
    · by_cases ht : nt = 0
      · simp [hu, hv, ht, xfloat.lt, xfloat.gt, xfloat.add]
      · by_cases htp : 0 < nt
        · simp [hu, hv, ht, htp, xfloat.lt, xfloat.gt, xfloat.add]
        · simp [hu, hv, ht, htp, xfloat.lt, xfloat.gt, xfloat.add]
    · by_cases hvp : 0 < nv
      · simp [hu, hv, hvp, xfloat.lt, xfloat.gt, xfloat.add]
      · simp [hu, hv, hvp, xfloat.lt, xfloat.gt, xfloat.add]
  · by_cases hup : 0 < nu
    · simp [hu, hup, xfloat.lt, xfloat.gt, xfloat.add]
    · simp [hu, hup, xfloat.lt, xfloat.gt, xfloat.add]

/-- C20 (at the failing input): the ray from the vertex `v2 = (0,0,0)` of the
triangle `(1,0,0), (0,1,0), (0,0,0)` along `(1,0,0)` lies in the plane of the
triangle, so the denominator `dot(cross(d, v1-v2), v0-v2)` is zero; the solver
of the final submission reports a hit for it, with `NaN` as `hit_t`, `bary_u`
and `bary_v`, and so it does for every ray against a triangle whose three
vertices coincide.  The solver of `assignment01`, which tests the denominator,
reports no hit. -/
theorem C20_zero_denominator_reports_a_hit :
    triangle_denominator in_plane_ray corner_v0 corner_v1 corner_v2 = 0 ∧
    finalsubmission.intersect_triangle in_plane_ray corner_v0 corner_v1 corner_v2 =
      some (xfloat.nan, xfloat.nan, xfloat.nan) ∧
    intersect_triangle in_plane_ray corner_v0 corner_v1 corner_v2 = none ∧
    (∀ (ray : ray3f) (p : vec3f),
      triangle_denominator ray p p p = 0 ∧
      finalsubmission.intersect_triangle ray p p p =
        some (xfloat.nan, xfloat.nan, xfloat.nan)) := by
  have hden : triangle_denominator in_plane_ray corner_v0 corner_v1 corner_v2 = 0 := by
    norm_num [triangle_denominator, in_plane_ray, corner_v0, corner_v1, corner_v2, dot, cross,
      vec3f_sub_eq]
  refine ⟨hden, ?_, ?_, ?_⟩
  · rw [finalsubmission.intersect_triangle_zero_denominator _ _ _ _ hden]
    norm_num [in_plane_ray, corner_v0, corner_v1, corner_v2, dot, cross, vec3f_sub_eq]
  · have hd2 : dot (cross in_plane_ray.d (corner_v1 - corner_v2)) (corner_v0 - corner_v2) = 0 :=
      hden
    simp [intersect_triangle, hd2]
  · intro ray p
    have hd : triangle_denominator ray p p p = 0 := by
      simp [triangle_denominator, dot, cross, vec3f_sub_eq]
    refine ⟨hd, ?_⟩
    rw [finalsubmission.intersect_triangle_zero_denominator _ _ _ _ hd]
    simp [dot, cross, vec3f_sub_eq]

/-! ## Meshes with quads left -/

theorem intersect_shadow_meshes_append_fatal (ray : ray3f) (mesh : Mesh) (post : List Mesh)
    (hq : mesh.quad ≠ []) :
    ∀ (pre : List Mesh),
      (∀ x ∈ pre, x.quad = [] ∧
        intersect_shadow_mesh x (transform_ray_inverse x.frame ray) = some false) →
      intersect_shadow_meshes ray (pre ++ mesh :: post) =
        Outcome.fatal "quad intersection is not supported" := by
  intro pre
  induction pre with
  | nil =>
    intro _
    have : mesh.quad.isEmpty = false := by
      cases hm : mesh.quad with
      | nil => exact absurd hm hq
      | cons a l => rfl
    simp [intersect_shadow_meshes, this]
  | cons x pre ih =>
    intro hpre
    obtain ⟨hx1, hx2⟩ := hpre x (List.mem_cons_self _ _)
    simp only [List.cons_append, intersect_shadow_meshes, hx1, List.isEmpty_nil, Bool.not_true,
      Bool.false_eq_true, if_false, hx2]
    exact ih (fun y hy => hpre y (List.mem_cons_of_mem _ hy))

theorem intersect_meshes_append_fatal (m : libm) (ray : ray3f) (mesh : Mesh) (post : List Mesh)
    (hq : mesh.quad ≠ []) :
    ∀ (pre : List Mesh) (acc : intersection3f),
      (∀ x ∈ pre, x.quad = [] ∧
        intersect_mesh m x (transform_ray_inverse x.frame ray) ≠ none) →
      intersect_meshes m ray (pre ++ mesh :: post) acc =
        Outcome.fatal "quad intersection is not supported" := by
  intro pre
  induction pre with
  | nil =>
    intro acc _
    have : mesh.quad.isEmpty = false := by
      cases hm : mesh.quad with
      | nil => exact absurd hm hq
      | cons a l => rfl
    simp [intersect_meshes, this]
  | cons x pre ih =>
    intro acc hpre
    obtain ⟨hx1, hx2⟩ := hpre x (List.mem_cons_self _ _)
    have hrest := fun acc2 => ih acc2 (fun y hy => hpre y (List.mem_cons_of_mem _ hy))
    cases hm : intersect_mesh m x (transform_ray_inverse x.frame ray) with
    | none => exact absurd hm hx2
    | some s =>
      simp only [List.cons_append, intersect_meshes, hx1, List.isEmpty_nil, Bool.not_true,
        Bool.false_eq_true, if_false, hm]
      split_ifs <;> exact hrest _

/-- C23 (as amended): `intersect(scene, ray)` aborts with the fatal error
"quad intersection is not supported" whenever some mesh of the scene still has
un-triangulated quads (the meshes in front of it being traversed without
trouble); `intersect_shadow(scene, ray)` aborts with that error when it reaches
such a mesh, that is, when no surface of the scene and no mesh in front of that
mesh is hit by the ray; when a surface is hit it returns true without looking
at any mesh. -/
theorem C23_shadow_aborts_only_when_it_reaches_the_quads (m : libm) (scene : Scene)
    (ray : ray3f) (pre post : List Mesh) (mesh : Mesh)
    (hmeshes : scene.meshes = pre ++ mesh :: post) (hq : mesh.quad ≠ []) :
    ((∀ x ∈ pre, x.quad = [] ∧
        intersect_mesh m x (transform_ray_inverse x.frame ray) ≠ none) →
      scene.intersect m ray = Outcome.fatal "quad intersection is not supported") ∧
    (scene.surfaces.any (intersect_shadow_surface m ray) = false →
      (∀ x ∈ pre, x.quad = [] ∧
        intersect_shadow_mesh x (transform_ray_inverse x.frame ray) = some false) →
      scene.intersect_shadow m ray = Outcome.fatal "quad intersection is not supported") ∧
    (scene.surfaces.any (intersect_shadow_surface m ray) = true →
      scene.intersect_shadow m ray = Outcome.value true) := by
  refine ⟨?_, ?_, ?_⟩
  · intro hpre
    unfold Scene.intersect
    rw [hmeshes]
    exact intersect_meshes_append_fatal m ray mesh post hq pre _ hpre
  · intro hs hpre
    unfold Scene.intersect_shadow
    rw [hs, hmeshes]
    simp only [Bool.false_eq_true, if_false]
    exact intersect_shadow_meshes_append_fatal ray mesh post hq pre hpre
  · intro hs
    unfold Scene.intersect_shadow
    rw [hs]
    simp

theorem unit_quad_shadow_tie_ray :
    intersect_shadow_surface sample_libm tie_ray unit_quad = true := by
  have h : intersect_quad (transform_ray_inverse unit_quad.frame tie_ray) unit_quad.radius =
      some (5, ⟨0, 0, 0⟩) := by
    rw [unit_quad_tie_ray]
    exact intersect_quad_tie_ray
  have hq : unit_quad.isquad = true := rfl
  simp only [intersect_shadow_surface, hq, if_true, h, Option.isSome_some]

theorem C23_witness :
    quad_mesh_scene.intersect sample_libm tie_ray =
      Outcome.fatal "quad intersection is not supported" ∧
    quad_mesh_scene.intersect_shadow sample_libm tie_ray = Outcome.value true :=
  have h := C23_shadow_aborts_only_when_it_reaches_the_quads sample_libm quad_mesh_scene tie_ray
    [] [] quad_mesh rfl (by simp [quad_mesh])
  ⟨h.1 (by simp), h.2.2 (by
    show [unit_quad].any (intersect_shadow_surface sample_libm tie_ray) = true
    simp [unit_quad_shadow_tie_ray])⟩

/-- C23 (counterexample): in a scene with the unit quad as a surface and a
mesh that still has an un-triangulated quad, the ray from `(0,0,5)` straight
down hits the surface, and `intersect_shadow` returns true: it does not abort,
while `intersect` does. -/
theorem C23_counterexample :
    (∃ mesh ∈ quad_mesh_scene.meshes, mesh.quad ≠ []) ∧
    quad_mesh_scene.intersect_shadow sample_libm tie_ray = Outcome.value true ∧
    quad_mesh_scene.intersect sample_libm tie_ray =
      Outcome.fatal "quad intersection is not supported" := by
  refine ⟨⟨quad_mesh, by simp [quad_mesh_scene], by simp [quad_mesh]⟩, ?_, ?_⟩
  · unfold Scene.intersect_shadow
    have : quad_mesh_scene.surfaces.any (intersect_shadow_surface sample_libm tie_ray) = true := by
      show [unit_quad].any (intersect_shadow_surface sample_libm tie_ray) = true
      simp [unit_quad_shadow_tie_ray]
    rw [this]
    simp
  · unfold Scene.intersect
    exact intersect_meshes_append_fatal sample_libm tie_ray quad_mesh [] (by simp [quad_mesh]) []
      _ (by simp)

/-! ## `accelerate` -/

theorem triangulate_quads_eq (quad : List vec4i) :
    ∀ triangle, triangulate_quads triangle quad = triangle ++ quad.flatMap quad_triangles := by
  induction quad with
  | nil => intro triangle; simp [triangulate_quads]
  | cons f rest ih =>
    intro triangle
    have hstep : triangulate_quads triangle (f :: rest) =
        triangulate_quads ((triangle ++ [⟨f.x, f.y, f.z⟩]) ++ [⟨f.x, f.z, f.w⟩]) rest := rfl
    rw [hstep, ih]
    simp [quad_triangles]

theorem accelerate_mesh_geometry (sort : Sorter) (mesh : Mesh) :
    (accelerate_mesh sort mesh).quad = [] ∧
    (accelerate_mesh sort mesh).triangle = mesh.triangle ++ mesh.quad.flatMap quad_triangles ∧
    (accelerate_mesh sort mesh).pos = mesh.pos ∧
    (accelerate_mesh sort mesh).frame = mesh.frame := by
  unfold accelerate_mesh
  simp only
  split_ifs <;> exact ⟨rfl, triangulate_quads_eq _ _, rfl, rfl⟩

/-- C24 (as amended): for every scene whose flag `accelerate_bvh` is set,
after `accelerate(scene)` every mesh has an empty quad list and its triangle
list is its previous triangle list followed, for each former quad `(x,y,z,w)`
in order, by the two triangles `(x,y,z)` and `(x,z,w)`, which share the
diagonal `x-z`; for a scene whose flag is not set `accelerate` leaves the quad
and triangle lists of every mesh as they were. -/
theorem C24_accelerate_triangulates_when_bvh_is_on (sort : Sorter) (scene : Scene) :
    (accelerate sort scene).meshes.length = scene.meshes.length ∧
    (scene.accelerate_bvh = true →
      ∀ (i : Nat) (before after : Mesh), scene.meshes[i]? = some before →
        (accelerate sort scene).meshes[i]? = some after →
        after.quad = [] ∧
        after.triangle = before.triangle ++ before.quad.flatMap quad_triangles) ∧
    (scene.accelerate_bvh = false →
      ∀ (i : Nat) (before after : Mesh), scene.meshes[i]? = some before →
        (accelerate sort scene).meshes[i]? = some after →
        after.quad = before.quad ∧ after.triangle = before.triangle ∧ after.bvh = none) := by
  refine ⟨?_, ?_, ?_⟩
  · unfold accelerate
    simp only
    split_ifs <;> simp
  · intro hb i before after hbefore hafter
    unfold accelerate at hafter
    simp only [hb, if_true, List.map_map, List.getElem?_map, hbefore, Option.map_some',
      Option.some.injEq, Function.comp] at hafter
    subst hafter
    have := accelerate_mesh_geometry sort { before with bvh := none }
    exact ⟨this.1, this.2.1⟩
  · intro hb i before after hbefore hafter
    unfold accelerate at hafter
    simp only [hb, Bool.false_eq_true, if_false, List.getElem?_map, hbefore, Option.map_some',
      Option.some.injEq] at hafter
    subst hafter
    exact ⟨rfl, rfl, rfl⟩

theorem C24_witness :
    ∀ (i : Nat) (before after : Mesh), quad_mesh_scene_bvh.meshes[i]? = some before →
      (accelerate insertion_sort quad_mesh_scene_bvh).meshes[i]? = some after →
      after.quad = [] ∧
      after.triangle = before.triangle ++ before.quad.flatMap quad_triangles :=
  (C24_accelerate_triangulates_when_bvh_is_on insertion_sort quad_mesh_scene_bvh).2.1 rfl

/-- C24 (counterexample): the scene `quad_mesh_scene` has `accelerate_bvh`
false and one mesh with the quad `(0,1,2,3)`; after `accelerate` the mesh still
has that quad and no triangle. -/
theorem C24_counterexample :
    (accelerate insertion_sort quad_mesh_scene).meshes.map (fun mesh => mesh.quad) =
      [[⟨0, 1, 2, 3⟩]] ∧
    (accelerate insertion_sort quad_mesh_scene).meshes.map (fun mesh => mesh.triangle) =
      [[]] := by
  constructor <;> rfl

/-! ## The rows of the render workers -/

/-- The rows a worker visits from `j` on are the rows below the image height
that lie at a multiple of the stride above `j`. -/
theorem pathtrace_rows_spec (image_height skip_row : Nat) (hskip : 1 ≤ skip_row) :
    ∀ (fuel j : Nat), image_height ≤ fuel + j →
      ∃ rows, pathtrace_rows image_height skip_row fuel j = some rows ∧ rows.Nodup ∧
        ∀ r, r ∈ rows ↔ r < image_height ∧ j ≤ r ∧ (r - j) % skip_row = 0 := by
  intro fuel
  induction fuel with
  | zero =>
    intro j hj
    refine ⟨[], ?_, List.nodup_nil, ?_⟩
    · rw [pathtrace_rows]
      rw [if_neg (by omega)]
    · intro r
      simp only [List.not_mem_nil, false_iff]
      omega
  | succ fuel ih =>
    intro j hj
    rw [pathtrace_rows]
    by_cases hlt : j < image_height
    · rw [if_pos hlt]
      obtain ⟨rows, hrows, hnd, hmem⟩ := ih (j + skip_row) (by omega)
      refine ⟨j :: rows, by simp [hrows], ?_, ?_⟩
      · refine List.nodup_cons.mpr ⟨?_, hnd⟩
        intro hin
        have := (hmem j).mp hin
        omega
      · intro r
        rw [List.mem_cons, hmem]
        constructor
        · rintro (rfl | ⟨h1, h2, h3⟩)
          · exact ⟨hlt, le_refl _, by simp⟩
          · refine ⟨h1, by omega, ?_⟩
            have e : r - j = (r - (j + skip_row)) + skip_row := by omega
            rw [e, Nat.add_mod_right]
            exact h3
        · rintro ⟨h1, h2, h3⟩
          by_cases hrj : r = j
          · exact Or.inl hrj
          · right
            have hpos : 0 < r - j := by omega
            have hge : skip_row ≤ r - j := Nat.le_of_dvd hpos (Nat.dvd_of_mod_eq_zero h3)
            refine ⟨h1, by omega, ?_⟩
            have e : r - j = (r - (j + skip_row)) + skip_row := by omega
            rw [e, Nat.add_mod_right] at h3
            exact h3
    · rw [if_neg hlt]
      refine ⟨[], rfl, List.nodup_nil, ?_⟩
      intro r
      simp only [List.not_mem_nil, false_iff]
      omega

theorem mod_sub_eq_zero_iff (r tid n : Nat) (htid : tid < n) (hle : tid ≤ r) :
    (r - tid) % n = 0 ↔ r % n = tid := by
  constructor
  · intro h
    obtain ⟨k, hk⟩ := Nat.dvd_of_mod_eq_zero h
    have e : r = tid + n * k := by omega
    rw [e, Nat.add_mul_mod_self_left, Nat.mod_eq_of_lt htid]
  · intro h
    have e := Nat.div_add_mod r n
    have e2 : r - tid = n * (r / n) := by omega
    rw [e2, Nat.mul_mod_right]

/-- C28: for every image height and every thread count `n >= 1`, each of the
`n` workers `pathtrace(scene, image, rngs, tid, n, ...)`, `tid = 0..n-1`, comes
to an end, and the rows it visits are the rows `tid, tid+n, tid+2n, ...` below
the image height, each once; the row sets of two different workers are
disjoint, and every row `0..image_height-1` is visited by exactly one worker,
the worker `row % n`, exactly once. -/
theorem C28_worker_rows_partition_the_image (image_height n : Nat) (hn : 1 ≤ n) :
    ∃ rows : Nat → List Nat,
      (∀ tid, tid < n → pathtrace_rows image_height n image_height tid = some (rows tid)) ∧
      (∀ tid, tid < n → ∀ r, r ∈ rows tid ↔ r < image_height ∧ r % n = tid) ∧
      (∀ tid, tid < n → (rows tid).Nodup) ∧
      (∀ t1 t2, t1 < n → t2 < n → t1 ≠ t2 → ∀ r, r ∈ rows t1 → r ∉ rows t2) ∧
      (∀ r, r < image_height →
        r % n < n ∧ (rows (r % n)).count r = 1 ∧
        ∀ tid, tid < n → tid ≠ r % n → (rows tid).count r = 0) := by
  have hspec := fun tid => pathtrace_rows_spec image_height n hn image_height tid (by omega)
  choose rows hrows hnd hmem using hspec
  have hmem2 : ∀ tid, tid < n → ∀ r, r ∈ rows tid ↔ r < image_height ∧ r % n = tid := by
    intro tid htid r
    rw [hmem]
    constructor
    · rintro ⟨h1, h2, h3⟩
      exact ⟨h1, (mod_sub_eq_zero_iff r tid n htid h2).mp h3⟩
    · rintro ⟨h1, h2⟩
      have hle : tid ≤ r := by rw [← h2]; exact Nat.mod_le r n
      exact ⟨h1, hle, (mod_sub_eq_zero_iff r tid n htid hle).mpr h2⟩
  refine ⟨rows, fun tid _ => hrows tid, hmem2, fun tid _ => hnd tid, ?_, ?_⟩
  · intro t1 t2 h1 h2 hne r hr1 hr2
    have a := ((hmem2 t1 h1 r).mp hr1).2
    have b := ((hmem2 t2 h2 r).mp hr2).2
    exact hne (a.symm.trans b)
  · intro r hr
    have hlt : r % n < n := Nat.mod_lt r (by omega)
    refine ⟨hlt, ?_, ?_⟩
    · exact List.count_eq_one_of_mem (hnd _) ((hmem2 _ hlt r).mpr ⟨hr, rfl⟩)
    · intro tid htid hne
      rw [List.count_eq_zero]
      intro hin
      exact hne ((hmem2 tid htid r).mp hin).2.symm

theorem C28_witness :
    ∃ rows : Nat → List Nat,
      (∀ tid, tid < 3 → pathtrace_rows 8 3 8 tid = some (rows tid)) ∧
      (∀ tid, tid < 3 → ∀ r, r ∈ rows tid ↔ r < 8 ∧ r % 3 = tid) ∧
      (∀ tid, tid < 3 → (rows tid).Nodup) ∧
      (∀ t1 t2, t1 < 3 → t2 < 3 → t1 ≠ t2 → ∀ r, r ∈ rows t1 → r ∉ rows t2) ∧
      (∀ r, r < 8 →
        r % 3 < 3 ∧ (rows (r % 3)).count r = 1 ∧
        ∀ tid, tid < 3 → tid ≠ r % 3 → (rows tid).count r = 0) :=
  C28_worker_rows_partition_the_image 8 3 (by decide)

/-! ## `intersect` of the final project and the scene -/

theorem finalProject.intersect_meshes_drops_bvh (m : libm) (ray : ray3f) :
    ∀ (meshes done : List Mesh) (acc : intersection3f),
      (∀ mesh ∈ meshes, mesh.quad = []) →
      finalProject.intersect_meshes m ray done meshes acc =
        Outcome.value (acc, done ++ meshes.map (fun (mesh : Mesh) => { mesh with bvh := none })) := by
  intro meshes
  induction meshes with
  | nil => intro done acc _; simp [finalProject.intersect_meshes]
  | cons mesh rest ih =>
    intro done acc hq
    have hm := hq mesh (List.mem_cons_self _ _)
    have hrest := fun d a => ih d a (fun x hx => hq x (List.mem_cons_of_mem _ hx))
    rw [finalProject.intersect_meshes]
    simp [hm, intersection3f.init, hrest]

/-- C29 (at the failing inputs): in the header of the final project
`intersect(scene, ray)` assigns `mesh->bvh=nullptr` to every mesh it visits.
For every scene whose meshes are triangulated and every ray the call returns,
the record it returns is that of the surface loop, the geometry of every mesh
is as before, and every mesh is left without a BVH, also the meshes for which
`accelerate` had built one. -/
theorem C29_intersect_drops_every_bvh (m : libm) (scene : Scene) (ray : ray3f)
    (hq : ∀ mesh ∈ scene.meshes, mesh.quad = []) :
    ∃ r after, finalProject.intersect m scene ray = Outcome.value (r, after) ∧
      after.surfaces = scene.surfaces ∧
      after.meshes = scene.meshes.map (fun (mesh : Mesh) => { mesh with bvh := none }) ∧
      (∀ mesh ∈ after.meshes, mesh.bvh = none) ∧
      ((∃ mesh ∈ scene.meshes, mesh.bvh ≠ none) → after.meshes ≠ scene.meshes) := by
  refine ⟨scene.surfaces.foldl (finalProject.intersect_surface m ray) intersection3f.init,
    Scene.mk scene.surfaces
    (scene.meshes.map (fun (mesh : Mesh) => { mesh with bvh := none })) scene.accelerate_bvh,
    ?_, rfl, rfl, ?_, ?_⟩
  · unfold finalProject.intersect
    rw [finalProject.intersect_meshes_drops_bvh m ray scene.meshes [] _ hq]
    simp
  · intro mesh hmesh
    simp only [List.mem_map] at hmesh
    obtain ⟨x, _, rfl⟩ := hmesh
    rfl
  · rintro ⟨mesh, hmesh, hb⟩ heq
    simp only at heq
    rw [← heq] at hmesh
    simp only [List.mem_map] at hmesh
    obtain ⟨x, _, rfl⟩ := hmesh
    exact hb rfl

theorem C29_witness :
    ∃ r after, finalProject.intersect sample_libm strip_scene tie_ray = Outcome.value (r, after) ∧
      after.surfaces = strip_scene.surfaces ∧
      after.meshes = strip_scene.meshes.map (fun (mesh : Mesh) => { mesh with bvh := none }) ∧
      (∀ mesh ∈ after.meshes, mesh.bvh = none) ∧
      ((∃ mesh ∈ strip_scene.meshes, mesh.bvh ≠ none) → after.meshes ≠ strip_scene.meshes) :=
  C29_intersect_drops_every_bvh sample_libm strip_scene tie_ray
    (fun mesh hmesh => (strip_scene_meshes mesh hmesh).1)

/-! ## The path tracer: what a call writes -/

theorem pathtrace_call_miss (m : libm) (deps : render_deps) (scene : PathScene)
    (call : ray3f → PathState → Nat → Option (vec3f × PathState)) (ray : ray3f)
    (st : PathState) (depth : Nat) (h : (deps.intersect ray).hit = false) :
    pathtrace_call m deps scene call ray st depth =
      some (eval_env m scene.background scene.background_txt ray.d,
        { st with deepest := max st.deepest depth }) := by
  unfold pathtrace_call
  simp [h]

theorem pathtrace_kd_deepest (m : libm) (deps : render_deps) (scene : PathScene) (ray : ray3f)
    (inter : intersection3f) (st : PathState) :
    (pathtrace_kd m deps scene ray inter st).2.deepest = st.deepest := by
  unfold pathtrace_kd
  simp only
  split_ifs <;> rfl

theorem pathtrace_indirect_plain (m : libm) (deps : render_deps) (scene : PathScene)
    (hrr : scene.russianRoulette = false)
    (call : ray3f → PathState → Nat → Option (vec3f × PathState)) (B depth : Nat)
    (hcall : (depth : Int) < scene.path_max_depth → ∀ ray st,
      ∃ r, call ray st (depth + 1) = some r ∧ r.2.deepest ≤ max st.deepest B)
    (pos norm v kd ks : vec3f) (n : ℚ) (mf : Bool) (c : vec3f) (st : PathState)
    (x : Option (vec3f × PathState))
    (hx : pathtrace_indirect m deps scene call depth pos norm v kd ks n mf c st = x) :
    ∃ r, x = some r ∧ r.2.deepest ≤ max st.deepest B := by
  subst hx
  unfold pathtrace_indirect
  simp only [hrr, Bool.false_eq_true, if_false]
  split_ifs with hc
  · obtain ⟨r, hr, hd⟩ := hcall hc.1
      (ray3f.mk2 pos (deps.sample_brdf kd ks n v norm (deps.next_vec2f st.rng).1
        (deps.next_float (deps.next_vec2f st.rng).2).1).1)
      { st with rng := (deps.next_float (deps.next_vec2f st.rng).2).2 }
    rw [hr]
    exact ⟨_, rfl, hd⟩
  · exact ⟨_, rfl, le_max_left _ _⟩

/-- With Russian roulette off and no reflective material, a call comes back
when the calls it makes while `depth < path_max_depth` do, and the deepest
call stays below the bound `B` of those. -/
theorem pathtrace_call_plain (m : libm) (deps : render_deps) (scene : PathScene)
    (hrr : scene.russianRoulette = false) (hkr : ∀ i, (scene.material i).kr = zero3f)
    (call : ray3f → PathState → Nat → Option (vec3f × PathState)) (B depth : Nat)
    (hcall : (depth : Int) < scene.path_max_depth → ∀ ray st,
      ∃ r, call ray st (depth + 1) = some r ∧ r.2.deepest ≤ max st.deepest B)
    (hB : depth ≤ B) (ray : ray3f) (st : PathState) :
    ∃ r, pathtrace_call m deps scene call ray st depth = some r ∧
      r.2.deepest ≤ max st.deepest B := by
  by_cases hhit : (deps.intersect ray).hit = true
  · unfold pathtrace_call
    simp only [hhit, Bool.not_true, Bool.false_eq_true, if_false]
    split
    · rename_i heq
      obtain ⟨r, hr, -⟩ := pathtrace_indirect_plain m deps scene hrr call B depth hcall _ _ _ _ _
        _ _ _ _ _ heq
      cases hr
    · rename_i c5 st5 heq
      obtain ⟨r, hr, hd⟩ := pathtrace_indirect_plain m deps scene hrr call B depth hcall _ _ _ _
        _ _ _ _ _ _ heq
      cases hr
      refine ⟨(c5, st5), ?_, ?_⟩
      · simp [pathtrace_reflections, hkr]
      · simp only [pathtrace_kd_deepest] at hd
        exact le_trans hd (max_le (max_le (le_max_left _ _) (le_trans hB (le_max_right _ _)))
          (le_max_right _ _))
  · have hh : (deps.intersect ray).hit = false := by simpa using hhit
    rw [pathtrace_call_miss m deps scene call ray st depth hh]
    exact ⟨_, rfl, max_le (le_max_left _ _) (le_trans hB (le_max_right _ _))⟩

theorem pathtrace_ray_plain (m : libm) (deps : render_deps) (scene : PathScene)
    (hrr : scene.russianRoulette = false) (hkr : ∀ i, (scene.material i).kr = zero3f) :
    ∀ (k depth : Nat), scene.path_max_depth ≤ (depth : Int) + k → ∀ (ray : ray3f)
      (st : PathState),
      ∃ r, pathtrace_ray m deps scene (k + 1) ray st depth = some r ∧
        r.2.deepest ≤ max st.deepest (max depth scene.path_max_depth.toNat) := by
  intro k
  induction k with
  | zero =>
    intro depth hk ray st
    rw [pathtrace_ray]
    refine pathtrace_call_plain m deps scene hrr hkr _ _ depth ?_ (le_max_left _ _) ray st
    intro hlt
    simp at hk
    omega
  | succ k ih =>
    intro depth hk ray st
    rw [pathtrace_ray]
    refine pathtrace_call_plain m deps scene hrr hkr _ _ depth ?_ (le_max_left _ _) ray st
    intro hlt ray1 st1
    obtain ⟨r, hr, hd⟩ := ih (depth + 1) (by push_cast at hk ⊢; omega) ray1 st1
    refine ⟨r, hr, le_trans hd (max_le (le_max_left _ _) (le_trans ?_ (le_max_right _ _)))⟩
    have : depth + 1 ≤ scene.path_max_depth.toNat := by omega
    exact max_le (le_trans this (le_max_right _ _)) (le_max_right _ _)

/-- With a reflective material at the hit and blurry reflections off, a call
does not come back when the call for the reflected ray does not. -/
theorem pathtrace_call_mirror (m : libm) (deps : render_deps) (scene : PathScene)
    (call : ray3f → PathState → Nat → Option (vec3f × PathState)) (ray : ray3f)
    (st : PathState) (depth : Nat) (hhit : (deps.intersect ray).hit = true)
    (hkr : (scene.material (deps.intersect ray).mat).kr ≠ zero3f)
    (hbl : scene.blurryReflection = false)
    (hcall : ∀ s, call (ray3f.mk2 (deps.intersect ray).pos
      (deps.reflect ray.d (deps.intersect ray).norm)) s (depth + 1) = none) :
    pathtrace_call m deps scene call ray st depth = none := by
  unfold pathtrace_call
  simp only [hhit, Bool.not_true, Bool.false_eq_true, if_false]
  split
  · rfl
  · simp [pathtrace_reflections, hkr, hbl, hcall]

theorem hall_intersect_up_ray :
    hall_intersect sample_libm up_ray = ⟨true, 1, ⟨0, 0, 1⟩, ⟨0, 0, 1⟩, ⟨1 / 2, 1 / 2⟩, 1⟩ := by
  norm_num [hall_intersect, intersect_surface, unit_quad, far_quad, up_ray, ray3f.mk2,
    transform_ray_inverse, transform_point_inverse, transform_vector_inverse, intersect_quad,
    identity_frame3f, intersection3f.init, dot, vec3f_sub_eq, vec3f_add_eq, ray3f.eval,
    vec3f.smul, ray3f_epsilon, ray3f_rayinf, transform_point, transform_normal,
    transform_vector, normalize, length, lengthSqr, sample_libm, vec3f.sdiv, z3f, zero3f,
    zero2f, fabs]

theorem hall_intersect_down_ray :
    hall_intersect sample_libm down_ray = ⟨true, 1, ⟨0, 0, 0⟩, ⟨0, 0, 1⟩, ⟨1 / 2, 1 / 2⟩, 1⟩ := by
  norm_num [hall_intersect, intersect_surface, unit_quad, far_quad, down_ray, ray3f.mk2,
    transform_ray_inverse, transform_point_inverse, transform_vector_inverse, intersect_quad,
    identity_frame3f, intersection3f.init, dot, vec3f_sub_eq, vec3f_add_eq, ray3f.eval,
    vec3f.smul, ray3f_epsilon, ray3f_rayinf, transform_point, transform_normal,
    transform_vector, normalize, length, lengthSqr, sample_libm, vec3f.sdiv, z3f, zero3f,
    zero2f, fabs]

theorem hall_up_reflects_down :
    ray3f.mk2 ((hall_deps sample_libm).intersect up_ray).pos
      ((hall_deps sample_libm).reflect up_ray.d ((hall_deps sample_libm).intersect up_ray).norm) =
      down_ray := by
  show ray3f.mk2 (hall_intersect sample_libm up_ray).pos
    (mirror_reflect up_ray.d (hall_intersect sample_libm up_ray).norm) = down_ray
  rw [hall_intersect_up_ray]
  norm_num [mirror_reflect, up_ray, down_ray, ray3f.mk2, dot, vec3f_sub_eq, vec3f.smul]

theorem hall_down_reflects_up :
    ray3f.mk2 ((hall_deps sample_libm).intersect down_ray).pos
      ((hall_deps sample_libm).reflect down_ray.d
        ((hall_deps sample_libm).intersect down_ray).norm) = up_ray := by
  show ray3f.mk2 (hall_intersect sample_libm down_ray).pos
    (mirror_reflect down_ray.d (hall_intersect sample_libm down_ray).norm) = up_ray
  rw [hall_intersect_down_ray]
  norm_num [mirror_reflect, up_ray, down_ray, ray3f.mk2, dot, vec3f_sub_eq, vec3f.smul]

/-- Between two facing mirrors the recursion of `pathtrace_ray` outruns every
amount of fuel, whatever the state and the depth of the first call. -/
theorem mirror_hall_never_returns :
    ∀ (fuel : Nat) (st : PathState) (depth : Nat),
      pathtrace_ray sample_libm (hall_deps sample_libm) (hall_scene mirror_material false)
        fuel up_ray st depth = none ∧
      pathtrace_ray sample_libm (hall_deps sample_libm) (hall_scene mirror_material false)
        fuel down_ray st depth = none := by
  intro fuel
  induction fuel with
  | zero => intro st depth; exact ⟨rfl, rfl⟩
  | succ fuel ih =>
    intro st depth
    constructor
    · rw [pathtrace_ray]
      refine pathtrace_call_mirror _ _ _ _ _ _ _ ?_ ?_ rfl ?_
      · show (hall_intersect sample_libm up_ray).hit = true
        rw [hall_intersect_up_ray]
      · simp [hall_scene, mirror_material, one3f, zero3f]
      · intro s
        rw [hall_up_reflects_down]
        exact (ih s (depth + 1)).2
    · rw [pathtrace_ray]
      refine pathtrace_call_mirror _ _ _ _ _ _ _ ?_ ?_ rfl ?_
      · show (hall_intersect sample_libm down_ray).hit = true
        rw [hall_intersect_down_ray]
      · simp [hall_scene, mirror_material, one3f, zero3f]
      · intro s
        rw [hall_down_reflects_up]
        exact (ih s (depth + 1)).1

/-! ## C25: the depth ceiling of the path tracer -/

/-- C25: between two facing mirrors, with Russian roulette off and
`path_max_depth` 2, the call of `pathtrace_ray` for the ray from one mirror to
the other returns for no amount of fuel, whatever the generator and the depth
it starts at: every call hits a mirror and calls itself for the reflected ray
one level deeper, and the reflection block does not test the depth.  Between
the same two quads with a diffuse material the depth test of the branch
without Russian roulette stops the recursion: the call returns, and no call
runs deeper than `path_max_depth`. -/
theorem C25_facing_mirrors_never_return :
    (hall_scene mirror_material false).path_max_depth = 2 ∧
    (hall_scene mirror_material false).russianRoulette = false ∧
    (∀ (fuel : Nat) (st : PathState) (depth : Nat),
      pathtrace_ray sample_libm (hall_deps sample_libm) (hall_scene mirror_material false)
        fuel up_ray st depth = none) ∧
    ∃ r, pathtrace_ray sample_libm (hall_deps sample_libm) (hall_scene matte_material false)
        3 up_ray first_state 0 = some r ∧
      r.2.deepest ≤ 2 := by
  refine ⟨rfl, rfl, fun fuel st depth => (mirror_hall_never_returns fuel st depth).1, ?_⟩
  obtain ⟨r, hr, hd⟩ := pathtrace_ray_plain sample_libm (hall_deps sample_libm)
    (hall_scene matte_material false) rfl (fun _ => rfl) 2 0 (by simp [hall_scene]) up_ray
    first_state
  refine ⟨r, hr, le_trans hd ?_⟩
  simp [first_state, hall_scene]

/-! ## C27: the value of a miss -/

/-- C27, amended: when the ray misses all geometry, `pathtrace_ray` returns
exactly `eval_env` of the background for the ray direction, which is the
background colour when no environment texture is bound: the ambient term is
not added.  This holds at every depth, for any lights and materials, with
fuel for a single call, and the generator and the globals are as before. -/
theorem C27_miss_returns_the_environment_alone (m : libm) (deps : render_deps)
    (scene : PathScene) (ray : ray3f) (st : PathState) (depth fuel : Nat)
    (hmiss : (deps.intersect ray).hit = false) :
    pathtrace_ray m deps scene (fuel + 1) ray st depth =
      some (eval_env m scene.background scene.background_txt ray.d,
        { st with deepest := max st.deepest depth }) ∧
    (scene.background_txt = none →
      eval_env m scene.background scene.background_txt ray.d = scene.background) := by
  constructor
  · rw [pathtrace_ray]
    exact pathtrace_call_miss m deps scene _ ray st depth hmiss
  · intro h
    rw [h]
    rfl

/-- C27, witness: a scene without geometry. -/
theorem C27_witness :
    (void_deps.intersect up_ray).hit = false ∧
    pathtrace_ray sample_libm void_deps void_scene (0 + 1) up_ray first_state 3 =
      some (eval_env sample_libm void_scene.background void_scene.background_txt up_ray.d,
        { first_state with deepest := max first_state.deepest 3 }) ∧
    (void_scene.background_txt = none →
      eval_env sample_libm void_scene.background void_scene.background_txt up_ray.d =
        void_scene.background) :=
  ⟨rfl, C27_miss_returns_the_environment_alone sample_libm void_deps void_scene up_ray
    first_state 3 0 rfl⟩

/-- C27, counterexample: in a scene without geometry, lights or emission whose
ambient colour is white and whose background is grey, the call returns the
grey background, which is neither the ambient colour plus the background nor
the ambient colour times any `kd` it does not annihilate plus the
background. -/
theorem C27_counterexample :
    void_scene.lights = [] ∧ (∀ i, (void_scene.material i).ke = zero3f) ∧
    (void_deps.intersect up_ray).hit = false ∧
    (pathtrace_ray sample_libm void_deps void_scene 1 up_ray first_state 0).map Prod.fst =
      some ⟨1 / 2, 1 / 2, 1 / 2⟩ ∧
    (⟨1 / 2, 1 / 2, 1 / 2⟩ : vec3f) ≠ void_scene.ambient +
      eval_env sample_libm void_scene.background void_scene.background_txt up_ray.d ∧
    ∀ kd : vec3f, void_scene.ambient.mul kd ≠ zero3f →
      (⟨1 / 2, 1 / 2, 1 / 2⟩ : vec3f) ≠ void_scene.ambient.mul kd +
        eval_env sample_libm void_scene.background void_scene.background_txt up_ray.d := by
  refine ⟨rfl, fun _ => rfl, rfl, ?_, ?_, ?_⟩
  · rw [pathtrace_ray, pathtrace_call_miss _ _ _ _ _ _ _ rfl]
    rfl
  · norm_num [void_scene, eval_env, one3f, vec3f_add_eq]
  · intro kd hkd h
    apply hkd
    obtain ⟨x, y, z⟩ := kd
    simp only [void_scene, eval_env, one3f, vec3f.mul, vec3f_add_eq, vec3f.mk.injEq] at h ⊢
    simp only [zero3f, vec3f.mk.injEq]
    obtain ⟨h1, h2, h3⟩ := h
    refine ⟨?_, ?_, ?_⟩ <;> linarith

/-! ## C30: what a call of the path tracer writes -/

theorem raytrace_light_list_get (scene : PathScene) (i : Nat)
    (h : i < (raytrace_light_list scene).length) : (raytrace_light_list scene)[i]? = some 0 := by
  unfold raytrace_light_list at h ⊢
  simp only [List.length_map] at h
  rw [List.getElem?_map, List.getElem?_eq_getElem h]
  rfl

theorem raytrace_light_list_surfaces (scene : PathScene)
    (h : (raytrace_light_list scene).length ≠ 0) : ∃ surf, scene.surfaces[0]? = some surf := by
  unfold raytrace_light_list at h
  simp only [List.length_map] at h
  cases hs : scene.surfaces with
  | nil => rw [hs] at h; simp at h
  | cons a l => exact ⟨a, by simp⟩

theorem raytrace_pick_light_returns (deps : render_deps) (scene : PathScene) (rng : Rng)
    (hint : deps.next_int_in_range) (h : (raytrace_light_list scene).length ≠ 0) :
    ∃ rng1, raytrace_pick_light deps scene rng = some (0, rng1) := by
  unfold raytrace_pick_light
  have hpos : 0 < (raytrace_light_list scene).length := Nat.pos_of_ne_zero h
  obtain ⟨h1, h2⟩ := hint rng 0 (((raytrace_light_list scene).length : Int) - 1) (by omega)
  simp only
  rw [if_neg (by omega)]
  rw [raytrace_light_list_get scene _ (by omega)]
  exact ⟨_, rfl⟩

theorem raytrace_light_sample_returns (m : libm) (deps : render_deps) (scene : PathScene)
    (pos norm v kd ks : vec3f) (n : ℚ) (mf : Bool) (hint : deps.next_int_in_range)
    (h : (raytrace_light_list scene).length ≠ 0) (a : vec3f × Rng) :
    ∃ r, raytrace_light_sample m deps scene pos norm v kd ks n mf (some a) = some r := by
  obtain ⟨lighting, rng⟩ := a
  obtain ⟨rng1, hp⟩ := raytrace_pick_light_returns deps scene rng hint h
  obtain ⟨surf, hs⟩ := raytrace_light_list_surfaces scene h
  simp only [raytrace_light_sample, hp, hs]
  split_ifs <;> exact ⟨_, rfl⟩

theorem raytrace_light_samples_return (m : libm) (deps : render_deps) (scene : PathScene)
    (pos norm v kd ks : vec3f) (n : ℚ) (mf : Bool) (hint : deps.next_int_in_range)
    (h : (raytrace_light_list scene).length ≠ 0) :
    ∀ (rounds : List Nat) (a : vec3f × Rng),
      ∃ r, rounds.foldl
        (fun acc _ => raytrace_light_sample m deps scene pos norm v kd ks n mf acc) (some a) =
        some r := by
  intro rounds
  induction rounds with
  | nil => intro a; exact ⟨a, rfl⟩
  | cons k rest ih =>
    intro a
    obtain ⟨r, hr⟩ := raytrace_light_sample_returns m deps scene pos norm v kd ks n mf hint h a
    rw [List.foldl_cons, hr]
    exact ih r

theorem raytrace_direct_returns (m : libm) (deps : render_deps) (scene : PathScene)
    (pos norm v kd ks : vec3f) (n : ℚ) (mf : Bool) (c : vec3f) (rng : Rng)
    (hint : deps.next_int_in_range) (x : Option (vec3f × Rng))
    (hx : raytrace_direct m deps scene pos norm v kd ks n mf c rng = x) : ∃ r, x = some r := by
  subst hx
  unfold raytrace_direct
  split
  · exact ⟨_, rfl⟩
  · by_cases h1 : scene.lights.length ≠ 0
    · rw [if_pos h1]
      exact ⟨_, rfl⟩
    · rw [if_neg h1]
      by_cases h2 : (raytrace_light_list scene).length ≠ 0
      · obtain ⟨r, hr⟩ := raytrace_light_samples_return m deps scene pos norm v kd ks n mf hint
          h2 (List.range MAX_LIGHTING_SAMPLES) (zero3f, rng)
        simp only [if_pos h2, hr]
        exact ⟨_, rfl⟩
      · simp only [if_neg h2]
        exact ⟨_, rfl⟩

theorem raytrace_bounce_returns (m : libm) (deps : render_deps)
    (call : ray3f → Rng → Nat → Option (vec3f × Rng)) (depth : Nat)
    (hcall : ∀ ray rng d, depth < d → ∃ r, call ray rng d = some r)
    (pos norm v kd ks : vec3f) (n : ℚ) (mf : Bool) (c : vec3f) (rng : Rng)
    (x : Option (vec3f × Rng × Nat))
    (hx : raytrace_bounce m deps call depth pos norm v kd ks n mf c rng = x) :
    ∃ r, x = some r ∧ depth ≤ r.2.2 := by
  subst hx
  unfold raytrace_bounce
  split_ifs with h
  · obtain ⟨r, hr⟩ := hcall
      ⟨pos, normalize m (deps.sample_direction_hemispherical_cosine (deps.next_vec2f rng).1),
        ray3f_epsilon, ray3f_rayinf⟩ (deps.next_vec2f rng).2 (depth + 1) (Nat.lt_succ_self _)
    simp only [hr]
    exact ⟨_, rfl, Nat.le_succ _⟩
  · exact ⟨_, rfl, le_refl _⟩

theorem raytrace_reflection_returns (m : libm)
    (call : ray3f → Rng → Nat → Option (vec3f × Rng)) (depth0 depth : Nat)
    (hcall : ∀ ray rng d, depth0 < d → ∃ r, call ray rng d = some r) (hd : depth0 ≤ depth)
    (intersection : intersection3f) (v kr c : vec3f) (rng : Rng) :
    ∃ r, raytrace_reflection m call depth intersection v kr c rng = some r := by
  unfold raytrace_reflection
  by_cases h : kr = zero3f
  · rw [if_neg (not_not.mpr h)]
    exact ⟨_, rfl⟩
  · obtain ⟨r, hr⟩ := hcall
      ⟨intersection.pos +
        (normalize m (compute_reflection_vector intersection.norm v)).smul ray3f_epsilon,
        normalize m (compute_reflection_vector intersection.norm v), ray3f_epsilon,
        ray3f_rayinf⟩ rng (depth + 1) (Nat.lt_succ_of_le hd)
    simp only [if_pos h, hr]
    exact ⟨_, rfl⟩

/-- A call of `raytrace_ray` returns when the calls it makes at larger depths
do. -/
theorem raytrace_call_returns (m : libm) (deps : render_deps) (scene : PathScene)
    (hint : deps.next_int_in_range) (call : ray3f → Rng → Nat → Option (vec3f × Rng))
    (depth : Nat) (hcall : ∀ ray rng d, depth < d → ∃ r, call ray rng d = some r)
    (ray : ray3f) (rng : Rng) : ∃ r, raytrace_call m deps scene call ray rng depth = some r := by
  unfold raytrace_call
  by_cases h1 : depth ≥ MAX_DEPTH
  · rw [if_pos h1]
    exact ⟨_, rfl⟩
  by_cases h2 : (!(deps.intersect ray).hit) = true
  · simp only [if_neg h1, if_pos h2]
    exact ⟨_, rfl⟩
  · simp only [if_neg h1, if_neg h2]
    split
    · rename_i heq
      obtain ⟨r, hr⟩ := raytrace_direct_returns m deps scene _ _ _ _ _ _ _ _ _ hint _ heq
      cases hr
    · split
      · rename_i heq
        obtain ⟨r, hr, -⟩ := raytrace_bounce_returns m deps call depth hcall _ _ _ _ _ _ _ _ _ _
          heq
        cases hr
      · rename_i c3 rng3 depth3 heq
        obtain ⟨r, hr, hd⟩ := raytrace_bounce_returns m deps call depth hcall _ _ _ _ _ _ _ _ _
          _ heq
        cases hr
        exact raytrace_reflection_returns m call depth depth3 hcall hd _ _ _ _ _

theorem raytrace_ray_returns (m : libm) (deps : render_deps) (scene : PathScene)
    (hint : deps.next_int_in_range) :
    ∀ (k depth : Nat), MAX_DEPTH ≤ depth + k → ∀ (ray : ray3f) (rng : Rng),
      ∃ r, raytrace_ray m deps scene (k + 1) ray rng depth = some r := by
  intro k
  induction k with
  | zero =>
    intro depth hk ray rng
    rw [raytrace_ray]
    unfold raytrace_call
    rw [if_pos (by simpa using hk)]
    exact ⟨_, rfl⟩
  | succ k ih =>
    intro depth hk ray rng
    rw [raytrace_ray]
    refine raytrace_call_returns m deps scene hint _ depth ?_ ray rng
    intro ray1 rng1 d hd
    exact ih d (by omega) ray1 rng1

/-- The body of `raytrace_ray` calls itself only at depths above its own: two
stand-ins for the recursive calls that agree at all larger depths give the
same result. -/
theorem raytrace_call_deeper (m : libm) (deps : render_deps) (scene : PathScene)
    (call1 call2 : ray3f → Rng → Nat → Option (vec3f × Rng)) (depth : Nat)
    (hcall : ∀ ray rng d, depth < d → call1 ray rng d = call2 ray rng d)
    (ray : ray3f) (rng : Rng) :
    raytrace_call m deps scene call1 ray rng depth =
      raytrace_call m deps scene call2 ray rng depth := by
  have hb : ∀ pos norm v kd ks n mf c rng,
      raytrace_bounce m deps call1 depth pos norm v kd ks n mf c rng =
        raytrace_bounce m deps call2 depth pos norm v kd ks n mf c rng := by
    intro pos norm v kd ks n mf c rng
    unfold raytrace_bounce
    simp only [hcall _ _ _ (Nat.lt_succ_self depth)]
  have hd : ∀ pos norm v kd ks n mf c rng r,
      raytrace_bounce m deps call2 depth pos norm v kd ks n mf c rng = some r →
        depth ≤ r.2.2 := by
    intro pos norm v kd ks n mf c rng r h
    unfold raytrace_bounce at h
    split_ifs at h
    · simp only at h
      split at h
      · cases h
      · cases h
        exact Nat.le_succ _
    · cases h
      exact le_refl _
  have hr : ∀ d inter v kr c rng, depth ≤ d →
      raytrace_reflection m call1 d inter v kr c rng =
        raytrace_reflection m call2 d inter v kr c rng := by
    intro d inter v kr c rng hd
    unfold raytrace_reflection
    simp only [hcall _ _ _ (Nat.lt_succ_of_le hd)]
  unfold raytrace_call
  simp only [hb]
  by_cases h1 : depth ≥ MAX_DEPTH
  · simp only [if_pos h1]
  by_cases h2 : (!(deps.intersect ray).hit) = true
  · simp only [if_neg h1, if_pos h2]
  · simp only [if_neg h1, if_neg h2]
    split
    · rfl
    · split
      · rfl
      · rename_i c3 rng3 depth3 heq
        exact hr _ _ _ _ _ _ (hd _ _ _ _ _ _ _ _ _ (c3, rng3, depth3) heq)

/-- C26: in the final-project ray tracer, `raytrace_ray` called with
`depth >= MAX_DEPTH` returns black and leaves the generator alone whatever
the scene intersection is; the body calls itself only at depths strictly
above its own (stand-ins for the recursive calls that agree at all larger
depths give the same result); and, `next_int` keeping to its range, the call
at `depth` returns with at most `MAX_DEPTH - depth` calls nested below it,
for every scene, ray and generator. -/
theorem C26_raytrace_ray_stops_at_MAX_DEPTH (m : libm) (deps : render_deps)
    (scene : PathScene) (hint : deps.next_int_in_range) (ray : ray3f) (rng : Rng)
    (depth : Nat) :
    (MAX_DEPTH ≤ depth → ∀ (other : render_deps) (fuel : Nat),
      raytrace_ray m other scene (fuel + 1) ray rng depth = some (zero3f, rng)) ∧
    (∀ call1 call2 : ray3f → Rng → Nat → Option (vec3f × Rng),
      (∀ r s d, depth < d → call1 r s d = call2 r s d) →
        raytrace_call m deps scene call1 ray rng depth =
          raytrace_call m deps scene call2 ray rng depth) ∧
    ∃ r, raytrace_ray m deps scene (MAX_DEPTH - depth + 1) ray rng depth = some r := by
  refine ⟨?_, ?_, ?_⟩
  · intro h other fuel
    rw [raytrace_ray]
    unfold raytrace_call
    rw [if_pos h]
  · intro call1 call2 h
    exact raytrace_call_deeper m deps scene call1 call2 depth h ray rng
  · exact raytrace_ray_returns m deps scene hint _ depth (by omega) ray rng

/-- C26, witness: the two facing quads with a diffuse material, a ray between
them, first call. -/
theorem C26_witness :
    (hall_deps sample_libm).next_int_in_range ∧
    ((MAX_DEPTH ≤ 0 → ∀ (other : render_deps) (fuel : Nat),
      raytrace_ray sample_libm other (hall_scene matte_material false) (fuel + 1) up_ray ⟨0⟩ 0 =
        some (zero3f, ⟨0⟩)) ∧
    (∀ call1 call2 : ray3f → Rng → Nat → Option (vec3f × Rng),
      (∀ r s d, 0 < d → call1 r s d = call2 r s d) →
        raytrace_call sample_libm (hall_deps sample_libm) (hall_scene matte_material false)
            call1 up_ray ⟨0⟩ 0 =
          raytrace_call sample_libm (hall_deps sample_libm) (hall_scene matte_material false)
            call2 up_ray ⟨0⟩ 0) ∧
    ∃ r, raytrace_ray sample_libm (hall_deps sample_libm) (hall_scene matte_material false)
      (MAX_DEPTH - 0 + 1) up_ray ⟨0⟩ 0 = some r) :=
  ⟨fun _ _ _ h => ⟨le_refl _, h⟩,
    C26_raytrace_ray_stops_at_MAX_DEPTH sample_libm (hall_deps sample_libm)
      (hall_scene matte_material false) (fun _ _ _ h => ⟨le_refl _, h⟩) up_ray ⟨0⟩ 0⟩

/-! ## The nearest-hit traversal with a capturing closure -/

theorem finalsubmission.intersect_triangle_of_denominator (ray : ray3f) (v0 v1 v2 : vec3f)
    (hden : triangle_denominator ray v0 v1 v2 ≠ 0) :
    finalsubmission.intersect_triangle ray v0 v1 v2 =
      if dot (cross ray.d (v1 - v2)) (ray.e - v2) / triangle_denominator ray v0 v1 v2 < 0 ∨
          1 < dot (cross ray.d (v1 - v2)) (ray.e - v2) / triangle_denominator ray v0 v1 v2
        then none
      else if dot (cross (ray.e - v2) (v0 - v2)) ray.d / triangle_denominator ray v0 v1 v2 < 0 ∨
          1 < dot (cross (ray.e - v2) (v0 - v2)) ray.d / triangle_denominator ray v0 v1 v2 ∨
          1 < dot (cross ray.d (v1 - v2)) (ray.e - v2) / triangle_denominator ray v0 v1 v2 +
            dot (cross (ray.e - v2) (v0 - v2)) ray.d / triangle_denominator ray v0 v1 v2
        then none
      else if dot (cross (ray.e - v2) (v0 - v2)) (v1 - v2) / triangle_denominator ray v0 v1 v2 <
            ray.tmin ∨
          ray.tmax < dot (cross (ray.e - v2) (v0 - v2)) (v1 - v2) /
            triangle_denominator ray v0 v1 v2
        then none
      else some
        (xfloat.fin (dot (cross (ray.e - v2) (v0 - v2)) (v1 - v2) /
            triangle_denominator ray v0 v1 v2),
          xfloat.fin (dot (cross ray.d (v1 - v2)) (ray.e - v2) /
            triangle_denominator ray v0 v1 v2),
          xfloat.fin (dot (cross (ray.e - v2) (v0 - v2)) ray.d /
            triangle_denominator ray v0 v1 v2)) := by
  have hden2 : ¬ dot (cross ray.d (v1 - v2)) (v0 - v2) = 0 := hden
  unfold finalsubmission.intersect_triangle triangle_denominator
  simp only [xfloat.div, hden2, if_false, xfloat.mul, xfloat.lt, xfloat.gt, xfloat.add,
    Bool.or_eq_true, decide_eq_true_eq, mul_one_div, or_assoc]

/-- A hit that the solver of the final submission reports with `hit_t` below a
finite bound has finite outputs: they are the solution of the system, within
the bounds. -/
theorem finalsubmission.intersect_triangle_below (ray : ray3f) (v0 v1 v2 : vec3f) (y : ℚ)
    (ht bu bv : xfloat)
    (h : finalsubmission.intersect_triangle ray v0 v1 v2 = some (ht, bu, bv))
    (hlt : ht.lt (xfloat.fin y) = true) :
    ∃ t u v, ht = xfloat.fin t ∧ bu = xfloat.fin u ∧ bv = xfloat.fin v ∧
      triangle_param ray v0 v1 v2 = some t ∧ ray.tmin ≤ t ∧ t ≤ ray.tmax ∧ t < y ∧
      triangle_solution ray v0 v1 v2 t u v := by
  by_cases hden : triangle_denominator ray v0 v1 v2 = 0
  · rw [finalsubmission.intersect_triangle_zero_denominator ray v0 v1 v2 hden] at h
    split_ifs at h
    simp only [Option.some.injEq, Prod.mk.injEq] at h
    rw [← h.1] at hlt
    simp [xfloat.lt] at hlt
  · have hcode := triangle_solution_code ray v0 v1 v2 hden
    rw [finalsubmission.intersect_triangle_of_denominator ray v0 v1 v2 hden] at h
    have hden2 : ¬ dot (cross ray.d (v1 - v2)) (v0 - v2) = 0 := hden
    have hp : triangle_param ray v0 v1 v2 =
        if dot (cross ray.d (v1 - v2)) (ray.e - v2) / triangle_denominator ray v0 v1 v2 < 0 ∨
            dot (cross (ray.e - v2) (v0 - v2)) ray.d / triangle_denominator ray v0 v1 v2 < 0 ∨
            dot (cross ray.d (v1 - v2)) (ray.e - v2) / triangle_denominator ray v0 v1 v2 +
              dot (cross (ray.e - v2) (v0 - v2)) ray.d / triangle_denominator ray v0 v1 v2 > 1
          then none
        else some
          (dot (cross (ray.e - v2) (v0 - v2)) (v1 - v2) / triangle_denominator ray v0 v1 v2) := by
      unfold triangle_param triangle_denominator
      simp only [hden2, if_false]
    rw [hp]
    generalize dot (cross (ray.e - v2) (v0 - v2)) (v1 - v2) /
      triangle_denominator ray v0 v1 v2 = T at hcode h ⊢
    generalize dot (cross ray.d (v1 - v2)) (ray.e - v2) /
      triangle_denominator ray v0 v1 v2 = U at hcode h ⊢
    generalize dot (cross (ray.e - v2) (v0 - v2)) ray.d /
      triangle_denominator ray v0 v1 v2 = V at hcode h ⊢
    split_ifs at h with h1 h2 h3
    simp only [Option.some.injEq, Prod.mk.injEq] at h
    obtain ⟨rfl, rfl, rfl⟩ := h
    simp only [not_or, not_lt] at h1 h2 h3
    have hty : T < y := by simpa [xfloat.lt] using hlt
    have hc : ¬ (U < 0 ∨ V < 0 ∨ U + V > 1) := by
      rintro (hh | hh | hh)
      · exact absurd hh (not_lt.mpr h1.1)
      · exact absurd hh (not_lt.mpr h2.1)
      · exact absurd hh (not_lt.mpr h2.2.2)
    exact ⟨T, U, V, rfl, rfl, rfl, by rw [if_neg hc], h3.1, h3.2, hty, hcode⟩

theorem corner_triangle_drop_ray (h tmin tmax : ℚ) (h1 : tmin ≤ h) (h2 : h ≤ tmax) :
    finalsubmission.intersect_triangle ⟨⟨1 / 4, 1 / 4, h⟩, ⟨0, 0, -1⟩, tmin, tmax⟩
      corner_v0 corner_v1 corner_v2 =
      some (xfloat.fin h, xfloat.fin (1 / 4), xfloat.fin (1 / 4)) := by
  have hden : triangle_denominator ⟨⟨1 / 4, 1 / 4, h⟩, ⟨0, 0, -1⟩, tmin, tmax⟩
      corner_v0 corner_v1 corner_v2 ≠ 0 := by
    norm_num [triangle_denominator, corner_v0, corner_v1, corner_v2, dot, cross, vec3f_sub_eq]
  rw [finalsubmission.intersect_triangle_of_denominator _ _ _ _ hden]
  norm_num [triangle_denominator, corner_v0, corner_v1, corner_v2, dot, cross, vec3f_sub_eq]
  rintro (h | h) <;> linarith

/-- C21: when the BVH closure of the final submission records a triangle hit
(the solver reports `hit_t`, `bary_u`, `bary_v` with `hit_t` below the `ray_t`
of the captured record), the outputs are finite numbers `t`, `u`, `v`, the
recorded position is `u v0 + v v1 + (1-u-v) v2`, and the recorded texcoord is
`(0,0)` for a mesh without texture coordinates and
`(1-u-v) tc0 + u tc1 + v tc2` otherwise: the weights of the texture
coordinates are those of the position moved on by one vertex. -/
theorem C21_closure_blends_texcoords_with_weights_of_the_next_vertex (m : libm) (mesh : Mesh)
    (tid : Nat) (tray : ray3f) (S : intersection3f) (hit_t bary_u bary_v : xfloat)
    (hsolve : finalsubmission.intersect_triangle tray
      (mesh.pos.getD (mesh.triangle.getD tid ⟨0, 0, 0⟩).x zero3f)
      (mesh.pos.getD (mesh.triangle.getD tid ⟨0, 0, 0⟩).y zero3f)
      (mesh.pos.getD (mesh.triangle.getD tid ⟨0, 0, 0⟩).z zero3f) =
        some (hit_t, bary_u, bary_v))
    (hnear : hit_t.lt (xfloat.fin S.ray_t) = true) :
    ∃ t u v, hit_t = xfloat.fin t ∧ bary_u = xfloat.fin u ∧ bary_v = xfloat.fin v ∧
      (finalsubmission.triangle_closure m mesh tid tray S).hit = true ∧
      (finalsubmission.triangle_closure m mesh tid tray S).ray_t = t ∧
      (finalsubmission.triangle_closure m mesh tid tray S).pos =
        (mesh.pos.getD (mesh.triangle.getD tid ⟨0, 0, 0⟩).x zero3f).smul u +
        (mesh.pos.getD (mesh.triangle.getD tid ⟨0, 0, 0⟩).y zero3f).smul v +
        (mesh.pos.getD (mesh.triangle.getD tid ⟨0, 0, 0⟩).z zero3f).smul (1 - u - v) ∧
      (mesh.texcoord.length = 0 →
        (finalsubmission.triangle_closure m mesh tid tray S).texcoord = zero2f) ∧
      (mesh.texcoord.length ≠ 0 →
        (finalsubmission.triangle_closure m mesh tid tray S).texcoord =
          vec2f.smul (1 - u - v)
            (mesh.texcoord.getD (mesh.triangle.getD tid ⟨0, 0, 0⟩).x zero2f) +
          vec2f.smul u (mesh.texcoord.getD (mesh.triangle.getD tid ⟨0, 0, 0⟩).y zero2f) +
          vec2f.smul v (mesh.texcoord.getD (mesh.triangle.getD tid ⟨0, 0, 0⟩).z zero2f)) := by
  obtain ⟨t, u, v, rfl, rfl, rfl, _, _, _, _, hsol⟩ :=
    finalsubmission.intersect_triangle_below _ _ _ _ S.ray_t hit_t bary_u bary_v hsolve hnear
  refine ⟨t, u, v, rfl, rfl, rfl, ?_⟩
  simp only [finalsubmission.triangle_closure, hsolve, hnear, if_true, xfloat.value]
  refine ⟨trivial, trivial, hsol, ?_, ?_⟩
  · intro h; rw [if_pos h]
  · intro h; rw [if_neg h]

/-- C21, witness and failing input: the ray straight down onto the point
`(1/4, 1/4, 0) = 1/4 v0 + 1/4 v1 + 1/2 v2` of the corner triangle, whose
texture coordinates are the x and y of the vertices.  The blend with the
weights of the position is `(1/4, 1/4)`; the closure records `(1/2, 1/4)`. -/
theorem C21_witness :
    finalsubmission.intersect_triangle drop_ray
      (corner_mesh.pos.getD (corner_mesh.triangle.getD 0 ⟨0, 0, 0⟩).x zero3f)
      (corner_mesh.pos.getD (corner_mesh.triangle.getD 0 ⟨0, 0, 0⟩).y zero3f)
      (corner_mesh.pos.getD (corner_mesh.triangle.getD 0 ⟨0, 0, 0⟩).z zero3f) =
        some (xfloat.fin 5, xfloat.fin (1 / 4), xfloat.fin (1 / 4)) ∧
    (xfloat.fin 5).lt (xfloat.fin finalsubmission.intersection3f_init.ray_t) = true ∧
    (finalsubmission.triangle_closure rational_libm corner_mesh 0 drop_ray
      finalsubmission.intersection3f_init).pos = ⟨1 / 4, 1 / 4, 0⟩ ∧
    (finalsubmission.triangle_closure rational_libm corner_mesh 0 drop_ray
      finalsubmission.intersection3f_init).texcoord = ⟨1 / 2, 1 / 4⟩ ∧
    vec2f.smul (1 / 4) (⟨1, 0⟩ : vec2f) + vec2f.smul (1 / 4) ⟨0, 1⟩ + vec2f.smul (1 / 2) ⟨0, 0⟩ =
      (⟨1 / 4, 1 / 4⟩ : vec2f) := by
  have hs : finalsubmission.intersect_triangle drop_ray
      (corner_mesh.pos.getD (corner_mesh.triangle.getD 0 ⟨0, 0, 0⟩).x zero3f)
      (corner_mesh.pos.getD (corner_mesh.triangle.getD 0 ⟨0, 0, 0⟩).y zero3f)
      (corner_mesh.pos.getD (corner_mesh.triangle.getD 0 ⟨0, 0, 0⟩).z zero3f) =
        some (xfloat.fin 5, xfloat.fin (1 / 4), xfloat.fin (1 / 4)) :=
    corner_triangle_drop_ray 5 ray3f_epsilon ray3f_rayinf
      (by norm_num [ray3f_epsilon]) (by norm_num [ray3f_rayinf])
  have hn : (xfloat.fin 5).lt (xfloat.fin finalsubmission.intersection3f_init.ray_t) = true := by
    norm_num [xfloat.lt, finalsubmission.intersection3f_init, flt_max]
  obtain ⟨t, u, v, ht, hu, hv, _, _, hpos, _, htex⟩ :=
    C21_closure_blends_texcoords_with_weights_of_the_next_vertex rational_libm corner_mesh 0
      drop_ray finalsubmission.intersection3f_init _ _ _ hs hn
  simp only [xfloat.fin.injEq] at ht hu hv
  subst ht hu hv
  refine ⟨hs, hn, ?_, ?_, ?_⟩
  · rw [hpos]
    norm_num [corner_mesh, corner_v0, corner_v1, corner_v2, vec3f.smul, vec3f_add_eq]
  · rw [htex (by simp [corner_mesh])]
    norm_num [corner_mesh, vec2f.smul, vec2f_add_eq]
  · norm_num [vec2f.smul, vec2f_add_eq]

/-! ## The identity frame -/

theorem transform_point_identity (p : vec3f) : transform_point identity_frame3f p = p := by
  obtain ⟨x, y, z⟩ := p
  simp [transform_point, identity_frame3f, vec3f_add_eq, vec3f.smul]

theorem transform_vector_identity (v : vec3f) : transform_vector identity_frame3f v = v := by
  obtain ⟨x, y, z⟩ := v
  simp [transform_vector, identity_frame3f, vec3f_add_eq, vec3f.smul]

/-! ## The sphere branch of the stand-alone ray tracer: the origin inside the sphere -/

theorem rat_sqrt_one_twentyfifth : rational_libm.sqrt (1 / 25) = 1 / 5 := by
  show rat_sqrt (1 / 25) = 1 / 5
  have := rat_sqrt_mul_self (1 / 5) (by norm_num)
  norm_num at this
  norm_num
  exact this

/-! ## C34: the nodes that the traversal reaches -/

theorem Below.chain {nodes : List BVHNode} {a k j : Nat} (h1 : Below nodes a k)
    (h2 : Below nodes k j) : Below nodes a j := by
  induction h1 with
  | self _ => exact h2
  | left k0 _ n hn hl _ ih => exact Below.left k0 j n hn hl (ih h2)
  | right k0 _ n hn hl _ ih => exact Below.right k0 j n hn hl (ih h2)

theorem InTree.reached {nodes : List BVHNode} {k : Nat} (h : InTree nodes k) :
    Below nodes 0 k := by
  induction h with
  | root => exact Below.self 0
  | left k n _ hn hl ih => exact ih.chain (Below.left k _ n hn hl (Below.self _))
  | right k n _ hn hl ih => exact ih.chain (Below.right k _ n hn hl (Below.self _))

theorem Laid.moved {nodes nodes2 : List BVHNode} {k lo hi : Nat} (h : Laid nodes k lo hi)
    (hk : nodes2[k]? = nodes[k]?)
    (hn : ∀ j, lo ≤ j → j < hi → nodes2[j]? = nodes[j]?)
    (hlen : nodes.length ≤ nodes2.length) : Laid nodes2 k lo hi := by
  induction h with
  | leaf k lo n hnode hl => exact Laid.leaf k lo n (by rw [hk, hnode]) hl
  | node k lo mid hi n hnode hl h0 h1 hmid hhi hlen2 _ _ ih0 ih1 =>
    refine Laid.node k lo mid hi n (by rw [hk, hnode]) hl h0 h1 hmid hhi (by omega) ?_ ?_
    · exact ih0 (hn _ (by omega) (by omega)) (fun j a b => hn j (by omega) (by omega))
    · exact ih1 (hn _ (by omega) (by omega)) (fun j a b => hn j (by omega) (by omega))

/-- In a laid-out subtree the children of every internal node lie in the range
of the subtree, next to one another, and after their parent. -/
theorem Laid.child_range {nodes : List BVHNode} {k lo hi : Nat} (h : Laid nodes k lo hi) :
    ∀ (j : Nat) (nj : BVHNode), Below nodes k j → nodes[j]? = some nj → nj.leaf = false →
      lo < nj.n0 ∧ nj.n1 = nj.n0 + 1 ∧ nj.n1 < hi ∧ (k < lo → j < nj.n0) := by
  induction h with
  | leaf k lo n hnode hl =>
    intro j nj hb hj hjl
    cases hb with
    | self =>
      rw [hnode] at hj
      cases hj
      rw [hl] at hjl
      cases hjl
    | left _ _ n2 hn2 hl2 _ =>
      rw [hnode] at hn2
      cases hn2
      rw [hl] at hl2
      cases hl2
    | right _ _ n2 hn2 hl2 _ =>
      rw [hnode] at hn2
      cases hn2
      rw [hl] at hl2
      cases hl2
  | node k lo mid hi n hnode hl h0 h1 hmid hhi hlen _ _ ih0 ih1 =>
    intro j nj hb hj hjl
    cases hb with
    | self =>
      rw [hnode] at hj
      cases hj
      exact ⟨by omega, by omega, by omega, fun _ => by omega⟩
    | left _ _ n2 hn2 hl2 hb2 =>
      rw [hnode] at hn2
      cases hn2
      rw [h0] at hb2
      obtain ⟨a, b, c, d⟩ := ih0 j nj hb2 hj hjl
      exact ⟨by omega, b, by omega, fun _ => d (by omega)⟩
    | right _ _ n2 hn2 hl2 hb2 =>
      rw [hnode] at hn2
      cases hn2
      rw [h1] at hb2
      obtain ⟨a, b, c, d⟩ := ih1 j nj hb2 hj hjl
      exact ⟨by omega, b, by omega, fun _ => d (by omega)⟩

/-- In a laid-out subtree two internal nodes that name the same index as a
child are the same node. -/
theorem Laid.unique_parent {nodes : List BVHNode} {k lo hi : Nat} (h : Laid nodes k lo hi) :
    ∀ (a b : Nat) (na nb : BVHNode), Below nodes k a → Below nodes k b →
      nodes[a]? = some na → nodes[b]? = some nb → na.leaf = false → nb.leaf = false →
      (na.n0 = nb.n0 ∨ na.n0 = nb.n1 ∨ na.n1 = nb.n0 ∨ na.n1 = nb.n1) → a = b := by
  induction h with
  | leaf k lo n hnode hl =>
    intro a b na nb ha hb hna hnb hla hlb _
    have hself : ∀ j, Below nodes k j → j = k := by
      intro j hj
      cases hj with
      | self => rfl
      | left _ _ n2 hn2 hl2 _ =>
        rw [hnode] at hn2
        cases hn2
        rw [hl] at hl2
        cases hl2
      | right _ _ n2 hn2 hl2 _ =>
        rw [hnode] at hn2
        cases hn2
        rw [hl] at hl2
        cases hl2
    rw [hself a ha, hself b hb]
  | node k lo mid hi n hnode hl h0 h1 hmid hhi hlen t0 t1 ih0 ih1 =>
    intro a b na nb ha hb hna hnb hla hlb hshare
    have hsplit : ∀ j, Below nodes k j →
        j = k ∨ Below nodes (lo + 1) j ∨ Below nodes (lo + 2) j := by
      intro j hj
      cases hj with
      | self => exact Or.inl rfl
      | left _ _ n2 hn2 hl2 hb2 =>
        rw [hnode] at hn2
        cases hn2
        rw [h0] at hb2
        exact Or.inr (Or.inl hb2)
      | right _ _ n2 hn2 hl2 hb2 =>
        rw [hnode] at hn2
        cases hn2
        rw [h1] at hb2
        exact Or.inr (Or.inr hb2)
    have hroot : ∀ j nj, j = k → nodes[j]? = some nj → nj.n0 = lo + 1 ∧ nj.n1 = lo + 2 := by
      intro j nj hjk hj
      subst hjk
      rw [hnode] at hj
      cases hj
      exact ⟨h0, h1⟩
    rcases hsplit a ha with ea | ea | ea <;> rcases hsplit b hb with eb | eb | eb
    · rw [ea, eb]
    · obtain ⟨x0, x1⟩ := hroot a na ea hna
      obtain ⟨y0, y1, y2, _⟩ := t0.child_range b nb eb hnb hlb
      omega
    · obtain ⟨x0, x1⟩ := hroot a na ea hna
      obtain ⟨y0, y1, y2, _⟩ := t1.child_range b nb eb hnb hlb
      omega
    · obtain ⟨x0, x1⟩ := hroot b nb eb hnb
      obtain ⟨y0, y1, y2, _⟩ := t0.child_range a na ea hna hla
      omega
    · exact ih0 a b na nb ea eb hna hnb hla hlb hshare
    · obtain ⟨x0, x1, x2, _⟩ := t0.child_range a na ea hna hla
      obtain ⟨y0, y1, y2, _⟩ := t1.child_range b nb eb hnb hlb
      omega
    · obtain ⟨x0, x1⟩ := hroot b nb eb hnb
      obtain ⟨y0, y1, y2, _⟩ := t1.child_range a na ea hna hla
      omega
    · obtain ⟨x0, x1, x2, _⟩ := t1.child_range a na ea hna hla
      obtain ⟨y0, y1, y2, _⟩ := t0.child_range b nb eb hnb hlb
      omega
    · exact ih1 a b na nb ea eb hna hnb hla hlb hshare

/-- A call of `make_accelerator_node` lays the subtree of `nodeid` out in the
part of the array that it appends. -/
theorem make_accelerator_node_laid (sort : Sorter) (hsort : sort.permutes) :
    ∀ (n k : Nat) (bp : List boxed_prim) (nodes : List BVHNode) (s e : Nat),
      e - s = n → k < nodes.length → s ≤ e → e ≤ bp.length →
      Laid (make_accelerator_node sort k bp nodes s e).2 k nodes.length
        (make_accelerator_node sort k bp nodes s e).2.length := by
  intro n
  induction n using Nat.strong_induction_on with
  | _ n ih =>
    intro k bp nodes s e hn hk hse he
    by_cases hleaf : e - s ≤ BVHAccelerator_min_prims
    · rw [make_accelerator_node_leaf sort k bp nodes s e hleaf]
      have hlen : (nodes.set k ⟨true, union_range bp s e, s, e⟩).length = nodes.length :=
        List.length_set _ _ _
      simp only [hlen]
      exact Laid.leaf k nodes.length _ (List.getElem?_set_self hk) rfl
    · rw [make_accelerator_node_inner sort k bp nodes s e hleaf]
      have hmp : BVHAccelerator_min_prims = 4 := rfl
      have hsplit := make_accelerator_split_rangePerm sort hsort bp s e (union_range bp s e)
        BVHAccelerator_build_maxaxis hse he
      generalize (make_accelerator_split sort bp s e (union_range bp s e)
        BVHAccelerator_build_maxaxis).1 = bp1 at hsplit ⊢
      have hl3 : (nodes ++ [BVHNode.init] ++ [BVHNode.init] ++ [BVHNode.init]).length =
          nodes.length + 3 := by simp
      have hleft := ih ((s + e) / 2 - s) (by omega) (nodes.length + 1) bp1
        (nodes ++ [BVHNode.init] ++ [BVHNode.init] ++ [BVHNode.init]) s ((s + e) / 2) rfl
        (by omega) (by omega) (by rw [hsplit.1]; omega)
      have hleftspec := make_accelerator_node_spec sort hsort ((s + e) / 2 - s)
        (nodes.length + 1) bp1
        (nodes ++ [BVHNode.init] ++ [BVHNode.init] ++ [BVHNode.init]) s ((s + e) / 2) rfl
        (by omega) (by omega) (by rw [hsplit.1]; omega)
      generalize (nodes ++ [BVHNode.init] ++ [BVHNode.init] ++ [BVHNode.init]) = nodes3
        at hl3 hleft hleftspec ⊢
      obtain ⟨hLp, hLlen, _, _⟩ := hleftspec
      generalize make_accelerator_node sort (nodes.length + 1) bp1 nodes3 s ((s + e) / 2) = L
        at hLp hLlen hleft ⊢
      have hright := ih (e - (s + e) / 2) (by omega) (nodes.length + 2) L.1 L.2
        ((s + e) / 2) e rfl (by omega) (by omega) (by rw [hLp.1, hsplit.1]; exact he)
      have hrightspec := make_accelerator_node_spec sort hsort (e - (s + e) / 2)
        (nodes.length + 2) L.1 L.2 ((s + e) / 2) e rfl (by omega) (by omega)
        (by rw [hLp.1, hsplit.1]; exact he)
      obtain ⟨_, hRlen, hRframe, _⟩ := hrightspec
      generalize make_accelerator_node sort (nodes.length + 2) L.1 L.2 ((s + e) / 2) e = R
        at hRlen hRframe hright ⊢
      have hFlen : (R.2.set k ⟨false, union_range bp s e, nodes.length + 1,
          nodes.length + 2⟩).length = R.2.length := List.length_set _ _ _
      rw [hl3] at hleft
      show Laid (R.2.set k ⟨false, union_range bp s e, nodes.length + 1, nodes.length + 2⟩) k
        nodes.length
        (R.2.set k ⟨false, union_range bp s e, nodes.length + 1, nodes.length + 2⟩).length
      rw [hFlen]
      refine Laid.node k nodes.length L.2.length R.2.length ⟨false, union_range bp s e,
        nodes.length + 1, nodes.length + 2⟩ (List.getElem?_set_self (by omega)) rfl rfl rfl
        (by omega) (by omega) (by omega) ?_ ?_
      · refine hleft.moved ?_ ?_ (by omega)
        · rw [List.getElem?_set_ne (by omega), hRframe _ (by omega) (by omega)]
        · intro j h1 h2
          rw [List.getElem?_set_ne (by omega), hRframe j h2 (by omega)]
      · refine hright.moved ?_ ?_ (by omega)
        · rw [List.getElem?_set_ne (by omega)]
        · intro j h1 _
          rw [List.getElem?_set_ne (by omega)]

/-- The node array of `make_accelerator` is laid out from node 0. -/
theorem make_accelerator_laid (sort : Sorter) (hsort : sort.permutes) (bboxes : List range3f) :
    Laid (make_accelerator sort bboxes).nodes 0 1 (make_accelerator sort bboxes).nodes.length :=
  make_accelerator_node_laid sort hsort bboxes.length 0 (make_boxed_prims bboxes)
    [BVHNode.init] 0 bboxes.length rfl (by simp) (Nat.zero_le _)
    (by rw [length_make_boxed_prims])

/-- Where the nearest-hit traversal returns, the any-hit traversal returns. -/
theorem bvh_intersect_shadow_returns (bvh : BVHAccelerator) (fs : Nat → ray3f → Bool)
    (fuel nodeid : Nat) (ray : ray3f)
    (h : ∃ r, bvh.intersect (fun i r => { intersection3f.init with hit := fs i r }) fuel nodeid
      ray = some r) :
    ∃ b, bvh.intersect_shadow fs fuel nodeid ray = some b := by
  obtain ⟨r, hr⟩ := h
  exact ⟨r.hit, bvh_intersect_shadow_of_intersect bvh _ fs (fun _ _ => rfl) fuel nodeid ray r hr⟩

/-- C34 (as amended): in the node array built by `make_accelerator`, node 0 is
the root, every node reached from the root is an entry of the array, every
internal node reached from the root, at index `k`, has children `n0` and `n1`
with `k < n0 < n1 < nodes.size()`, and no index is the child of two different
nodes reached from the root; both BVH traversals return on it, within a
recursion depth of `nodes.size()`. -/
theorem C34_reachable_nodes_form_a_tree (sort : Sorter) (hsort : sort.permutes)
    (bboxes : List range3f) :
    InTree (make_accelerator sort bboxes).nodes 0 ∧
    (∀ k, InTree (make_accelerator sort bboxes).nodes k →
      ∃ n, (make_accelerator sort bboxes).nodes[k]? = some n ∧
        (n.leaf = false →
          k < n.n0 ∧ n.n0 < n.n1 ∧ n.n1 < (make_accelerator sort bboxes).nodes.length)) ∧
    (∀ (a b : Nat) (na nb : BVHNode),
      InTree (make_accelerator sort bboxes).nodes a →
      InTree (make_accelerator sort bboxes).nodes b →
      (make_accelerator sort bboxes).nodes[a]? = some na →
      (make_accelerator sort bboxes).nodes[b]? = some nb →
      na.leaf = false → nb.leaf = false →
      (na.n0 = nb.n0 ∨ na.n0 = nb.n1 ∨ na.n1 = nb.n0 ∨ na.n1 = nb.n1) → a = b) ∧
    (∀ (f : Nat → ray3f → intersection3f) (ray : ray3f),
      ∃ r, (make_accelerator sort bboxes).intersect f
        (make_accelerator sort bboxes).depth_bound 0 ray = some r) ∧
    (∀ (fs : Nat → ray3f → Bool) (ray : ray3f),
      ∃ b, (make_accelerator sort bboxes).intersect_shadow fs
        (make_accelerator sort bboxes).depth_bound 0 ray = some b) := by
  have hlaid := make_accelerator_laid sort hsort bboxes
  obtain ⟨bp, hi, hperm, _, hroot⟩ := make_accelerator_tree sort hsort bboxes
  refine ⟨InTree.root, ?_, ?_, ?_, ?_⟩
  · intro k hk
    obtain ⟨lo2, hi2, s, e, _, _, ht⟩ := InTree.isTree hroot hk
    obtain ⟨n, hn, _⟩ := ht.node_eq
    refine ⟨n, hn, fun hl => ?_⟩
    obtain ⟨h1, h2, h3, h4⟩ := hlaid.child_range k n hk.reached hn hl
    exact ⟨h4 (by omega), by omega, h3⟩
  · intro a b na nb ha hb hna hnb hla hlb hshare
    exact hlaid.unique_parent a b na nb ha.reached hb.reached hna hnb hla hlb hshare
  · intro f ray
    exact make_accelerator_intersect_returns sort hsort bboxes f ray
  · intro fs ray
    exact bvh_intersect_shadow_returns _ fs _ 0 ray
      (make_accelerator_intersect_returns sort hsort bboxes _ ray)

/-- C34, witness: the array built for the six boxes of `demo_bboxes`, with
insertion sort standing in for `std::sort`. -/
theorem C34_witness :
    InTree (make_accelerator insertion_sort demo_bboxes).nodes 0 ∧
      ∀ k, InTree (make_accelerator insertion_sort demo_bboxes).nodes k →
        ∃ n, (make_accelerator insertion_sort demo_bboxes).nodes[k]? = some n ∧
          (n.leaf = false → k < n.n0 ∧ n.n0 < n.n1 ∧
            n.n1 < (make_accelerator insertion_sort demo_bboxes).nodes.length) :=
  ⟨(C34_reachable_nodes_form_a_tree insertion_sort insertion_sort_permutes demo_bboxes).1,
    (C34_reachable_nodes_form_a_tree insertion_sort insertion_sort_permutes demo_bboxes).2.1⟩

/-- C34 (counterexample): for the six boxes of `demo_bboxes` the node array has
at index 1 the slot `BVHNode()` that the root call appended before its two
children and never wrote: an entry that is not a leaf and whose `n0` and `n1`
are both 0, so its children do not come after it. -/
theorem C34_counterexample :
    ∃ n, (make_accelerator insertion_sort demo_bboxes).nodes[1]? = some n ∧ n.leaf = false ∧
      n.n0 = 0 ∧ n.n1 = 0 ∧ ¬ (1 < n.n0 ∧ n.n0 < n.n1) := by
  have hpad : (make_accelerator insertion_sort demo_bboxes).nodes[1]? = some BVHNode.init :=
    make_accelerator_node_padding insertion_sort insertion_sort_permutes 0
      (make_boxed_prims demo_bboxes) [BVHNode.init] 0 demo_bboxes.length
      (by simp [demo_bboxes, BVHAccelerator_min_prims]) (by simp) (Nat.zero_le _)
      (by rw [length_make_boxed_prims])
  exact ⟨BVHNode.init, hpad, rfl, rfl, rfl, by decide⟩

/-! ## C35: the surface that the light sampling picks -/

theorem raytrace_light_list_ne_nil (scene : PathScene)
    (h : ∃ surf ∈ scene.surfaces, (scene.material surf.mat).ke ≠ zero3f) :
    (raytrace_light_list scene).length ≠ 0 := by
  obtain ⟨surf, hmem, hke⟩ := h
  unfold raytrace_light_list
  simp only [List.length_map]
  intro h0
  have hnil := List.length_eq_zero.mp h0
  have : surf ∈ scene.surfaces.filter
      (fun surf => decide ((scene.material surf.mat).ke ≠ zero3f)) :=
    List.mem_filter.mpr ⟨hmem, by simpa using hke⟩
  rw [hnil] at this
  cases this

/-- C35 (the defect): whenever the scene has an emissive surface, the surface
that a round of the sampling loop of `raytrace_ray` picks is `scene->surfaces[0]`,
whatever the generator draws and wherever the emissive surfaces stand in the
list: every entry of `light_list` is the value of `index`, which the loop over
the surfaces never increments. -/
theorem C35_sampled_surface_is_the_first_of_the_list (deps : render_deps) (scene : PathScene)
    (rng : Rng) (hint : deps.next_int_in_range)
    (h : ∃ surf ∈ scene.surfaces, (scene.material surf.mat).ke ≠ zero3f) :
    ∃ rng1 first, raytrace_pick_light deps scene rng = some (0, rng1) ∧
      scene.surfaces[0]? = some first := by
  have hne := raytrace_light_list_ne_nil scene h
  obtain ⟨rng1, hp⟩ := raytrace_pick_light_returns deps scene rng hint hne
  obtain ⟨first, hf⟩ := raytrace_light_list_surfaces scene hne
  exact ⟨rng1, first, hp, hf⟩

/-- C35, at the failing input: a diffuse quad followed by an emissive quad.
The only emissive surface is `surfaces[1]`; the surface picked is `surfaces[0]`,
the diffuse quad, whose material does not emit. -/
theorem C35_witness :
    last_deps.next_int_in_range ∧
      (lamp_scene.material lamp_quad.mat).ke ≠ zero3f ∧
      lamp_scene.surfaces[1]? = some lamp_quad ∧
      lamp_scene.surfaces[0]? = some unit_quad ∧
      (lamp_scene.material unit_quad.mat).ke = zero3f ∧
      ∃ rng1 first, raytrace_pick_light last_deps lamp_scene ⟨0⟩ = some (0, rng1) ∧
        lamp_scene.surfaces[0]? = some first :=
  ⟨fun _ _ _ h => ⟨h, le_refl _⟩, by decide, rfl, rfl, by decide,
    C35_sampled_surface_is_the_first_of_the_list last_deps lamp_scene ⟨0⟩
      (fun _ _ _ h => ⟨h, le_refl _⟩) ⟨lamp_quad, by simp [lamp_scene], by decide⟩⟩

/-! ## C36: the texture coordinates of a cylinder hit -/

theorem transform_ray_inverse_identity (ray : ray3f) :
    transform_ray_inverse identity_frame3f ray = ray := by
  obtain ⟨⟨ex, ey, ez⟩, ⟨dx, dy, dz⟩, tmin, tmax⟩ := ray
  simp [transform_ray_inverse, transform_point_inverse, transform_vector_inverse,
    identity_frame3f, dot, vec3f_sub_eq]

/-- What the cylinder branch of the surface loop writes when it records a
hit: every field but `texcoord`. -/
theorem intersect_surface_cylinder (m : libm) (ray : ray3f) (acc : intersection3f)
    (s : Surface) (hq : s.isquad = false) (hc : s.iscylinder = true) (t : ℚ) (norm : vec3f)
    (hhit : intersect_cylinder m (transform_ray_inverse s.frame ray) s.radius s.height zero3f =
      some (t, norm))
    (hnear : ¬ (t > acc.ray_t ∧ acc.hit = true)) :
    intersect_surface m ray acc s =
      ⟨true, t, transform_point s.frame ((transform_ray_inverse s.frame ray).eval t),
        transform_normal m s.frame norm, acc.texcoord, s.mat⟩ := by
  have hdec : (decide (t > acc.ray_t) && acc.hit) = false := by
    by_cases h1 : t > acc.ray_t
    · cases h2 : acc.hit
      · simp
      · exact absurd ⟨h1, h2⟩ hnear
    · simp [h1]
  unfold intersect_surface
  simp only [hq, hc, Bool.false_eq_true, if_false, if_true, hhit, hdec]

theorem rat_sqrt_one : rational_libm.sqrt 1 = 1 := by
  show rat_sqrt 1 = 1
  have := rat_sqrt_mul_self 1 (by norm_num)
  norm_num at this
  exact this

theorem rat_sqrt_four_twentyfifths : rational_libm.sqrt (4 / 25) = 2 / 5 := by
  show rat_sqrt (4 / 25) = 2 / 5
  have := rat_sqrt_mul_self (2 / 5) (by norm_num)
  norm_num at this
  exact this

theorem tilted_down_cylinder :
    intersect_cylinder rational_libm tilted_down_ray 1 1 zero3f = some (4, ⟨0, 0, 1⟩) := by
  have hside : cylinder_side rational_libm tilted_down_ray 1 1 (ray3f_rayinf, zero3f) =
      (ray3f_rayinf, zero3f) := by
    unfold cylinder_side
    norm_num [tilted_down_ray, rat_sqrt_one_twentyfifth, ray3f_epsilon, ray3f_rayinf]
  have htop : cylinder_top rational_libm tilted_down_ray 1 1 (ray3f_rayinf, zero3f) =
      (4, ⟨0, 0, 1⟩) := by
    unfold cylinder_top
    norm_num [tilted_down_ray, rat_sqrt_four_twentyfifths, ray3f_epsilon, ray3f_rayinf, dot,
      length, lengthSqr, fabs, ray3f.eval, vec3f.smul, vec3f_add_eq, vec3f_sub_eq]
  have hbot : cylinder_bottom rational_libm tilted_down_ray 1 1 (4, ⟨0, 0, 1⟩) =
      (4, ⟨0, 0, 1⟩) :=
    cylinder_bottom_idle rational_libm tilted_down_ray 1 1 _ (by norm_num [tilted_down_ray])
      (by norm_num)
  unfold intersect_cylinder
  have e1 : tilted_down_ray.tmax = ray3f_rayinf := rfl
  rw [e1, hside, htop, hbot]
  norm_num [ray3f_rayinf]

theorem tilted_down_quad_solver (r : ℚ) (hr : 1 / 2 ≤ r) :
    intersect_quad tilted_down_ray r = some (5, ⟨1 / 2, 0, 0⟩) := by
  have hz : tilted_down_ray.d.z ≠ 0 := by norm_num [tilted_down_ray]
  have ht : -tilted_down_ray.e.z / tilted_down_ray.d.z = 5 := by norm_num [tilted_down_ray]
  have hp : tilted_down_ray.eval 5 = ⟨1 / 2, 0, 0⟩ := by
    norm_num [tilted_down_ray, ray3f.eval, vec3f.smul, vec3f_add_eq]
  have hmin : tilted_down_ray.tmin = ray3f_epsilon := rfl
  have hmax : tilted_down_ray.tmax = ray3f_rayinf := rfl
  unfold intersect_quad
  simp only [hz, if_false, ht, hp, hmin, hmax]
  rw [if_neg (by
    rintro (h | h | h | h) <;> linarith), if_neg (by
    rintro (h | h) <;> norm_num [ray3f_epsilon, ray3f_rayinf] at h)]

theorem normalize_z_exact : normalize rational_libm (⟨0, 0, 1⟩ : vec3f) = ⟨0, 0, 1⟩ := by
  have hl : lengthSqr (⟨0, 0, 1⟩ : vec3f) = 1 := by norm_num [lengthSqr, dot]
  simp only [normalize, length, hl, rat_sqrt_one]
  norm_num [vec3f.sdiv]

/-- What the quad branch of the surface loop writes when it records a hit. -/
theorem intersect_surface_quad (m : libm) (ray : ray3f) (acc : intersection3f)
    (s : Surface) (hq : s.isquad = true) (t : ℚ) (p : vec3f)
    (hhit : intersect_quad (transform_ray_inverse s.frame ray) s.radius = some (t, p))
    (hnear : ¬ (t > acc.ray_t ∧ acc.hit = true)) :
    intersect_surface m ray acc s =
      ⟨true, t, transform_point s.frame p, transform_normal m s.frame z3f,
        ⟨(1 / 2) * p.x / s.radius + 1 / 2, (1 / 2) * p.y / s.radius + 1 / 2⟩, s.mat⟩ := by
  have hdec : (decide (t > acc.ray_t) && acc.hit) = false := by
    by_cases h1 : t > acc.ray_t
    · cases h2 : acc.hit
      · simp
      · exact absurd ⟨h1, h2⟩ hnear
    · simp [h1]
  unfold intersect_surface
  simp only [hq, if_true, hhit, hdec, Bool.false_eq_true, if_false]

/-- The record of the quad of radius `r >= 1/2` in the plane `z = 0` for the
tilted ray. -/
theorem tilted_down_quad (r : ℚ) (hr : 1 / 2 ≤ r) :
    intersect_surface rational_libm tilted_down_ray intersection3f.init (flat_quad r) =
      ⟨true, 5, ⟨1 / 2, 0, 0⟩, ⟨0, 0, 1⟩, ⟨1 / 2 * (1 / 2) / r + 1 / 2, 1 / 2⟩, 1⟩ := by
  have hf : (flat_quad r).frame = identity_frame3f := rfl
  have hrad : (flat_quad r).radius = r := rfl
  have hmat : (flat_quad r).mat = 1 := rfl
  rw [intersect_surface_quad rational_libm tilted_down_ray intersection3f.init (flat_quad r) rfl
    5 ⟨1 / 2, 0, 0⟩ (by
      rw [hf, hrad, transform_ray_inverse_identity]
      exact tilted_down_quad_solver r hr) (by
      intro h
      exact absurd h.2 (by simp [intersection3f.init]))]
  simp only [hf, hrad, hmat, transform_point_identity, transform_normal,
    transform_vector_identity, z3f, normalize_z_exact]
  norm_num

/-- The record of `intersect(scene, ray)` for the scene of a quad of radius
`r >= 1/2` in the plane `z = 0` followed by the unit cylinder, and the tilted
ray: the hit on the top cap of the cylinder, with the texture coordinate of
the quad. -/
theorem tilted_down_scene (r : ℚ) (hr : 1 / 2 ≤ r) :
    Scene.intersect rational_libm
        ⟨[flat_quad r, unit_cylinder], [], false⟩ tilted_down_ray =
      Outcome.value ⟨true, 4, ⟨2 / 5, 0, 1⟩, ⟨0, 0, 1⟩,
        ⟨1 / 2 * (1 / 2) / r + 1 / 2, 1 / 2⟩, 2⟩ := by
  unfold Scene.intersect
  simp only [List.foldl_cons, List.foldl_nil, intersect_meshes, tilted_down_quad r hr]
  rw [intersect_surface_cylinder rational_libm tilted_down_ray _ unit_cylinder rfl rfl 4
    ⟨0, 0, 1⟩ (by
      have : unit_cylinder.frame = identity_frame3f := rfl
      rw [this, transform_ray_inverse_identity]
      exact tilted_down_cylinder) (by norm_num)]
  have hf : unit_cylinder.frame = identity_frame3f := rfl
  simp only [hf, transform_ray_inverse_identity, transform_point_identity, transform_normal,
    transform_vector_identity, normalize_z_exact]
  norm_num [tilted_down_ray, ray3f.eval, vec3f.smul, vec3f_add_eq, unit_cylinder]

/-- C36 (the defect): when the cylinder branch of the surface loop of
`intersect(scene, ray)` records a hit it writes `hit`, `ray_t`, `pos`, `norm`
and `mat` and leaves `texcoord` as it stands.  So for a scene of a surface `q`
followed by a cylinder that the ray hits no farther than `q`, the record
returned has every field from the cylinder but the texture coordinate, which is
the one that `q` left in the record. -/
theorem C36_cylinder_hit_keeps_the_texcoord_of_the_record (m : libm) (ray : ray3f)
    (q s : Surface) (b : Bool) (hq : s.isquad = false) (hc : s.iscylinder = true) (t : ℚ)
    (norm : vec3f)
    (hhit : intersect_cylinder m (transform_ray_inverse s.frame ray) s.radius s.height zero3f =
      some (t, norm))
    (hnear : ¬ (t > (intersect_surface m ray intersection3f.init q).ray_t ∧
      (intersect_surface m ray intersection3f.init q).hit = true)) :
    (∀ acc : intersection3f, ¬ (t > acc.ray_t ∧ acc.hit = true) →
      intersect_surface m ray acc s =
        ⟨true, t, transform_point s.frame ((transform_ray_inverse s.frame ray).eval t),
          transform_normal m s.frame norm, acc.texcoord, s.mat⟩) ∧
    Scene.intersect m ⟨[q, s], [], b⟩ ray =
      Outcome.value ⟨true, t,
        transform_point s.frame ((transform_ray_inverse s.frame ray).eval t),
        transform_normal m s.frame norm,
        (intersect_surface m ray intersection3f.init q).texcoord, s.mat⟩ := by
  refine ⟨fun acc hacc => intersect_surface_cylinder m ray acc s hq hc t norm hhit hacc, ?_⟩
  unfold Scene.intersect
  simp only [List.foldl_cons, List.foldl_nil, intersect_meshes]
  rw [intersect_surface_cylinder m ray _ s hq hc t norm hhit hnear]

/-- C36, at the failing input: the unit cylinder behind a quad in the plane
`z = 0`, and the tilted ray from `(0,0,5)`, which hits the top cap of the
cylinder at `t = 4` and the quad at `t = 5`.  With the quad of radius 1 the
record has the texture coordinate `(3/4, 1/2)`, with the quad of radius 2 it has
`(5/8, 1/2)`: two scenes that differ only in a surface hit strictly farther
than the closest hit, and two different records. -/
theorem C36_witness :
    Scene.intersect rational_libm ⟨[flat_quad 1, unit_cylinder], [], false⟩ tilted_down_ray =
        Outcome.value ⟨true, 4,
          transform_point unit_cylinder.frame
            ((transform_ray_inverse unit_cylinder.frame tilted_down_ray).eval 4),
          transform_normal rational_libm unit_cylinder.frame ⟨0, 0, 1⟩,
          (intersect_surface rational_libm tilted_down_ray intersection3f.init
            (flat_quad 1)).texcoord, unit_cylinder.mat⟩ ∧
      (intersect_surface rational_libm tilted_down_ray intersection3f.init (flat_quad 1)).ray_t
        = 5 ∧
      (intersect_surface rational_libm tilted_down_ray intersection3f.init (flat_quad 2)).ray_t
        = 5 ∧
      Scene.intersect rational_libm ⟨[flat_quad 1, unit_cylinder], [], false⟩ tilted_down_ray =
        Outcome.value ⟨true, 4, ⟨2 / 5, 0, 1⟩, ⟨0, 0, 1⟩, ⟨3 / 4, 1 / 2⟩, 2⟩ ∧
      Scene.intersect rational_libm ⟨[flat_quad 2, unit_cylinder], [], false⟩ tilted_down_ray =
        Outcome.value ⟨true, 4, ⟨2 / 5, 0, 1⟩, ⟨0, 0, 1⟩, ⟨5 / 8, 1 / 2⟩, 2⟩ := by
  have hcyl : intersect_cylinder rational_libm
      (transform_ray_inverse unit_cylinder.frame tilted_down_ray) unit_cylinder.radius
      unit_cylinder.height zero3f = some (4, ⟨0, 0, 1⟩) := by
    have : unit_cylinder.frame = identity_frame3f := rfl
    rw [this, transform_ray_inverse_identity]
    exact tilted_down_cylinder
  have h1 := tilted_down_scene 1 (by norm_num)
  have h2 := tilted_down_scene 2 (by norm_num)
  norm_num at h1 h2
  refine ⟨(C36_cylinder_hit_keeps_the_texcoord_of_the_record rational_libm tilted_down_ray
    (flat_quad 1) unit_cylinder false rfl rfl 4 ⟨0, 0, 1⟩ hcyl (by
      rw [tilted_down_quad 1 (by norm_num)]
      norm_num)).2, ?_, ?_, h1, h2⟩
  · rw [tilted_down_quad 1 (by norm_num)]
  · rw [tilted_down_quad 2 (by norm_num)]

/-! ## C37: the bilinear texture lookup -/

theorem rat_ceil_eq (q : ℚ) : Rat.ceil q = ⌈q⌉ := by
  symm
  rw [Int.ceil_eq_iff]
  unfold Rat.ceil
  by_cases hd : q.den = 1
  · simp only [hd, if_true]
    have hq : (q.num : ℚ) = q := Rat.coe_int_num_of_den_eq_one hd
    rw [hq]
    constructor <;> linarith
  · simp only [hd, if_false]
    have hfl : q.num / (q.den : ℤ) = ⌊q⌋ := Rat.floor_def.symm
    rw [hfl]
    push_cast
    have h1 := Int.floor_le q
    have h2 := Int.lt_floor_add_one q
    have hne : (⌊q⌋ : ℚ) ≠ q := by
      intro h
      apply hd
      rw [← h]
      exact Rat.den_intCast _
    constructor
    · have : (⌊q⌋ : ℚ) < q := lt_of_le_of_ne h1 hne
      linarith
    · linarith

/-- The part of a float that the conversion to `int` drops: in `[0, 1)` for a
float that is not negative, in `(-1, 0]` for a negative one. -/
theorem trunc_fraction (q : ℚ) :
    (0 ≤ q → 0 ≤ q - trunc q ∧ q - trunc q < 1) ∧
      (q < 0 → -1 < q - trunc q ∧ q - trunc q ≤ 0) := by
  unfold trunc
  constructor
  · intro h
    rw [if_pos h]
    have h1 := Int.floor_le q
    have h2 := Int.lt_floor_add_one q
    have e : (Rat.floor q : ℚ) = (⌊q⌋ : ℚ) := rfl
    rw [e]
    constructor <;> linarith
  · intro h
    rw [if_neg (not_le.mpr h), rat_ceil_eq]
    have h1 := Int.le_ceil q
    have h2 := Int.ceil_lt_add_one q
    constructor <;> linarith

theorem vec3f_smul_smul (v : vec3f) (a b : ℚ) : (v.smul a).smul b = v.smul (a * b) := by
  simp only [vec3f.smul, mul_assoc]

/-- The value of `lookup_scaled_texture` with a texture bound, the weights
multiplied out. -/
theorem lookup_scaled_texture_blend (value : vec3f) (texture : image3f) (uv : vec2f)
    (tile : Bool) :
    ∃ i i1 j j1 : Int, lookup_scaled_texture value (some texture) uv tile =
      value.mul ((texture.at_ i j).smul
          ((1 - (uv.x * texture.width - trunc (uv.x * texture.width))) *
            (1 - (uv.y * texture.height - trunc (uv.y * texture.height)))) +
        (texture.at_ i j1).smul
          ((1 - (uv.x * texture.width - trunc (uv.x * texture.width))) *
            (uv.y * texture.height - trunc (uv.y * texture.height))) +
        (texture.at_ i1 j).smul
          ((uv.x * texture.width - trunc (uv.x * texture.width)) *
            (1 - (uv.y * texture.height - trunc (uv.y * texture.height)))) +
        (texture.at_ i1 j1).smul
          ((uv.x * texture.width - trunc (uv.x * texture.width)) *
            (uv.y * texture.height - trunc (uv.y * texture.height)))) := by
  unfold lookup_scaled_texture
  simp only [vec3f_smul_smul]
  exact ⟨_, _, _, _, rfl⟩

/-- C37 (what the code computes): with a texture bound, `lookup_scaled_texture`
returns `value` times a blend of four texels with the weights `(1-s)(1-t)`,
`(1-s)t`, `s(1-t)` and `st`, where `s` and `t` are what the conversion to `int`
drops of `uv.x * width` and `uv.y * height`.  The weights sum to 1.  For
coordinates that are not negative each weight lies in `[0, 1]`.  For a negative
coordinate the conversion rounds towards zero, so `s` (or `t`) lies in
`(-1, 0]`: where it is not zero the weights that carry it as a factor are of
the wrong sign and the others exceed their share, in the clamped and in the
tiled mode alike. -/
theorem C37_blend_weights_follow_the_truncated_coordinate (value : vec3f) (texture : image3f)
    (uv : vec2f) (tile : Bool) :
    (∃ i i1 j j1 : Int, lookup_scaled_texture value (some texture) uv tile =
      value.mul ((texture.at_ i j).smul
          ((1 - (uv.x * texture.width - trunc (uv.x * texture.width))) *
            (1 - (uv.y * texture.height - trunc (uv.y * texture.height)))) +
        (texture.at_ i j1).smul
          ((1 - (uv.x * texture.width - trunc (uv.x * texture.width))) *
            (uv.y * texture.height - trunc (uv.y * texture.height))) +
        (texture.at_ i1 j).smul
          ((uv.x * texture.width - trunc (uv.x * texture.width)) *
            (1 - (uv.y * texture.height - trunc (uv.y * texture.height)))) +
        (texture.at_ i1 j1).smul
          ((uv.x * texture.width - trunc (uv.x * texture.width)) *
            (uv.y * texture.height - trunc (uv.y * texture.height))))) ∧
    ((1 - (uv.x * texture.width - trunc (uv.x * texture.width))) *
          (1 - (uv.y * texture.height - trunc (uv.y * texture.height))) +
        (1 - (uv.x * texture.width - trunc (uv.x * texture.width))) *
          (uv.y * texture.height - trunc (uv.y * texture.height)) +
        (uv.x * texture.width - trunc (uv.x * texture.width)) *
          (1 - (uv.y * texture.height - trunc (uv.y * texture.height))) +
        (uv.x * texture.width - trunc (uv.x * texture.width)) *
          (uv.y * texture.height - trunc (uv.y * texture.height)) = 1) ∧
    (0 ≤ uv.x * texture.width → 0 ≤ uv.y * texture.height →
      (0 ≤ (1 - (uv.x * texture.width - trunc (uv.x * texture.width))) *
          (1 - (uv.y * texture.height - trunc (uv.y * texture.height))) ∧
        (1 - (uv.x * texture.width - trunc (uv.x * texture.width))) *
          (1 - (uv.y * texture.height - trunc (uv.y * texture.height))) ≤ 1) ∧
      (0 ≤ (1 - (uv.x * texture.width - trunc (uv.x * texture.width))) *
          (uv.y * texture.height - trunc (uv.y * texture.height)) ∧
        (1 - (uv.x * texture.width - trunc (uv.x * texture.width))) *
          (uv.y * texture.height - trunc (uv.y * texture.height)) ≤ 1) ∧
      (0 ≤ (uv.x * texture.width - trunc (uv.x * texture.width)) *
          (1 - (uv.y * texture.height - trunc (uv.y * texture.height))) ∧
        (uv.x * texture.width - trunc (uv.x * texture.width)) *
          (1 - (uv.y * texture.height - trunc (uv.y * texture.height))) ≤ 1) ∧
      (0 ≤ (uv.x * texture.width - trunc (uv.x * texture.width)) *
          (uv.y * texture.height - trunc (uv.y * texture.height)) ∧
        (uv.x * texture.width - trunc (uv.x * texture.width)) *
          (uv.y * texture.height - trunc (uv.y * texture.height)) ≤ 1)) ∧
    (uv.x * texture.width < 0 →
      -1 < uv.x * texture.width - trunc (uv.x * texture.width) ∧
        uv.x * texture.width - trunc (uv.x * texture.width) ≤ 0) ∧
    (uv.y * texture.height < 0 →
      -1 < uv.y * texture.height - trunc (uv.y * texture.height) ∧
        uv.y * texture.height - trunc (uv.y * texture.height) ≤ 0) := by
  have hx := trunc_fraction (uv.x * texture.width)
  have hy := trunc_fraction (uv.y * texture.height)
  refine ⟨lookup_scaled_texture_blend value texture uv tile, ?_⟩
  generalize uv.x * texture.width - trunc (uv.x * texture.width) = s at hx ⊢
  generalize uv.y * texture.height - trunc (uv.y * texture.height) = t at hy ⊢
  refine ⟨by ring, ?_, hx.2, hy.2⟩
  · intro h1 h2
    obtain ⟨s0, s1⟩ := hx.1 h1
    obtain ⟨t0, t1⟩ := hy.1 h2
    refine ⟨⟨?_, ?_⟩, ⟨?_, ?_⟩, ⟨?_, ?_⟩, ⟨?_, ?_⟩⟩ <;> nlinarith

theorem stripe_lookup (tile : Bool) :
    lookup_scaled_texture one3f (some stripe_image) ⟨-1 / 4, 0⟩ tile =
      ⟨-1 / 2, -1 / 2, -1 / 2⟩ := by
  have hx : trunc ((-1 / 4 : ℚ) * ((2 : Int) : ℚ)) = 0 := by
    unfold trunc
    rw [if_neg (by norm_num), rat_ceil_eq, Int.ceil_eq_iff]
    norm_num
  have hy : trunc ((0 : ℚ) * ((1 : Int) : ℚ)) = 0 := by
    unfold trunc
    norm_num
    rfl
  unfold lookup_scaled_texture
  simp only [stripe_image, hx, hy]
  cases tile <;>
    norm_num [clamp, tile_index, vec3f.mul, vec3f.smul, vec3f_add_eq, one3f, zero3f, Int.tmod]

/-- C37, at the failing input: the texture two texels wide, black then white,
looked up at `uv = (-1/4, 0)`, a coordinate left of the image as `eval_env`
produces it for a direction with negative `x`.  The dropped part of
`uv.x * width = -1/2` is `-1/2`, so the black texel gets the weight `3/2` and
the white one the weight `-1/2`: the blend is `-1/2` in every channel, below
both texels, in the tiled and in the clamped mode. -/
theorem C37_witness :
    (-1 / 4 : ℚ) * stripe_image.width < 0 ∧
      (-1 < (-1 / 4 : ℚ) * stripe_image.width - trunc ((-1 / 4 : ℚ) * stripe_image.width) ∧
        (-1 / 4 : ℚ) * stripe_image.width - trunc ((-1 / 4 : ℚ) * stripe_image.width) ≤ 0) ∧
      stripe_image.at_ 0 0 = zero3f ∧ stripe_image.at_ 1 0 = one3f ∧
      lookup_scaled_texture one3f (some stripe_image) ⟨-1 / 4, 0⟩ true =
        ⟨-1 / 2, -1 / 2, -1 / 2⟩ ∧
      lookup_scaled_texture one3f (some stripe_image) ⟨-1 / 4, 0⟩ false =
        ⟨-1 / 2, -1 / 2, -1 / 2⟩ :=
  ⟨by norm_num [stripe_image],
    (C37_blend_weights_follow_the_truncated_coordinate one3f stripe_image ⟨-1 / 4, 0⟩
      true).2.2.2.1 (by norm_num [stripe_image]),
    rfl, rfl, stripe_lookup true, stripe_lookup false⟩

/-! ## C38: the keyframe interval -/

/-- C40 (the defect): for a mesh of one triangle with three different corners,
`smooth_normals` gives the first two corners the face normal plus its
normalisation, twice the face normal where that is a unit vector, and gives the
third corner the normalisation of zero added to zero: the loop over the corners
of a triangle is `range(2)` and the last loop is `f += normalize(f)`. -/
theorem C40_triangle_corners_get_two_normals_or_none (m : libm) (mesh : Mesh) (f : vec3i)
    (px py pz : vec3f) (htri : mesh.triangle = [f]) (hquad : mesh.quad = [])
    (hx : mesh.pos[f.x]? = some px) (hy : mesh.pos[f.y]? = some py)
    (hz : mesh.pos[f.z]? = some pz) (hxy : f.x ≠ f.y) (hxz : f.x ≠ f.z) (hyz : f.y ≠ f.z) :
    ∃ norm, smooth_normals m mesh = some norm ∧ norm.length = mesh.pos.length ∧
      norm[f.x]? = some (zero3f + triangle_normal m px py pz +
        normalize m (zero3f + triangle_normal m px py pz)) ∧
      norm[f.y]? = some (zero3f + triangle_normal m px py pz +
        normalize m (zero3f + triangle_normal m px py pz)) ∧
      norm[f.z]? = some (zero3f + normalize m zero3f) := by
  have hlx : f.x < mesh.pos.length := by
    by_contra hc
    rw [List.getElem?_eq_none (by omega)] at hx
    cases hx
  have hly : f.y < mesh.pos.length := by
    by_contra hc
    rw [List.getElem?_eq_none (by omega)] at hy
    cases hy
  have hlz : f.z < mesh.pos.length := by
    by_contra hc
    rw [List.getElem?_eq_none (by omega)] at hz
    cases hz
  have hr2 : List.range 2 = [0, 1] := rfl
  unfold smooth_normals
  simp only [htri, hquad, List.foldl_cons, List.foldl_nil, smooth_normals_triangle, hx, hy, hz,
    hr2, vec3i.get, smooth_normals_add]
  have h0 : (List.replicate mesh.pos.length zero3f)[f.x]? = some zero3f := by
    rw [List.getElem?_replicate]
    simp [hlx]
  simp only [h0]
  have h1 : ((List.replicate mesh.pos.length zero3f).set f.x
      (zero3f + normalize m (cross (py - px) (pz - px))))[f.y]? = some zero3f := by
    rw [List.getElem?_set_ne hxy, List.getElem?_replicate]
    simp [hly]
  simp only [h1, Option.map_some']
  refine ⟨_, rfl, by simp, ?_, ?_, ?_⟩
  · rw [List.getElem?_map, List.getElem?_set_ne (Ne.symm hxy),
      List.getElem?_set_self (by simpa using hlx)]
    rfl
  · rw [List.getElem?_map, List.getElem?_set_self (by simpa using hly)]
    rfl
  · rw [List.getElem?_map, List.getElem?_set_ne hyz, List.getElem?_set_ne hxz,
      List.getElem?_replicate]
    simp [hlz]

theorem corner_triangle_normal :
    triangle_normal rational_libm corner_v0 corner_v1 corner_v2 = ⟨0, 0, 1⟩ := by
  have hc : cross (corner_v1 - corner_v0) (corner_v2 - corner_v0) = ⟨0, 0, 1⟩ := by
    norm_num [cross, corner_v0, corner_v1, corner_v2, vec3f_sub_eq]
  unfold triangle_normal
  rw [hc, normalize_z_exact]

/-- C40, at the failing input: the mesh of the corner triangle
`(1,0,0), (0,1,0), (0,0,0)`, whose face normal is `(0,0,1)`.  The claim gives
each of the three vertices the unit normal `(0,0,1)`; `smooth_normals` gives the
first two `(0,0,2)` and the third the normalisation of the zero vector. -/
theorem C40_witness :
    ∃ norm, smooth_normals rational_libm corner_face_mesh = some norm ∧
      triangle_normal rational_libm corner_v0 corner_v1 corner_v2 = ⟨0, 0, 1⟩ ∧
      norm[0]? = some ⟨0, 0, 2⟩ ∧ norm[1]? = some ⟨0, 0, 2⟩ ∧
      norm[2]? = some (zero3f + normalize rational_libm zero3f) := by
  obtain ⟨norm, h, _, h0, h1, h2⟩ :=
    C40_triangle_corners_get_two_normals_or_none rational_libm corner_face_mesh ⟨0, 1, 2⟩
      corner_v0 corner_v1 corner_v2 rfl rfl rfl rfl rfl (by decide) (by decide) (by decide)
  have hv : zero3f + triangle_normal rational_libm corner_v0 corner_v1 corner_v2 +
      normalize rational_libm
        (zero3f + triangle_normal rational_libm corner_v0 corner_v1 corner_v2) =
      ⟨0, 0, 2⟩ := by
    rw [corner_triangle_normal]
    have hz : zero3f + (⟨0, 0, 1⟩ : vec3f) = ⟨0, 0, 1⟩ := by
      norm_num [zero3f, vec3f_add_eq]
    rw [hz, normalize_z_exact]
    norm_num [vec3f_add_eq]
  rw [hv] at h0 h1
  exact ⟨norm, h, corner_triangle_normal, h0, h1, h2⟩

/-! ## The Bezier curve and its halves -/

theorem bezier_point_zero (c : vec3f × vec3f × vec3f × vec3f) : bezier_point c 0 = c.1 := by
  obtain ⟨⟨a1, a2, a3⟩, ⟨b1, b2, b3⟩, ⟨c1, c2, c3⟩, ⟨d1, d2, d3⟩⟩ := c
  simp [bezier_point, bernstein, vec3f.smul, vec3f_add_eq, Nat.choose]

theorem bezier_point_one (c : vec3f × vec3f × vec3f × vec3f) : bezier_point c 1 = c.2.2.2 := by
  obtain ⟨⟨a1, a2, a3⟩, ⟨b1, b2, b3⟩, ⟨c1, c2, c3⟩, ⟨d1, d2, d3⟩⟩ := c
  simp [bezier_point, bernstein, vec3f.smul, vec3f_add_eq, Nat.choose]

/-- The first half of the curve, reparametrised. -/
theorem bezier_point_left (c : vec3f × vec3f × vec3f × vec3f) (t : ℚ) :
    bezier_point (decasteljau_left c) t = bezier_point c (t / 2) := by
  obtain ⟨⟨a1, a2, a3⟩, ⟨b1, b2, b3⟩, ⟨c1, c2, c3⟩, ⟨d1, d2, d3⟩⟩ := c
  simp only [bezier_point, decasteljau_left, bernstein, vec3f.smul, vec3f.sdiv, vec3f_add_eq,
    vec3f.mk.injEq]
  norm_num [Nat.choose]
  refine ⟨?_, ?_, ?_⟩ <;> ring

/-- The second half of the curve, reparametrised. -/
theorem bezier_point_right (c : vec3f × vec3f × vec3f × vec3f) (t : ℚ) :
    bezier_point (decasteljau_right c) t = bezier_point c ((1 + t) / 2) := by
  obtain ⟨⟨a1, a2, a3⟩, ⟨b1, b2, b3⟩, ⟨c1, c2, c3⟩, ⟨d1, d2, d3⟩⟩ := c
  simp only [bezier_point, decasteljau_right, bernstein, vec3f.smul, vec3f.sdiv, vec3f_add_eq,
    vec3f.mk.injEq]
  norm_num [Nat.choose]
  refine ⟨?_, ?_, ?_⟩ <;> ring

theorem block_index_lt (j m n k : Nat) (hj : j < m) (hk : k < n) : j * n + k < m * n := by
  have h1 : (j + 1) * n ≤ m * n := Nat.mul_le_mul_right n hj
  have h2 : (j + 1) * n = j * n + n := by ring
  omega

/-! ## Square roots that are not exact -/

theorem rounded_slab_fin (fl : ℚ → ℚ) (ray : ray3f) (bbox : range3f) (i : Nat)
    (hd : ray.d.get i ≠ 0) (a b : ℚ) :
    rounded.slab fl ray bbox i (xfloat.fin a) (xfloat.fin b) =
      (xfloat.fin (max a (rounded.slab_interval fl ray bbox i).1),
        xfloat.fin (min b (rounded.slab_interval fl ray bbox i).2)) := by
  unfold rounded.slab rounded.slab_interval
  have hdiv : xfloat.div 1 (ray.d.get i) = xfloat.fin (1 / ray.d.get i) := by
    simp [xfloat.div, hd]
  rw [hdiv]
  simp only [xfloat.round, xfloat.mul, xfloat.gt, xfloat.lt, gt_iff_lt]
  generalize fl (fl (bbox.min.get i - ray.e.get i) * fl (1 / ray.d.get i)) = tNear
  generalize fl (fl (bbox.max.get i - ray.e.get i) * fl (1 / ray.d.get i)) = tFar
  by_cases hsw : tFar < tNear
  · simp only [hsw, decide_True, if_true]
    by_cases h1 : a < tFar <;> by_cases h2 : tNear < b <;>
      simp [h1, h2, max_def, min_def, not_lt.mp, le_of_lt]
  · simp only [hsw, decide_False, if_false, Bool.false_eq_true]
    by_cases h1 : a < tNear <;> by_cases h2 : tFar < b <;>
      simp [h1, h2, max_def, min_def, not_lt.mp, le_of_lt]

/-- On the axes whose direction component is not zero the loop of
`intersect_bbox` succeeds exactly when the running interval and the computed
slab intervals of those axes have a parameter in common. -/
theorem rounded_intersect_bbox_loop_fin (fl : ℚ → ℚ) (ray : ray3f) (bbox : range3f) :
    ∀ (axes : List Nat), (∀ i ∈ axes, ray.d.get i ≠ 0) → ∀ a b : ℚ, a ≤ b ∨ axes ≠ [] →
      ((rounded.intersect_bbox_loop fl ray bbox axes (xfloat.fin a) (xfloat.fin b)).1 = true ↔
        ∃ t, a ≤ t ∧ t ≤ b ∧
          ∀ i ∈ axes, (rounded.slab_interval fl ray bbox i).1 ≤ t ∧
            t ≤ (rounded.slab_interval fl ray bbox i).2) := by
  intro axes
  induction axes with
  | nil =>
    intro _ a b hab
    rcases hab with hab | hab
    · simp only [rounded.intersect_bbox_loop, true_iff]
      exact ⟨a, le_refl _, hab, by simp⟩
    · exact absurd rfl hab
  | cons i rest ih =>
    intro hd a b _
    have hdi := hd i (List.mem_cons_self _ _)
    have hdr : ∀ j ∈ rest, ray.d.get j ≠ 0 := fun j hj => hd j (List.mem_cons_of_mem _ hj)
    simp only [rounded.intersect_bbox_loop, rounded_slab_fin fl ray bbox i hdi, xfloat.gt,
      xfloat.lt]
    by_cases hgt : min b (rounded.slab_interval fl ray bbox i).2 <
        max a (rounded.slab_interval fl ray bbox i).1
    · simp only [hgt, decide_True, if_true, Bool.false_eq_true, false_iff, not_exists]
      rintro t ⟨h1, h2, h3⟩
      have h4 := h3 i (List.mem_cons_self _ _)
      have : max a (rounded.slab_interval fl ray bbox i).1 ≤ t := max_le h1 h4.1
      have : t ≤ min b (rounded.slab_interval fl ray bbox i).2 := le_min h2 h4.2
      linarith
    · simp only [hgt, decide_False, if_false, Bool.false_eq_true]
      rw [ih hdr _ _ (Or.inl (not_lt.mp hgt))]
      constructor
      · rintro ⟨t, h1, h2, h3⟩
        refine ⟨t, (max_le_iff.mp h1).1, (le_min_iff.mp h2).1, ?_⟩
        intro j hj
        rcases List.mem_cons.mp hj with rfl | hj
        · exact ⟨(max_le_iff.mp h1).2, (le_min_iff.mp h2).2⟩
        · exact h3 j hj
      · rintro ⟨t, h1, h2, h3⟩
        have h4 := h3 i (List.mem_cons_self _ _)
        exact ⟨t, max_le h1 h4.1, le_min h2 h4.2, fun j hj => h3 j (List.mem_cons_of_mem _ hj)⟩

theorem rounded_intersect_bbox_hit_iff_common (fl : ℚ → ℚ) (ray : ray3f) (bbox : range3f)
    (hd : ray.nonzero_components) :
    rounded.intersect_bbox_hit fl ray bbox = true ↔
      ∃ t, ray.tmin ≤ t ∧ t ≤ ray.tmax ∧
        ∀ i, i < 3 → (rounded.slab_interval fl ray bbox i).1 ≤ t ∧
          t ≤ (rounded.slab_interval fl ray bbox i).2 := by
  unfold rounded.intersect_bbox_hit rounded.intersect_bbox
  rw [rounded_intersect_bbox_loop_fin fl ray bbox [0, 1, 2] (nonzero_components_get hd) _ _
    (Or.inr (by simp))]
  simp only [forall_mem_axes (fun i =>
    (rounded.slab_interval fl ray bbox i).1 ≤ _ ∧ _ ≤ (rounded.slab_interval fl ray bbox i).2)]

/-- Where the five operations of an axis are exact the body of the loop is the
one of exact arithmetic. -/
theorem rounded_slab_of_exact (fl : ℚ → ℚ) (ray : ray3f) (bbox : range3f) (i : Nat)
    (h : rounded.slab_exact fl ray bbox i) (t0 t1 : xfloat) :
    rounded.slab fl ray bbox i t0 t1 = slab ray bbox i t0 t1 := by
  obtain ⟨h1, h2, h3, h4, h5⟩ := h
  unfold rounded.slab slab
  rw [h2, h3]
  by_cases hd : ray.d.get i = 0
  · have hdiv : xfloat.div 1 (ray.d.get i) = xfloat.pinf := by simp [xfloat.div, hd]
    rw [hdiv]
    have hr : ∀ q : ℚ, (xfloat.mul q (xfloat.pinf.round fl)).round fl =
        xfloat.mul q xfloat.pinf := by
      intro q
      simp only [xfloat.round, xfloat.mul]
      split_ifs <;> rfl
    simp only [hr]
  · have hdiv : xfloat.div 1 (ray.d.get i) = xfloat.fin (1 / ray.d.get i) := by
      simp [xfloat.div, hd]
    rw [hdiv]
    simp only [xfloat.round, xfloat.mul, h1, h4, h5]

theorem rounded_loop_of_exact (fl : ℚ → ℚ) (ray : ray3f) (bbox : range3f) :
    ∀ (axes : List Nat), (∀ i ∈ axes, rounded.slab_exact fl ray bbox i) → ∀ t0 t1,
      rounded.intersect_bbox_loop fl ray bbox axes t0 t1 = intersect_bbox_loop ray bbox axes t0 t1 := by
  intro axes
  induction axes with
  | nil => intro _ t0 t1; rfl
  | cons i rest ih =>
    intro h t0 t1
    simp only [rounded.intersect_bbox_loop, intersect_bbox_loop,
      rounded_slab_of_exact fl ray bbox i (h i (List.mem_cons_self _ _))]
    rw [ih (fun j hj => h j (List.mem_cons_of_mem _ hj))]

/-- Where the operations of all three axes are exact the slab test with
rounding is the slab test of exact arithmetic, on the ray and on every copy of
it with another `tmax`. -/
theorem rounded_intersect_bbox_of_exact (fl : ℚ → ℚ) (ray : ray3f) (bbox : range3f)
    (h : ∀ i, i < 3 → rounded.slab_exact fl ray bbox i) (c : ℚ) :
    rounded.intersect_bbox_hit fl { ray with tmax := c } bbox =
      intersect_bbox_hit { ray with tmax := c } bbox := by
  unfold rounded.intersect_bbox_hit rounded.intersect_bbox intersect_bbox_hit intersect_bbox
  rw [rounded_loop_of_exact fl { ray with tmax := c } bbox [0, 1, 2]
    ((forall_mem_axes (fun i => rounded.slab_exact fl ray bbox i)).mpr h)]

/-- For a ray with non-zero direction components and a non-empty box the slab
test of exact arithmetic succeeds exactly when the ray meets the box within its
interval. -/
theorem intersect_bbox_hit_iff_meets (ray : ray3f) (bbox : range3f)
    (hd : ray.nonzero_components) (hne : bbox.nonempty) :
    intersect_bbox_hit ray bbox = true ↔
      ∃ t, ray.tmin ≤ t ∧ t ≤ ray.tmax ∧ bbox.contains (ray.eval t) := by
  have hdi : ∀ i, i < 3 → ray.d.get i ≠ 0 :=
    (forall_mem_axes (fun i => ray.d.get i ≠ 0)).mp (nonzero_components_get hd)
  have hni : ∀ i, i < 3 → bbox.min.get i ≤ bbox.max.get i := by
    intro i hi
    interval_cases i
    · exact hne.1
    · exact hne.2.1
    · exact hne.2.2
  rw [intersect_bbox_hit_iff_common ray bbox hd]
  constructor
  · rintro ⟨t, h0, h1, hall⟩
    refine ⟨t, h0, h1, (range3f.contains_iff_get _ _).mpr fun i hi => ?_⟩
    rw [vec3f_get_eval]
    exact (slab_interval_mem ray bbox i (hdi i hi) (hni i hi) t).mp (hall i hi)
  · rintro ⟨t, h0, h1, hin⟩
    refine ⟨t, h0, h1, fun i hi => ?_⟩
    have := (range3f.contains_iff_get _ _).mp hin i hi
    rw [vec3f_get_eval] at this
    exact (slab_interval_mem ray bbox i (hdi i hi) (hni i hi) t).mpr this

/-- C13 (as amended): for every ray with non-zero direction components and
every box, whatever the rounding, `intersect_bbox` returns true if and only if
some parameter `t` in `[tmin, tmax]` lies between the `tNear` and the `tFar`
that it computes on each of the three axes.  When the five operations of each
axis (the reciprocal, the two differences, the two products) are exact and the
box is not empty, these are the parameters with `ray.eval(t)` inside the box:
`intersect_bbox` returns true if and only if some `t` in `[tmin, tmax]` has
`ray.eval(t)` inside the box, and it rejects no box that contains a point of
the ray within its interval. -/
theorem C13_hit_iff_common_parameter_of_the_computed_slabs (fl : ℚ → ℚ) (ray : ray3f)
    (bbox : range3f) (hd : ray.nonzero_components) :
    (rounded.intersect_bbox_hit fl ray bbox = true ↔
      ∃ t, ray.tmin ≤ t ∧ t ≤ ray.tmax ∧
        ∀ i, i < 3 → (rounded.slab_interval fl ray bbox i).1 ≤ t ∧
          t ≤ (rounded.slab_interval fl ray bbox i).2) ∧
    ((∀ i, i < 3 → rounded.slab_exact fl ray bbox i) → bbox.nonempty →
      (rounded.intersect_bbox_hit fl ray bbox = true ↔
        ∃ t, ray.tmin ≤ t ∧ t ≤ ray.tmax ∧ bbox.contains (ray.eval t)) ∧
      (∀ t, ray.tmin ≤ t → t ≤ ray.tmax → bbox.contains (ray.eval t) →
        rounded.intersect_bbox_hit fl ray bbox ≠ false)) := by
  refine ⟨rounded_intersect_bbox_hit_iff_common fl ray bbox hd, fun hex hne => ?_⟩
  have heq := rounded_intersect_bbox_of_exact fl ray bbox hex ray.tmax
  have hray : ({ ray with tmax := ray.tmax } : ray3f) = ray := rfl
  rw [hray] at heq
  have key := intersect_bbox_hit_iff_meets ray bbox hd hne
  rw [heq]
  refine ⟨key, fun t h0 h1 hin => ?_⟩
  rw [key.mpr ⟨t, h0, h1, hin⟩]
  simp

/-- C13, witness: the ray from the origin along `(1,1,1)` and the cube from
`(1,1,1)` to `(2,2,2)`, with the rounding of binary32: every operation of the
slab test is exact, and the test succeeds. -/
theorem C13_witness :
    diagonal_ray.nonzero_components ∧
    (∀ i, i < 3 → rounded.slab_exact round32 diagonal_ray unit_cube_at_one i) ∧
    unit_cube_at_one.nonempty ∧
    rounded.intersect_bbox_hit round32 diagonal_ray unit_cube_at_one = true ∧
    (rounded.intersect_bbox_hit round32 diagonal_ray unit_cube_at_one = true ↔
      ∃ t, diagonal_ray.tmin ≤ t ∧ t ≤ diagonal_ray.tmax ∧
        unit_cube_at_one.contains (diagonal_ray.eval t)) :=
  ⟨diagonal_ray_nonzero, by decide!, by unfold range3f.nonempty; decide!, by decide!,
    ((C13_hit_iff_common_parameter_of_the_computed_slabs round32 diagonal_ray unit_cube_at_one
      diagonal_ray_nonzero).2 (by decide!) (by unfold range3f.nonempty; decide!)).1⟩

/-- C13 (counterexample): the ray from the origin along `(1,7,1)` with the
interval `[0, 1000]` and the box whose two corners are the point `(3,21,3)`,
which is `ray.eval(3)`.  In binary32 `1.f/7` is `9586981 / 2^26`, a little
above `1/7`, and its product with 21 rounds to `3 + 2^-22`, so on the axis `y`
the slab is entered after it is left on the axis `x`, and `intersect_bbox`
returns false. -/
theorem C13_counterexample :
    seven_ray.nonzero_components ∧ point_box.nonempty ∧
    seven_ray.tmin ≤ 3 ∧ (3 : ℚ) ≤ seven_ray.tmax ∧ point_box.contains (seven_ray.eval 3) ∧
    rounded.slab_interval round32 seven_ray point_box 0 = (3, 3) ∧
    rounded.slab_interval round32 seven_ray point_box 1 =
      (12582913 / 4194304, 12582913 / 4194304) ∧
    rounded.intersect_bbox_hit round32 seven_ray point_box = false := by
  refine ⟨?_, ?_, by decide!, by decide!, by decide!, by decide!, by decide!, by decide!⟩
  · unfold ray3f.nonzero_components; decide!
  · unfold range3f.nonempty; decide!

/-! ## The triangle solver with rounding -/

/-- What `intersect_triangle` returns, in terms of the denominator and the
quotients it computes. -/
theorem rounded_intersect_triangle_eq_some_iff (fl : ℚ → ℚ) (ray : ray3f) (v0 v1 v2 : vec3f)
    (t u v : ℚ) :
    rounded.intersect_triangle fl ray v0 v1 v2 = some (t, u, v) ↔
      rounded.triangle_denominator fl ray v0 v1 v2 ≠ 0 ∧
        rounded.triangle_quotients fl ray v0 v1 v2 = (t, u, v) ∧
        ray.tmin ≤ t ∧ t ≤ ray.tmax ∧ 0 ≤ u ∧ 0 ≤ v ∧ fl (u + v) ≤ 1 := by
  unfold rounded.intersect_triangle rounded.triangle_denominator rounded.triangle_quotients
  simp only
  generalize rounded.dot fl (rounded.cross fl ray.d (rounded.sub fl v1 v2))
    (rounded.sub fl v0 v2) = den
  generalize fl (rounded.dot fl (rounded.cross fl (rounded.sub fl ray.e v2)
    (rounded.sub fl v0 v2)) (rounded.sub fl v1 v2) / den) = T
  generalize fl (rounded.dot fl (rounded.cross fl ray.d (rounded.sub fl v1 v2))
    (rounded.sub fl ray.e v2) / den) = U
  generalize fl (rounded.dot fl (rounded.cross fl (rounded.sub fl ray.e v2)
    (rounded.sub fl v0 v2)) ray.d / den) = V
  by_cases hden : den = 0
  · simp [hden]
  · simp only [hden, if_false, ne_eq, not_false_eq_true, true_and, Prod.mk.injEq]
    constructor
    · intro h
      split_ifs at h with h1 h2
      simp only [Option.some.injEq, Prod.mk.injEq] at h
      obtain ⟨rfl, rfl, rfl⟩ := h
      simp only [not_or, not_lt, gt_iff_lt] at h1 h2
      exact ⟨⟨rfl, rfl, rfl⟩, h1.2, h1.1, h2.1, h2.2.1, h2.2.2⟩
    · rintro ⟨⟨rfl, rfl, rfl⟩, h3, h4, h5, h6, h7⟩
      have h1 : ¬ (T > ray.tmax ∨ T < ray.tmin) := by
        rintro (h | h) <;> linarith
      have h2 : ¬ (U < 0 ∨ V < 0 ∨ fl (U + V) > 1) := by
        rintro (h | h | h) <;> linarith
      rw [if_neg h1, if_neg h2]

/-- Where rounding changes neither the denominator, nor the quotients, nor the
sum `u+v`, the solver returns what it returns in exact arithmetic. -/
theorem rounded_intersect_triangle_of_exact (fl : ℚ → ℚ) (ray : ray3f) (v0 v1 v2 : vec3f)
    (h : rounded.triangle_exact fl ray v0 v1 v2) :
    rounded.intersect_triangle fl ray v0 v1 v2 = intersect_triangle ray v0 v1 v2 := by
  obtain ⟨hden, hq, hs⟩ := h
  cases hr : rounded.intersect_triangle fl ray v0 v1 v2 with
  | none =>
    symm
    cases he : intersect_triangle ray v0 v1 v2 with
    | none => rfl
    | some x =>
      exfalso
      obtain ⟨t, u, v⟩ := x
      have h1 := (intersect_triangle_eq_some_iff ray v0 v1 v2 t u v).mp he
      obtain ⟨e1, e2, e3⟩ := triangle_solution_unique ray v0 v1 v2 t u v h1.1 h1.2.1
      have hq2 : triangle_quotients ray v0 v1 v2 = (t, u, v) := by
        unfold triangle_quotients; rw [← e1, ← e2, ← e3]
      rw [hq2] at hq hs
      have := (rounded_intersect_triangle_eq_some_iff fl ray v0 v1 v2 t u v).mpr
        ⟨by rw [hden]; exact h1.1, hq, h1.2.2.1, h1.2.2.2.1, h1.2.2.2.2.1, h1.2.2.2.2.2.1,
          by rw [hs]; exact h1.2.2.2.2.2.2⟩
      rw [hr] at this
      cases this
  | some x =>
    obtain ⟨t, u, v⟩ := x
    have h1 := (rounded_intersect_triangle_eq_some_iff fl ray v0 v1 v2 t u v).mp hr
    rw [hden] at h1
    have hq2 : triangle_quotients ray v0 v1 v2 = (t, u, v) := by rw [← hq]; exact h1.2.1
    rw [hq2] at hs
    have hsol := triangle_solution_code ray v0 v1 v2 h1.1
    have hq3 := hq2
    unfold triangle_quotients at hq3
    simp only [Prod.mk.injEq] at hq3
    rw [hq3.1, hq3.2.1, hq3.2.2] at hsol
    symm
    exact (intersect_triangle_eq_some_iff ray v0 v1 v2 t u v).mpr
      ⟨h1.1, hsol, h1.2.2.1, h1.2.2.2.1, h1.2.2.2.2.1, h1.2.2.2.2.2.1,
        by rw [← hs]; exact h1.2.2.2.2.2.2⟩

/-- C19 (as amended): whatever the rounding, `intersect_triangle(ray, v0, v1,
v2, t, u, v)` returns true with the outputs `(t, u, v)` if and only if the
denominator it computes is not zero, `(t, u, v)` are the three quotients it
computes, and `tmin <= t <= tmax`, `u >= 0`, `v >= 0` and the rounded sum
`u + v` is at most 1.  When rounding changes neither the denominator, nor the
quotients, nor that sum, it returns true with `(t, u, v)` if and only if the
denominator `dot(cross(d, v1-v2), v0-v2)` is not zero and `(t, u, v)` solves
`e + t d = u v0 + v v1 + (1-u-v) v2` with `tmin <= t <= tmax`, `u >= 0`,
`v >= 0` and `u + v <= 1`; with a non-zero denominator that system has exactly
one solution. -/
theorem C19_triangle_hit_iff_computed_quotients_in_range (fl : ℚ → ℚ) (ray : ray3f)
    (v0 v1 v2 : vec3f) :
    (∀ t u v, rounded.intersect_triangle fl ray v0 v1 v2 = some (t, u, v) ↔
      rounded.triangle_denominator fl ray v0 v1 v2 ≠ 0 ∧
        rounded.triangle_quotients fl ray v0 v1 v2 = (t, u, v) ∧
        ray.tmin ≤ t ∧ t ≤ ray.tmax ∧ 0 ≤ u ∧ 0 ≤ v ∧ fl (u + v) ≤ 1) ∧
    (rounded.triangle_exact fl ray v0 v1 v2 →
      (∀ t u v, rounded.intersect_triangle fl ray v0 v1 v2 = some (t, u, v) ↔
        triangle_denominator ray v0 v1 v2 ≠ 0 ∧ triangle_solution ray v0 v1 v2 t u v ∧
          ray.tmin ≤ t ∧ t ≤ ray.tmax ∧ 0 ≤ u ∧ 0 ≤ v ∧ u + v ≤ 1) ∧
      ((rounded.intersect_triangle fl ray v0 v1 v2).isSome = true ↔
        triangle_denominator ray v0 v1 v2 ≠ 0 ∧
          ∃ t u v, triangle_solution ray v0 v1 v2 t u v ∧
            ray.tmin ≤ t ∧ t ≤ ray.tmax ∧ 0 ≤ u ∧ 0 ≤ v ∧ u + v ≤ 1) ∧
      (triangle_denominator ray v0 v1 v2 ≠ 0 →
        ∃ t u v, triangle_solution ray v0 v1 v2 t u v ∧
          ∀ t2 u2 v2', triangle_solution ray v0 v1 v2 t2 u2 v2' →
            t2 = t ∧ u2 = u ∧ v2' = v)) := by
  refine ⟨rounded_intersect_triangle_eq_some_iff fl ray v0 v1 v2, fun hex => ?_⟩
  rw [rounded_intersect_triangle_of_exact fl ray v0 v1 v2 hex]
  refine ⟨intersect_triangle_eq_some_iff ray v0 v1 v2, ?_, ?_⟩
  · constructor
    · intro h
      obtain ⟨⟨t, u, v⟩, htuv⟩ := Option.isSome_iff_exists.mp h
      obtain ⟨hden, hrest⟩ := (intersect_triangle_eq_some_iff ray v0 v1 v2 t u v).mp htuv
      exact ⟨hden, t, u, v, hrest⟩
    · rintro ⟨hden, t, u, v, hrest⟩
      rw [(intersect_triangle_eq_some_iff ray v0 v1 v2 t u v).mpr ⟨hden, hrest⟩]
      rfl
  · intro hden
    exact ⟨_, _, _, triangle_solution_code ray v0 v1 v2 hden,
      fun t2 u2 v2' h => triangle_solution_unique ray v0 v1 v2 t2 u2 v2' hden h⟩

/-- C19, witness: the ray straight down onto the corner triangle, in binary32:
no result is rounded, and the solver returns `(5, 1/4, 1/4)`. -/
theorem C19_witness :
    rounded.triangle_exact round32 drop_ray corner_v0 corner_v1 corner_v2 ∧
    rounded.intersect_triangle round32 drop_ray corner_v0 corner_v1 corner_v2 =
      some (5, 1 / 4, 1 / 4) :=
  ⟨by decide!,
    (((C19_triangle_hit_iff_computed_quotients_in_range round32 drop_ray corner_v0 corner_v1
      corner_v2).2 (by decide!)).1 5 (1 / 4) (1 / 4)).mpr (by
      norm_num [triangle_denominator, triangle_solution, drop_ray, corner_v0, corner_v1,
        corner_v2, dot, cross, ray3f.eval, vec3f.smul, vec3f_add_eq, vec3f_sub_eq,
        ray3f_epsilon, ray3f_rayinf])⟩

/-- C19 (counterexample): the triangle `(1,0,0)`, `(-1,0,0)`, `(0,1,0)` and
the ray with the direction `(0.1f, 0.2f, 0.1f)` that reaches the origin, the
midpoint of the first edge, at `t = 1`.  The denominator is not zero and the
solution of `e + t d = u v0 + v v1 + (1-u-v) v2` is `(1, 1/2, 1/2)`, within
all bounds.  In binary32 the solver computes `u = v = 1/2 + 2^-24`, whose
rounded sum is `1 + 2^-23`, and returns false. -/
theorem C19_counterexample :
    triangle_denominator midpoint_ray edge_v0 edge_v1 edge_v2 ≠ 0 ∧
    triangle_solution midpoint_ray edge_v0 edge_v1 edge_v2 1 (1 / 2) (1 / 2) ∧
    midpoint_ray.tmin ≤ 1 ∧ (1 : ℚ) ≤ midpoint_ray.tmax ∧ (0 : ℚ) ≤ 1 / 2 ∧
    (1 / 2 + 1 / 2 : ℚ) ≤ 1 ∧
    rounded.triangle_quotients round32 midpoint_ray edge_v0 edge_v1 edge_v2 =
      (1, 8388609 / 16777216, 8388609 / 16777216) ∧
    round32 (8388609 / 16777216 + 8388609 / 16777216) = 8388609 / 8388608 ∧
    rounded.intersect_triangle round32 midpoint_ray edge_v0 edge_v1 edge_v2 = none := by
  refine ⟨by decide!, ?_, by decide!, by decide!, by decide!, by decide!, by decide!,
    by decide!, by decide!⟩
  unfold triangle_solution
  decide!

/-! ## Subdivision of Bezier splines with rounding -/

/-- The loop over the segments of one level with rounding, after its first `m`
rounds: seven points and two segments for every segment done. -/
theorem rounded_decasteljau_segments_spec (fl : ℚ → ℚ) (pos : List vec3f)
    (splines : List vec4i) (n : Nat)
    (ctrl : Nat → vec3f × vec3f × vec3f × vec3f) (h : HasControls pos splines n ctrl) :
    ∀ m, m ≤ n → ∃ np ns,
      (splines.take m).foldl (rounded.decasteljau_segment fl pos) (some ([], [])) =
        some (np, ns) ∧
      np.length = 7 * m ∧ ns.length = 2 * m ∧
      ∀ j, j < m →
        ns[2 * j]? = some ⟨7 * j, 7 * j + 1, 7 * j + 2, 7 * j + 3⟩ ∧
        ns[2 * j + 1]? = some ⟨7 * j + 3, 7 * j + 4, 7 * j + 5, 7 * j + 6⟩ ∧
        np[7 * j]? = some (rounded.decasteljau_left fl (ctrl j)).1 ∧
        np[7 * j + 1]? = some (rounded.decasteljau_left fl (ctrl j)).2.1 ∧
        np[7 * j + 2]? = some (rounded.decasteljau_left fl (ctrl j)).2.2.1 ∧
        np[7 * j + 3]? = some (rounded.decasteljau_right fl (ctrl j)).1 ∧
        np[7 * j + 4]? = some (rounded.decasteljau_right fl (ctrl j)).2.1 ∧
        np[7 * j + 5]? = some (rounded.decasteljau_right fl (ctrl j)).2.2.1 ∧
        np[7 * j + 6]? = some (rounded.decasteljau_right fl (ctrl j)).2.2.2 := by
  intro m
  induction m with
  | zero =>
    intro _
    exact ⟨[], [], rfl, rfl, rfl, fun j hj => by omega⟩
  | succ m ih =>
    intro hm
    obtain ⟨np, ns, hfold, hnp, hns, hall⟩ := ih (by omega)
    obtain ⟨s, hs, hx, hy, hz, hw⟩ := h.2 m (by omega)
    rw [List.take_succ, List.foldl_append, hfold, hs]
    simp only [Option.toList_some, List.foldl_cons, List.foldl_nil, rounded.decasteljau_segment,
      hx, hy, hz, hw]
    refine ⟨_, _, rfl, by simp only [List.length_append, List.length_cons, List.length_nil]; omega,
      by simp only [List.length_append, List.length_cons, List.length_nil]; omega, ?_⟩
    intro j hj
    by_cases hjm : j < m
    · obtain ⟨a0, a1, b0, b1, b2, b3, b4, b5, b6⟩ := hall j hjm
      refine ⟨?_, ?_, ?_, ?_, ?_, ?_, ?_, ?_, ?_⟩
      · rw [List.getElem?_append_left (by omega)]; exact a0
      · rw [List.getElem?_append_left (by omega)]; exact a1
      · rw [List.getElem?_append_left (by omega)]; exact b0
      · rw [List.getElem?_append_left (by omega)]; exact b1
      · rw [List.getElem?_append_left (by omega)]; exact b2
      · rw [List.getElem?_append_left (by omega)]; exact b3
      · rw [List.getElem?_append_left (by omega)]; exact b4
      · rw [List.getElem?_append_left (by omega)]; exact b5
      · rw [List.getElem?_append_left (by omega)]; exact b6
    · have hjeq : j = m := by omega
      subst hjeq
      have e0 : 2 * j - ns.length = 0 := by omega
      have e1 : 2 * j + 1 - ns.length = 1 := by omega
      have p0 : 7 * j - np.length = 0 := by omega
      have p1 : 7 * j + 1 - np.length = 1 := by omega
      have p2 : 7 * j + 2 - np.length = 2 := by omega
      have p3 : 7 * j + 3 - np.length = 3 := by omega
      have p4 : 7 * j + 4 - np.length = 4 := by omega
      have p5 : 7 * j + 5 - np.length = 5 := by omega
      have p6 : 7 * j + 6 - np.length = 6 := by omega
      refine ⟨?_, ?_, ?_, ?_, ?_, ?_, ?_, ?_, ?_⟩
      · rw [List.getElem?_append_right (by omega), e0, hnp]; rfl
      · rw [List.getElem?_append_right (by omega), e1, hnp]; rfl
      · rw [List.getElem?_append_right (by omega), p0]; rfl
      · rw [List.getElem?_append_right (by omega), p1]; rfl
      · rw [List.getElem?_append_right (by omega), p2]; rfl
      · rw [List.getElem?_append_right (by omega), p3]; rfl
      · rw [List.getElem?_append_right (by omega), p4]; rfl
      · rw [List.getElem?_append_right (by omega), p5]; rfl
      · rw [List.getElem?_append_right (by omega), p6]; rfl

/-- One level of subdivision with rounding halves every segment. -/
theorem rounded_decasteljau_level_spec (fl : ℚ → ℚ) (pos : List vec3f) (splines : List vec4i)
    (n : Nat) (ctrl : Nat → vec3f × vec3f × vec3f × vec3f)
    (h : HasControls pos splines n ctrl) :
    ∃ np ns, rounded.decasteljau_level fl (some (pos, splines)) = some (np, ns) ∧
      HasControls np ns (2 * n) (rounded.split_controls fl ctrl) := by
  obtain ⟨np, ns, hfold, hnp, hns, hall⟩ := rounded_decasteljau_segments_spec fl pos splines n
    ctrl h n (le_refl _)
  have htake : splines.take n = splines := by
    rw [← h.1]
    exact List.take_length splines
  rw [htake] at hfold
  refine ⟨np, ns, hfold, hns, ?_⟩
  intro q hq
  obtain ⟨a0, a1, b0, b1, b2, b3, b4, b5, b6⟩ := hall (q / 2) (by omega)
  unfold rounded.split_controls
  by_cases hpar : q % 2 = 0
  · have hq2 : 2 * (q / 2) = q := by omega
    rw [hq2] at a0
    rw [if_pos hpar]
    refine ⟨_, a0, b0, b1, b2, ?_⟩
    exact b3
  · have hq2 : 2 * (q / 2) + 1 = q := by omega
    rw [hq2] at a1
    rw [if_neg hpar]
    exact ⟨_, a1, b3, b4, b5, b6⟩

/-- After `L` levels with rounding a mesh of `S` segments has `S * 2^L`
segments, whose control points are those of `L` rounds of halving. -/
theorem rounded_decasteljau_levels_spec (fl : ℚ → ℚ) (pos : List vec3f) (splines : List vec4i)
    (S : Nat) (ctrl : Nat → vec3f × vec3f × vec3f × vec3f)
    (h : HasControls pos splines S ctrl) :
    ∀ L, ∃ np ns,
      Nat.iterate (rounded.decasteljau_level fl) L (some (pos, splines)) = some (np, ns) ∧
      HasControls np ns (S * 2 ^ L) (Nat.iterate (rounded.split_controls fl) L ctrl) := by
  intro L
  induction L with
  | zero => exact ⟨pos, splines, rfl, by simpa using h⟩
  | succ L ih =>
    obtain ⟨np, ns, hiter, hrep⟩ := ih
    obtain ⟨np2, ns2, hlevel, hrep2⟩ := rounded_decasteljau_level_spec fl np ns (S * 2 ^ L) _
      hrep
    have hpow : S * 2 ^ (L + 1) = 2 * (S * 2 ^ L) := by
      rw [pow_succ]
      ring
    refine ⟨np2, ns2, ?_, ?_⟩
    · rw [Function.iterate_succ_apply', hiter, hlevel]
    · rw [hpow, Function.iterate_succ_apply']
      exact hrep2

/-- The parts into which `L` rounds of halving with rounding cut the segment
`j` form a chain: the first part starts at the first control point of the
segment, the last part ends at its last control point, and every part ends
where the next one starts. -/
theorem rounded_split_controls_chain (fl : ℚ → ℚ)
    (ctrl : Nat → vec3f × vec3f × vec3f × vec3f) :
    ∀ (L j : Nat),
      (Nat.iterate (rounded.split_controls fl) L ctrl (j * 2 ^ L)).1 = (ctrl j).1 ∧
      (Nat.iterate (rounded.split_controls fl) L ctrl (j * 2 ^ L + (2 ^ L - 1))).2.2.2 =
        (ctrl j).2.2.2 ∧
      ∀ k, k + 1 < 2 ^ L →
        (Nat.iterate (rounded.split_controls fl) L ctrl (j * 2 ^ L + k)).2.2.2 =
          (Nat.iterate (rounded.split_controls fl) L ctrl (j * 2 ^ L + k + 1)).1 := by
  intro L
  induction L with
  | zero =>
    intro j
    refine ⟨by simp, by simp, fun k hk => ?_⟩
    simp only [pow_zero] at hk
    omega
  | succ L ih =>
    intro j
    obtain ⟨h1, h2, h3⟩ := ih j
    have hpos : 0 < 2 ^ L := Nat.pow_pos (by norm_num)
    have hp : 2 ^ (L + 1) = 2 * 2 ^ L := by rw [pow_succ]; ring
    have hj : j * 2 ^ (L + 1) = 2 * (j * 2 ^ L) := by rw [pow_succ]; ring
    have step1 : ∀ c q, rounded.split_controls fl c q =
        if q % 2 = 0 then rounded.decasteljau_left fl (c (q / 2))
        else rounded.decasteljau_right fl (c (q / 2)) := fun _ _ => rfl
    simp only [Function.iterate_succ_apply']
    rw [hj, hp]
    generalize j * 2 ^ L = a at h1 h2 h3 ⊢
    generalize 2 ^ L = p at h1 h2 h3 hpos ⊢
    refine ⟨?_, ?_, ?_⟩
    · have e1 : (2 * a) % 2 = 0 := by omega
      have e2 : (2 * a) / 2 = a := by omega
      rw [step1, if_pos e1, e2]
      exact h1
    · have e1 : ¬ (2 * a + (2 * p - 1)) % 2 = 0 := by omega
      have e2 : (2 * a + (2 * p - 1)) / 2 = a + (p - 1) := by omega
      rw [step1, if_neg e1, e2]
      exact h2
    · intro k hk
      by_cases hpar : k % 2 = 0
      · have e1 : (2 * a + k) % 2 = 0 := by omega
        have e2 : ¬ (2 * a + k + 1) % 2 = 0 := by omega
        have e3 : (2 * a + k + 1) / 2 = (2 * a + k) / 2 := by omega
        rw [step1, step1, if_pos e1, if_neg e2, e3]
        rfl
      · have e1 : ¬ (2 * a + k) % 2 = 0 := by omega
        have e2 : (2 * a + k + 1) % 2 = 0 := by omega
        have e3 : (2 * a + k) / 2 = a + k / 2 := by omega
        have e4 : (2 * a + k + 1) / 2 = a + k / 2 + 1 := by omega
        rw [step1, step1, if_neg e1, if_pos e2, e3, e4]
        exact h3 (k / 2) (by omega)

/-- Where rounding changes none of the control points of the halves, the
control points after `l` rounds of halving are those of exact arithmetic. -/
theorem rounded_split_controls_of_exact (fl : ℚ → ℚ) (S L : Nat)
    (ctrl : Nat → vec3f × vec3f × vec3f × vec3f)
    (hex : ∀ l, l < L → ∀ q, q < S * 2 ^ l →
      rounded.halves_exact fl (Nat.iterate split_controls l ctrl q)) :
    ∀ l, l ≤ L → ∀ q, q < S * 2 ^ l →
      Nat.iterate (rounded.split_controls fl) l ctrl q = Nat.iterate split_controls l ctrl q := by
  intro l
  induction l with
  | zero => intro _ q _; rfl
  | succ l ih =>
    intro hl q hq
    have hq2 : q / 2 < S * 2 ^ l := by
      have e : S * 2 ^ (l + 1) = 2 * (S * 2 ^ l) := by rw [pow_succ]; ring
      rw [e] at hq
      omega
    have step1 : ∀ c q, rounded.split_controls fl c q =
        if q % 2 = 0 then rounded.decasteljau_left fl (c (q / 2))
        else rounded.decasteljau_right fl (c (q / 2)) := fun _ _ => rfl
    have step2 : ∀ c q, split_controls c q =
        if q % 2 = 0 then decasteljau_left (c (q / 2))
        else decasteljau_right (c (q / 2)) := fun _ _ => rfl
    simp only [Function.iterate_succ_apply']
    rw [step1, step2, ih (by omega) (q / 2) hq2]
    obtain ⟨e1, e2⟩ := hex l (by omega) (q / 2) hq2
    rw [e1, e2]

/-- In exact arithmetic the part `k` of the `2^L` parts of the segment `j` is
the part of its curve between the parameters `k / 2^L` and `(k + 1) / 2^L`. -/
theorem split_controls_curve (ctrl : Nat → vec3f × vec3f × vec3f × vec3f) :
    ∀ (L j k : Nat), k < 2 ^ L → ∀ t : ℚ,
      bezier_point (Nat.iterate split_controls L ctrl (j * 2 ^ L + k)) t =
        bezier_point (ctrl j) (((k : ℚ) + t) / 2 ^ L) := by
  intro L
  induction L with
  | zero =>
    intro j k hk t
    have hk0 : k = 0 := by
      simp only [pow_zero] at hk
      omega
    subst hk0
    simp
  | succ L ih =>
    intro j k hk t
    have hq : j * 2 ^ (L + 1) + k = 2 * (j * 2 ^ L) + k := by
      rw [pow_succ]
      ring
    have hk2 : k / 2 < 2 ^ L := by
      rw [pow_succ] at hk
      omega
    have hdiv : (2 * (j * 2 ^ L) + k) / 2 = j * 2 ^ L + k / 2 := by omega
    have hmod : (2 * (j * 2 ^ L) + k) % 2 = k % 2 := by omega
    have hp : ((2 : ℚ) ^ L) ≠ 0 := pow_ne_zero _ two_ne_zero
    have step2 : ∀ c q, split_controls c q =
        if q % 2 = 0 then decasteljau_left (c (q / 2))
        else decasteljau_right (c (q / 2)) := fun _ _ => rfl
    simp only [Function.iterate_succ_apply']
    rw [step2, hq, hdiv, hmod]
    by_cases hpar : k % 2 = 0
    · rw [if_pos hpar, bezier_point_left, ih j (k / 2) hk2]
      have hkk : (k : ℚ) = 2 * ((k / 2 : ℕ) : ℚ) := by
        have : k = 2 * (k / 2) := by omega
        exact_mod_cast this
      congr 1
      rw [hkk, pow_succ]
      field_simp
      ring
    · rw [if_neg hpar, bezier_point_right, ih j (k / 2) hk2]
      have hkk : (k : ℚ) = 2 * ((k / 2 : ℕ) : ℚ) + 1 := by
        have : k = 2 * (k / 2) + 1 := by omega
        exact_mod_cast this
      congr 1
      rw [hkk, pow_succ]
      field_simp
      ring

/-- The loop over the segments of `subdivide_bezier_uniform` with rounding,
after its first `m` rounds: `steps + 1` points and `steps` lines for every
segment done. -/
theorem rounded_uniform_segments_spec (fl : ℚ → ℚ) (pos : List vec3f) (splines : List vec4i)
    (n steps : Nat) (ctrl : Nat → vec3f × vec3f × vec3f × vec3f)
    (h : HasControls pos splines n ctrl) :
    ∀ m, m ≤ n → ∃ np ln,
      (splines.take m).foldl (rounded.uniform_segment fl pos steps) (some ([], [])) =
        some (np, ln) ∧
      np.length = m * (steps + 1) ∧ ln.length = m * steps ∧
      ∀ j, j < m →
        (∀ k, k < steps →
          ln[j * steps + k]? = some ⟨j * (steps + 1) + k, j * (steps + 1) + k + 1⟩) ∧
        (∀ i, i < steps + 1 →
          np[j * (steps + 1) + i]? = some (rounded.bezier_sample fl (ctrl j) i steps)) := by
  intro m
  induction m with
  | zero =>
    intro _
    exact ⟨[], [], rfl, by simp, by simp, fun j hj => by omega⟩
  | succ m ih =>
    intro hm
    obtain ⟨np, ln, hfold, hnp, hln, hall⟩ := ih (by omega)
    obtain ⟨s, hs, hx, hy, hz, hw⟩ := h.2 m (by omega)
    rw [List.take_succ, List.foldl_append, hfold, hs]
    simp only [Option.toList_some, List.foldl_cons, List.foldl_nil, rounded.uniform_segment, hx,
      hy, hz, hw]
    have e1 : (m + 1) * (steps + 1) = m * (steps + 1) + (steps + 1) := by ring
    have e2 : (m + 1) * steps = m * steps + steps := by ring
    refine ⟨_, _, rfl, by simp only [List.length_append, List.length_map, List.length_range, hnp,
      e1], by simp only [List.length_append, List.length_map, List.length_range, hln, e2], ?_⟩
    intro j hj
    by_cases hjm : j < m
    · obtain ⟨hl, hp⟩ := hall j hjm
      constructor
      · intro k hk
        rw [List.getElem?_append_left (by rw [hln]; exact block_index_lt j m steps k hjm hk)]
        exact hl k hk
      · intro i hi
        rw [List.getElem?_append_left (by
          rw [hnp]; exact block_index_lt j m (steps + 1) i hjm hi)]
        exact hp i hi
    · have hjeq : j = m := by omega
      subst hjeq
      constructor
      · intro k hk
        rw [List.getElem?_append_right (by omega), hln, Nat.add_sub_cancel_left,
          List.getElem?_map, List.getElem?_range hk, hnp]
        rfl
      · intro i hi
        rw [List.getElem?_append_right (by omega), hnp, Nat.add_sub_cancel_left,
          List.getElem?_map, List.getElem?_range hi]
        rfl

/-- C39 (as amended): for a spline mesh with `S` cubic Bezier segments (whose
control points are `ctrl 0`, ..., `ctrl (S-1)`) and subdivision level `L`,
whatever the rounding, `subdivide_bezier_decasteljau` and
`subdivide_bezier_uniform` both produce exactly `S * 2^L` line segments.  The
`k`-th line of the original segment `j` by de Casteljau joins the first and
the last control point of the `k`-th of the `2^L` parts into which `L` rounds
of halving cut that segment; these lines form a chain from the first control
point of the segment to its last.  The `k`-th line by uniform sampling joins
the samples `k` and `k + 1` of the `2^L` steps.  When rounding changes none of
the control points of the halves, the line by de Casteljau joins the points of
the Bezier curve of the segment at the parameters `k / 2^L` and
`(k + 1) / 2^L`, and when it changes none of the samples, so does the line by
uniform sampling.  (`bernstein` is the Bernstein polynomial; the level may
also be 0.) -/
theorem C39_decasteljau_lines_chain_the_halved_segments (fl : ℚ → ℚ) (bezier : SplineMesh)
    (S : Nat) (ctrl : Nat → vec3f × vec3f × vec3f × vec3f)
    (h : HasControls bezier.pos bezier.spline S ctrl) :
    ∃ d u, rounded.subdivide_bezier_decasteljau fl bezier = some d ∧
      rounded.subdivide_bezier_uniform fl bezier = some u ∧
      d.line.length = S * 2 ^ bezier.subdivision_bezier_level ∧
      u.line.length = S * 2 ^ bezier.subdivision_bezier_level ∧
      ∀ j k : Nat, j < S → k < 2 ^ bezier.subdivision_bezier_level →
        ∃ ld lu, d.line[j * 2 ^ bezier.subdivision_bezier_level + k]? = some ld ∧
          u.line[j * 2 ^ bezier.subdivision_bezier_level + k]? = some lu ∧
          d.pos[ld.x]? = some (Nat.iterate (rounded.split_controls fl)
            bezier.subdivision_bezier_level ctrl
            (j * 2 ^ bezier.subdivision_bezier_level + k)).1 ∧
          d.pos[ld.y]? = some (Nat.iterate (rounded.split_controls fl)
            bezier.subdivision_bezier_level ctrl
            (j * 2 ^ bezier.subdivision_bezier_level + k)).2.2.2 ∧
          (k = 0 → d.pos[ld.x]? = some (ctrl j).1) ∧
          (k + 1 = 2 ^ bezier.subdivision_bezier_level → d.pos[ld.y]? = some (ctrl j).2.2.2) ∧
          (k + 1 < 2 ^ bezier.subdivision_bezier_level →
            ∃ ld2, d.line[j * 2 ^ bezier.subdivision_bezier_level + k + 1]? = some ld2 ∧
              d.pos[ld2.x]? = d.pos[ld.y]?) ∧
          u.pos[lu.x]? = some (rounded.bezier_sample fl (ctrl j) k
            (2 ^ bezier.subdivision_bezier_level)) ∧
          u.pos[lu.y]? = some (rounded.bezier_sample fl (ctrl j) (k + 1)
            (2 ^ bezier.subdivision_bezier_level)) ∧
          ((∀ l, l < bezier.subdivision_bezier_level → ∀ q, q < S * 2 ^ l →
              rounded.halves_exact fl (Nat.iterate split_controls l ctrl q)) →
            d.pos[ld.x]? = some (bezier_point (ctrl j)
              ((k : ℚ) / 2 ^ bezier.subdivision_bezier_level)) ∧
            d.pos[ld.y]? = some (bezier_point (ctrl j)
              (((k : ℚ) + 1) / 2 ^ bezier.subdivision_bezier_level))) ∧
          ((∀ i, i < 2 ^ bezier.subdivision_bezier_level + 1 →
              rounded.bezier_sample fl (ctrl j) i (2 ^ bezier.subdivision_bezier_level) =
                bezier_point (ctrl j) ((i : ℚ) / 2 ^ bezier.subdivision_bezier_level)) →
            u.pos[lu.x]? = some (bezier_point (ctrl j)
              ((k : ℚ) / 2 ^ bezier.subdivision_bezier_level)) ∧
            u.pos[lu.y]? = some (bezier_point (ctrl j)
              (((k : ℚ) + 1) / 2 ^ bezier.subdivision_bezier_level))) := by
  obtain ⟨np, ns, hiter, hrep⟩ := rounded_decasteljau_levels_spec fl bezier.pos bezier.spline S
    ctrl h bezier.subdivision_bezier_level
  obtain ⟨up, ul, hfold, _, hul, hall⟩ := rounded_uniform_segments_spec fl bezier.pos
    bezier.spline S (2 ^ bezier.subdivision_bezier_level) ctrl h S (le_refl _)
  have htake : bezier.spline.take S = bezier.spline := by
    rw [← h.1]
    exact List.take_length _
  rw [htake] at hfold
  refine ⟨⟨np, [], ns.map (fun spline => ⟨spline.x, spline.w⟩), 0⟩, ⟨up, [], ul, 0⟩, ?_, ?_,
    ?_, hul, ?_⟩
  · unfold rounded.subdivide_bezier_decasteljau
    rw [hiter]
    rfl
  · unfold rounded.subdivide_bezier_uniform
    simp only [hfold]
    rfl
  · simp only [List.length_map]
    exact hrep.1
  · intro j k hj hk
    generalize hL : bezier.subdivision_bezier_level = L at *
    have hlt := block_index_lt j S (2 ^ L) k hj hk
    obtain ⟨s, hs, hx, _, _, hw⟩ := hrep.2 (j * 2 ^ L + k) hlt
    obtain ⟨hl, hp⟩ := hall j hj
    obtain ⟨c1, c2, c3⟩ := rounded_split_controls_chain fl ctrl L j
    have hdx : np[s.x]? = some (Nat.iterate (rounded.split_controls fl) L ctrl
        (j * 2 ^ L + k)).1 := hx
    have hdy : np[s.w]? = some (Nat.iterate (rounded.split_controls fl) L ctrl
        (j * 2 ^ L + k)).2.2.2 := hw
    have hux : up[j * (2 ^ L + 1) + k]? = some (rounded.bezier_sample fl (ctrl j) k (2 ^ L)) :=
      hp k (by omega)
    have huy : up[j * (2 ^ L + 1) + k + 1]? =
        some (rounded.bezier_sample fl (ctrl j) (k + 1) (2 ^ L)) := by
      rw [Nat.add_assoc]
      exact hp (k + 1) (by omega)
    refine ⟨⟨s.x, s.w⟩, ⟨j * (2 ^ L + 1) + k, j * (2 ^ L + 1) + k + 1⟩, ?_, hl k hk, hdx, hdy,
      ?_, ?_, ?_, hux, huy, ?_, ?_⟩
    · simp only [List.getElem?_map, hs, Option.map_some']
    · intro hk0
      subst hk0
      show np[s.x]? = _
      rw [hdx, Nat.add_zero, c1]
    · intro hk1
      have hk2 : k = 2 ^ L - 1 := by omega
      subst hk2
      show np[s.w]? = _
      rw [hdy, c2]
    · intro hk1
      obtain ⟨s2, hs2, hx2, _, _, _⟩ := hrep.2 (j * 2 ^ L + k + 1) (by
        have := block_index_lt j S (2 ^ L) (k + 1) hj hk1
        omega)
      refine ⟨⟨s2.x, s2.w⟩, ?_, ?_⟩
      · simp only [List.getElem?_map, hs2, Option.map_some']
      · show np[s2.x]? = np[s.w]?
        rw [hx2, hdy, c3 k hk1]
    · intro hex
      have heq := rounded_split_controls_of_exact fl S L ctrl hex L (le_refl _) (j * 2 ^ L + k)
        hlt
      constructor
      · show np[s.x]? = _
        rw [hdx, heq, ← bezier_point_zero (Nat.iterate split_controls L ctrl (j * 2 ^ L + k)),
          split_controls_curve ctrl L j k hk 0, add_zero]
      · show np[s.w]? = _
        rw [hdy, heq, ← bezier_point_one (Nat.iterate split_controls L ctrl (j * 2 ^ L + k)),
          split_controls_curve ctrl L j k hk 1]
    · intro hex
      constructor
      · show up[j * (2 ^ L + 1) + k]? = _
        rw [hux, hex k (by omega)]
      · show up[j * (2 ^ L + 1) + k + 1]? = _
        rw [huy, hex (k + 1) (by omega)]
        push_cast
        rfl

theorem arch_mesh_controls :
    HasControls arch_mesh.pos arch_mesh.spline 1
      (fun _ => (⟨0, 0, 0⟩, ⟨0, 1, 0⟩, ⟨1, 1, 0⟩, ⟨1, 0, 0⟩)) :=
  ⟨rfl, fun j hj => by
    have hj0 : j = 0 := by omega
    subst hj0
    exact ⟨⟨0, 1, 2, 3⟩, rfl, rfl, rfl, rfl, rfl⟩⟩

/-- C39, witness: one segment with the control points `(0,0,0)`, `(0,1,0)`,
`(1,1,0)` and `(1,0,0)`, subdivided once in binary32: no point is rounded, and
the two lines of both functions join the points of the curve at 0, 1/2
and 1. -/
theorem C39_witness :
    (∀ l, l < 1 → ∀ q, q < 1 * 2 ^ l → rounded.halves_exact round32
      (Nat.iterate split_controls l
        (fun _ => ((⟨0, 0, 0⟩ : vec3f), (⟨0, 1, 0⟩ : vec3f), (⟨1, 1, 0⟩ : vec3f),
          (⟨1, 0, 0⟩ : vec3f))) q)) ∧
    (∀ i, i < 2 ^ 1 + 1 →
      rounded.bezier_sample round32 (⟨0, 0, 0⟩, ⟨0, 1, 0⟩, ⟨1, 1, 0⟩, ⟨1, 0, 0⟩) i (2 ^ 1) =
        bezier_point (⟨0, 0, 0⟩, ⟨0, 1, 0⟩, ⟨1, 1, 0⟩, ⟨1, 0, 0⟩) ((i : ℚ) / 2 ^ 1)) ∧
    ∃ d u, rounded.subdivide_bezier_decasteljau round32 arch_mesh = some d ∧
      rounded.subdivide_bezier_uniform round32 arch_mesh = some u ∧
      d.line.length = 2 ∧ u.line.length = 2 ∧
      ∀ k : Nat, k < 2 →
        ∃ ld lu, d.line[k]? = some ld ∧ u.line[k]? = some lu ∧
          d.pos[ld.x]? = some (bezier_point (⟨0, 0, 0⟩, ⟨0, 1, 0⟩, ⟨1, 1, 0⟩, ⟨1, 0, 0⟩)
            ((k : ℚ) / 2)) ∧
          d.pos[ld.y]? = some (bezier_point (⟨0, 0, 0⟩, ⟨0, 1, 0⟩, ⟨1, 1, 0⟩, ⟨1, 0, 0⟩)
            (((k : ℚ) + 1) / 2)) ∧
          u.pos[lu.x]? = some (bezier_point (⟨0, 0, 0⟩, ⟨0, 1, 0⟩, ⟨1, 1, 0⟩, ⟨1, 0, 0⟩)
            ((k : ℚ) / 2)) ∧
          u.pos[lu.y]? = some (bezier_point (⟨0, 0, 0⟩, ⟨0, 1, 0⟩, ⟨1, 1, 0⟩, ⟨1, 0, 0⟩)
            (((k : ℚ) + 1) / 2)) := by
  have hd : ∀ l, l < 1 → ∀ q, q < 1 * 2 ^ l → rounded.halves_exact round32
      (Nat.iterate split_controls l
        (fun _ => ((⟨0, 0, 0⟩ : vec3f), (⟨0, 1, 0⟩ : vec3f), (⟨1, 1, 0⟩ : vec3f),
          (⟨1, 0, 0⟩ : vec3f))) q) := by decide!
  have hu : ∀ i, i < 2 ^ 1 + 1 →
      rounded.bezier_sample round32 (⟨0, 0, 0⟩, ⟨0, 1, 0⟩, ⟨1, 1, 0⟩, ⟨1, 0, 0⟩) i (2 ^ 1) =
        bezier_point (⟨0, 0, 0⟩, ⟨0, 1, 0⟩, ⟨1, 1, 0⟩, ⟨1, 0, 0⟩) ((i : ℚ) / 2 ^ 1) := by
    decide!
  refine ⟨hd, hu, ?_⟩
  obtain ⟨d, u, h1, h2, h3, h4, h5⟩ :=
    C39_decasteljau_lines_chain_the_halved_segments round32 arch_mesh 1
      (fun _ => (⟨0, 0, 0⟩, ⟨0, 1, 0⟩, ⟨1, 1, 0⟩, ⟨1, 0, 0⟩)) arch_mesh_controls
  refine ⟨d, u, h1, h2, h3, h4, fun k hk => ?_⟩
  obtain ⟨ld, lu, a1, a2, _, _, _, _, _, _, _, a3, a4⟩ := h5 0 k (by omega) hk
  have e : 0 * 2 ^ arch_mesh.subdivision_bezier_level + k = k := by omega
  rw [e] at a1 a2
  exact ⟨ld, lu, a1, a2, (a3 hd).1, (a3 hd).2, (a4 hu).1, (a4 hu).2⟩

/-- C39 (counterexample): one segment along the x axis with the control values
`0.1f`, `0.2f`, `0.3f` and `0.7f`, subdivided once in binary32.  Both functions
produce two lines that meet in their second point.  By de Casteljau this point
has `x = 9646899 / 2^25` (0.28749999), by uniform sampling
`x = 2411725 / 2^23` (0.28750002), and the point of the Bezier curve at `1/2`
has `x = 308700779 / 2^30`: the three differ. -/
theorem C39_counterexample :
    HasControls decimal_mesh.pos decimal_mesh.spline 1
      (fun _ => (⟨13421773 / 134217728, 0, 0⟩, ⟨13421773 / 67108864, 0, 0⟩,
        ⟨5033165 / 16777216, 0, 0⟩, ⟨11744051 / 16777216, 0, 0⟩)) ∧
    (rounded.subdivide_bezier_decasteljau round32 decimal_mesh).map
        (fun d => (d.line, d.pos[3]?)) =
      some ([⟨0, 3⟩, ⟨3, 6⟩], some ⟨9646899 / 33554432, 0, 0⟩) ∧
    (rounded.subdivide_bezier_uniform round32 decimal_mesh).map
        (fun u => (u.line, u.pos[1]?)) =
      some ([⟨0, 1⟩, ⟨1, 2⟩], some ⟨2411725 / 8388608, 0, 0⟩) ∧
    bezier_point (⟨13421773 / 134217728, 0, 0⟩, ⟨13421773 / 67108864, 0, 0⟩,
        ⟨5033165 / 16777216, 0, 0⟩, ⟨11744051 / 16777216, 0, 0⟩) (1 / 2) =
      ⟨308700779 / 1073741824, 0, 0⟩ ∧
    (9646899 / 33554432 : ℚ) ≠ 308700779 / 1073741824 ∧
    (9646899 / 33554432 : ℚ) ≠ 2411725 / 8388608 := by
  refine ⟨⟨rfl, fun j hj => ?_⟩, by decide!, by decide!, by decide!, by decide!, by decide!⟩
  have hj0 : j = 0 := by omega
  subst hj0
  exact ⟨⟨0, 1, 2, 3⟩, rfl, rfl, rfl, rfl, rfl⟩

/-! ## The builder with rounding -/

end CG
